import Mathlib

/-!
# dt-game: round lifecycle, bet placement and settlement

A shallow embedding of the transactional core of the Dragon-Tiger server
(`internal/state`, `internal/service`, `internal/model`), of the answers of
its bet endpoint (`internal/controller/api`, `internal/common/response`), of
its outbox dispatcher (`internal/worker`) and of the Luhn helper
(`common/helper`), together with the properties of its specification.

Conventions of the embedding:

* SQL tables are lists of rows; a transaction works on a copy of the tables
  that replaces the stored tables at `Commit` and is dropped at `Rollback`.
* Redis is an optional key-value state (`none` when `infrds.Client()` is nil).
* The clock, the generated identifiers and the failures of SQL / Redis calls
  are read from an environment record, one per service call.
* Money is a decimal (`Dec`), and the columns of the tables hold decimals.
  The Go code passes amounts through `float64` between `shopspring/decimal`
  and the `DECIMAL(18,2)` columns.  Balances and sums of payouts have no
  bound, and their passage is modelled (`Float64`, `Dec.InexactFloat64`,
  `NewFromFloat`, `Float64.add`, `Float64.toColumn`): a balance is read as the
  nearest float64, brought back by `decimal.NewFromFloat`, and written as a
  float64 that the column rounds to two digits.  Stakes, odds and payouts are
  two-digit amounts of at most `9000000.00`, which pass through float64
  without a change (`toColumn_exact`); the embedding writes their passage as
  the identity.
* Row fields that no code path reads back (`created_at`, `updated_at`) are
  left out.
* The message bus and the random source are oracles: the outcome of each
  `Publish` and of each `rand.Int` is read from the environment.
-/

namespace DtGame

/-! ## Errors -/

/-- Go `error` values: plain messages (`errors.New`, `fmt.Errorf` without `%w`),
MySQL driver errors with their number, and `%w` wrappers. -/
inductive Err where
  | msg (text : String)
  | mysql (number : Nat) (text : String)
  | wrap (pfx : String) (inner : Err)
deriving DecidableEq, Repr

/-- The text of `err.Error()`. -/
def Err.Error : Err → String
  | .msg t => t
  | .mysql n t => "Error " ++ toString n ++ ": " ++ t
  | .wrap p e => p ++ e.Error

deriving instance DecidableEq for Except

/-- The `sql.ErrNoRows` sentinel. -/
def ErrNoRows : Err := .msg "sql: no rows in result set"

/-- A MySQL duplicate-entry error (number 1062). -/
def ErrDuplicateEntry : Err := .mysql 1062 "Duplicate entry"

/-- The error of an SQL call that fails for a reason other than its data. -/
def ErrBadConn : Err := .msg "driver: bad connection"

/-! ## Decimals (`github.com/shopspring/decimal`) -/

/-- A decimal number `value * 10 ^ (-scale)`; `scale` is the number of
fractional digits (the library keeps the exponent `-scale`). -/
structure Dec where
  value : Int
  scale : Nat
deriving DecidableEq, Repr

namespace Dec

/-- The coefficient of `d` written with `s` fractional digits, `s ≥ d.scale`. -/
def coef (d : Dec) (s : Nat) : Int := d.value * 10 ^ (s - d.scale)

/-- The rational number a decimal stands for. -/
def toRat (d : Dec) : ℚ := (d.value : ℚ) / (10 : ℚ) ^ d.scale

/-- The result of `decimal.Zero`. -/
def Zero : Dec := ⟨0, 0⟩

/-- The result of `decimal.NewFromInt`. -/
def NewFromInt (n : Int) : Dec := ⟨n, 0⟩

/-- The result of `d.Cmp(d2)`: `-1`, `0` or `1`. -/
def Cmp (a b : Dec) : Int :=
  let s := max a.scale b.scale
  if a.coef s < b.coef s then -1 else if a.coef s = b.coef s then 0 else 1

/-- The result of `d.LessThan(d2)`. -/
def LessThan (a b : Dec) : Bool := decide (a.Cmp b = -1)

/-- The result of `d.LessThanOrEqual(d2)`. -/
def LessThanOrEqual (a b : Dec) : Bool := decide (a.Cmp b = -1 ∨ a.Cmp b = 0)

/-- The result of `d.GreaterThan(d2)`. -/
def GreaterThan (a b : Dec) : Bool := decide (a.Cmp b = 1)

/-- The result of `d.Equal(d2)`. -/
def Equal (a b : Dec) : Bool := decide (a.Cmp b = 0)

/-- The result of `d.Add(d2)`. -/
def Add (a b : Dec) : Dec :=
  let s := max a.scale b.scale
  ⟨a.coef s + b.coef s, s⟩

/-- The result of `d.Sub(d2)`. -/
def Sub (a b : Dec) : Dec :=
  let s := max a.scale b.scale
  ⟨a.coef s - b.coef s, s⟩

/-- The result of `d.Mul(d2)`. -/
def Mul (a b : Dec) : Dec := ⟨a.value * b.value, a.scale + b.scale⟩

/-- Integer quotient truncated toward zero (`big.Int.Quo`). -/
def quoT (a b : Int) : Int :=
  if 0 ≤ a then a / b else -((-a) / b)

/-- The library's `rescale` to `s` fractional digits: exact when digits are
added, truncating toward zero when digits are dropped. -/
def rescale (d : Dec) (s : Nat) : Int :=
  if d.scale ≤ s then d.value * 10 ^ (s - d.scale)
  else quoT d.value (10 ^ (d.scale - s))

/-- The result of `d.Round(places)`: rounds to `places` fractional digits,
halves away from zero.  The library returns `d` itself when it already has
exactly `places` digits; otherwise it rescales to `places + 1` digits, adds
`5` with the sign of the number, and divides by ten (floor for positive, ceil
for negative values). -/
def Round (d : Dec) (places : Nat) : Dec :=
  if d.scale = places then d
  else
    let v := d.rescale (places + 1)
    let v5 := if v < 0 then v - 5 else v + 5
    let q := v5 / 10
    let m := v5 % 10
    ⟨if v5 < 0 ∧ m ≠ 0 then q + 1 else q, places⟩

/-- The result of `d.RoundBank(places)`: rounds to `places` fractional
digits, halves to the even neighbour. -/
def RoundBank (d : Dec) (places : Nat) : Dec :=
  if d.scale ≤ places then ⟨d.coef places, places⟩
  else
    let p := 10 ^ (d.scale - places)
    let q := d.value / p
    let r := d.value % p
    ⟨if 2 * r < p then q else if 2 * r > p then q + 1
      else if q % 2 = 0 then q else q + 1, places⟩

end Dec

/-! ## `float64` -/

/-- A finite `float64`: the number `mant * 2 ^ exp`.  A number other than zero
is kept with `2 ^ 52 ≤ |mant| < 2 ^ 53`.  Subnormal numbers, infinities and
NaN are not modelled: the amounts of the service are zero or lie between
`2 ^ (-1022)` and `2 ^ 1024`. -/
structure Float64 where
  mant : Int
  exp : Int
deriving DecidableEq, Repr

namespace Float64

/-- The rational number a float64 stands for. -/
def toRat (f : Float64) : ℚ := (f.mant : ℚ) * (2 : ℚ) ^ f.exp

/-- The quotient `n / d` rounded to the nearest natural number, a half to the
even neighbour. -/
def divRoundEven (n d : Nat) : Nat :=
  let q := n / d
  let r := n % d
  if 2 * r < d then q else if d < 2 * r then q + 1 else if q % 2 = 0 then q else q + 1

/-- The number of binary digits of `n`, for `n ≤ fuel`. -/
def bitLen : Nat → Nat → Nat
  | 0, _ => 0
  | fuel + 1, n => if n = 0 then 0 else bitLen fuel (n / 2) + 1

/-- The float64 nearest to `n / d` for `n, d > 0`, a half to the even
mantissa: the exponent `e` with `2 ^ 52 ≤ n / (d * 2 ^ e) < 2 ^ 53`, found from
the bit lengths of `n` and `d`, and that quotient rounded; a mantissa rounded
up to `2 ^ 53` is written `2 ^ 52` with the next exponent. -/
def nearest (n d : Nat) : Nat × Int :=
  if n = 0 then (0, 0)
  else
    let e0 : Int := (bitLen n n : Int) - (bitLen d d : Int) - 53
    let e := if n * 2 ^ (-e0).toNat < d * 2 ^ e0.toNat * 2 ^ 53 then e0 else e0 + 1
    let m := divRoundEven (n * 2 ^ (-e).toNat) (d * 2 ^ e.toNat)
    if m = 2 ^ 53 then (2 ^ 52, e + 1) else (m, e)

/-- The float64 nearest to the quotient `v / d` of an integer and a natural
number `d > 0` (`strconv.ParseFloat`, `big.Rat.Float64`): round to nearest, a
half to the even mantissa.  The quotient is taken in lowest terms. -/
def ofRatio (v : Int) (d : Nat) : Float64 :=
  let g := Nat.gcd v.natAbs d
  let r := nearest (v.natAbs / g) (d / g)
  ⟨if v < 0 then -(r.1 : Int) else r.1, r.2⟩

/-- The sum `a + b` of two float64: the exact sum, rounded. -/
def add (a b : Float64) : Float64 :=
  let e := min a.exp b.exp
  let m := a.mant * 2 ^ (a.exp - e).toNat + b.mant * 2 ^ (b.exp - e).toNat
  ofRatio (m * 2 ^ e.toNat) (2 ^ (-e).toNat)

end Float64

/-- The result of `d.InexactFloat64()`: the float64 nearest to the decimal. -/
def Dec.InexactFloat64 (d : Dec) : Float64 := Float64.ofRatio d.value (10 ^ d.scale)

/-- The decimal `k * 10 ^ p`. -/
def Dec.onGrid (k : Int) (p : Int) : Dec :=
  if 0 ≤ p then ⟨k * 10 ^ p.toNat, 0⟩ else ⟨k, (-p).toNat⟩

/-- The digits of `decimal.NewFromFloat` (`roundShortest`) for a float64 other
than zero: the multiples of `10 ^ p` next to the float64 below and above, on
the coarsest grid `10 ^ p` on which one of the two reads back as the float64;
the nearer one when both do, a half to the even digit.  The grids are walked
from `p` down; on the grid of the exponent of the float64 the number itself is
a multiple, which ends the walk before `fuel` does. -/
def shortestFrom (f : Float64) : Nat → Int → Dec
  | 0, _ =>
    if 0 ≤ f.exp then ⟨f.mant * 2 ^ f.exp.toNat, 0⟩
    else ⟨f.mant * 5 ^ (-f.exp).toNat, (-f.exp).toNat⟩
  | fuel + 1, p =>
    let num := f.mant.natAbs * 2 ^ f.exp.toNat * 10 ^ (-p).toNat
    let den := 2 ^ (-f.exp).toNat * 10 ^ p.toNat
    let k := num / den
    let r := num % den
    let sgn : Int := if f.mant < 0 then -1 else 1
    let down := Dec.onGrid (sgn * k) p
    let up := Dec.onGrid (sgn * (if r = 0 then k else k + 1)) p
    if down.InexactFloat64 = f ∧ up.InexactFloat64 = f then
      if 2 * r < den then down else if den < 2 * r then up
      else if k % 2 = 0 then down else up
    else if down.InexactFloat64 = f then down
    else if up.InexactFloat64 = f then up
    else shortestFrom f fuel (p - 1)

/-- The result of `decimal.NewFromFloat`: the decimal with the fewest digits
that reads back as the float64.  The walk starts on the grid `10 ^ p` of the
number of digits `p` of the integer part, which is above the number. -/
def NewFromFloat (f : Float64) : Dec :=
  if f.mant = 0 then ⟨0, 0⟩
  else
    let p := (Nat.toDigits 10 (f.mant.natAbs * 2 ^ f.exp.toNat / 2 ^ (-f.exp).toNat)).length
    shortestFrom f (p + 1100) p

/-- The float64 that `database/sql` scans from a `DECIMAL(18,2)` column into
a `float64` field (`strconv.ParseFloat` of the text of the column). -/
def scanFloat64 (column : Dec) : Float64 := column.InexactFloat64

/-- The value a `DECIMAL(18,2)` column takes from a float64 parameter: MySQL
reads the shortest decimal text of the float64 and rounds it to the two
fractional digits of the column. -/
def Float64.toColumn (f : Float64) : Dec := (NewFromFloat f).Round 2

/-! ## `internal/state` -/

def StateInit : String := "init"
def StateBetting : String := "betting"
def StateSealed : String := "sealed"
def StateDealt : String := "dealt"
def StateDrawn : String := "drawn"
def StateSettled : String := "settled"
def StateFinished : String := "finished"

def EvtGameStart : String := "game_start"
def EvtGameStop : String := "game_stop"
def EvtNewCard : String := "new_card"
def EvtGameDraw : String := "game_draw"
def EvtGameEnd : String := "game_end"

/-- The error of `NextState` on a pair that is not in the table. -/
def invalidTransition (cur evt : String) : Err :=
  .msg ("invalid transition: " ++ cur ++ " --" ++ evt ++ "--> ?")

/-- `state.NextState`: the returned state and the returned error
(`none` is Go's `nil`). -/
def NextState (cur evt : String) : String × Option Err :=
  if cur = StateInit then
    if evt = EvtGameStart then (StateBetting, none)
    else (cur, some (invalidTransition cur evt))
  else if cur = StateBetting then
    if evt = EvtGameStop then (StateSealed, none)
    else (cur, some (invalidTransition cur evt))
  else if cur = StateSealed then
    if evt = EvtNewCard then (StateDealt, none)
    else (cur, some (invalidTransition cur evt))
  else if cur = StateDealt then
    if evt = EvtGameDraw then (StateDrawn, none)
    else (cur, some (invalidTransition cur evt))
  else if cur = StateDrawn then
    if evt = EvtGameEnd then (StateFinished, none)
    else (cur, some (invalidTransition cur evt))
  else if cur = StateSettled then
    if evt = EvtGameEnd then (StateFinished, none)
    else (cur, some (invalidTransition cur evt))
  else (cur, some (invalidTransition cur evt))

/-- The transition table of the specification. -/
def transitionTable : List (String × String × String) :=
  [ ("init", "game_start", "betting"),
    ("betting", "game_stop", "sealed"),
    ("sealed", "new_card", "dealt"),
    ("dealt", "game_draw", "drawn"),
    ("drawn", "game_end", "finished"),
    ("settled", "game_end", "finished") ]

/-! ## Strings (`strings`, `strconv`) -/

/-- The white space of `unicode.IsSpace`. -/
def isSpace (c : Char) : Bool :=
  let n := c.toNat
  (9 ≤ n && n ≤ 13) || n = 32 || n = 0x85 || n = 0xA0 || n = 0x1680 ||
    (0x2000 ≤ n && n ≤ 0x200A) || n = 0x2028 || n = 0x2029 || n = 0x202F ||
    n = 0x205F || n = 0x3000

/-- The result of `strings.TrimSpace`, on the list of characters. -/
def TrimSpace (cs : List Char) : List Char :=
  ((cs.dropWhile isSpace).reverse.dropWhile isSpace).reverse

/-- The lower-case mapping of `unicode.ToLower` on the characters whose image
is an ASCII letter: the ASCII capitals, `U+0130` and the Kelvin sign.  Every
other character keeps a non-ASCII image and is left as it is. -/
def toLowerChar (c : Char) : Char :=
  if c.toNat = 0x130 then 'i'
  else if c.toNat = 0x212A then 'k'
  else c.toLower

/-- The result of `strings.ToLower`, on the list of characters. -/
def ToLower (cs : List Char) : List Char := cs.map toLowerChar

/-- The pieces of `strings.Split(s, ",")`. -/
def splitComma : List Char → List (List Char)
  | [] => [[]]
  | c :: cs =>
    match splitComma cs with
    | [] => [[]]
    | p :: ps => if c = ',' then [] :: p :: ps else (c :: p) :: ps

/-- A non-empty run of decimal digits, read as a number. -/
def parseDigits (cs : List Char) : Option Nat :=
  if cs.isEmpty then none
  else cs.foldlM (fun acc c => if c.isDigit then some (acc * 10 + (c.toNat - 48)) else none) 0

/-- An optional sign followed by a non-empty run of decimal digits
(the base-10 grammar of `strconv.ParseInt` and of `big.Int.SetString`). -/
def parseSigned (cs : List Char) : Option Int :=
  match cs with
  | '+' :: r => (parseDigits r).map Int.ofNat
  | '-' :: r => (parseDigits r).map (fun n => -(Int.ofNat n))
  | _ => (parseDigits cs).map Int.ofNat

/-- The result of `strconv.ParseInt(s, 10, bits)`: out of range is an error. -/
def ParseInt (cs : List Char) (bits : Nat) : Option Int :=
  match parseSigned cs with
  | some n => if -(2 ^ (bits - 1)) ≤ n ∧ n < 2 ^ (bits - 1) then some n else none
  | none => none

/-- The result of `strconv.Atoi`. -/
def Atoi (cs : List Char) : Option Int := ParseInt cs 64

/-- The characters before the first `e` or `E`, and the ones after it. -/
def splitExponent : List Char → List Char × Option (List Char)
  | [] => ([], none)
  | c :: cs =>
    if c = 'e' ∨ c = 'E' then ([], some cs)
    else ((splitExponent cs).1.cons c, (splitExponent cs).2)

/-- The result of `decimal.NewFromString`: an optional exponent part after
`e`/`E` (a 32-bit integer), at most one decimal point, and an integer once the
point is taken out.  `none` is the library's error. -/
def NewFromString (cs : List Char) : Option Dec :=
  let parts := splitExponent cs
  let expPart : Option Int :=
    match parts.2 with
    | none => some 0
    | some e => ParseInt e 32
  match expPart with
  | none => none
  | some e =>
    let value := parts.1
    if value.count '.' > 1 then none
    else
      let intPart := value.takeWhile (fun c => c ≠ '.')
      let fracPart := (value.dropWhile (fun c => c ≠ '.')).drop 1
      match parseSigned (intPart ++ fracPart) with
      | none => none
      | some n =>
        let exp : Int := e - fracPart.length
        if exp < -(2 ^ 31) ∨ exp > 2 ^ 31 - 1 then none
        else if exp ≤ 0 then some ⟨n, (-exp).toNat⟩
        else some ⟨n * 10 ^ exp.toNat, 0⟩

/-! ## Tables (`internal/model`) -/

/-- A row of `customers`. -/
structure Customers where
  ID : Int
  PlatformID : Int
  PlatformUserID : String
  Username : String
  Balance : Dec
  Status : Int
deriving DecidableEq, Repr

/-- A row of `game_round_info`. -/
structure GameRoundInfo where
  GameRoundID : String
  GameID : String
  RoomID : String
  BetStartTime : Int
  BetStopTime : Int
  GameDrawTime : Int
  CardList : String
  GameResult : Int
  GameResultStr : String
  GameStatus : Int
  IsSettled : Int
  TraceID : String
deriving DecidableEq, Repr

/-- The Go struct `model.Order`; `PlayType` is the string form. -/
structure Order where
  BillNo : String
  RoomID : String
  GameRoundID : String
  GameID : String
  UserID : Int
  PlatformID : Int
  PlatformUserID : String
  UserName : String
  BetAmount : Dec
  PlayType : String
  BetStatus : Int
  BetTime : Int
  BillStatus : Int
  GameResult : Int
  WinAmount : Dec
  BetOdds : Dec
  Currency : String
  IdempotencyKey : String
  TraceID : String
deriving DecidableEq, Repr

/-- A row of `orders`; `play_type` is stored as its numeric code. -/
structure OrderRow where
  BillNo : String
  RoomID : String
  GameRoundID : String
  GameID : String
  UserID : Int
  PlatformID : Int
  PlatformUserID : String
  UserName : String
  BetAmount : Dec
  PlayType : Int
  BetStatus : Int
  BetTime : Int
  BillStatus : Int
  GameResult : Int
  WinAmount : Dec
  BetOdds : Dec
  Currency : String
  IdempotencyKey : String
  TraceID : String
deriving DecidableEq, Repr

/-- A row of `wallet_ledger`. -/
structure WalletLedger where
  UserID : Int
  BizType : Int
  BizTypeStr : String
  Amount : Dec
  BeforeAmount : Dec
  AfterAmount : Dec
  Currency : String
  BillNo : String
  GameRoundID : String
  GameID : String
  RoomID : String
  Remark : String
  TraceID : String
deriving DecidableEq, Repr

set_option linter.dupNamespace false in
/-- A row of `idempotency_keys`. -/
structure IdempotencyKey where
  IdempotencyKey : String
  Purpose : String
  Ref : String
deriving DecidableEq, Repr

/-- A value inside an outbox or cache payload. -/
inductive JVal where
  | str (s : String)
  | num (n : Int)
  | dec (d : Dec)
deriving DecidableEq, Repr

/-- A row of `outbox`; the payload is the JSON object, field by field. -/
structure Outbox where
  ID : Int
  Topic : String
  BizKey : String
  Payload : List (String × JVal)
  Status : Int
  RetryCount : Int
  LastError : String
deriving DecidableEq, Repr

/-- A row of `settlement_log`. -/
structure SettlementLog where
  GameRoundID : String
  CardList : String
  Result : String
  TotalOrders : Int
  TotalPayout : Dec
  Operator : String
  TraceID : String
deriving DecidableEq, Repr

/-- A row of `game_event_audit`. -/
structure GameEventAudit where
  GameID : String
  RoomID : String
  GameRoundID : String
  EventType : Int
  PrevState : String
  NextState : String
  Operator : String
  Source : String
  Payload : List (String × JVal)
  TraceID : String
deriving DecidableEq, Repr

/-- The SQL tables. -/
structure DB where
  customers : List Customers
  rounds : List GameRoundInfo
  orders : List OrderRow
  ledger : List WalletLedger
  idemKeys : List IdempotencyKey
  outbox : List Outbox
  settlementLog : List SettlementLog
  audit : List GameEventAudit
deriving DecidableEq, Repr

/-- The result of `PlaceBet`; `RemainAmount` is the decimal that
`StringFixed(2)` prints. -/
structure BetOutput where
  BillNo : String
  RemainAmount : Dec
deriving DecidableEq, Repr

/-- The Redis keys of the service, by family: `bet:idem:result:{k}`,
`bet:idem:lock:{k}`, `game:round:{id}` and `game:result:{id}`. -/
structure KV where
  idemResult : List (String × BetOutput)
  idemLock : List (String × String)
  roundInfo : List (String × List (String × JVal))
  roundResult : List (String × List (String × JVal))
deriving DecidableEq, Repr

/-- The persistent state: the SQL tables and, when a Redis client is
configured, the key-value store. -/
structure State where
  db : DB
  kv : Option KV
deriving DecidableEq, Repr

/-- The SQL calls that can fail. -/
inductive DbOp where
  | beginTx | commit
  | getUserForUpdate | insertCustomer | getRoundForUpdate | selectExistingBets
  | insertIdem | selectRef | getUser | updateBalance | insertLedger
  | insertOrder | insertOutbox
  | ensureCount | ensureInsert | getStatus | setBetTimes | setBetStop
  | updateState | insertAudit
  | getSettlementStatus | updateDraw | createSettlementLog | listOrders
  | updateSettlement | getUserByID | markSettled | updateSettlementStats
deriving DecidableEq, Repr

/-- The Redis calls that can fail. -/
inductive KvOp where
  | getResult | setNX | getResultAgain | getResultAfterConflict | setResult
  | releaseLock | setRoundInfo | delRoundInfo | setRoundResult
deriving DecidableEq, Repr

/-- What one service call reads from outside the stores. -/
structure Env where
  /-- The value of `time.Now().UnixMilli()`. -/
  now : Int
  /-- The value of `time.Now().Format("20060102150405")`. -/
  dateTime : String
  /-- The three upper-case hexadecimal digits drawn by `generateBillNo`. -/
  randomHex : String
  /-- The value of `uuid.New().String()`. -/
  lockValue : String
  /-- Whether an SQL call fails with an error that is not about the data. -/
  dbErr : DbOp → Bool
  /-- Whether a Redis call fails. -/
  kvErr : KvOp → Bool

/-- Looks a key up in an association list. -/
def lookupKey {α : Type} (k : String) : List (String × α) → Option α
  | [] => none
  | (k1, v) :: rest => if k1 = k then some v else lookupKey k rest

/-- Writes a key of an association list, replacing the old value. -/
def setKey {α : Type} (k : String) (v : α) (l : List (String × α)) : List (String × α) :=
  (k, v) :: l.filter (fun p => p.1 ≠ k)

/-- Deletes a key of an association list. -/
def delKey {α : Type} (k : String) (l : List (String × α)) : List (String × α) :=
  l.filter (fun p => p.1 ≠ k)

/-! ## `internal/service/bet.go` -/

/-- The input of `PlaceBet`. -/
structure BetInput where
  GameID : String
  RoomID : String
  GameRoundID : String
  PlatformID : Int
  PlatformUserID : String
  PlatformUserName : String
  BetAmount : String
  PlayType : Int
  IdempotencyKey : String
  TraceID : String
deriving DecidableEq, Repr

def BIZ_TYPE_BET : Int := 1

def ErrDuplicateInFlight : Err := .msg "duplicate request in flight"
def ErrInvalidStateBet : Err := .msg "bet not allowed in current state"
def ErrBetWindowNotStart : Err := .msg "bet window not started"
def ErrBetWindowClosed : Err := .msg "bet window closed"
def ErrConflictingPlayTypes : Err :=
  .msg "cannot bet on both dragon and tiger in the same round"

/-- The amount checks that open `PlaceBet`: parse, positive, at least `0.01`
(`decimal.NewFromFloat(0.01)`), at most `1000000`. -/
def validateBetAmount (betAmount : String) : Except Err Dec :=
  match NewFromString (TrimSpace betAmount.toList) with
  | none => .error (.msg "invalid bet amount format")
  | some amtDec =>
    if amtDec.LessThanOrEqual Dec.Zero then .error (.msg "bet amount must be positive")
    else
      let minBet : Dec := ⟨1, 2⟩
      if amtDec.LessThan minBet then
        .error (.msg "bet amount below minimum limit: 0.01")
      else
        let maxBet := Dec.NewFromInt 1000000
        if amtDec.GreaterThan maxBet then
          .error (.msg "bet amount exceeds maximum limit: 1000000")
        else .ok amtDec

/-- The lookup `ptMap[in.PlayType]`; a missing key gives the empty string. -/
def ptMap (playType : Int) : String :=
  if playType = 1 then "dragon"
  else if playType = 2 then "tiger"
  else if playType = 3 then "tie"
  else ""

/-- `calcOdds`: the odds of a play type. -/
def calcOdds (pt : String) : Dec :=
  let p := String.mk (ToLower pt.toList)
  if p = "dragon" then ⟨97, 2⟩
  else if p = "tiger" then ⟨97, 2⟩
  else if p = "tie" then ⟨8, 0⟩
  else ⟨0, 0⟩

/-- The text of `fmt.Sprintf("%04d", n)`. -/
def pad4 (n : Int) : String :=
  let digits := toString n.natAbs
  let sign := if n < 0 then "-" else ""
  sign ++ String.mk (List.replicate (4 - sign.length - digits.length) '0') ++ digits

/-- `generateBillNo`: `DT`, the date and time, the last four digits of the
user id, three random hexadecimal digits. -/
def generateBillNo (env : Env) (userID : Int) : String :=
  "DT" ++ env.dateTime ++ pad4 (Int.tmod userID 10000) ++ env.randomHex

/-- The outcome of the Redis steps that open `PlaceBet`. -/
inductive KvGate where
  /-- A cached result was found and is returned. -/
  | hit (out : BetOutput)
  /-- The in-flight lock is held and no result is cached. -/
  | inFlight
  /-- The call goes on to the transaction; `locked` tells whether it took
  the in-flight lock (it did not when there is no Redis client). -/
  | proceed (kv : Option KV) (locked : Bool)
deriving DecidableEq, Repr

/-- The Redis fast path of `PlaceBet`: result cache, then `SetNX` on the
in-flight lock, then the result cache again when the lock is not obtained.
A failing `Get` reads as a miss and a failing `SetNX` as a lock not obtained,
as the code drops both errors. -/
def kvFastPath (env : Env) (kv : Option KV) (key : String) : KvGate :=
  match kv with
  | none => .proceed none false
  | some r =>
    match (if env.kvErr .getResult then none else lookupKey key r.idemResult) with
    | some out => .hit out
    | none =>
      let ok := !env.kvErr .setNX && (lookupKey key r.idemLock).isNone
      if !ok then
        match (if env.kvErr .getResultAgain then none else lookupKey key r.idemResult) with
        | some out => .hit out
        | none => .inFlight
      else .proceed (some { r with idemLock := setKey key env.lockValue r.idemLock }) true

/-- The deferred compare-and-delete of the in-flight lock. -/
def releaseLock (env : Env) (kv : Option KV) (key : String) : Option KV :=
  match kv with
  | none => none
  | some r =>
    if env.kvErr .releaseLock then some r
    else if lookupKey key r.idemLock = some env.lockValue then
      some { r with idemLock := delKey key r.idemLock }
    else some r

/-- `model.GetUserByPlatformUserForUpdate`. -/
def GetUserByPlatformUserForUpdate (env : Env) (tx : DB) (platformID : Int)
    (platformUserID : String) : Except Err Customers :=
  if env.dbErr .getUserForUpdate then .error ErrBadConn
  else
    match tx.customers.find?
        (fun u => u.PlatformID = platformID ∧ u.PlatformUserID = platformUserID) with
    | some u => .ok u
    | none => .error ErrNoRows

/-- `model.GetUserByPlatformUser`, outside the transaction. -/
def GetUserByPlatformUser (env : Env) (db : DB) (platformID : Int)
    (platformUserID : String) : Except Err Customers :=
  if env.dbErr .getUser then .error ErrBadConn
  else
    match db.customers.find?
        (fun u => u.PlatformID = platformID ∧ u.PlatformUserID = platformUserID) with
    | some u => .ok u
    | none => .error ErrNoRows

/-- The auto-increment id of the next `customers` row. -/
def nextCustomerID (tx : DB) : Int :=
  (tx.customers.map (fun u => u.ID)).foldl max 0 + 1

/-- `getOrCreateUserInTx`: the locked user, created with balance `0.00` and
status `1` when absent; the second component is the transaction after the
insert.  `customers(platform_id, platform_user_id)` is unique, and a
duplicate-entry error of the insert leads to a second locked read. -/
def getOrCreateUserInTx (env : Env) (tx : DB) (platformID : Int)
    (platformUserID username : String) : Except Err (Customers × DB) :=
  match GetUserByPlatformUserForUpdate env tx platformID platformUserID with
  | .ok user => .ok (user, tx)
  | .error err =>
    if err.Error = "sql: no rows in result set" then
      let newUser : Customers :=
        { ID := 0, PlatformID := platformID, PlatformUserID := platformUserID,
          Username := username, Balance := ⟨0, 0⟩, Status := 1 }
      if env.dbErr .insertCustomer then .error ErrBadConn
      else if tx.customers.any
          (fun u => u.PlatformID = platformID ∧ u.PlatformUserID = platformUserID) then
        match GetUserByPlatformUserForUpdate env tx platformID platformUserID with
        | .ok user => .ok (user, tx)
        | .error e => .error e
      else
        let created := { newUser with ID := nextCustomerID tx }
        .ok (created, { tx with customers := tx.customers ++ [created] })
    else .error err

/-- `model.GetRoundForUpdate`. -/
def GetRoundForUpdate (env : Env) (tx : DB) (roundID : String) : Except Err GameRoundInfo :=
  if env.dbErr .getRoundForUpdate then .error ErrBadConn
  else
    match tx.rounds.find? (fun r => r.GameRoundID = roundID) with
    | some r => .ok r
    | none => .error ErrNoRows

/-- `codeToState`: codes outside `1..7` read as `init`. -/
def codeToState (c : Int) : String :=
  if c = 1 then StateInit
  else if c = 2 then StateBetting
  else if c = 3 then StateSealed
  else if c = 4 then StateDealt
  else if c = 5 then StateDrawn
  else if c = 6 then StateSettled
  else if c = 7 then StateFinished
  else StateInit

/-- `stateToCode`: unknown names give `1`. -/
def stateToCode (s : String) : Int :=
  if s = StateInit then 1
  else if s = StateBetting then 2
  else if s = StateSealed then 3
  else if s = StateDealt then 4
  else if s = StateDrawn then 5
  else if s = StateSettled then 6
  else if s = StateFinished then 7
  else 1

/-- The bet-window check of `PlaceBet`: `none` when the bet is inside the
window. -/
def checkBetWindow (now betStartTime betStopTime : Int) : Option Err :=
  if now < betStartTime then some ErrBetWindowNotStart
  else if now > betStopTime then some ErrBetWindowClosed
  else none

/-- The loop of `checkConflictingBets` over the play types already bet. -/
def hasConflict (playType : Int) : List Int → Bool
  | [] => false
  | existingType :: rest =>
    if playType = 1 ∧ existingType = 2 then true
    else if playType = 2 ∧ existingType = 1 then true
    else hasConflict playType rest

/-- `checkConflictingBets`. -/
def checkConflictingBets (env : Env) (tx : DB) (gameRoundID : String) (platformID : Int)
    (platformUserID : String) (playType : Int) : Except Err Bool :=
  if playType ≠ 1 ∧ playType ≠ 2 then .ok false
  else if env.dbErr .selectExistingBets then
    .error (.wrap "failed to check existing bets: " ErrBadConn)
  else
    let existingPlayTypes :=
      (tx.orders.filter (fun o =>
        o.GameRoundID = gameRoundID ∧ o.PlatformID = platformID ∧
        o.PlatformUserID = platformUserID ∧ (o.BillStatus = 1 ∨ o.BillStatus = 2))).map
        (fun o => o.PlayType)
    .ok (hasConflict playType existingPlayTypes)

/-- `IdempotencyKey.Insert`; `idempotency_keys(idempotency_key, purpose)` is
unique. -/
def IdempotencyKey.Insert (env : Env) (tx : DB) (k : DtGame.IdempotencyKey) :
    Except Err DB :=
  if env.dbErr .insertIdem then .error ErrBadConn
  else if tx.idemKeys.any
      (fun r => r.IdempotencyKey = k.IdempotencyKey ∧ r.Purpose = k.Purpose) then
    .error ErrDuplicateEntry
  else .ok { tx with idemKeys := tx.idemKeys ++ [k] }

/-- `model.SelectRefByIdemKey`, outside the transaction. -/
def SelectRefByIdemKey (env : Env) (db : DB) (key : String) : Except Err String :=
  if env.dbErr .selectRef then .error ErrBadConn
  else
    match db.idemKeys.find? (fun r => r.IdempotencyKey = key) with
    | some r => .ok r.Ref
    | none => .error ErrNoRows

/-- `model.UpdateUserBalance`: the `balance` column takes the float64
parameter. -/
def UpdateUserBalance (env : Env) (tx : DB) (userID : Int) (newBalance : Float64) :
    Except Err DB :=
  if env.dbErr .updateBalance then .error ErrBadConn
  else
    .ok { tx with customers :=
      tx.customers.map (fun u =>
        if u.ID = userID then { u with Balance := newBalance.toColumn } else u) }

/-- The business-type code `WalletLedger.Insert` writes: the row's code, or
the code of the row's name when the code is `0`. -/
def ledgerBizCode (l : WalletLedger) : Int :=
  if l.BizType = 0 ∧ l.BizTypeStr ≠ "" then
    let low := String.mk (ToLower l.BizTypeStr.toList)
    if low = "bet" then 1 else if low = "settle" then 2
    else if low = "refund" then 3 else if low = "adjust" then 4 else l.BizType
  else l.BizType

/-- The business-type name `WalletLedger.Insert` writes: the row's name, or
the name of the code when the name is empty. -/
def ledgerBizStr (l : WalletLedger) : String :=
  let code := ledgerBizCode l
  if l.BizTypeStr = "" ∧ code ≠ 0 then
    if code = 1 then "bet" else if code = 2 then "settle"
    else if code = 3 then "refund" else if code = 4 then "adjust" else l.BizTypeStr
  else l.BizTypeStr

/-- `WalletLedger.Insert`: a missing code or a missing name of the business
type is filled in from the other one. -/
def WalletLedger.Insert (env : Env) (tx : DB) (l : WalletLedger) : Except Err DB :=
  if env.dbErr .insertLedger then .error ErrBadConn
  else
    .ok { tx with ledger := tx.ledger ++
      [{ l with BizType := ledgerBizCode l, BizTypeStr := ledgerBizStr l }] }

/-- `toPlayTypeCode`. -/
def toPlayTypeCode (s : String) : Int :=
  if s = "dragon" then 1 else if s = "tiger" then 2 else if s = "tie" then 3 else 0

/-- `fromPlayTypeCode`. -/
def fromPlayTypeCode (c : Int) : String :=
  if c = 1 then "dragon" else if c = 2 then "tiger" else if c = 3 then "tie" else ""

/-- The row `Order.Insert` writes: the play type as its code, the bet time
set to the clock when the struct leaves it `0`. -/
def orderRow (env : Env) (o : Order) : OrderRow :=
  { BillNo := o.BillNo, RoomID := o.RoomID, GameRoundID := o.GameRoundID,
    GameID := o.GameID, UserID := o.UserID, PlatformID := o.PlatformID,
    PlatformUserID := o.PlatformUserID, UserName := o.UserName,
    BetAmount := o.BetAmount, PlayType := toPlayTypeCode o.PlayType,
    BetStatus := o.BetStatus, BetTime := if o.BetTime = 0 then env.now else o.BetTime,
    BillStatus := o.BillStatus, GameResult := o.GameResult,
    WinAmount := o.WinAmount, BetOdds := o.BetOdds, Currency := o.Currency,
    IdempotencyKey := o.IdempotencyKey, TraceID := o.TraceID }

/-- `Order.Insert`; `bill_no` is the primary key and
`orders(idempotency_key)` is unique. -/
def Order.Insert (env : Env) (tx : DB) (o : Order) : Except Err DB :=
  if env.dbErr .insertOrder then .error ErrBadConn
  else if tx.orders.any
      (fun r => r.BillNo = o.BillNo ∨ r.IdempotencyKey = o.IdempotencyKey) then
    .error ErrDuplicateEntry
  else .ok { tx with orders := tx.orders ++ [orderRow env o] }

/-- The auto-increment id of the next `outbox` row. -/
def nextOutboxID (tx : DB) : Int :=
  (tx.outbox.map (fun o => o.ID)).foldl max 0 + 1

/-- `model.CreateOutbox`: a pending row (status `1`, no retries). -/
def CreateOutbox (env : Env) (tx : DB) (topic bizKey : String)
    (payload : List (String × JVal)) : Except Err DB :=
  if env.dbErr .insertOutbox then .error ErrBadConn
  else
    .ok { tx with outbox := tx.outbox ++ [
      { ID := nextOutboxID tx, Topic := topic, BizKey := bizKey, Payload := payload,
        Status := 1, RetryCount := 0, LastError := "" }] }

/-- The test `err.(*mysqlerr.MySQLError)` with `Number == 1062`. -/
def isMySQL1062 (err : Err) : Bool :=
  match err with
  | .mysql n _ => n = 1062
  | _ => false

/-- The balance of a user as the services compute with it:
`decimal.NewFromFloat(user.Balance)`, on the float64 field that is scanned
from the `balance` column. -/
def balanceDec (user : Customers) : Dec := NewFromFloat (scanFloat64 user.Balance)

/-- The recovery of `PlaceBet` after a duplicate idempotency key, once the
transaction is rolled back: the Redis result cache, then the stored `ref` and
the user's present balance; `err` is the insert error, returned wrapped when
neither source answers. -/
def recoverPriorResult (env : Env) (db : DB) (kv : Option KV) (inp : BetInput) (err : Err) :
    Except Err BetOutput :=
  let cached : Option BetOutput :=
    match kv with
    | none => none
    | some r =>
      if env.kvErr .getResultAfterConflict then none
      else lookupKey inp.IdempotencyKey r.idemResult
  match cached with
  | some out => .ok out
  | none =>
    match SelectRefByIdemKey env db inp.IdempotencyKey with
    | .ok ref =>
      if ref ≠ "" then
        match GetUserByPlatformUser env db inp.PlatformID inp.PlatformUserID with
        | .ok u =>
          .ok { BillNo := ref, RemainAmount := (balanceDec u).Round 2 }
        | .error _ => .error (.wrap "idempotency conflict or insert failed: " err)
      else .error (.wrap "idempotency conflict or insert failed: " err)
    | .error _ => .error (.wrap "idempotency conflict or insert failed: " err)

/-- The ledger row of a bet, as its columns keep it: `before_amount` and
`after_amount` come from the balance, which the code reads as a float64, and
pass through float64 again on their way to the columns. -/
def betLedger (inp : BetInput) (user : Customers) (amtDec : Dec) (billNo : String) :
    WalletLedger :=
  let beforeDec := balanceDec user
  let afterDec := beforeDec.Sub amtDec
  { UserID := user.ID, BizType := BIZ_TYPE_BET, BizTypeStr := "bet",
    Amount := amtDec.Round 2, BeforeAmount := (beforeDec.Round 2).InexactFloat64.toColumn,
    AfterAmount := (afterDec.Round 2).InexactFloat64.toColumn, Currency := "CNY",
    BillNo := billNo,
    GameRoundID := inp.GameRoundID, GameID := inp.GameID, RoomID := inp.RoomID,
    Remark := "bet deduct", TraceID := inp.TraceID }

/-- The order of a bet: bet status `2` (success), bill status `1` (pending). -/
def betOrder (inp : BetInput) (user : Customers) (amtDec odds : Dec) (billNo : String) :
    Order :=
  { BillNo := billNo, RoomID := inp.RoomID, GameRoundID := inp.GameRoundID,
    GameID := inp.GameID, UserID := user.ID, PlatformID := inp.PlatformID,
    PlatformUserID := inp.PlatformUserID, UserName := user.Username,
    BetAmount := amtDec.Round 2, PlayType := ptMap inp.PlayType, BetStatus := 2,
    BetTime := 0, BillStatus := 1, GameResult := 0, WinAmount := ⟨0, 0⟩,
    BetOdds := odds, Currency := "CNY", IdempotencyKey := inp.IdempotencyKey,
    TraceID := inp.TraceID }

/-- The payload of the `bet_placed` outbox row. -/
def betPayload (inp : BetInput) (user : Customers) (billNo : String) :
    List (String × JVal) :=
  [ ("event", .str "bet_placed"), ("bill_no", .str billNo),
    ("user_id", .num user.ID), ("platform_id", .num inp.PlatformID),
    ("platform_user_id", .str inp.PlatformUserID) ]

/-- The writes of `PlaceBet` after the idempotency key is taken: user status,
balance check, balance update, ledger row, order row, outbox row.  Gives the
transaction after the writes and the new balance before rounding. -/
def placeBetWrites (env : Env) (tx : DB) (inp : BetInput) (user : Customers)
    (amtDec odds : Dec) (billNo : String) : Except Err (DB × Dec) :=
  if user.Status ≠ 1 then .error (.msg "user disabled")
  else if (balanceDec user).Cmp amtDec < 0 then .error (.msg "insufficient balance")
  else
    let beforeDec := balanceDec user
    let afterDec := beforeDec.Sub amtDec
    match UpdateUserBalance env tx user.ID (afterDec.Round 2).InexactFloat64 with
    | .error e => .error e
    | .ok tx1 =>
      match (betLedger inp user amtDec billNo).Insert env tx1 with
      | .error e => .error e
      | .ok tx2 =>
        match (betOrder inp user amtDec odds billNo).Insert env tx2 with
        | .error e => .error e
        | .ok tx3 =>
          match CreateOutbox env tx3 "bet_placed" billNo (betPayload inp user billNo) with
          | .error e => .error e
          | .ok tx4 => .ok (tx4, afterDec)

/-- The transaction of `PlaceBet` and the write of the result cache after the
commit.  Gives the returned value, the stored tables after the call (`db`
itself whenever the transaction is rolled back) and the key-value state. -/
def placeBetTx (env : Env) (db : DB) (kv : Option KV) (inp : BetInput) (amtDec : Dec) :
    Except Err BetOutput × DB × Option KV :=
  if env.dbErr .beginTx then (.error ErrBadConn, db, kv)
  else
    match getOrCreateUserInTx env db inp.PlatformID inp.PlatformUserID
        inp.PlatformUserName with
    | .error e => (.error (.wrap "failed to get or create user: " e), db, kv)
    | .ok (user, tx) =>
      let odds := calcOdds (ptMap inp.PlayType)
      let billNo := generateBillNo env user.ID
      match GetRoundForUpdate env tx inp.GameRoundID with
      | .error e => (.error (.wrap "failed to get round info: " e), db, kv)
      | .ok round =>
        if codeToState round.GameStatus ≠ StateBetting then
          (.error ErrInvalidStateBet, db, kv)
        else
          match checkBetWindow env.now round.BetStartTime round.BetStopTime with
          | some e => (.error e, db, kv)
          | none =>
            match checkConflictingBets env tx inp.GameRoundID inp.PlatformID
                inp.PlatformUserID inp.PlayType with
            | .error e => (.error (.wrap "failed to check conflicting bets: " e), db, kv)
            | .ok true => (.error ErrConflictingPlayTypes, db, kv)
            | .ok false =>
              match IdempotencyKey.Insert env tx
                  { IdempotencyKey := inp.IdempotencyKey, Purpose := "bet", Ref := billNo } with
              | .error err =>
                if isMySQL1062 err then
                  (recoverPriorResult env db kv inp err, db, kv)
                else (.error (.wrap "idempotency conflict or insert failed: " err), db, kv)
              | .ok tx1 =>
                match placeBetWrites env tx1 inp user amtDec odds billNo with
                | .error e => (.error e, db, kv)
                | .ok (tx2, afterDec) =>
                  if env.dbErr .commit then (.error ErrBadConn, db, kv)
                  else
                    let out : BetOutput :=
                      { BillNo := billNo, RemainAmount := afterDec.Round 2 }
                    let kv1 :=
                      match kv with
                      | none => none
                      | some r =>
                        if env.kvErr .setResult then some r
                        else some { r with
                          idemResult := setKey inp.IdempotencyKey out r.idemResult }
                    (.ok out, tx2, kv1)

/-- `betService.PlaceBet`: the returned value and the state after the call. -/
def PlaceBet (env : Env) (st : State) (inp : BetInput) : Except Err BetOutput × State :=
  match validateBetAmount inp.BetAmount with
  | .error e => (.error e, st)
  | .ok amtDec =>
    match kvFastPath env st.kv inp.IdempotencyKey with
    | .hit out => (.ok out, st)
    | .inFlight => (.error ErrDuplicateInFlight, st)
    | .proceed kv locked =>
      let r := placeBetTx env st.db kv inp amtDec
      (r.1, { db := r.2.1,
              kv := if locked then releaseLock env r.2.2 inp.IdempotencyKey else r.2.2 })

/-! ## `internal/service/game_event.go` -/

/-- The input of `Handle`. -/
structure GameEventInput where
  GameID : String
  RoomID : String
  GameRoundID : String
  EventType : Int
  TraceID : String
deriving DecidableEq, Repr

def ErrBadRequest : Err := .msg "bad request"
def ErrInvalidStateDraw : Err := .msg "draw not allowed in current state"
def ErrGameRoundNotFound : Err := .msg "game round not found"
def ErrGameEndWithoutDrawResult : Err :=
  .msg "game end not allowed: draw result not found"

def betWindowSeconds : Int := 45

/-- The value of a Go `int64` expression: the integer taken modulo `2 ^ 64`
into the signed range. -/
def wrapInt64 (n : Int) : Int := (n + 2 ^ 63) % 2 ^ 64 - 2 ^ 63

/-- `eventCodeToString`. -/
def eventCodeToString (c : Int) : String :=
  if c = 1 then EvtGameStart
  else if c = 2 then EvtGameStop
  else if c = 3 then EvtNewCard
  else if c = 4 then EvtGameDraw
  else if c = 5 then EvtGameEnd
  else ""

/-- A change of the rows of `game_round_info` with the given round id. -/
def updateRound (tx : DB) (roundID : String) (f : GameRoundInfo → GameRoundInfo) : DB :=
  { tx with rounds := tx.rounds.map (fun r => if r.GameRoundID = roundID then f r else r) }

/-- The row `EnsureOnStart` inserts: status `1`; the columns the insert does
not name take their zero defaults. -/
def newRound (roundID gameID roomID traceID : String) : GameRoundInfo :=
  { GameRoundID := roundID, GameID := gameID, RoomID := roomID, BetStartTime := 0,
    BetStopTime := 0, GameDrawTime := 0, CardList := "", GameResult := 0,
    GameResultStr := "", GameStatus := 1, IsSettled := 0, TraceID := traceID }

/-- `model.EnsureOnStart`: inserts the round with status `1` when no row has
its id. -/
def EnsureOnStart (env : Env) (tx : DB) (roundID gameID roomID traceID : String) :
    Except Err DB :=
  if env.dbErr .ensureCount then .error ErrBadConn
  else if (tx.rounds.filter (fun r => r.GameRoundID = roundID)).length > 0 then .ok tx
  else if env.dbErr .ensureInsert then .error ErrBadConn
  else .ok { tx with rounds := tx.rounds ++ [newRound roundID gameID roomID traceID] }

/-- `model.GetStatusForUpdate`. -/
def GetStatusForUpdate (env : Env) (tx : DB) (roundID : String) : Except Err Int :=
  if env.dbErr .getStatus then .error ErrBadConn
  else
    match tx.rounds.find? (fun r => r.GameRoundID = roundID) with
    | some r => .ok r.GameStatus
    | none => .error ErrNoRows

/-- `model.SetBetTimes`. -/
def SetBetTimes (env : Env) (tx : DB) (roundID : String) (betStartMs betStopMs : Int) :
    Except Err DB :=
  if env.dbErr .setBetTimes then .error ErrBadConn
  else .ok (updateRound tx roundID
    (fun r => { r with BetStartTime := betStartMs, BetStopTime := betStopMs }))

/-- `model.SetBetStopNow`. -/
def SetBetStopNow (env : Env) (tx : DB) (roundID : String) : Except Err DB :=
  if env.dbErr .setBetStop then .error ErrBadConn
  else .ok (updateRound tx roundID (fun r => { r with BetStopTime := env.now }))

/-- `model.UpdateState`. -/
def UpdateState (env : Env) (tx : DB) (roundID : String) (newStatus : Int) : Except Err DB :=
  if env.dbErr .updateState then .error ErrBadConn
  else .ok (updateRound tx roundID (fun r => { r with GameStatus := newStatus }))

/-- `GameEventAudit.Insert`. -/
def GameEventAudit.Insert (env : Env) (tx : DB) (e : GameEventAudit) : Except Err DB :=
  if env.dbErr .insertAudit then .error ErrBadConn
  else .ok { tx with audit := tx.audit ++ [e] }

/-- The `switch evtStr` of `Handle`: the window written at `game_start`, the
stop time written at `game_stop`, the draw-result check of `game_end`.  Gives
the transaction and the two times `betStartMs`, `betStopMs`. -/
def handleEventEffects (env : Env) (tx : DB) (inp : GameEventInput) (evtStr : String) :
    Except Err (DB × Int × Int) :=
  if evtStr = EvtGameStart then
    let betStartMs := env.now
    let betStopMs := wrapInt64 (betStartMs + wrapInt64 (betWindowSeconds * 1000))
    match SetBetTimes env tx inp.GameRoundID betStartMs betStopMs with
    | .error e => .error e
    | .ok tx1 => .ok (tx1, betStartMs, betStopMs)
  else if evtStr = EvtGameStop then
    match SetBetStopNow env tx inp.GameRoundID with
    | .error e => .error e
    | .ok tx1 => .ok (tx1, 0, 0)
  else if evtStr = EvtGameEnd then
    match GetRoundForUpdate env tx inp.GameRoundID with
    | .error e => .error e
    | .ok round =>
      if round.GameResult = 0 ∨ round.CardList = "" then .error ErrGameEndWithoutDrawResult
      else .ok (tx, 0, 0)
  else .ok (tx, 0, 0)

/-- The outbox rows of `Handle`: one at `game_start`, `game_draw` and
`game_end`. -/
def handleOutbox (env : Env) (tx : DB) (inp : GameEventInput) (evtStr : String)
    (betStartMs betStopMs : Int) : Except Err DB :=
  let afterStart : Except Err DB :=
    if evtStr = EvtGameStart then
      CreateOutbox env tx "game_started" inp.GameRoundID
        [ ("event", .str "game_started"), ("game_id", .str inp.GameID),
          ("room_id", .str inp.RoomID), ("game_round_id", .str inp.GameRoundID),
          ("bet_start_time", .num betStartMs), ("bet_stop_time", .num betStopMs),
          ("trace_id", .str inp.TraceID) ]
    else .ok tx
  match afterStart with
  | .error e => .error e
  | .ok tx1 =>
    let afterDraw : Except Err DB :=
      if evtStr = EvtGameDraw then
        CreateOutbox env tx1 "game_draw_ready" inp.GameRoundID
          [ ("event", .str "game_draw_ready"), ("game_id", .str inp.GameID),
            ("room_id", .str inp.RoomID), ("game_round_id", .str inp.GameRoundID),
            ("trace_id", .str inp.TraceID) ]
      else .ok tx1
    match afterDraw with
    | .error e => .error e
    | .ok tx2 =>
      if evtStr = EvtGameEnd then
        CreateOutbox env tx2 "game_ended" inp.GameRoundID
          [ ("event", .str "game_ended"), ("game_id", .str inp.GameID),
            ("room_id", .str inp.RoomID), ("game_round_id", .str inp.GameRoundID),
            ("trace_id", .str inp.TraceID) ]
      else .ok tx2

/-- The transaction of `Handle`, up to and including the commit.  Gives the
tables to store and the two window times. -/
def handleTx (env : Env) (db : DB) (inp : GameEventInput) (evtStr : String) :
    Except Err (DB × Int × Int) :=
  if env.dbErr .beginTx then .error ErrBadConn
  else
    let ensured : Except Err DB :=
      if evtStr = EvtGameStart then
        EnsureOnStart env db inp.GameRoundID inp.GameID inp.RoomID inp.TraceID
      else .ok db
    match ensured with
    | .error e => .error e
    | .ok tx =>
      match GetStatusForUpdate env tx inp.GameRoundID with
      | .error e => .error e
      | .ok prevStatus =>
        let prev := codeToState prevStatus
        match NextState prev evtStr with
        | (_, some e) => .error e
        | (nextStr, none) =>
          let nextCode := stateToCode nextStr
          match handleEventEffects env tx inp evtStr with
          | .error e => .error e
          | .ok (tx1, betStartMs, betStopMs) =>
            match UpdateState env tx1 inp.GameRoundID nextCode with
            | .error e => .error e
            | .ok tx2 =>
              match handleOutbox env tx2 inp evtStr betStartMs betStopMs with
              | .error e => .error e
              | .ok tx3 =>
                let aud : GameEventAudit :=
                  { GameID := inp.GameID, RoomID := inp.RoomID,
                    GameRoundID := inp.GameRoundID, EventType := inp.EventType,
                    PrevState := prev, NextState := nextStr, Operator := "system",
                    Source := "api", Payload := [], TraceID := inp.TraceID }
                match aud.Insert env tx3 with
                | .error e => .error e
                | .ok tx4 =>
                  if env.dbErr .commit then .error ErrBadConn
                  else .ok (tx4, betStartMs, betStopMs)

/-- The Redis writes of `Handle` after the commit: the round cache is written
at `game_start` and deleted at `game_end`. -/
def handleCache (env : Env) (kv : Option KV) (inp : GameEventInput) (evtStr : String)
    (betStartMs betStopMs : Int) : Option KV :=
  match kv with
  | none => none
  | some r =>
    if evtStr = EvtGameStart then
      let val : List (String × JVal) :=
        [ ("game_id", .str inp.GameID), ("room_id", .str inp.RoomID),
          ("game_round_id", .str inp.GameRoundID), ("bet_start_time", .num betStartMs),
          ("bet_stop_time", .num betStopMs), ("game_status", .num 2) ]
      if env.kvErr .setRoundInfo then some r
      else some { r with roundInfo := setKey inp.GameRoundID val r.roundInfo }
    else if evtStr = EvtGameEnd then
      if env.kvErr .delRoundInfo then some r
      else some { r with roundInfo := delKey inp.GameRoundID r.roundInfo }
    else some r

/-- `gameEventService.Handle`: the returned error (`none` is `nil`) and the
state after the call. -/
def Handle (env : Env) (st : State) (inp : GameEventInput) : Option Err × State :=
  if inp.GameRoundID = "" ∨ inp.EventType < 1 ∨ inp.EventType > 5 then
    (some ErrBadRequest, st)
  else
    let evtStr := eventCodeToString inp.EventType
    match handleTx env st.db inp evtStr with
    | .error e => (some e, st)
    | .ok (db1, betStartMs, betStopMs) =>
      (none, { db := db1, kv := handleCache env st.kv inp evtStr betStartMs betStopMs })

/-! ## `internal/service/draw.go` -/

/-- The input of `SubmitDrawResult`. -/
structure DrawInput where
  GameID : String
  RoomID : String
  GameRoundID : String
  CardList : String
  TraceID : String
deriving DecidableEq, Repr

/-- Whether the second list opens the first one. -/
def startsWith : List Char → List Char → Bool
  | _, [] => true
  | [], _ :: _ => false
  | a :: as, b :: bs => a = b && startsWith as bs

/-- The result of `strings.Contains`, on the lists of characters. -/
def Contains : List Char → List Char → Bool
  | [], sub => sub.isEmpty
  | c :: cs, sub => startsWith (c :: cs) sub || Contains cs sub

/-- `parseResultToken`. -/
def parseResultToken (token : List Char) : String :=
  let tok := String.mk (ToLower token)
  if tok = "d" ∨ tok = "dragon" ∨ tok = "-dragon" then "dragon"
  else if tok = "t" ∨ tok = "tiger" ∨ tok = "-tiger" then "tiger"
  else if tok = "tie" then "tie"
  else ""

/-- `calculateResult`. -/
def calculateResult (dragonCard tigerCard : Int) : String :=
  if dragonCard > tigerCard then "dragon"
  else if dragonCard < tigerCard then "tiger"
  else "tie"

/-- One turn of the token loop of `decideResult`, on the triple
`(dragonCard, tigerCard, result)`. -/
def decideToken (acc : Int × Int × String) (token : List Char) : Int × Int × String :=
  match ToLower (TrimSpace token) with
  | [] => acc
  | c :: rest =>
    if c = 'd' then
      match Atoi rest with
      | some val => if val ≥ 1 ∧ val ≤ 13 then (val, acc.2.1, acc.2.2) else acc
      | none => acc
    else if c = 't' then
      match Atoi rest with
      | some val => if val ≥ 1 ∧ val ≤ 13 then (acc.1, val, acc.2.2) else acc
      | none => acc
    else if c = 'r' then (acc.1, acc.2.1, parseResultToken rest)
    else acc

/-- `decideResult`: the outcome named by a card list, empty when the list is
not `D<n>,T<n>,R<tag>`. -/
def decideResult (cardListRaw : String) : String :=
  let input := TrimSpace cardListRaw.toList
  if input = [] then ""
  else
    let tokens := splitComma input
    if tokens.length ≠ 3 then ""
    else
      let r := tokens.foldl decideToken (0, 0, "")
      if r.1 = 0 ∨ r.2.1 = 0 then ""
      else if r.2.2 ≠ "" then r.2.2
      else calculateResult r.1 r.2.1

/-- `settlePayout`: stake times one plus the odds, rounded by `Round(2)`, on
a win; the stake when dragon or tiger meets a tie; zero otherwise. -/
def settlePayout (o : Order) (result : String) : Dec :=
  let pt := String.mk (ToLower o.PlayType.toList)
  let betAmt := o.BetAmount
  if pt = result then (betAmt.Mul ((Dec.NewFromInt 1).Add o.BetOdds)).Round 2
  else if (pt = "dragon" ∨ pt = "tiger") ∧ result = "tie" then betAmt
  else ⟨0, 0⟩

/-- `resultToCode`. -/
def resultToCode (result : String) : Int :=
  let r := String.mk (ToLower result.toList)
  if r = "dragon" then 1 else if r = "tiger" then 2 else if r = "tie" then 3 else 0

/-- `isMySQLDuplicateKeyError` of the draw service. -/
def isMySQLDuplicateKeyError (err : Err) : Bool :=
  let errMsg := err.Error.toList
  Contains errMsg "Error 1062".toList || Contains errMsg "Duplicate entry".toList ||
    Contains errMsg "duplicate key".toList

/-- `model.GetSettlementStatusForUpdate`. -/
def GetSettlementStatusForUpdate (env : Env) (tx : DB) (roundID : String) :
    Except Err (Int × Int) :=
  if env.dbErr .getSettlementStatus then .error ErrBadConn
  else
    match tx.rounds.find? (fun r => r.GameRoundID = roundID) with
    | some r => .ok (r.GameStatus, r.IsSettled)
    | none => .error ErrNoRows

/-- `model.UpdateDraw`. -/
def UpdateDraw (env : Env) (tx : DB) (roundID cardListJSON resultStr : String)
    (status : Int) : Except Err DB :=
  let resCode := toPlayTypeCode resultStr
  if env.dbErr .updateDraw then .error ErrBadConn
  else .ok (updateRound tx roundID (fun r =>
    { r with CardList := cardListJSON, GameResult := resCode, GameResultStr := resultStr,
             GameStatus := status, GameDrawTime := env.now }))

/-- `model.CreateSettlementLog`; `settlement_log(game_round_id)` is unique. -/
def CreateSettlementLog (env : Env) (tx : DB) (log : SettlementLog) : Except Err DB :=
  if env.dbErr .createSettlementLog then .error ErrBadConn
  else if tx.settlementLog.any (fun l => l.GameRoundID = log.GameRoundID) then
    .error ErrDuplicateEntry
  else .ok { tx with settlementLog := tx.settlementLog ++ [log] }

/-- `model.ListByRoundForUpdate`: the pending orders of the round, with the
columns the query selects. -/
def ListByRoundForUpdate (env : Env) (tx : DB) (roundID : String) : Except Err (List Order) :=
  if env.dbErr .listOrders then .error ErrBadConn
  else
    .ok ((tx.orders.filter
      (fun r => r.GameRoundID = roundID ∧ r.BillStatus = 1 ∧ r.BetStatus = 2)).map
      (fun r =>
        { BillNo := r.BillNo, RoomID := "", GameRoundID := "", GameID := "",
          UserID := r.UserID, PlatformID := 0, PlatformUserID := "",
          UserName := r.UserName, BetAmount := r.BetAmount,
          PlayType := fromPlayTypeCode r.PlayType, BetStatus := 0, BetTime := 0,
          BillStatus := 0, GameResult := 0, WinAmount := ⟨0, 0⟩, BetOdds := r.BetOdds,
          Currency := r.Currency, IdempotencyKey := "", TraceID := "" }))

/-- `model.UpdateSettlement`. -/
def UpdateSettlement (env : Env) (tx : DB) (billNo : String) (winAmount : Dec)
    (billStatus gameResult : Int) : Except Err DB :=
  if env.dbErr .updateSettlement then .error ErrBadConn
  else
    .ok { tx with orders := tx.orders.map (fun r =>
      if r.BillNo = billNo then
        { r with WinAmount := winAmount, BillStatus := billStatus, GameResult := gameResult }
      else r) }

/-- `model.GetUserByIDForUpdate`. -/
def GetUserByIDForUpdate (env : Env) (tx : DB) (userID : Int) : Except Err Customers :=
  if env.dbErr .getUserByID then .error ErrBadConn
  else
    match tx.customers.find? (fun u => u.ID = userID) with
    | some u => .ok u
    | none => .error ErrNoRows

/-- `model.MarkAsSettled`. -/
def MarkAsSettled (env : Env) (tx : DB) (roundID : String) : Except Err DB :=
  if env.dbErr .markSettled then .error ErrBadConn
  else .ok (updateRound tx roundID (fun r => { r with IsSettled := 1, GameStatus := 6 }))

/-- Modelled from the spec: `model.UpdateSettlementStats` is called by
`SubmitDrawResult` and is not among the source files; it writes the number of
settled orders and the total payout into the round's `settlement_log` row. -/
def UpdateSettlementStats (env : Env) (tx : DB) (roundID : String) (totalOrders : Int)
    (totalPayout : Float64) : Except Err DB :=
  if env.dbErr .updateSettlementStats then .error ErrBadConn
  else
    .ok { tx with settlementLog := tx.settlementLog.map (fun l =>
      if l.GameRoundID = roundID then
        { l with TotalOrders := totalOrders, TotalPayout := totalPayout.toColumn }
      else l) }

/-- The first loop of the settlement: every order gets its payout, the
settled status and the result code; the payouts are summed in float64. -/
def settleOrders (env : Env) (res : String) (gameResultCode : Int) :
    List Order → DB → Float64 → Except Err (DB × Float64)
  | [], tx, totalPayout => .ok (tx, totalPayout)
  | o :: rest, tx, totalPayout =>
    let payout := settlePayout o res
    match UpdateSettlement env tx o.BillNo payout 2 gameResultCode with
    | .error e => .error e
    | .ok tx1 =>
      settleOrders env res gameResultCode rest tx1 (totalPayout.add payout.InexactFloat64)

/-- The per-user record of the settlement; `totalPayout` is the float64 sum
of the payouts. -/
structure userSettlement where
  userID : Int
  totalPayout : Float64
  orders : List Order
  payoutAmounts : List Dec
deriving DecidableEq, Repr

/-- Adds one paying order to the record of its user, creating the record at
the user's first paying order. -/
def addToUser (userMap : List userSettlement) (o : Order) (payout : Dec) :
    List userSettlement :=
  if userMap.any (fun us => us.userID = o.UserID) then
    userMap.map (fun us =>
      if us.userID = o.UserID then
        { us with totalPayout := us.totalPayout.add payout.InexactFloat64,
                  orders := us.orders ++ [o], payoutAmounts := us.payoutAmounts ++ [payout] }
      else us)
  else
    userMap ++ [{ userID := o.UserID,
                  totalPayout := (⟨0, 0⟩ : Float64).add payout.InexactFloat64,
                  orders := [o], payoutAmounts := [payout] }]

/-- The second loop of the settlement: the orders with a positive payout,
grouped by user.  The Go map is walked in no fixed order; the users are taken
here by their first paying order. -/
def groupByUser (res : String) (orders : List Order) : List userSettlement :=
  orders.foldl (fun userMap o =>
    let payout := settlePayout o res
    if payout.Cmp ⟨0, 0⟩ = 1 then addToUser userMap o payout else userMap) []

/-- The ledger rows of one user: one `settle` row per paying order, with a
running balance; `before_amount` and `after_amount` pass through float64 on
their way to the columns. -/
def settleLedger (env : Env) (inp : DrawInput) :
    List (Order × Dec) → Dec → DB → Except Err DB
  | [], _, tx => .ok tx
  | (o, payoutDec) :: rest, currentBalanceDec, tx =>
    let current := (currentBalanceDec.Add payoutDec).Round 2
    let ledger : WalletLedger :=
      { UserID := o.UserID, BizType := 2, BizTypeStr := "settle", Amount := payoutDec,
        BeforeAmount := ((current.Sub payoutDec).Round 2).InexactFloat64.toColumn,
        AfterAmount := current.InexactFloat64.toColumn,
        Currency := o.Currency, BillNo := o.BillNo, GameRoundID := inp.GameRoundID,
        GameID := inp.GameID, RoomID := inp.RoomID, Remark := "bet payout",
        TraceID := inp.TraceID }
    match ledger.Insert env tx with
    | .error e => .error e
    | .ok tx1 => settleLedger env inp rest current tx1

/-- The third loop of the settlement: each user is locked once, credited
with the sum of the payouts, and given the ledger rows.  The balance is read
as a float64 and the sum of the payouts is a float64; both are made decimals
by `decimal.NewFromFloat`. -/
def settleUsers (env : Env) (inp : DrawInput) : List userSettlement → DB → Except Err DB
  | [], tx => .ok tx
  | us :: rest, tx =>
    match GetUserByIDForUpdate env tx us.userID with
    | .error e => .error e
    | .ok user =>
      let beforeDec := balanceDec user
      let totalPayoutDec := NewFromFloat us.totalPayout
      let afterDec := (beforeDec.Add totalPayoutDec).Round 2
      match UpdateUserBalance env tx us.userID afterDec.InexactFloat64 with
      | .error e => .error e
      | .ok tx1 =>
        match settleLedger env inp (us.orders.zip us.payoutAmounts) beforeDec tx1 with
        | .error e => .error e
        | .ok tx2 => settleUsers env inp rest tx2

/-- The fourth loop of the settlement: one `order_settled` outbox row per
order. -/
def settleOutbox (env : Env) (inp : DrawInput) (res : String) : List Order → DB → Except Err DB
  | [], tx => .ok tx
  | o :: rest, tx =>
    let payout := settlePayout o res
    match CreateOutbox env tx "order_settled" o.BillNo
        [ ("event", .str "order_settled"), ("bill_no", .str o.BillNo),
          ("user_id", .num o.UserID), ("game_id", .str inp.GameID),
          ("room_id", .str inp.RoomID), ("game_round_id", .str inp.GameRoundID),
          ("play_type", .str o.PlayType), ("payout", .dec payout), ("result", .str res),
          ("trace_id", .str inp.TraceID) ] with
    | .error e => .error e
    | .ok tx1 => settleOutbox env inp res rest tx1

/-- The settlement proper, after the settlement log is written: the four
loops, the settled mark, the statistics and the audit row.  Gives the
transaction, the number of orders and the total payout. -/
def settleRound (env : Env) (tx : DB) (inp : DrawInput) (res : String) :
    Except Err (DB × Int × Float64) :=
  match ListByRoundForUpdate env tx inp.GameRoundID with
  | .error e => .error e
  | .ok orders =>
    let gameResultCode := resultToCode res
    match settleOrders env res gameResultCode orders tx (⟨0, 0⟩ : Float64) with
    | .error e => .error e
    | .ok (tx1, totalPayout) =>
      match settleUsers env inp (groupByUser res orders) tx1 with
      | .error e => .error e
      | .ok tx2 =>
        match settleOutbox env inp res orders tx2 with
        | .error e => .error e
        | .ok tx3 =>
          match MarkAsSettled env tx3 inp.GameRoundID with
          | .error e => .error e
          | .ok tx4 =>
            match UpdateSettlementStats env tx4 inp.GameRoundID orders.length
                totalPayout with
            | .error e => .error e
            | .ok tx5 =>
              let aud : GameEventAudit :=
                { GameID := inp.GameID, RoomID := inp.RoomID,
                  GameRoundID := inp.GameRoundID, EventType := 4, PrevState := "drawn",
                  NextState := "settled", Operator := "system", Source := "api",
                  Payload :=
                    [ ("card_list", .str inp.CardList), ("result", .str res),
                      ("total_orders", .num orders.length),
                      ("total_payout", .dec (NewFromFloat totalPayout)) ],
                  TraceID := inp.TraceID }
              match aud.Insert env tx5 with
              | .error e => .error e
              | .ok tx6 => .ok (tx6, orders.length, totalPayout)

/-- The transaction of `SubmitDrawResult`, up to and including the commit.
`none` is the success that settles nothing (the round is already settled, or
its settlement log already exists) and rolls the transaction back. -/
def submitDrawTx (env : Env) (db : DB) (inp : DrawInput) (res : String) :
    Except Err (Option (DB × Int × Float64)) :=
  if env.dbErr .beginTx then .error ErrBadConn
  else
    match GetSettlementStatusForUpdate env db inp.GameRoundID with
    | .error err =>
      if Contains err.Error.toList "no rows".toList then .error ErrGameRoundNotFound
      else .error err
    | .ok (statusCode, isSettled) =>
      let currentState := codeToState statusCode
      if isSettled = 1 then .ok none
      else if currentState ≠ StateDrawn then .error ErrInvalidStateDraw
      else
        match UpdateDraw env db inp.GameRoundID inp.CardList res 5 with
        | .error e => .error e
        | .ok tx1 =>
          match CreateOutbox env tx1 "game_drawn" inp.GameRoundID
              [ ("event", .str "game_drawn"), ("game_id", .str inp.GameID),
                ("room_id", .str inp.RoomID), ("game_round_id", .str inp.GameRoundID),
                ("card_list", .str inp.CardList), ("result", .str res),
                ("trace_id", .str inp.TraceID) ] with
          | .error e => .error e
          | .ok tx2 =>
            let settlementLog : SettlementLog :=
              { GameRoundID := inp.GameRoundID, CardList := inp.CardList, Result := res,
                TotalOrders := 0, TotalPayout := ⟨0, 0⟩, Operator := "admin",
                TraceID := inp.TraceID }
            match CreateSettlementLog env tx2 settlementLog with
            | .error err =>
              if isMySQLDuplicateKeyError err then .ok none else .error err
            | .ok tx3 =>
              match settleRound env tx3 inp res with
              | .error e => .error e
              | .ok (tx4, totalOrders, totalPayout) =>
                if env.dbErr .commit then .error ErrBadConn
                else .ok (some (tx4, totalOrders, totalPayout))

/-- The Redis write of `SubmitDrawResult` after the commit; the JSON number
of the total payout is the shortest decimal of the float64. -/
def drawCache (env : Env) (kv : Option KV) (inp : DrawInput) (res : String)
    (totalOrders : Int) (totalPayout : Float64) : Option KV :=
  match kv with
  | none => none
  | some r =>
    let val : List (String × JVal) :=
      [ ("game_id", .str inp.GameID), ("room_id", .str inp.RoomID),
        ("game_round_id", .str inp.GameRoundID), ("card_list", .str inp.CardList),
        ("result", .str res), ("game_status", .num 6), ("is_settled", .num 1),
        ("total_orders", .num totalOrders),
        ("total_payout", .dec (NewFromFloat totalPayout)) ]
    if env.kvErr .setRoundResult then some r
    else some { r with roundResult := setKey inp.GameRoundID val r.roundResult }

/-- `drawService.SubmitDrawResult`: the returned error (`none` is `nil`) and
the state after the call. -/
def SubmitDrawResult (env : Env) (st : State) (inp : DrawInput) : Option Err × State :=
  if inp.GameRoundID = "" ∨ inp.CardList.length = 0 then (some ErrBadRequest, st)
  else
    let res := decideResult inp.CardList
    if res = "" then
      (some (.msg "invalid card list format: unable to determine result"), st)
    else if res ≠ "dragon" ∧ res ≠ "tiger" ∧ res ≠ "tie" then
      (some (.msg ("invalid game result: " ++ res)), st)
    else
      match submitDrawTx env st.db inp res with
      | .error e => (some e, st)
      | .ok none => (none, st)
      | .ok (some (db1, totalOrders, totalPayout)) =>
        (none, { db := db1, kv := drawCache env st.kv inp res totalOrders totalPayout })

/-! ## `internal/common/helper/requtil.go` and `internal/controller/api/game.go` -/

/-- The match of `moneyRe`, the pattern `^(?:0|[1-9]\d*)(?:\.\d{1,2})?$`: an
integer part without a leading zero, then at most one point followed by one
or two digits. -/
def matchMoney (cs : List Char) : Bool :=
  let intPart := cs.takeWhile (fun c => c ≠ '.')
  let rest := cs.dropWhile (fun c => c ≠ '.')
  let intOk : Bool :=
    match intPart with
    | [] => false
    | ['0'] => true
    | c :: more => c.isDigit && c ≠ '0' && more.all Char.isDigit
  let fracOk : Bool :=
    match rest with
    | [] => true
    | _ :: frac => (frac.length = 1 || frac.length = 2) && frac.all Char.isDigit
  intOk && fracOk

/-- `IsMoneyFormat`. -/
def IsMoneyFormat (s : String) : Bool := matchMoney (TrimSpace s.toList)

/-- The parsed body of a bet request. -/
structure BetParsed where
  GameId : String
  RoomId : String
  GameRoundId : String
  UserId : Int
  BetAmount : String
  PlayType : Int
  Platform : Int
  IdempotencyKey : String
deriving DecidableEq, Repr

/-- `ValidateBet`: whether the parsed request is accepted, and the message of
the refusal. -/
def ValidateBet (inp : BetParsed) : Bool × String :=
  if inp.GameId = "" ∨ inp.RoomId = "" ∨ inp.GameRoundId = "" ∨
      TrimSpace inp.BetAmount.toList = [] ∨ inp.PlayType = 0 ∨ inp.IdempotencyKey = "" then
    (false, "missing or invalid fields")
  else if inp.GameId.utf8ByteSize > 64 ∨ inp.RoomId.utf8ByteSize > 64 ∨
      inp.GameRoundId.utf8ByteSize > 64 ∨ inp.IdempotencyKey.utf8ByteSize > 64 ∨
      inp.BetAmount.utf8ByteSize > 32 then
    (false, "invalid request")
  else if inp.PlayType ≠ 1 ∧ inp.PlayType ≠ 2 ∧ inp.PlayType ≠ 3 then
    (false, "play_type must be 1|2|3")
  else if !IsMoneyFormat inp.BetAmount then
    (false, "bet_amount must be numeric with up to 2 decimals")
  else (true, "")

/-- What the authentication middleware left in the request context; `none`
where it left nothing. -/
structure PlatformData where
  platformID : Option Int
  platformUserID : Option String
  platformUserName : Option String
deriving DecidableEq, Repr

/-- The answer of the bet endpoint: a refusal of the request before the
service is called, or what `PlaceBet` returned. -/
inductive BetReply where
  | badRequest (msg : String)
  | served (r : Except Err BetOutput)
deriving DecidableEq, Repr

/-- The input `BetController.Bet` hands to `PlaceBet`: the platform fields of
the middleware, or platform `0` and the request's `user_id` when the
middleware named no user. -/
def betInputOf (bp : BetParsed) (auth : PlatformData) (traceID : String) : BetInput :=
  let platformID := auth.platformID.getD 0
  let platformUserID := auth.platformUserID.getD ""
  let platformUserName := auth.platformUserName.getD ""
  let fallback : Bool := platformUserID = "" ∧ bp.UserId ≠ 0
  { GameID := bp.GameId, RoomID := bp.RoomId, GameRoundID := bp.GameRoundId,
    PlatformID := if fallback then 0 else platformID,
    PlatformUserID := if fallback then toString bp.UserId else platformUserID,
    PlatformUserName := platformUserName, BetAmount := bp.BetAmount,
    PlayType := bp.PlayType, IdempotencyKey := bp.IdempotencyKey, TraceID := traceID }

/-- `BetController.Bet`, from the parsed body on: `ValidateBet`, then
`PlaceBet`. -/
def Bet (env : Env) (st : State) (bp : BetParsed) (auth : PlatformData) (traceID : String) :
    BetReply × State :=
  let v := ValidateBet bp
  if !v.1 then (.badRequest v.2, st)
  else
    let r := PlaceBet env st (betInputOf bp auth traceID)
    (.served r.1, r.2)

/-! ## Card lists -/

/-- A list of characters without its trailing white space. -/
def trimRight (cs : List Char) : List Char :=
  (cs.reverse.dropWhile isSpace).reverse

/-- The card list `D<d>,T<t>,R<tag>`, with the three letters as given. -/
def cardList (cD : Char) (d : Nat) (cT : Char) (t : Nat) (cR : Char) (tag : List Char) :
    String :=
  String.mk (cD :: (toString d).toList ++ ',' :: cT :: (toString t).toList ++ ',' :: cR :: tag)

/-- The card list `D<d>,T<t>`, without an `R` token. -/
def cardPair (cD : Char) (d : Nat) (cT : Char) (t : Nat) : String :=
  String.mk (cD :: (toString d).toList ++ ',' :: cT :: (toString t).toList)

/-- Whether a token of a card list, trimmed and in lower case, is the letter
`c` followed by a number from 1 to 13. -/
def isCardToken (c : Char) (token : List Char) : Bool :=
  match ToLower (TrimSpace token) with
  | [] => false
  | x :: rest =>
    x = c &&
      (match Atoi rest with
       | some n => decide (1 ≤ n ∧ n ≤ 13)
       | none => false)

/-! ## `internal/common/response/response.go` and the answers of `BetController.Bet` -/

def CodeSuccess : Int := 0
def CodeBadRequest : Int := 1000
def CodeDuplicateInFlight : Int := 2001
def CodeDuplicateKey : Int := 2002
def CodeInvalidState : Int := 2003
def CodeBetWindowNotStart : Int := 2004
def CodeBetWindowClosed : Int := 2005
def CodeConflictingBet : Int := 2006
def CodeInsufficientBalance : Int := 2007
def CodeInvalidStateDraw : Int := 2008
def CodeInvalidStateGameEnd : Int := 2009
def CodeNotFound : Int := 4004
def CodeSystemError : Int := 5000

/-- The map `ErrorMessages`. -/
def ErrorMessages : List (Int × String) :=
  [ (CodeSuccess, "success"),
    (CodeBadRequest, "参数错误"),
    (2000, "业务处理失败"),
    (CodeDuplicateInFlight, "重复请求进行中，请稍后重试"),
    (CodeDuplicateKey, "重复的请求"),
    (CodeInvalidState, "当前状态不允许此操作"),
    (CodeBetWindowNotStart, "投注窗口未开始"),
    (CodeBetWindowClosed, "投注窗口已关闭"),
    (CodeConflictingBet, "不能同时投注龙和虎"),
    (CodeInsufficientBalance, "余额不足"),
    (CodeInvalidStateDraw, "当前状态不允许开奖"),
    (CodeInvalidStateGameEnd, "游戏尚未开奖，不能结束"),
    (CodeNotFound, "资源不存在"),
    (CodeSystemError, "系统繁忙，请稍后重试") ]

/-- `getErrorMessage`. -/
def getErrorMessage (code : Int) : String :=
  match ErrorMessages.find? (fun p => p.1 = code) with
  | some p => p.2
  | none => "未知错误"

/-- The body `APIResponse`, without the trace id and the timestamp. -/
structure APIResponse where
  Code : Int
  Message : String
  Data : Option BetOutput
deriving DecidableEq, Repr

/-- What a handler leaves on the wire: the HTTP status (200 unless set), the
`Retry-After` header and the JSON body. -/
structure HTTPAnswer where
  Status : Nat
  RetryAfter : Option String
  Body : APIResponse
deriving DecidableEq, Repr

/-- `response.Success`. -/
def response.Success (data : BetOutput) : HTTPAnswer :=
  { Status := 200, RetryAfter := none,
    Body := { Code := CodeSuccess, Message := getErrorMessage CodeSuccess, Data := some data } }

/-- `response.Error`. -/
def response.Error (httpStatus : Nat) (code : Int) : HTTPAnswer :=
  { Status := httpStatus, RetryAfter := none,
    Body := { Code := code, Message := getErrorMessage code, Data := none } }

/-- `response.ErrorWithMessage`. -/
def response.ErrorWithMessage (httpStatus : Nat) (code : Int) (message : String) : HTTPAnswer :=
  { Status := httpStatus, RetryAfter := none,
    Body := { Code := code, Message := message, Data := none } }

/-- `response.BadRequest`. -/
def response.BadRequest (message : String) : HTTPAnswer :=
  response.ErrorWithMessage 400 CodeBadRequest message

/-- `response.Conflict`. -/
def response.Conflict (code : Int) : HTTPAnswer :=
  response.Error 409 code

/-- `response.InternalError`. -/
def response.InternalError : HTTPAnswer :=
  response.Error 500 CodeSystemError

/-- `response.Accepted`. -/
def response.Accepted (message : String) : HTTPAnswer :=
  { Status := 202, RetryAfter := some "1",
    Body := { Code := CodeDuplicateInFlight, Message := message, Data := none } }

/-- `errors.Is` for a sentinel `target`: the error or one of the errors it
wraps is the target. Sentinels are told apart by their text. -/
def errorsIs (err target : Err) : Bool :=
  err = target ||
    match err with
    | .wrap _ inner => errorsIs inner target
    | _ => false

/-- The error branch of `BetController.Bet`: the answer to an error of
`PlaceBet`. -/
def betErrorAnswer (err : Err) : HTTPAnswer :=
  if isMySQL1062 err then response.Conflict CodeDuplicateKey
  else if errorsIs err ErrDuplicateInFlight then
    response.Accepted "重复请求进行中，请稍后重试"
  else if errorsIs err ErrInvalidStateBet then response.Conflict CodeInvalidState
  else if errorsIs err ErrBetWindowNotStart then response.Conflict CodeBetWindowNotStart
  else if errorsIs err ErrBetWindowClosed then response.Conflict CodeBetWindowClosed
  else if errorsIs err ErrConflictingPlayTypes then response.Conflict CodeConflictingBet
  else
    let errMsg := err.Error
    if Contains errMsg.toList "invalid bet amount".toList ||
        Contains errMsg.toList "bet amount must be positive".toList ||
        Contains errMsg.toList "below minimum limit".toList ||
        Contains errMsg.toList "exceeds maximum limit".toList then
      response.BadRequest errMsg
    else if Contains errMsg.toList "insufficient balance".toList then
      response.BadRequest "余额不足"
    else if Contains errMsg.toList "user disabled".toList then
      response.BadRequest "用户状态异常"
    else response.InternalError

/-- The answer `BetController.Bet` writes for a reply. -/
def betAnswer (reply : BetReply) : HTTPAnswer :=
  match reply with
  | .badRequest msg => response.BadRequest msg
  | .served (.error err) => betErrorAnswer err
  | .served (.ok out) => response.Success out

/-! ## `common/helper/luhn.go` -/

/-- One turn of the loop shared by `LuhnCheck` and `luhnDigit`: the byte minus
`'0'` (a `byte` subtraction), doubled and reduced by 9 when `double` is set,
is added to the sum, and `double` flips. Strings are their lists of characters,
one byte each. -/
def luhnStep (acc : Nat × Bool) (c : Char) : Nat × Bool :=
  let d := (c.toNat + 256 - 48) % 256
  let d := if acc.2 then (if d * 2 > 9 then d * 2 - 9 else d * 2) else d
  (acc.1 + d, !acc.2)

/-- `LuhnCheck`. -/
def LuhnCheck (code : List Char) : Bool :=
  if code.length = 0 then false
  else if code.any (fun c => c < '0' || c > '9') then false
  else (code.reverse.foldl luhnStep (0, false)).1 % 10 = 0

/-- `luhnDigit`. -/
def luhnDigit (body : List Char) : Nat :=
  (10 - (body.reverse.foldl luhnStep (0, true)).1 % 10) % 10

/-- The loop of `Generate9PlusLuhn`: `count` digits, the call number `i` of
`rand.Int` giving `rnd i`, a number below 10 or an error. -/
def randomDigits (rnd : Nat → Except Err (Fin 10)) : Nat → Nat → Except Err (List Char)
  | 0, _ => .ok []
  | count + 1, i =>
    match rnd i with
    | .error e => .error e
    | .ok n =>
      match randomDigits rnd count (i + 1) with
      | .error e => .error e
      | .ok rest => .ok (Char.ofNat (48 + n.val) :: rest)

/-- `Generate9PlusLuhn`. -/
def Generate9PlusLuhn (rnd : Nat → Except Err (Fin 10)) : Except Err (List Char) :=
  match randomDigits rnd 9 0 with
  | .error e => .error e
  | .ok body => .ok (body ++ [Char.ofNat (48 + luhnDigit body)])

/-- The mutation of the test `TestLuhnGenerateAndCheck` on a code of 10
bytes: the byte at index 9 is replaced by the digit after it, modulo 10. -/
def mutateLast (code : List Char) : List Char :=
  code.set 9 (Char.ofNat (48 + (((code.getD 9 '0').toNat + 256 - 48) % 256 + 1) % 10))

/-! ## `internal/model/outbox.go` and `internal/worker/outbox_dispatcher.go` -/

/-- The projection `OutboxRow` the dispatcher reads. -/
structure OutboxRow where
  ID : Int
  Topic : String
  BizKey : String
  Payload : List (String × JVal)
deriving DecidableEq, Repr

/-- What one tick of the dispatcher meets outside the table: whether the
listing fails, the outcome of `Publish` for a row (`none` on success, else the
text `truncateErr` makes of the error), and whether the status update of a row
fails. -/
structure PublishEnv where
  listErr : Bool
  publish : OutboxRow → Option String
  markErr : Int → Bool

/-- `model.ListOutboxPending`: the rows with `status = 1 AND retry_count < 10`,
ordered by id, at most `limit` of them. -/
def ListOutboxPending (fail : Bool) (db : DB) (limit : Nat) : Except Err (List OutboxRow) :=
  if fail then .error ErrBadConn
  else
    .ok ((((db.outbox.filter (fun o => o.Status = 1 ∧ o.RetryCount < 10)).insertionSort
      (fun a b => a.ID ≤ b.ID)).take limit).map
      (fun o => { ID := o.ID, Topic := o.Topic, BizKey := o.BizKey, Payload := o.Payload }))

/-- `model.MarkOutboxSent`: `status = 2` on the row of the id. -/
def MarkOutboxSent (fail : Bool) (db : DB) (id : Int) : Except Err DB :=
  if fail then .error ErrBadConn
  else
    .ok { db with outbox := db.outbox.map (fun o =>
      if o.ID = id then { o with Status := 2 } else o) }

/-- `model.MarkOutboxFailed`: on the row of the id, `status` becomes 3 when the
stored `retry_count` is at least 9 and 1 otherwise, the error text is stored,
and `retry_count` grows by one. -/
def MarkOutboxFailed (fail : Bool) (db : DB) (id : Int) (lastError : String) : Except Err DB :=
  if fail then .error ErrBadConn
  else
    .ok { db with outbox := db.outbox.map (fun o =>
      if o.ID = id then
        { o with Status := (if o.RetryCount ≥ 9 then 3 else 1), LastError := lastError,
                 RetryCount := o.RetryCount + 1 }
      else o) }

/-- The body of the dispatcher loop for one listed row: `Publish`, then
`MarkOutboxFailed` or `MarkOutboxSent`, whose errors are dropped or logged.
The second component is the list of the ids handed to `Publish` so far. -/
def dispatchRow (penv : PublishEnv) (acc : DB × List Int) (r : OutboxRow) : DB × List Int :=
  let attempts := acc.2 ++ [r.ID]
  match penv.publish r with
  | some lastError =>
    match MarkOutboxFailed (penv.markErr r.ID) acc.1 r.ID lastError with
    | .ok db1 => (db1, attempts)
    | .error _ => (acc.1, attempts)
  | none =>
    match MarkOutboxSent (penv.markErr r.ID) acc.1 r.ID with
    | .ok db1 => (db1, attempts)
    | .error _ => (acc.1, attempts)

/-- One tick of the dispatcher of `StartOutboxDispatcher`: the pending rows
are listed, at most 100, and handled in turn. -/
def dispatchTick (penv : PublishEnv) (acc : DB × List Int) : DB × List Int :=
  match ListOutboxPending penv.listErr acc.1 100 with
  | .error _ => acc
  | .ok rows => rows.foldl (dispatchRow penv) acc

/-! ## Runs of the service -/

/-- The four families of Redis keys. -/
inductive KvFamily where
  | idemResult | idemLock | roundInfo | roundResult
deriving DecidableEq, Repr

/-- The expiry of one Redis key at the end of its TTL. -/
def expireKey (r : KV) (fam : KvFamily) (k : String) : KV :=
  match fam with
  | .idemResult => { r with idemResult := delKey k r.idemResult }
  | .idemLock => { r with idemLock := delKey k r.idemLock }
  | .roundInfo => { r with roundInfo := delKey k r.roundInfo }
  | .roundResult => { r with roundResult := delKey k r.roundResult }

/-- One move of the system: a call of the service, or the expiry of a Redis
key. -/
inductive Step : State → State → Prop where
  | bet (env : Env) (st : State) (inp : BetInput) : Step st (PlaceBet env st inp).2
  | event (env : Env) (st : State) (inp : GameEventInput) : Step st (Handle env st inp).2
  | draw (env : Env) (st : State) (inp : DrawInput) : Step st (SubmitDrawResult env st inp).2
  | expire (st : State) (r : KV) (fam : KvFamily) (k : String) (h : st.kv = some r) :
      Step st { st with kv := some (expireKey r fam k) }

/-- A state before any round, order or idempotency key exists; users and the
Redis client are as they come. -/
def Initial (st : State) : Prop :=
  st.db.rounds = [] ∧ st.db.orders = [] ∧ st.db.ledger = [] ∧ st.db.idemKeys = [] ∧
    st.db.outbox = [] ∧ st.db.settlementLog = [] ∧ st.db.audit = [] ∧
    (∀ r, st.kv = some r → r.idemResult = [] ∧ r.idemLock = [])

/-- The states the service reaches from an initial state. -/
inductive Reachable : State → Prop where
  | init (st : State) (h : Initial st) : Reachable st
  | step (st st1 : State) (h : Reachable st) (hs : Step st st1) : Reachable st1

/-- The facts of a `PlaceBet` transaction that commits: every check passes
and every write succeeds. -/
structure BetCommitted (env : Env) (db : DB) (inp : BetInput) (amtDec : Dec)
    (user : Customers) (tx : DB) (round : GameRoundInfo) (tx1 tx2 : DB) (afterDec : Dec) :
    Prop where
  begin_ok : env.dbErr .beginTx = false
  user_ok : getOrCreateUserInTx env db inp.PlatformID inp.PlatformUserID
    inp.PlatformUserName = .ok (user, tx)
  round_ok : GetRoundForUpdate env tx inp.GameRoundID = .ok round
  betting : round.GameStatus = 2
  window_ok : checkBetWindow env.now round.BetStartTime round.BetStopTime = none
  no_conflict : checkConflictingBets env tx inp.GameRoundID inp.PlatformID
    inp.PlatformUserID inp.PlayType = .ok false
  idem_ok : IdempotencyKey.Insert env tx
    { IdempotencyKey := inp.IdempotencyKey, Purpose := "bet",
      Ref := generateBillNo env user.ID } = .ok tx1
  writes_ok : placeBetWrites env tx1 inp user amtDec (calcOdds (ptMap inp.PlayType))
    (generateBillNo env user.ID) = .ok (tx2, afterDec)
  commit_ok : env.dbErr .commit = false

/-- The facts of a `PlaceBet` transaction that reaches the user-status and
balance checks: the transaction is open, the user and the round are read, the
round is in betting, the clock is inside the window, no bet conflicts, and
the idempotency key is taken. -/
structure BetReachesWrites (env : Env) (db : DB) (inp : BetInput)
    (user : Customers) (tx : DB) (round : GameRoundInfo) (tx1 : DB) : Prop where
  begin_ok : env.dbErr .beginTx = false
  user_ok : getOrCreateUserInTx env db inp.PlatformID inp.PlatformUserID
    inp.PlatformUserName = .ok (user, tx)
  round_ok : GetRoundForUpdate env tx inp.GameRoundID = .ok round
  betting : round.GameStatus = 2
  window_ok : checkBetWindow env.now round.BetStartTime round.BetStopTime = none
  no_conflict : checkConflictingBets env tx inp.GameRoundID inp.PlatformID
    inp.PlatformUserID inp.PlayType = .ok false
  idem_ok : IdempotencyKey.Insert env tx
    { IdempotencyKey := inp.IdempotencyKey, Purpose := "bet",
      Ref := generateBillNo env user.ID } = .ok tx1

/-- The result cache after a committed bet. -/
def cacheResult (env : Env) (kv : Option KV) (key : String) (out : BetOutput) : Option KV :=
  match kv with
  | none => none
  | some r =>
    if env.kvErr .setResult then some r
    else some { r with idemResult := setKey key out r.idemResult }

/-- The stored status code of a round. -/
def roundStatus (st : State) (roundID : String) : Option Int :=
  (st.db.rounds.find? (fun r => r.GameRoundID = roundID)).map (fun r => r.GameStatus)

/-- The ledger row a committing `PlaceBet` stores. -/
def betLedgerStored (inp : BetInput) (user : Customers) (amtDec : Dec) (billNo : String) :
    WalletLedger :=
  { betLedger inp user amtDec billNo with
    BizType := ledgerBizCode (betLedger inp user amtDec billNo),
    BizTypeStr := ledgerBizStr (betLedger inp user amtDec billNo) }

/-- What the writes of a committing `PlaceBet` leave in the transaction: the
new balance on the user's rows, one ledger row, one order row, one outbox
row, and nothing else. -/
structure BetWritten (env : Env) (tx1 tx2 : DB) (inp : BetInput) (user : Customers)
    (amtDec odds : Dec) (billNo : String) : Prop where
  active : user.Status = 1
  covered : ¬ (balanceDec user).Cmp amtDec < 0
  customers_eq : tx2.customers = tx1.customers.map (fun u =>
    if u.ID = user.ID then
      { u with Balance := (((balanceDec user).Sub amtDec).Round 2).InexactFloat64.toColumn }
    else u)
  ledger_eq : tx2.ledger = tx1.ledger ++ [betLedgerStored inp user amtDec billNo]
  orders_eq : tx2.orders = tx1.orders ++ [orderRow env (betOrder inp user amtDec odds billNo)]
  outbox_len : tx2.outbox.length = tx1.outbox.length + 1
  rounds_eq : tx2.rounds = tx1.rounds
  idem_eq : tx2.idemKeys = tx1.idemKeys
  log_eq : tx2.settlementLog = tx1.settlementLog
  audit_eq : tx2.audit = tx1.audit
  fresh : ∀ r ∈ tx1.orders, r.BillNo ≠ billNo ∧ r.IdempotencyKey ≠ inp.IdempotencyKey

/-! ## Invariants of the stored state -/

/-- The entries of the result cache; none without a Redis client. -/
def resultCache (kv : Option KV) : List (String × BetOutput) :=
  match kv with
  | none => []
  | some r => r.idemResult

/-- The identity columns of an order: bill number, idempotency key, platform
and platform user. -/
def orderIdent (o : OrderRow) : String × String × Int × String :=
  (o.BillNo, o.IdempotencyKey, o.PlatformID, o.PlatformUserID)

/-- The identity columns of a user. -/
def customerIdent (u : Customers) : Int × Int × String :=
  (u.ID, u.PlatformID, u.PlatformUserID)

/-- Two table states with the same idempotency keys, the same orders up to
their settlement columns, and the same users up to their balances. -/
def SameBets (db db1 : DB) : Prop :=
  db1.idemKeys = db.idemKeys ∧ db1.orders.map orderIdent = db.orders.map orderIdent ∧
    db1.customers.map customerIdent = db.customers.map customerIdent

/-- The invariant of bets: every idempotency key is a bet key with a
non-empty `ref` and occurs once; every order has the row of its key, whose
`ref` is its bill number; no two orders share a key; the user of every order
is stored; every cached result carries the `ref` of its key. -/
structure BetInv (st : State) : Prop where
  idem_bet : ∀ r ∈ st.db.idemKeys, r.Purpose = "bet" ∧ r.Ref ≠ ""
  idem_nodup : (st.db.idemKeys.map (fun r => r.IdempotencyKey)).Nodup
  order_idem : ∀ o ∈ st.db.orders, ∃ r ∈ st.db.idemKeys,
    r.IdempotencyKey = o.IdempotencyKey ∧ r.Ref = o.BillNo
  order_nodup : (st.db.orders.map (fun o => o.IdempotencyKey)).Nodup
  order_user : ∀ o ∈ st.db.orders, ∃ u ∈ st.db.customers,
    u.PlatformID = o.PlatformID ∧ u.PlatformUserID = o.PlatformUserID
  cache_idem : ∀ k out, lookupKey k (resultCache st.kv) = some out →
    ∃ r ∈ st.db.idemKeys, r.IdempotencyKey = k ∧ r.Ref = out.BillNo

/-- Two table states that differ at most in the rounds, the outbox and the
audit log. -/
def KeepsBets (db db1 : DB) : Prop :=
  db1.customers = db.customers ∧ db1.orders = db.orders ∧ db1.ledger = db.ledger ∧
    db1.idemKeys = db.idemKeys ∧ db1.settlementLog = db.settlementLog

/-- The status code of a round in a list of rounds. -/
def statusIn (rounds : List GameRoundInfo) (roundID : String) : Option Int :=
  (rounds.find? (fun r => r.GameRoundID = roundID)).map (fun r => r.GameStatus)

/-- No round of the first list has a lower status in the second one. -/
def RoundsAdvance (rounds rounds1 : List GameRoundInfo) : Prop :=
  ∀ id c, statusIn rounds id = some c → ∃ c1, statusIn rounds1 id = some c1 ∧ c ≤ c1

/-- Every stored status code is at most `7`. -/
def StatusBounded (st : State) : Prop :=
  ∀ r ∈ st.db.rounds, r.GameStatus ≤ 7

/-- What a successful `Handle` writes on the row of its round: the window at
`game_start`, the stop time at `game_stop`, and the new status code. -/
def handleRow (env : Env) (evtStr : String) (nextCode : Int) (r : GameRoundInfo) :
    GameRoundInfo :=
  if evtStr = EvtGameStart then
    { r with BetStartTime := env.now,
             BetStopTime := wrapInt64 (env.now + wrapInt64 (betWindowSeconds * 1000)),
             GameStatus := nextCode }
  else if evtStr = EvtGameStop then
    { r with BetStopTime := env.now, GameStatus := nextCode }
  else { r with GameStatus := nextCode }

/-- What a settling `SubmitDrawResult` writes on the row of its round. -/
def drawRow (env : Env) (inp : DrawInput) (res : String) (r : GameRoundInfo) :
    GameRoundInfo :=
  { r with CardList := inp.CardList, GameResult := toPlayTypeCode res, GameResultStr := res,
           GameStatus := 6, GameDrawTime := env.now, IsSettled := 1 }

/-- The order `ListByRoundForUpdate` makes of a stored row: the selected
columns, the play type as its name. -/
def listedOrder (r : OrderRow) : Order :=
  { BillNo := r.BillNo, RoomID := "", GameRoundID := "", GameID := "",
    UserID := r.UserID, PlatformID := 0, PlatformUserID := "",
    UserName := r.UserName, BetAmount := r.BetAmount,
    PlayType := fromPlayTypeCode r.PlayType, BetStatus := 0, BetTime := 0,
    BillStatus := 0, GameResult := 0, WinAmount := ⟨0, 0⟩, BetOdds := r.BetOdds,
    Currency := r.Currency, IdempotencyKey := "", TraceID := "" }

/-- Whether a stored row is an order of the round that waits for its
settlement: bill status `1` (pending) and bet status `2` (success). -/
def isPending (roundID : String) (r : OrderRow) : Bool :=
  r.GameRoundID = roundID ∧ r.BillStatus = 1 ∧ r.BetStatus = 2

/-- What one `UpdateSettlement` of the first settlement loop writes on a
stored row: the payout of the listed order `o`, on the rows of its bill
number. -/
def settleRow (res : String) (code : Int) (r : OrderRow) (o : Order) : OrderRow :=
  if r.BillNo = o.BillNo then
    { r with WinAmount := settlePayout o res, BillStatus := 2, GameResult := code }
  else r

/-- A stored row after its settlement with the outcome `res`: the payout of
`settlePayout`, bill status `2` (settled), the code of the outcome. -/
def settledRow (res : String) (r : OrderRow) : OrderRow :=
  { r with WinAmount := settlePayout (listedOrder r) res, BillStatus := 2,
           GameResult := resultToCode res }

/-- The invariant of settlements: bill numbers are not repeated; every order
has bet status `2`; every settlement log row belongs to a stored round, and
the rounds of a settlement log row are marked as settled. -/
structure SettleInv (st : State) : Prop where
  bill_nodup : (st.db.orders.map (fun o => o.BillNo)).Nodup
  bet_status : ∀ o ∈ st.db.orders, o.BetStatus = 2
  log_round : ∀ l ∈ st.db.settlementLog, ∃ r ∈ st.db.rounds, r.GameRoundID = l.GameRoundID
  log_settled : ∀ l ∈ st.db.settlementLog, ∀ r ∈ st.db.rounds,
    r.GameRoundID = l.GameRoundID → r.IsSettled = 1

/-- The link between the result, the settled mark and the status of a stored
round: the result code is set exactly on the rounds marked as settled, and
those are the rounds with status code 6 (settled) or 7 (finished). -/
def RowSettled (r : GameRoundInfo) : Prop :=
  (r.GameResult ≠ 0 ↔ r.IsSettled = 1) ∧
  (r.IsSettled = 1 ↔ (r.GameStatus = 6 ∨ r.GameStatus = 7))

/-- The invariant of the round table: round ids are unique and not empty, and
every round satisfies `RowSettled`. -/
structure RoundInv (st : State) : Prop where
  ids_nodup : (st.db.rounds.map (fun r => r.GameRoundID)).Nodup
  ids_named : ∀ r ∈ st.db.rounds, r.GameRoundID ≠ ""
  settled : ∀ r ∈ st.db.rounds, RowSettled r

/-- The ledger rows the third settlement loop writes for one user: one
`settle` row per paying order, from the balance `cur` on. -/
def settleLedgerRows (inp : DrawInput) : List (Order × Dec) → Dec → List WalletLedger
  | [], _ => []
  | (o, payoutDec) :: rest, cur =>
    { UserID := o.UserID, BizType := 2, BizTypeStr := "settle", Amount := payoutDec,
      BeforeAmount :=
        ((((cur.Add payoutDec).Round 2).Sub payoutDec).Round 2).InexactFloat64.toColumn,
      AfterAmount := ((cur.Add payoutDec).Round 2).InexactFloat64.toColumn,
      Currency := o.Currency, BillNo := o.BillNo, GameRoundID := inp.GameRoundID,
      GameID := inp.GameID, RoomID := inp.RoomID, Remark := "bet payout",
      TraceID := inp.TraceID } ::
      settleLedgerRows inp rest ((cur.Add payoutDec).Round 2)

/-- The balance of the user with the given id, as `GetUserByIDForUpdate`
reads it; zero without such a user. -/
def balanceOf (customers : List Customers) (userID : Int) : Dec :=
  match customers.find? (fun u => u.ID = userID) with
  | some u => u.Balance
  | none => ⟨0, 0⟩

/-- The balance of the user with the given id as the settlement computes
with it: the decimal `decimal.NewFromFloat` makes of the float64 field. -/
def balanceRead (customers : List Customers) (userID : Int) : Dec :=
  NewFromFloat (scanFloat64 (balanceOf customers userID))

/-- The balance the settlement stores for one settlement record. -/
def creditedBalance (customers : List Customers) (us : userSettlement) : Dec :=
  (((balanceRead customers us.userID).Add (NewFromFloat us.totalPayout)).Round
    2).InexactFloat64.toColumn

/-- The users after the credit of one settlement record. -/
def creditUser (customers : List Customers) (us : userSettlement) : List Customers :=
  customers.map (fun u =>
    if u.ID = us.userID then { u with Balance := creditedBalance customers us } else u)

/-- The users after the third settlement loop. -/
def settleUsersCustomers : List userSettlement → List Customers → List Customers
  | [], customers => customers
  | us :: rest, customers => settleUsersCustomers rest (creditUser customers us)

/-- The ledger rows of the third settlement loop, user by user. -/
def settleUsersRows (inp : DrawInput) : List userSettlement → List Customers → List WalletLedger
  | [], _ => []
  | us :: rest, customers =>
    settleLedgerRows inp (us.orders.zip us.payoutAmounts) (balanceRead customers us.userID) ++
      settleUsersRows inp rest (creditUser customers us)

/-- The outbox grows by rows as `Outbox.Insert` writes them: pending, never
tried, with the next id. -/
inductive OutboxGrows : List Outbox → List Outbox → Prop where
  | refl (a : List Outbox) : OutboxGrows a a
  | insert (a b : List Outbox) (row : Outbox) (h : OutboxGrows a b)
      (hid : row.ID = (b.map (fun o => o.ID)).foldl max 0 + 1)
      (hstatus : row.Status = 1) (hretry : row.RetryCount = 0) : OutboxGrows a (b ++ [row])

/-- The runs of the service together with its dispatcher: a state of the
service and the ids handed to `Publish` so far. With `sound` set, the status
updates of the dispatcher do not fail. -/
inductive Dispatched (sound : Bool) : State × List Int → Prop where
  | init (st : State) (h : Initial st) : Dispatched sound (st, [])
  | service (st st1 : State) (attempts : List Int) (h : Dispatched sound (st, attempts))
      (hs : Step st st1) : Dispatched sound (st1, attempts)
  | tick (st : State) (attempts : List Int) (penv : PublishEnv)
      (h : Dispatched sound (st, attempts))
      (hsound : sound = true → ∀ id, penv.markErr id = false) :
      Dispatched sound
        ({ st with db := (dispatchTick penv (st.db, attempts)).1 },
          (dispatchTick penv (st.db, attempts)).2)

/-- The account of one outbox row against the publish attempts: a pending row
was tried as often as its `retry_count` says, at most 9 times; a sent row once
more; a dead row 10 times. -/
def rowCounted (attempts : List Int) (o : Outbox) : Prop :=
  (o.Status = 1 ∧ 0 ≤ o.RetryCount ∧ o.RetryCount ≤ 9 ∧
    (attempts.count o.ID : Int) = o.RetryCount) ∨
  (o.Status = 2 ∧ 0 ≤ o.RetryCount ∧ o.RetryCount ≤ 9 ∧
    (attempts.count o.ID : Int) = o.RetryCount + 1) ∨
  (o.Status = 3 ∧ o.RetryCount = 10 ∧ (attempts.count o.ID : Int) = 10)

/-- The invariant of the outbox: ids are not repeated, and a pending row has
`retry_count` at most 9. -/
structure OutboxInv (outbox : List Outbox) : Prop where
  ids_nodup : (outbox.map (fun o => o.ID)).Nodup
  pending_bound : ∀ o ∈ outbox, o.Status = 1 → o.RetryCount ≤ 9

/-- The invariant of the publish attempts, when the status updates of the
dispatcher succeed: every attempt was made on a stored row, and every row is
accounted for as `rowCounted` says. -/
structure AttemptInv (outbox : List Outbox) (attempts : List Int) : Prop where
  known : ∀ id ∈ attempts, ∃ o ∈ outbox, o.ID = id
  counted : ∀ o ∈ outbox, rowCounted attempts o

/-- The test `payout > 0` of the second settlement loop. -/
def paying (res : String) (o : Order) : Bool :=
  (settlePayout o res).Cmp ⟨0, 0⟩ = 1

/-- The orders of the settlement records with their payouts, record by
record. -/
def userPairs : List userSettlement → List (Order × Dec)
  | [] => []
  | us :: rest => us.orders.zip us.payoutAmounts ++ userPairs rest

/-- What the second settlement loop has built after the orders `orders`: one
record per user with a paying order, holding the user's paying orders in
their order, their payouts and the sum of the payouts. -/
structure Grouped (res : String) (orders : List Order) (userMap : List userSettlement) :
    Prop where
  ids_nodup : (userMap.map (fun us => us.userID)).Nodup
  orders_eq : ∀ us ∈ userMap,
    us.orders = orders.filter (fun o => paying res o ∧ o.UserID = us.userID)
  payouts_eq : ∀ us ∈ userMap, us.payoutAmounts = us.orders.map (fun o => settlePayout o res)
  total_eq : ∀ us ∈ userMap, us.totalPayout =
    us.payoutAmounts.foldl (fun t p => t.add p.InexactFloat64) ⟨0, 0⟩
  covered : ∀ o ∈ orders, paying res o = true → ∃ us ∈ userMap, us.userID = o.UserID

/-- The columns of a ledger row that the settlement takes from the order and
its payout: user, business type, bill number, round and amount. -/
def ledgerKey (l : WalletLedger) : Int × Int × String × String × Dec :=
  (l.UserID, l.BizType, l.BillNo, l.GameRoundID, l.Amount)

/-- The same columns, as the settlement of the round of `inp` fills them
for an order and its payout. -/
def pairKey (inp : DrawInput) (q : Order × Dec) : Int × Int × String × String × Dec :=
  (q.1.UserID, 2, q.1.BillNo, inp.GameRoundID, q.2)

/-- The sum of `win_amount` over the orders of a round. -/
def winSum (orders : List OrderRow) (roundID : String) : ℚ :=
  ((orders.filter (fun o => o.GameRoundID = roundID)).map (fun o => o.WinAmount.toRat)).sum

/-- The sum of `amount` over the ledger rows of a round with business type
`settle` (2). -/
def settleSum (ledger : List WalletLedger) (roundID : String) : ℚ :=
  ((ledger.filter (fun l => l.BizType = 2 ∧ l.GameRoundID = roundID)).map
    (fun l => l.Amount.toRat)).sum

/-- The invariant of payouts: stakes and odds are not negative and stakes
have at most two fractional digits; a pending order has win amount zero; a
`settle` ledger row carries the bill number of a settled order; and for every
round the win amounts of its orders add up to the amounts of its `settle`
ledger rows. -/
structure PayInv (st : State) : Prop where
  stake_nonneg : ∀ o ∈ st.db.orders, 0 ≤ o.BetAmount.toRat ∧ 0 ≤ o.BetOdds.toRat
  stake_scale : ∀ o ∈ st.db.orders, o.BetAmount.scale ≤ 2
  pending_win : ∀ o ∈ st.db.orders, o.BillStatus = 1 → o.WinAmount.toRat = 0
  settle_bill : ∀ l ∈ st.db.ledger, l.BizType = 2 →
    ∃ o ∈ st.db.orders, o.BillNo = l.BillNo ∧ o.BillStatus = 2
  sums : ∀ roundID, winSum st.db.orders roundID = settleSum st.db.ledger roundID

/-- The paying orders of a user among the pending orders of the round of
`inp`, in the order of the listing. -/
def payingOrdersOf (st : State) (inp : DrawInput) (res : String) (userID : Int) : List Order :=
  ((st.db.orders.filter (isPending inp.GameRoundID)).map listedOrder).filter
    (fun o => paying res o ∧ o.UserID = userID)

/-- The ledger trail of the specification for a balance `b` and the payouts
`p1, ..., pn`: the row `i` has amount `pi`, `before_amount` the balance plus
the payouts before `pi`, and `after_amount = before_amount + pi`. -/
def payoutTrail : ℚ → List Dec → List (Dec × ℚ × ℚ)
  | _, [] => []
  | b, p :: rest => (p, b, b + p.toRat) :: payoutTrail (b + p.toRat) rest

/-! ## Sample runs -/

/-- An environment without failures, at clock value `2000`. -/
def sampleEnv : Env :=
  { now := 2000, dateTime := "20250101000000", randomHex := "ABC", lockValue := "L",
    dbErr := fun _ => false, kvErr := fun _ => false }

/-- A user with balance `1000.00`. -/
def sampleUser : Customers :=
  { ID := 7, PlatformID := 1, PlatformUserID := "alice", Username := "Alice",
    Balance := ⟨100000, 2⟩, Status := 1 }

/-- A round in state betting with the window `[1000, 46000]`. -/
def sampleRound : GameRoundInfo :=
  { GameRoundID := "R1", GameID := "G", RoomID := "R", BetStartTime := 1000,
    BetStopTime := 46000, GameDrawTime := 0, CardList := "", GameResult := 0,
    GameResultStr := "", GameStatus := 2, IsSettled := 0, TraceID := "T" }

/-- A state before the first call, with one user and no Redis client. -/
def sampleInitial : State :=
  { db := { customers := [sampleUser], rounds := [], orders := [], ledger := [],
            idemKeys := [], outbox := [], settlementLog := [], audit := [] },
    kv := none }

/-- The events of round `R1`. -/
def sampleEvent (eventType : Int) : GameEventInput :=
  { GameID := "G", RoomID := "R", GameRoundID := "R1", EventType := eventType,
    TraceID := "T" }

/-- The state after `game_start` of round `R1` at clock value `1000`. -/
def sampleBetting : State :=
  (Handle { sampleEnv with now := 1000 } sampleInitial (sampleEvent 1)).2

/-- A bet of `100.00` on dragon in round `R1`, with idempotency key `K1`. -/
def sampleBet : BetInput :=
  { GameID := "G", RoomID := "R", GameRoundID := "R1", PlatformID := 1,
    PlatformUserID := "alice", PlatformUserName := "Alice", BetAmount := "100.00",
    PlayType := 1, IdempotencyKey := "K1", TraceID := "T" }

/-- The state after `game_stop` of round `R1` at clock value `2000`: the round
is sealed. -/
def sampleSealed : State :=
  (Handle sampleEnv sampleBetting (sampleEvent 2)).2

/-- A bet of `10.00` by a user the service has not seen yet. -/
def sampleBetNewUser : BetInput :=
  { sampleBet with PlatformUserID := "bob", PlatformUserName := "Bob", BetAmount := "10.00",
                   IdempotencyKey := "K2" }

/-- The state after the bet `sampleBet` is placed at clock value `2000`. -/
def sampleAfterBet : State :=
  (PlaceBet sampleEnv sampleBetting sampleBet).2

/-- The state after the bet `sampleBet` is placed at clock value `2000` with a
Redis client, which then holds the result under the idempotency key `K1`. -/
def sampleAfterBetRedis : State :=
  (PlaceBet sampleEnv { sampleBetting with kv := some ⟨[], [], [], []⟩ } sampleBet).2

/-- A bet of `0.015`, an amount with three fractional digits. -/
def sampleBetMilli : BetInput :=
  { sampleBet with BetAmount := "0.015", IdempotencyKey := "K3" }

/-- A bet of `0.025`, an amount with three fractional digits. -/
def sampleBetMilli25 : BetInput :=
  { sampleBet with BetAmount := "0.025", IdempotencyKey := "K4" }

/-- The tables of `sampleBetting` with the idempotency key of `sampleBet`
taken. -/
def sampleKeyTaken : DB :=
  { sampleBetting.db with
    idemKeys := [{ IdempotencyKey := "K1", Purpose := "bet",
                   Ref := "DT202501010000000007ABC" }] }

/-- The state after `game_stop` of round `R1`, with the bet `sampleBet`
placed before. -/
def sampleSealedAfterBet : State :=
  (Handle sampleEnv sampleAfterBet (sampleEvent 2)).2

/-- A bet on play type `5`, which is none of dragon, tiger and tie. -/
def sampleBetPlay5 : BetInput :=
  { sampleBet with PlayType := 5, IdempotencyKey := "K5" }

/-- A parsed bet request on play type `5`. -/
def sampleParsedPlay5 : BetParsed :=
  { GameId := "G", RoomId := "R", GameRoundId := "R1", UserId := 7, BetAmount := "100.00",
    PlayType := 5, Platform := 1, IdempotencyKey := "K5" }

/-- The platform fields of the user `alice`. -/
def sampleAuth : PlatformData :=
  { platformID := some 1, platformUserID := some "alice", platformUserName := some "Alice" }

/-- A pending order as `ListByRoundForUpdate` reads it: bill number, user,
stake, play type and odds. -/
def sampleOrder (billNo : String) (stake : Dec) (playType : String) (odds : Dec) : Order :=
  { BillNo := billNo, RoomID := "", GameRoundID := "", GameID := "", UserID := 7,
    PlatformID := 0, PlatformUserID := "", UserName := "Alice", BetAmount := stake,
    PlayType := playType, BetStatus := 0, BetTime := 0, BillStatus := 0, GameResult := 0,
    WinAmount := ⟨0, 0⟩, BetOdds := odds, Currency := "CNY", IdempotencyKey := "",
    TraceID := "" }

/-- The state after `new_card` and `game_draw` of round `R1`, with the bet
`sampleBet` placed: the round is drawn and not settled. -/
def sampleDrawn : State :=
  (Handle sampleEnv (Handle sampleEnv sampleSealedAfterBet (sampleEvent 3)).2 (sampleEvent 4)).2

/-- A draw result of round `R1` with the given card list. -/
def sampleDraw (cards : String) : DrawInput :=
  { GameID := "G", RoomID := "R", GameRoundID := "R1", CardList := cards, TraceID := "T" }

/-- The state after the draw result `D9,T8,Rd` of round `R1` is submitted in
`sampleDrawn`: the round is settled, with result dragon. -/
def sampleSettled : State :=
  (SubmitDrawResult sampleEnv sampleDrawn (sampleDraw "D9,T8,Rd")).2

/-- A parsed bet request of `2000.00` on dragon, more than the balance of
`sampleUser`. -/
def sampleParsedOver : BetParsed :=
  { GameId := "G", RoomId := "R", GameRoundId := "R1", UserId := 7, BetAmount := "2000.00",
    PlayType := 1, Platform := 1, IdempotencyKey := "K6" }

/-- A message bus that refuses every message, and status updates that succeed. -/
def samplePublishFails : PublishEnv :=
  { listErr := false, publish := fun _ => some "bus down", markErr := fun _ => false }

/-- The state `sampleBetting`, whose outbox holds the `game_started` row of
round `R1`, after the given number of dispatcher ticks against
`samplePublishFails`, with the publish attempts. -/
def sampleTicks : Nat → State × List Int
  | 0 => (sampleBetting, [])
  | n + 1 =>
    ({ (sampleTicks n).1 with
        db := (dispatchTick samplePublishFails ((sampleTicks n).1.db, (sampleTicks n).2)).1 },
      (dispatchTick samplePublishFails ((sampleTicks n).1.db, (sampleTicks n).2)).2)

/-- A message bus that refuses every message, and status updates that fail. -/
def sampleUpdatesFail : PublishEnv :=
  { listErr := false, publish := fun _ => some "bus down", markErr := fun _ => true }

/-- The state `sampleBetting` after the given number of dispatcher ticks
against `sampleUpdatesFail`, with the publish attempts. -/
def sampleLostUpdates : Nat → State × List Int
  | 0 => (sampleBetting, [])
  | n + 1 =>
    ({ (sampleLostUpdates n).1 with
        db := (dispatchTick sampleUpdatesFail
          ((sampleLostUpdates n).1.db, (sampleLostUpdates n).2)).1 },
      (dispatchTick sampleUpdatesFail ((sampleLostUpdates n).1.db, (sampleLostUpdates n).2)).2)

/-- The state after the draw result `D3,T8,Rt` of round `R1` is submitted in
`sampleDrawn`: the outcome is tiger, and the bet on dragon has lost. -/
def sampleLost : State :=
  (SubmitDrawResult sampleEnv sampleDrawn (sampleDraw "D3,T8,Rt")).2

/-- A bet of `10.00` on tie in round `R1`, with idempotency key `K7`. -/
def sampleBetTie : BetInput :=
  { sampleBet with BetAmount := "10.00", PlayType := 3, IdempotencyKey := "K7" }

/-- The state after the bets `sampleBet` and `sampleBetTie` of the user
`alice`, the second one with the random digits `DEF` in its bill number. -/
def sampleTwoBets : State :=
  (PlaceBet { sampleEnv with randomHex := "DEF" } sampleAfterBet sampleBetTie).2

/-- The state after `game_stop`, `new_card` and `game_draw` of round `R1`,
with the two bets of `sampleTwoBets` placed. -/
def sampleTwoDrawn : State :=
  (Handle sampleEnv
    (Handle sampleEnv (Handle sampleEnv sampleTwoBets (sampleEvent 2)).2 (sampleEvent 3)).2
    (sampleEvent 4)).2

/-- The state after the draw result `D8,T8,Rtie` of round `R1` is submitted in
`sampleTwoDrawn`: the outcome is tie, the bet on dragon is refunded and the bet
on tie wins. -/
def sampleTwoSettled : State :=
  (SubmitDrawResult sampleEnv sampleTwoDrawn (sampleDraw "D8,T8,Rtie")).2

/-- The state `sampleBetting` with the balance of the user set to
`100000000000000.01`, an amount that a `DECIMAL(18,2)` column holds and that
is no float64: the float64 next to it reads `100000000000000.02`. -/
def sampleRichBetting : State :=
  { sampleBetting with
    db := { sampleBetting.db with
      customers := [{ sampleUser with Balance := ⟨10000000000000001, 2⟩ }] } }

/-- A bet of `0.01` on dragon in round `R1`, with idempotency key `K7`. -/
def sampleBetCent : BetInput :=
  { sampleBet with BetAmount := "0.01", IdempotencyKey := "K7" }

/-- The state `sampleDrawn`, in which the bet of `100.00` on dragon waits for
the result, with the balance of the user set to `100000000000000.01`. -/
def sampleRichDrawn : State :=
  { sampleDrawn with
    db := { sampleDrawn.db with
      customers := [{ sampleUser with Balance := ⟨10000000000000001, 2⟩ }] } }

/-! # Properties -/

/-! ## Decimal arithmetic -/

namespace Dec

theorem toRat_eq_coef (d : Dec) (s : Nat) (h : d.scale ≤ s) :
    d.toRat = (d.coef s : ℚ) / (10 : ℚ) ^ s := by
  unfold toRat coef
  have hs : s = d.scale + (s - d.scale) := by omega
  have h10 : (10 : ℚ) ^ s = (10 : ℚ) ^ d.scale * (10 : ℚ) ^ (s - d.scale) := by
    rw [← pow_add, ← hs]
  rw [h10]
  push_cast
  have h1 : (10 : ℚ) ^ d.scale ≠ 0 := by positivity
  have h2 : (10 : ℚ) ^ (s - d.scale) ≠ 0 := by positivity
  field_simp
  ring

theorem coef_lt_iff (a b : Dec) :
    a.coef (max a.scale b.scale) < b.coef (max a.scale b.scale) ↔ a.toRat < b.toRat := by
  rw [toRat_eq_coef a (max a.scale b.scale) (le_max_left _ _),
    toRat_eq_coef b (max a.scale b.scale) (le_max_right _ _)]
  have hpos : (0 : ℚ) < (10 : ℚ) ^ (max a.scale b.scale) := by positivity
  rw [div_lt_div_iff_of_pos_right hpos]
  exact Int.cast_lt.symm

theorem coef_eq_iff (a b : Dec) :
    a.coef (max a.scale b.scale) = b.coef (max a.scale b.scale) ↔ a.toRat = b.toRat := by
  rw [toRat_eq_coef a (max a.scale b.scale) (le_max_left _ _),
    toRat_eq_coef b (max a.scale b.scale) (le_max_right _ _)]
  have hpos : (10 : ℚ) ^ (max a.scale b.scale) ≠ 0 := by positivity
  rw [div_left_inj' hpos]
  exact Int.cast_inj.symm

theorem Cmp_neg_iff (a b : Dec) : a.Cmp b = -1 ↔ a.toRat < b.toRat := by
  rw [← coef_lt_iff]
  unfold Cmp
  simp only []
  split_ifs with h1 h2 <;> simp_all

theorem Cmp_zero_iff (a b : Dec) : a.Cmp b = 0 ↔ a.toRat = b.toRat := by
  rw [← coef_eq_iff]
  unfold Cmp
  simp only []
  split_ifs with h1 h2 <;> simp_all
  omega

theorem Cmp_pos_iff (a b : Dec) : a.Cmp b = 1 ↔ b.toRat < a.toRat := by
  rw [← coef_lt_iff]
  unfold Cmp
  simp only []
  rw [max_comm b.scale a.scale]
  split_ifs with h1 h2 <;> simp_all <;> omega

theorem Cmp_lt_zero_iff (a b : Dec) : a.Cmp b < 0 ↔ a.toRat < b.toRat := by
  rw [← Cmp_neg_iff]
  unfold Cmp
  simp only []
  split_ifs <;> simp

theorem toRat_Sub (a b : Dec) : (a.Sub b).toRat = a.toRat - b.toRat := by
  rw [toRat_eq_coef a (max a.scale b.scale) (le_max_left _ _),
    toRat_eq_coef b (max a.scale b.scale) (le_max_right _ _)]
  unfold Sub toRat
  simp only []
  push_cast
  ring

theorem toRat_Add (a b : Dec) : (a.Add b).toRat = a.toRat + b.toRat := by
  rw [toRat_eq_coef a (max a.scale b.scale) (le_max_left _ _),
    toRat_eq_coef b (max a.scale b.scale) (le_max_right _ _)]
  unfold Add toRat
  simp only []
  push_cast
  ring

theorem Round_scale (d : Dec) (p : Nat) : (d.Round p).scale = p := by
  unfold Round
  split_ifs with h
  · exact h
  · rfl

theorem Round_of_scale_le (d : Dec) (p : Nat) (h : d.scale ≤ p) :
    d.Round p = ⟨d.value * 10 ^ (p - d.scale), p⟩ := by
  unfold Round
  split_ifs with h1
  · cases d with
    | mk v s =>
      simp only at h1
      subst h1
      simp
  · have hlt : d.scale < p := lt_of_le_of_ne h h1
    have hr : d.rescale (p + 1) = d.value * 10 ^ (p - d.scale) * 10 := by
      unfold rescale
      rw [if_pos (by omega)]
      have : p + 1 - d.scale = (p - d.scale) + 1 := by omega
      rw [this, pow_succ, mul_assoc]
    simp only [hr]
    generalize d.value * 10 ^ (p - d.scale) = w
    congr 1
    split_ifs <;> omega

theorem toRat_Round_of_scale_le (d : Dec) (p : Nat) (h : d.scale ≤ p) :
    (d.Round p).toRat = d.toRat := by
  rw [Round_of_scale_le d p h, toRat_eq_coef d p h]
  rfl

theorem quoT_nonneg (a b : Int) (ha : 0 ≤ a) (hb : 0 ≤ b) : 0 ≤ quoT a b := by
  unfold quoT
  rw [if_pos ha]
  exact Int.ediv_nonneg ha hb

theorem rescale_nonneg (d : Dec) (s : Nat) (h : 0 ≤ d.value) : 0 ≤ d.rescale s := by
  unfold rescale
  split_ifs
  · positivity
  · exact quoT_nonneg _ _ h (by positivity)

theorem Round_nonneg (d : Dec) (p : Nat) (h : 0 ≤ d.value) : 0 ≤ (d.Round p).value := by
  unfold Round
  split_ifs with h1
  · exact h
  · have hv := rescale_nonneg d (p + 1) h
    simp only []
    generalize d.rescale (p + 1) = v at hv
    split_ifs <;> omega

theorem rescale_zero (d : Dec) (s : Nat) (h : d.value = 0) : d.rescale s = 0 := by
  unfold rescale quoT
  simp [h]

theorem Round_zero (d : Dec) (p : Nat) (h : d.value = 0) : (d.Round p).value = 0 := by
  unfold Round
  split_ifs with h1
  · exact h
  · simp only [rescale_zero d (p + 1) h]
    decide

theorem toRat_nonneg_iff (d : Dec) : 0 ≤ d.toRat ↔ 0 ≤ d.value := by
  unfold toRat
  have hpos : (0 : ℚ) < (10 : ℚ) ^ d.scale := by positivity
  rw [le_div_iff₀ hpos]
  simp


theorem LessThan_iff (a b : Dec) : a.LessThan b = true ↔ a.toRat < b.toRat := by
  unfold LessThan
  rw [decide_eq_true_iff, Cmp_neg_iff]

theorem GreaterThan_iff (a b : Dec) : a.GreaterThan b = true ↔ b.toRat < a.toRat := by
  unfold GreaterThan
  rw [decide_eq_true_iff, Cmp_pos_iff]

theorem LessThanOrEqual_iff (a b : Dec) : a.LessThanOrEqual b = true ↔ a.toRat ≤ b.toRat := by
  unfold LessThanOrEqual
  rw [decide_eq_true_iff, Cmp_neg_iff, Cmp_zero_iff, le_iff_lt_or_eq]

theorem toRat_Zero : Zero.toRat = 0 := by
  norm_num [Zero, toRat]

theorem toRat_minBet : (⟨1, 2⟩ : Dec).toRat = 1 / 100 := by
  norm_num [toRat]

theorem toRat_NewFromInt (n : Int) : (NewFromInt n).toRat = n := by
  simp [NewFromInt, toRat]

end Dec

theorem validateBetAmount_of_parse (s : String) (a : Dec)
    (hp : NewFromString (TrimSpace s.toList) = some a) :
    (validateBetAmount s = .error (.msg "bet amount must be positive") ↔ a.toRat ≤ 0) ∧
    (validateBetAmount s = .error (.msg "bet amount below minimum limit: 0.01") ↔
      0 < a.toRat ∧ a.toRat < 1 / 100) ∧
    (validateBetAmount s = .error (.msg "bet amount exceeds maximum limit: 1000000") ↔
      1000000 < a.toRat) ∧
    (validateBetAmount s = .ok a ↔ 1 / 100 ≤ a.toRat ∧ a.toRat ≤ 1000000) := by
  have h0 := Dec.LessThanOrEqual_iff a Dec.Zero
  have h1 := Dec.LessThan_iff a ⟨1, 2⟩
  have h2 := Dec.GreaterThan_iff a (Dec.NewFromInt 1000000)
  rw [Dec.toRat_Zero] at h0
  rw [Dec.toRat_minBet] at h1
  rw [Dec.toRat_NewFromInt] at h2
  push_cast at h2
  unfold validateBetAmount
  rw [hp]
  simp only []
  by_cases c0 : a.LessThanOrEqual Dec.Zero = true
  · have := h0.mp c0
    simp only [c0, if_true]
    refine ⟨by simp [this], ?_, ?_, ?_⟩
    · constructor
      · intro h; simp at h
      · intro h; linarith [h.1]
    · constructor
      · intro h; simp at h
      · intro h; linarith
    · constructor
      · intro h; simp at h
      · intro h; linarith [h.1]
  · have n0 : ¬ a.toRat ≤ 0 := fun h => c0 (h0.mpr h)
    simp only [c0]
    by_cases c1 : a.LessThan ⟨1, 2⟩ = true
    · have := h1.mp c1
      simp only [c1, if_true]
      refine ⟨?_, ?_, ?_, ?_⟩
      · constructor
        · intro h; simp at h
        · intro h; exact absurd h n0
      · constructor
        · intro _; exact ⟨lt_of_not_le n0, this⟩
        · intro _; rfl
      · constructor
        · intro h; simp at h
        · intro h; linarith
      · constructor
        · intro h; simp at h
        · intro h; linarith [h.1]
    · have n1 : ¬ a.toRat < 1 / 100 := fun h => c1 (h1.mpr h)
      simp only [c1]
      by_cases c2 : a.GreaterThan (Dec.NewFromInt 1000000) = true
      · have := h2.mp c2
        simp only [c2, if_true]
        refine ⟨?_, ?_, ?_, ?_⟩
        · constructor
          · intro h; simp at h
          · intro h; exact absurd h n0
        · constructor
          · intro h; simp at h
          · intro h; exact absurd h.2 n1
        · constructor
          · intro _; exact this
          · intro _; rfl
        · constructor
          · intro h; simp at h
          · intro h; linarith [h.2]
      · have n2 : ¬ (1000000 : ℚ) < a.toRat := fun h => c2 (h2.mpr h)
        simp only [c2]
        refine ⟨?_, ?_, ?_, ?_⟩
        · constructor
          · intro h; simp at h
          · intro h; exact absurd h n0
        · constructor
          · intro h; simp at h
          · intro h; exact absurd h.2 n1
        · constructor
          · intro h; simp at h
          · intro h; exact absurd h n2
        · constructor
          · intro _; exact ⟨not_lt.mp n1, not_lt.mp n2⟩
          · intro _; rfl

/-! ## The passage of amounts through `float64` -/

namespace Float64

theorem bitLen_zero (fuel : Nat) : bitLen fuel 0 = 0 := by
  cases fuel <;> simp [bitLen]

theorem bitLen_bounds : ∀ (fuel n : Nat), n ≤ fuel → n ≠ 0 →
    n < 2 ^ bitLen fuel n ∧ 2 ^ bitLen fuel n ≤ 2 * n := by
  intro fuel
  induction fuel with
  | zero =>
    intro n h hn
    omega
  | succ k ih =>
    intro n h hn
    rw [bitLen, if_neg hn]
    by_cases h2 : n / 2 = 0
    · rw [h2, bitLen_zero]
      have : n = 1 := by omega
      subst this
      norm_num
    · obtain ⟨h3, h4⟩ := ih (n / 2) (by omega) h2
      rw [pow_succ]
      constructor <;> omega

theorem divRoundEven_near (n d : Nat) (hd : 0 < d) :
    |((divRoundEven n d : Nat) : ℚ) - (n : ℚ) / d| ≤ 1 / 2 := by
  have hdq : (0 : ℚ) < d := by exact_mod_cast hd
  have hsplit : (n : ℚ) = (d : ℚ) * ((n / d : Nat) : ℚ) + ((n % d : Nat) : ℚ) := by
    exact_mod_cast (Nat.div_add_mod n d).symm
  have hr : ((n % d : Nat) : ℚ) < d := by exact_mod_cast Nat.mod_lt n hd
  have hr0 : (0 : ℚ) ≤ ((n % d : Nat) : ℚ) := by positivity
  have hq : (n : ℚ) / d = ((n / d : Nat) : ℚ) + ((n % d : Nat) : ℚ) / d := by
    field_simp
    linarith
  rw [hq]
  unfold divRoundEven
  simp only []
  have hup : ∀ (c : Prop), (d ≤ 2 * (n % d)) →
      |(((n / d + 1 : Nat)) : ℚ) - (((n / d : Nat) : ℚ) + ((n % d : Nat) : ℚ) / d)| ≤ 1 / 2 := by
    intro _ h2
    have h2q : (d : ℚ) ≤ 2 * ((n % d : Nat) : ℚ) := by exact_mod_cast h2
    have e : (((n / d + 1 : Nat)) : ℚ) - (((n / d : Nat) : ℚ) + ((n % d : Nat) : ℚ) / d)
        = 1 - ((n % d : Nat) : ℚ) / d := by
      push_cast
      ring
    rw [e, abs_le]
    constructor
    · have : ((n % d : Nat) : ℚ) / d ≤ 1 := by
        rw [div_le_one hdq]
        exact hr.le
      linarith
    · have : (1 : ℚ) / 2 ≤ ((n % d : Nat) : ℚ) / d := by
        rw [le_div_iff₀ hdq]
        linarith
      linarith
  have hdown : (2 * (n % d) ≤ d) →
      |(((n / d : Nat)) : ℚ) - (((n / d : Nat) : ℚ) + ((n % d : Nat) : ℚ) / d)| ≤ 1 / 2 := by
    intro h2
    have h2q : 2 * ((n % d : Nat) : ℚ) ≤ (d : ℚ) := by exact_mod_cast h2
    have e : (((n / d : Nat)) : ℚ) - (((n / d : Nat) : ℚ) + ((n % d : Nat) : ℚ) / d)
        = - (((n % d : Nat) : ℚ) / d) := by ring
    rw [e, abs_neg, abs_of_nonneg (div_nonneg hr0 hdq.le), div_le_iff₀ hdq]
    linarith
  split_ifs with h1 h2 h3
  · exact hdown (by omega)
  · exact hup True (by omega)
  · exact hdown (by omega)
  · exact hup True (by omega)

theorem two_zpow_split (e : Int) :
    (2 : ℚ) ^ e = (2 : ℚ) ^ e.toNat / (2 : ℚ) ^ (-e).toNat := by
  rcases le_total 0 e with h | h
  · have h1 : (-e).toNat = 0 := by omega
    rw [h1, pow_zero, div_one]
    conv_lhs => rw [← Int.toNat_of_nonneg h]
    rw [zpow_natCast]
  · have h1 : e.toNat = 0 := by omega
    have h2 : e = -((-e).toNat : Int) := by omega
    rw [h1, pow_zero]
    conv_lhs => rw [h2]
    rw [zpow_neg, zpow_natCast, one_div]

/-- The rounded quotient at the exponent `e`, as a rational number. -/
theorem scaled_near (n d : Nat) (hd : 0 < d) (e : Int) :
    |((divRoundEven (n * 2 ^ (-e).toNat) (d * 2 ^ e.toNat) : Nat) : ℚ) * (2 : ℚ) ^ e
      - (n : ℚ) / d| ≤ (2 : ℚ) ^ (e - 1) := by
  have hpos : 0 < d * 2 ^ e.toNat := Nat.mul_pos hd (by positivity)
  have h := divRoundEven_near (n * 2 ^ (-e).toNat) (d * 2 ^ e.toNat) hpos
  have hdq : (0 : ℚ) < d := by exact_mod_cast hd
  have he : (0 : ℚ) < (2 : ℚ) ^ e := by positivity
  have hq : (((n * 2 ^ (-e).toNat : Nat)) : ℚ) / ((d * 2 ^ e.toNat : Nat) : ℚ)
      = (n : ℚ) / d / (2 : ℚ) ^ e := by
    rw [two_zpow_split e]
    push_cast
    field_simp
  rw [hq] at h
  set m : ℚ := ((divRoundEven (n * 2 ^ (-e).toNat) (d * 2 ^ e.toNat) : Nat) : ℚ)
  have e1 : m * (2 : ℚ) ^ e - (n : ℚ) / d = (m - (n : ℚ) / d / (2 : ℚ) ^ e) * (2 : ℚ) ^ e := by
    field_simp
    ring
  have e2 : (2 : ℚ) ^ (e - 1) = 1 / 2 * (2 : ℚ) ^ e := by
    rw [zpow_sub₀ (by norm_num : (2 : ℚ) ≠ 0), zpow_one]
    ring
  rw [e1, abs_mul, abs_of_pos he, e2]
  exact mul_le_mul_of_nonneg_right h he.le

theorem nearest_spec (n d : Nat) (hn : n ≠ 0) (hd : 0 < d) :
    |((nearest n d).1 : ℚ) * (2 : ℚ) ^ (nearest n d).2 - (n : ℚ) / d|
      ≤ (2 : ℚ) ^ ((nearest n d).2 - 1) ∧
    (2 : ℚ) ^ ((nearest n d).2 + 51) ≤ (n : ℚ) / d := by
  have hdq : (0 : ℚ) < d := by exact_mod_cast hd
  have hnq : (0 : ℚ) < n := by exact_mod_cast Nat.pos_of_ne_zero hn
  obtain ⟨_, ha⟩ := bitLen_bounds n n le_rfl hn
  obtain ⟨hb, _⟩ := bitLen_bounds d d le_rfl (by omega)
  have haq : (2 : ℚ) ^ (bitLen n n) ≤ 2 * (n : ℚ) := by exact_mod_cast ha
  have hbq : (d : ℚ) < (2 : ℚ) ^ (bitLen d d) := by exact_mod_cast hb
  set e0 : Int := (bitLen n n : Int) - (bitLen d d : Int) - 53 with he0
  -- the lower bound at the exponent that is chosen
  have hlow : ∀ e : Int,
      e = (if n * 2 ^ (-e0).toNat < d * 2 ^ e0.toNat * 2 ^ 53 then e0 else e0 + 1) →
      (2 : ℚ) ^ (e + 52) ≤ (n : ℚ) / d := by
    intro e hedef
    split_ifs at hedef with hc
    · rw [hedef]
      have e1 : e0 + 52 = (bitLen n n : Int) - 1 - (bitLen d d : Int) := by omega
      rw [e1, zpow_sub₀ (by norm_num : (2 : ℚ) ≠ 0), zpow_sub₀ (by norm_num : (2 : ℚ) ≠ 0),
        zpow_one, zpow_natCast, zpow_natCast]
      rw [div_le_div_iff₀ (by positivity) hdq]
      have h1 : (2 : ℚ) ^ bitLen n n / 2 ≤ n := by linarith
      calc (2 : ℚ) ^ bitLen n n / 2 * d ≤ n * d :=
            mul_le_mul_of_nonneg_right h1 hdq.le
        _ ≤ n * (2 : ℚ) ^ bitLen d d := mul_le_mul_of_nonneg_left hbq.le hnq.le
    · rw [hedef]
      have hc1 : d * 2 ^ e0.toNat * 2 ^ 53 ≤ n * 2 ^ (-e0).toNat := Nat.le_of_not_lt hc
      have hc2 : (d : ℚ) * (2 : ℚ) ^ e0.toNat * (2 : ℚ) ^ 53 ≤ (n : ℚ) * (2 : ℚ) ^ (-e0).toNat := by
        exact_mod_cast hc1
      have e1 : e0 + 1 + 52 = e0 + 53 := by omega
      rw [e1, zpow_add₀ (by norm_num : (2 : ℚ) ≠ 0), two_zpow_split e0]
      rw [le_div_iff₀ hdq]
      have hp : (0 : ℚ) < (2 : ℚ) ^ (-e0).toNat := by positivity
      have e2 : (2 : ℚ) ^ (53 : Int) = (2 : ℚ) ^ (53 : Nat) := by norm_cast
      rw [e2, div_mul_eq_mul_div, div_mul_eq_mul_div, div_le_iff₀ hp]
      linarith
  unfold nearest
  rw [if_neg hn]
  simp only []
  set e : Int := (if n * 2 ^ (-e0).toNat < d * 2 ^ e0.toNat * 2 ^ 53 then e0 else e0 + 1) with he
  have hl := hlow e he
  have hnear := scaled_near n d hd e
  split_ifs with hm
  · simp only []
    rw [hm] at hnear
    refine ⟨?_, ?_⟩
    · have e1 : (((2 ^ 52 : Nat)) : ℚ) * (2 : ℚ) ^ (e + 1) = (((2 ^ 53 : Nat)) : ℚ) * (2 : ℚ) ^ e := by
        rw [zpow_add₀ (by norm_num : (2 : ℚ) ≠ 0), zpow_one]
        push_cast
        ring
      rw [e1]
      refine le_trans hnear ?_
      exact zpow_le_zpow_right₀ (by norm_num) (by omega)
    · refine le_trans ?_ hl
      exact zpow_le_zpow_right₀ (by norm_num) (by omega)
  · simp only []
    refine ⟨hnear, ?_⟩
    refine le_trans ?_ hl
    exact zpow_le_zpow_right₀ (by norm_num) (by omega)

theorem ofRatio_zero (d : Nat) : ofRatio 0 d = ⟨0, 0⟩ := by
  simp [ofRatio, nearest]

theorem toRat_zero : (⟨0, 0⟩ : Float64).toRat = 0 := by
  simp [toRat]

/-- The reduced quotient of `ofRatio`, as a rational number. -/
theorem reduced_cast (n d : Nat) (hd : 0 < d) :
    ((n / Nat.gcd n d : Nat) : ℚ) / ((d / Nat.gcd n d : Nat) : ℚ) = (n : ℚ) / d := by
  have hg : 0 < Nat.gcd n d := Nat.gcd_pos_of_pos_right n hd
  have hgq : ((Nat.gcd n d : Nat) : ℚ) ≠ 0 := by exact_mod_cast hg.ne'
  rw [Nat.cast_div (Nat.gcd_dvd_left n d) hgq, Nat.cast_div (Nat.gcd_dvd_right n d) hgq]
  have hdq : (d : ℚ) ≠ 0 := by exact_mod_cast hd.ne'
  field_simp

theorem ofRatio_spec (v : Int) (d : Nat) (hd : 0 < d) :
    |(ofRatio v d).toRat - (v : ℚ) / d| ≤ (2 : ℚ) ^ ((ofRatio v d).exp - 1) ∧
    (v ≠ 0 → (2 : ℚ) ^ ((ofRatio v d).exp + 51) ≤ |(v : ℚ) / d|) ∧
    (0 ≤ v → 0 ≤ (ofRatio v d).mant) := by
  have hdq : (0 : ℚ) < d := by exact_mod_cast hd
  by_cases hv : v = 0
  · subst hv
    rw [ofRatio_zero, toRat_zero]
    refine ⟨?_, fun h => absurd rfl h, fun _ => le_rfl⟩
    simp only [Int.cast_zero, zero_div, sub_self, abs_zero]
    positivity
  · have hg : 0 < Nat.gcd v.natAbs d := Nat.gcd_pos_of_pos_right _ hd
    have hn : v.natAbs / Nat.gcd v.natAbs d ≠ 0 := by
      have h1 : Nat.gcd v.natAbs d ≤ v.natAbs :=
        Nat.le_of_dvd (Int.natAbs_pos.mpr hv) (Nat.gcd_dvd_left _ _)
      exact (Nat.div_pos h1 hg).ne'
    have hd1 : 0 < d / Nat.gcd v.natAbs d :=
      Nat.div_pos (Nat.le_of_dvd hd (Nat.gcd_dvd_right _ _)) hg
    obtain ⟨h1, h2⟩ := nearest_spec _ _ hn hd1
    rw [reduced_cast _ _ hd] at h1 h2
    have habs : |(v : ℚ) / d| = (v.natAbs : ℚ) / d := by
      rw [abs_div, abs_of_pos hdq, Nat.cast_natAbs, Int.cast_abs]
    refine ⟨?_, fun _ => ?_, fun h0 => ?_⟩
    · unfold ofRatio toRat
      simp only []
      by_cases hneg : v < 0
      · rw [if_pos hneg]
        have e : (v : ℚ) / d = -((v.natAbs : ℚ) / d) := by
          rw [← habs, abs_of_neg]
          · ring
          · exact div_neg_of_neg_of_pos (by exact_mod_cast hneg) hdq
        rw [e]
        push_cast
        rw [show ∀ a b c : ℚ, -a * b - -c = -(a * b - c) from fun a b c => by ring, abs_neg]
        exact h1
      · rw [if_neg hneg]
        have e : (v : ℚ) / d = (v.natAbs : ℚ) / d := by
          rw [← habs, abs_of_nonneg]
          exact div_nonneg (by exact_mod_cast (not_lt.mp hneg)) hdq.le
        rw [e]
        push_cast
        exact h1
    · rw [habs]
      exact h2
    · unfold ofRatio
      simp only []
      rw [if_neg (not_lt.mpr h0)]
      positivity

/-- The float64 of a quotient depends on the rational number only. -/
theorem ofRatio_eq (v : Int) (d : Nat) (hd : 0 < d) :
    ofRatio v d =
      ⟨if ((v : ℚ) / d).num < 0 then
          -((nearest ((v : ℚ) / d).num.natAbs ((v : ℚ) / d).den).1 : Int)
        else (nearest ((v : ℚ) / d).num.natAbs ((v : ℚ) / d).den).1,
        (nearest ((v : ℚ) / d).num.natAbs ((v : ℚ) / d).den).2⟩ := by
  have hg : 0 < Nat.gcd v.natAbs d := Nat.gcd_pos_of_pos_right _ hd
  have hgi : ((Nat.gcd v.natAbs d : Nat) : Int) ≠ 0 := by exact_mod_cast hg.ne'
  have hdv : ((Nat.gcd v.natAbs d : Nat) : Int) ∣ v := by
    rw [Int.natCast_dvd]
    exact Nat.gcd_dvd_left _ _
  have hdd : ((Nat.gcd v.natAbs d : Nat) : Int) ∣ (d : Int) := by
    exact_mod_cast Nat.gcd_dvd_right v.natAbs d
  have hd1 : 0 < d / Nat.gcd v.natAbs d :=
    Nat.div_pos (Nat.le_of_dvd hd (Nat.gcd_dvd_right _ _)) hg
  have hq : (v : ℚ) / d =
      ((v / (Nat.gcd v.natAbs d : Int) : Int) : ℚ) / ((d / Nat.gcd v.natAbs d : Nat) : Int) := by
    have hgq : ((Nat.gcd v.natAbs d : Nat) : ℚ) ≠ 0 := by exact_mod_cast hg.ne'
    have hdq : (d : ℚ) ≠ 0 := by exact_mod_cast hd.ne'
    have hgq1 : (((Nat.gcd v.natAbs d : Nat) : Int) : ℚ) ≠ 0 := by exact_mod_cast hg.ne'
    have hcd : ((((d / Nat.gcd v.natAbs d : Nat)) : Int) : ℚ) =
        (d : ℚ) / ((Nat.gcd v.natAbs d : Nat) : ℚ) := by
      rw [Int.cast_natCast, Nat.cast_div (Nat.gcd_dvd_right _ _) hgq]
    rw [Int.cast_div hdv hgq1, hcd, Int.cast_natCast]
    field_simp
  have habs : (v / (Nat.gcd v.natAbs d : Int)).natAbs = v.natAbs / Nat.gcd v.natAbs d := by
    rw [Int.natAbs_ediv v _ hdv, Int.natAbs_ofNat]
  have hcop : Nat.Coprime (v / (Nat.gcd v.natAbs d : Int)).natAbs
      (((d / Nat.gcd v.natAbs d : Nat) : Int)).natAbs := by
    rw [habs, Int.natAbs_ofNat]
    exact Nat.coprime_div_gcd_div_gcd hg
  have hpos : (0 : Int) < ((d / Nat.gcd v.natAbs d : Nat) : Int) := by exact_mod_cast hd1
  have hnum := Rat.num_div_eq_of_coprime hpos hcop
  have hden := Rat.den_div_eq_of_coprime hpos hcop
  rw [← hq] at hnum hden
  have hden1 : ((v : ℚ) / d).den = d / Nat.gcd v.natAbs d := by exact_mod_cast hden
  have hsign : ((v : ℚ) / d).num < 0 ↔ v < 0 := by
    rw [hnum]
    have hmul := Int.ediv_mul_cancel hdv
    have hgpos : (0 : Int) < (Nat.gcd v.natAbs d : Int) := by exact_mod_cast hg
    constructor
    · intro h
      rw [← hmul]
      exact mul_neg_of_neg_of_pos h hgpos
    · intro h
      by_contra hc
      have h2 : 0 ≤ v / (Nat.gcd v.natAbs d : Int) * (Nat.gcd v.natAbs d : Int) :=
        mul_nonneg (not_lt.mp hc) hgpos.le
      omega
  unfold ofRatio
  simp only []
  rw [hnum, hden1, habs]
  by_cases hneg : v < 0
  · rw [if_pos hneg, if_pos (by rw [← hnum]; exact hsign.mpr hneg)]
  · rw [if_neg hneg, if_neg (by rw [← hnum]; exact fun h => hneg (hsign.mp h))]

theorem ofRatio_congr (v1 v2 : Int) (d1 d2 : Nat) (h1 : 0 < d1) (h2 : 0 < d2)
    (h : (v1 : ℚ) / d1 = (v2 : ℚ) / d2) : ofRatio v1 d1 = ofRatio v2 d2 := by
  rw [ofRatio_eq v1 d1 h1, ofRatio_eq v2 d2 h2, h]

end Float64

namespace Dec

theorem toRat_eq_ratio (d : Dec) : d.toRat = (d.value : ℚ) / ((10 ^ d.scale : Nat) : ℚ) := by
  unfold toRat
  push_cast
  rfl

theorem InexactFloat64_congr (a b : Dec) (h : a.toRat = b.toRat) :
    a.InexactFloat64 = b.InexactFloat64 := by
  unfold InexactFloat64
  apply Float64.ofRatio_congr _ _ _ _ (by positivity) (by positivity)
  rw [← toRat_eq_ratio, ← toRat_eq_ratio, h]

theorem InexactFloat64_near (c : Dec) :
    |c.InexactFloat64.toRat - c.toRat| ≤ (2 : ℚ) ^ (c.InexactFloat64.exp - 1) := by
  rw [toRat_eq_ratio]
  exact (Float64.ofRatio_spec c.value (10 ^ c.scale) (by positivity)).1

theorem InexactFloat64_nonneg (c : Dec) (h : 0 ≤ c.value) : 0 ≤ c.InexactFloat64.mant :=
  (Float64.ofRatio_spec c.value (10 ^ c.scale) (by positivity)).2.2 h

theorem InexactFloat64_exp_le (c : Dec) (k : Int) (hne : c.value ≠ 0)
    (hlt : |c.toRat| < (2 : ℚ) ^ k) : c.InexactFloat64.exp ≤ k - 52 := by
  have h := (Float64.ofRatio_spec c.value (10 ^ c.scale) (by positivity)).2.1 hne
  rw [← toRat_eq_ratio] at h
  have h1 : (2 : ℚ) ^ (c.InexactFloat64.exp + 51) < (2 : ℚ) ^ k := lt_of_le_of_lt h hlt
  have h2 := (zpow_lt_zpow_iff_right₀ (by norm_num : (1 : ℚ) < 2)).mp h1
  omega

theorem InexactFloat64_zero (c : Dec) (h : c.value = 0) : c.InexactFloat64 = ⟨0, 0⟩ := by
  unfold InexactFloat64
  rw [h]
  exact Float64.ofRatio_zero _

/-- Two decimals with at most two fractional digits that read as the same
float64 with an exponent of at most `-7` are the same number: the float64 of
that exponent are less than a cent apart. -/
theorem eq_of_same_float (g c : Dec) (hg : g.scale ≤ 2) (hc : c.scale ≤ 2)
    (h : g.InexactFloat64 = c.InexactFloat64) (he : c.InexactFloat64.exp ≤ -7) :
    g.toRat = c.toRat := by
  have h1 := InexactFloat64_near g
  have h2 := InexactFloat64_near c
  rw [h] at h1
  have h3 : (2 : ℚ) ^ (c.InexactFloat64.exp - 1) ≤ (2 : ℚ) ^ (-8 : Int) :=
    zpow_le_zpow_right₀ (by norm_num) (by omega)
  have h4 : (2 : ℚ) ^ (-8 : Int) = 1 / 256 := by norm_num
  rw [h4] at h3
  rw [toRat_eq_coef g 2 hg] at h1
  rw [toRat_eq_coef c 2 hc] at h2
  rw [toRat_eq_coef g 2 hg, toRat_eq_coef c 2 hc]
  rw [abs_le] at h1 h2
  have hlt : |((g.coef 2 - c.coef 2 : Int) : ℚ)| < 1 := by
    rw [abs_lt]
    push_cast
    constructor <;> linarith [h1.1, h1.2, h2.1, h2.2]
  have hz : g.coef 2 - c.coef 2 = 0 := by
    have : |g.coef 2 - c.coef 2| < 1 := by exact_mod_cast hlt
    exact Int.abs_lt_one_iff.mp this
  have : g.coef 2 = c.coef 2 := by omega
  rw [this]

theorem onGrid_scale (k p : Int) (hp : -2 ≤ p) : (onGrid k p).scale ≤ 2 := by
  unfold onGrid
  split_ifs with h
  · exact Nat.zero_le _
  · show (-p).toNat ≤ 2
    omega

theorem onGrid_cents (k : Int) : onGrid k (-2) = ⟨k, 2⟩ := by
  unfold onGrid
  rw [if_neg (by norm_num)]
  rfl

theorem onGrid_nonneg (k p : Int) (hk : 0 ≤ k) : 0 ≤ (onGrid k p).value := by
  unfold onGrid
  split_ifs with h
  · show 0 ≤ k * 10 ^ p.toNat
    positivity
  · exact hk

theorem Round_congr (a b : Dec) (ha : a.scale ≤ 2) (hb : b.scale ≤ 2)
    (h : a.toRat = b.toRat) : a.Round 2 = b.Round 2 := by
  rw [Round_of_scale_le a 2 ha, Round_of_scale_le b 2 hb]
  rw [toRat_eq_coef a 2 ha, toRat_eq_coef b 2 hb] at h
  have h10 : ((10 : ℚ) ^ 2) ≠ 0 := by norm_num
  have h2 : a.coef 2 = b.coef 2 := by
    field_simp at h
    exact_mod_cast h
  unfold coef at h2
  rw [h2]

end Dec

/-- The quotient of a division of natural numbers that lies less than `1`
from a natural number `t` is `t`, or `t - 1` with a remainder. -/
theorem div_near_nat (n d t : Nat) (hd : 0 < d) (h : |(n : ℚ) / d - t| < 1) :
    n / d = t ∨ (n / d + 1 = t ∧ n % d ≠ 0) := by
  have hdq : (0 : ℚ) < d := by exact_mod_cast hd
  have hsplit : (n : ℚ) = (d : ℚ) * ((n / d : Nat) : ℚ) + ((n % d : Nat) : ℚ) := by
    exact_mod_cast (Nat.div_add_mod n d).symm
  have hr : ((n % d : Nat) : ℚ) < d := by exact_mod_cast Nat.mod_lt n hd
  have hr0 : (0 : ℚ) ≤ ((n % d : Nat) : ℚ) := by positivity
  have hq : (n : ℚ) / d = ((n / d : Nat) : ℚ) + ((n % d : Nat) : ℚ) / d := by
    field_simp
    linarith
  have hf0 : 0 ≤ ((n % d : Nat) : ℚ) / d := div_nonneg hr0 hdq.le
  have hf1 : ((n % d : Nat) : ℚ) / d < 1 := by
    rw [div_lt_one hdq]
    exact hr
  rw [hq, abs_lt] at h
  have h1 : ((n / d : Nat) : ℚ) < (t : ℚ) + 1 := by linarith [h.2]
  have h2 : (t : ℚ) < ((n / d : Nat) : ℚ) + 2 := by linarith [h.1]
  have h1n : n / d < t + 1 := by exact_mod_cast h1
  have h2n : t < n / d + 2 := by exact_mod_cast h2
  by_cases hk : n / d = t
  · exact Or.inl hk
  · right
    have hk1 : n / d + 1 = t := by omega
    refine ⟨hk1, ?_⟩
    intro hr1
    rw [hr1] at h
    have : ((n / d : Nat) : ℚ) + 1 = (t : ℚ) := by exact_mod_cast hk1
    simp only [Nat.cast_zero, zero_div, add_zero] at h
    linarith [h.1]

theorem shortestFrom_exact (c : Dec) (hs : c.scale ≤ 2) (hv : 0 < c.value)
    (hlt : c.toRat < (2 : ℚ) ^ (45 : Int)) :
    ∀ (fuel : Nat) (p : Int), -2 ≤ p → p + 3 ≤ fuel →
      (shortestFrom c.InexactFloat64 fuel p).toRat = c.toRat ∧
      (shortestFrom c.InexactFloat64 fuel p).scale ≤ 2 := by
  have hcpos : 0 < c.toRat := by
    have := (Dec.toRat_nonneg_iff c).mpr hv.le
    rcases this.lt_or_eq with h | h
    · exact h
    · exfalso
      unfold Dec.toRat at h
      have hp : (0 : ℚ) < (10 : ℚ) ^ c.scale := by positivity
      have : (c.value : ℚ) = 0 := by
        field_simp at h
        exact h.symm
      have : c.value = 0 := by exact_mod_cast this
      omega
  have hexp : c.InexactFloat64.exp ≤ -7 := by
    have := Dec.InexactFloat64_exp_le c 45 hv.ne' (by rw [abs_of_pos hcpos]; exact hlt)
    omega
  have hmant : 0 ≤ c.InexactFloat64.mant := Dec.InexactFloat64_nonneg c hv.le
  have hread : ∀ g : Dec, g.scale ≤ 2 → g.InexactFloat64 = c.InexactFloat64 →
      g.toRat = c.toRat := fun g hg h => Dec.eq_of_same_float g c hg hs h hexp
  intro fuel
  induction fuel with
  | zero =>
    intro p hp hf
    exfalso
    have : p + 3 ≤ 0 := by exact_mod_cast hf
    omega
  | succ n ih =>
    intro p hp hf
    rw [shortestFrom]
    rw [if_neg (not_lt.mpr hmant)]
    simp only [one_mul]
    set num := c.InexactFloat64.mant.natAbs * 2 ^ c.InexactFloat64.exp.toNat * 10 ^ (-p).toNat
      with hnum
    set den := 2 ^ (-c.InexactFloat64.exp).toNat * 10 ^ p.toNat with hden
    have hku : ∃ ku : Nat, ku = (if num % den = 0 then num / den else num / den + 1) :=
      ⟨_, rfl⟩
    obtain ⟨ku, hku⟩ := hku
    rw [← hku]
    have hsd : (Dec.onGrid ((num / den : Nat) : Int) p).scale ≤ 2 := Dec.onGrid_scale _ _ hp
    have hsu : (Dec.onGrid ((ku : Nat) : Int) p).scale ≤ 2 := Dec.onGrid_scale _ _ hp
    split_ifs with h1 h2 h3 h4 h5 h6
    · exact ⟨hread _ hsd h1.1, hsd⟩
    · exact ⟨hread _ hsu h1.2, hsu⟩
    · exact ⟨hread _ hsd h1.1, hsd⟩
    · exact ⟨hread _ hsu h1.2, hsu⟩
    · exact ⟨hread _ hsd h5, hsd⟩
    · exact ⟨hread _ hsu h6, hsu⟩
    · by_cases hp2 : p = -2
      · exfalso
        subst hp2
        -- on the grid of cents the decimal itself is next to the float64
        have hden1 : den = 2 ^ (-c.InexactFloat64.exp).toNat := by
          rw [hden]
          simp
        have hdpos : 0 < den := by
          rw [hden1]
          positivity
        have hX : (num : ℚ) / den = 100 * c.InexactFloat64.toRat := by
          rw [hden1, hnum]
          unfold Float64.toRat
          rw [Float64.two_zpow_split c.InexactFloat64.exp]
          have e1 : ((c.InexactFloat64.mant.natAbs : Nat) : ℚ) = (c.InexactFloat64.mant : ℚ) := by
            rw [Nat.cast_natAbs, abs_of_nonneg hmant]
          push_cast
          rw [e1]
          have hp2 : ((2 : ℚ) ^ (-c.InexactFloat64.exp).toNat) ≠ 0 := by positivity
          field_simp
          ring
        have hnear := Dec.InexactFloat64_near c
        have h3 : (2 : ℚ) ^ (c.InexactFloat64.exp - 1) ≤ (2 : ℚ) ^ (-8 : Int) :=
          zpow_le_zpow_right₀ (by norm_num) (by omega)
        have h4 : (2 : ℚ) ^ (-8 : Int) = 1 / 256 := by norm_num
        rw [h4] at h3
        have hcoef : c.toRat = ((c.coef 2).toNat : ℚ) / 100 := by
          rw [Dec.toRat_eq_coef c 2 hs]
          have hnn : 0 ≤ c.coef 2 := by
            unfold Dec.coef
            positivity
          have : (((c.coef 2).toNat : Nat) : ℚ) = ((c.coef 2 : Int) : ℚ) := by
            have := Int.toNat_of_nonneg hnn
            exact_mod_cast congrArg (fun z : Int => (z : ℚ)) this
          rw [this]
          norm_num
        have habs : |(num : ℚ) / den - ((c.coef 2).toNat : ℚ)| < 1 := by
          rw [hX]
          rw [hcoef, abs_le] at hnear
          rw [abs_lt]
          constructor <;> linarith [hnear.1, hnear.2]
        rcases div_near_nat num den _ hdpos habs with hk | ⟨hk, hr⟩
        · apply h5
          apply Dec.InexactFloat64_congr
          rw [Dec.onGrid_cents, hk, hcoef]
          unfold Dec.toRat
          push_cast
          norm_num
        · apply h6
          apply Dec.InexactFloat64_congr
          rw [hku, if_neg hr, Dec.onGrid_cents, hk, hcoef]
          unfold Dec.toRat
          push_cast
          norm_num
      · have hf1 : p + 3 ≤ (n : Int) + 1 := by exact_mod_cast hf
        exact ih (p - 1) (by omega) (by omega)

theorem NewFromFloat_exact (c : Dec) (hs : c.scale ≤ 2) (h0 : 0 ≤ c.value)
    (hlt : c.toRat < (2 : ℚ) ^ (45 : Int)) :
    (NewFromFloat c.InexactFloat64).toRat = c.toRat ∧
    (NewFromFloat c.InexactFloat64).scale ≤ 2 := by
  rcases h0.lt_or_eq with hv | hv
  · unfold NewFromFloat
    split_ifs with hm
    · exfalso
      have hnear := Dec.InexactFloat64_near c
      have hexp := Dec.InexactFloat64_exp_le c 45 hv.ne' (by
        rw [abs_of_nonneg ((Dec.toRat_nonneg_iff c).mpr h0)]
        exact hlt)
      have h3 : (2 : ℚ) ^ (c.InexactFloat64.exp - 1) ≤ (2 : ℚ) ^ (-8 : Int) :=
        zpow_le_zpow_right₀ (by norm_num) (by omega)
      have h4 : (2 : ℚ) ^ (-8 : Int) = 1 / 256 := by norm_num
      rw [h4] at h3
      have hz : c.InexactFloat64.toRat = 0 := by
        unfold Float64.toRat
        rw [hm]
        simp
      rw [hz, Dec.toRat_eq_coef c 2 hs, abs_le] at hnear
      have hc1 : (1 : ℚ) ≤ ((c.coef 2 : Int) : ℚ) := by
        have : 1 ≤ c.coef 2 := by
          unfold Dec.coef
          have : 0 < c.value * 10 ^ (2 - c.scale) := by positivity
          omega
        exact_mod_cast this
      norm_num at hnear
      linarith [hnear.1, hnear.2]
    · simp only []
      apply shortestFrom_exact c hs hv hlt
      · have : (0 : Int) ≤ ((Nat.toDigits 10 (c.InexactFloat64.mant.natAbs *
            2 ^ c.InexactFloat64.exp.toNat / 2 ^ (-c.InexactFloat64.exp).toNat)).length : Int) :=
          Int.natCast_nonneg _
        omega
      · push_cast
        omega
  · rw [Dec.InexactFloat64_zero c hv.symm]
    refine ⟨?_, Nat.zero_le _⟩
    show (⟨0, 0⟩ : Dec).toRat = c.toRat
    unfold Dec.toRat
    rw [← hv]
    simp

theorem toColumn_exact (c : Dec) (hs : c.scale ≤ 2) (h0 : 0 ≤ c.value)
    (hlt : c.toRat < (2 : ℚ) ^ (45 : Int)) :
    c.InexactFloat64.toColumn = c.Round 2 := by
  obtain ⟨h1, h2⟩ := NewFromFloat_exact c hs h0 hlt
  exact Dec.Round_congr _ _ h2 hs h1

theorem shortestFrom_nonneg (f : Float64) (hf : 0 ≤ f.mant) :
    ∀ (fuel : Nat) (p : Int), 0 ≤ (shortestFrom f fuel p).value := by
  intro fuel
  induction fuel with
  | zero =>
    intro p
    rw [shortestFrom]
    split_ifs
    · show 0 ≤ f.mant * 2 ^ f.exp.toNat
      positivity
    · show 0 ≤ f.mant * 5 ^ (-f.exp).toNat
      positivity
  | succ n ih =>
    intro p
    rw [shortestFrom]
    rw [if_neg (not_lt.mpr hf)]
    split_ifs
    all_goals first
      | exact ih _
      | exact Dec.onGrid_nonneg _ _ (by positivity)

theorem NewFromFloat_nonneg (f : Float64) (hf : 0 ≤ f.mant) : 0 ≤ (NewFromFloat f).value := by
  unfold NewFromFloat
  split_ifs
  · exact le_rfl
  · exact shortestFrom_nonneg f hf _ _

theorem toColumn_nonneg (c : Dec) (h : 0 ≤ c.value) : 0 ≤ c.InexactFloat64.toColumn.value :=
  Dec.Round_nonneg _ _ (NewFromFloat_nonneg _ (Dec.InexactFloat64_nonneg c h))

/-! ## The inserts and updates of a bet -/

theorem UpdateUserBalance_ok (env : Env) (tx tx1 : DB) (userID : Int) (b : Float64)
    (h : UpdateUserBalance env tx userID b = .ok tx1) :
    tx1 = { tx with customers :=
      tx.customers.map (fun u =>
        if u.ID = userID then { u with Balance := b.toColumn } else u) } := by
  unfold UpdateUserBalance at h
  split_ifs at h
  simp only [Except.ok.injEq] at h
  exact h.symm

theorem WalletLedger_Insert_ok (env : Env) (tx tx1 : DB) (l : WalletLedger)
    (h : l.Insert env tx = .ok tx1) :
    tx1 = { tx with ledger := tx.ledger ++
        [{ l with BizType := ledgerBizCode l, BizTypeStr := ledgerBizStr l }] } := by
  unfold WalletLedger.Insert at h
  split_ifs at h
  simp only [Except.ok.injEq] at h
  exact h.symm

theorem Order_Insert_ok (env : Env) (tx tx1 : DB) (o : Order)
    (h : o.Insert env tx = .ok tx1) :
    (∀ r ∈ tx.orders, r.BillNo ≠ o.BillNo ∧ r.IdempotencyKey ≠ o.IdempotencyKey) ∧
    tx1 = { tx with orders := tx.orders ++ [orderRow env o] } := by
  unfold Order.Insert at h
  split_ifs at h with h1 h2
  simp only [Except.ok.injEq] at h
  constructor
  · intro r hr
    simp only [List.any_eq_true, not_exists, not_and] at h2
    have := h2 r hr
    simpa [not_or] using this
  · exact h.symm

theorem CreateOutbox_ok (env : Env) (tx tx1 : DB) (topic bizKey : String)
    (payload : List (String × JVal)) (h : CreateOutbox env tx topic bizKey payload = .ok tx1) :
    tx1 = { tx with outbox := tx.outbox ++ [
      { ID := nextOutboxID tx, Topic := topic, BizKey := bizKey, Payload := payload,
        Status := 1, RetryCount := 0, LastError := "" }] } := by
  unfold CreateOutbox at h
  split_ifs at h
  simp only [Except.ok.injEq] at h
  exact h.symm

theorem placeBetWrites_ok (env : Env) (tx1 tx2 : DB) (inp : BetInput) (user : Customers)
    (a odds afterDec : Dec) (billNo : String)
    (h : placeBetWrites env tx1 inp user a odds billNo = .ok (tx2, afterDec)) :
    afterDec = (balanceDec user).Sub a ∧ BetWritten env tx1 tx2 inp user a odds billNo := by
  unfold placeBetWrites at h
  by_cases h1 : user.Status = 1
  · by_cases h2 : (balanceDec user).Cmp a < 0
    · simp [h1, h2] at h
    · simp only [h1, h2, ne_eq, not_true_eq_false, if_false] at h
      cases hu : UpdateUserBalance env tx1 user.ID
          (((balanceDec user).Sub a).Round 2).InexactFloat64 with
      | error e => simp [hu] at h
      | ok t1 =>
        simp only [hu] at h
        have e1 := UpdateUserBalance_ok _ _ _ _ _ hu
        cases hli : (betLedger inp user a billNo).Insert env t1 with
        | error e => simp [hli] at h
        | ok t2 =>
          simp only [hli] at h
          have e2 := WalletLedger_Insert_ok _ _ _ _ hli
          cases hoi : (betOrder inp user a odds billNo).Insert env t2 with
          | error e => simp [hoi] at h
          | ok t3 =>
            simp only [hoi] at h
            obtain ⟨hfresh, e3⟩ := Order_Insert_ok _ _ _ _ hoi
            cases hob : CreateOutbox env t3 "bet_placed" billNo (betPayload inp user billNo) with
            | error e => simp [hob] at h
            | ok t4 =>
              simp only [hob, Except.ok.injEq, Prod.mk.injEq] at h
              have e4 := CreateOutbox_ok _ _ _ _ _ _ hob
              obtain ⟨h3, h4⟩ := h
              refine ⟨h4.symm, ?_⟩
              subst h3 e4 e3 e2 e1
              exact ⟨h1, h2, rfl, rfl, rfl, by simp, rfl, rfl, rfl, rfl, hfresh⟩
  · rw [if_pos h1] at h
    simp at h

/-! ## The paths of `PlaceBet` -/

theorem codeToState_betting_iff (c : Int) : codeToState c = StateBetting ↔ c = 2 := by
  unfold codeToState StateBetting StateInit StateSealed StateDealt StateDrawn StateSettled StateFinished
  split_ifs <;> simp_all

/-- Every run of the transaction of `PlaceBet` either leaves the tables and
the key-value state as they were, or commits. -/
theorem placeBetTx_cases (env : Env) (db : DB) (kv : Option KV) (inp : BetInput) (a : Dec) :
    ((placeBetTx env db kv inp a).2.1 = db ∧ (placeBetTx env db kv inp a).2.2 = kv) ∨
    ∃ user tx round tx1 tx2 afterDec,
      BetCommitted env db inp a user tx round tx1 tx2 afterDec ∧
      placeBetTx env db kv inp a =
        (.ok { BillNo := generateBillNo env user.ID, RemainAmount := afterDec.Round 2 }, tx2,
          cacheResult env kv inp.IdempotencyKey
            { BillNo := generateBillNo env user.ID, RemainAmount := afterDec.Round 2 }) := by
  unfold placeBetTx
  by_cases hb : env.dbErr .beginTx = true
  · simp [hb]
  · simp only [hb]
    cases hu : getOrCreateUserInTx env db inp.PlatformID inp.PlatformUserID
        inp.PlatformUserName with
    | error e1 => simp
    | ok p =>
      obtain ⟨user, tx⟩ := p
      simp only [hu]
      cases hr : GetRoundForUpdate env tx inp.GameRoundID with
      | error e1 => simp
      | ok round =>
        simp only [hr]
        by_cases hs : codeToState round.GameStatus = StateBetting
        · simp only [hs, ne_eq, not_true_eq_false, if_false]
          cases hw : checkBetWindow env.now round.BetStartTime round.BetStopTime with
          | some e1 => simp
          | none =>
            simp only [hw]
            cases hc : checkConflictingBets env tx inp.GameRoundID inp.PlatformID
                inp.PlatformUserID inp.PlayType with
            | error e1 => simp
            | ok b =>
              cases b with
              | true => simp
              | false =>
                simp only [hc]
                cases hi : IdempotencyKey.Insert env tx
                    { IdempotencyKey := inp.IdempotencyKey, Purpose := "bet",
                      Ref := generateBillNo env user.ID } with
                | error e1 =>
                  simp only [hi]
                  split_ifs <;> simp
                | ok tx1 =>
                  simp only [hi]
                  cases hwr : placeBetWrites env tx1 inp user a (calcOdds (ptMap inp.PlayType))
                      (generateBillNo env user.ID) with
                  | error e1 => simp
                  | ok q =>
                    obtain ⟨tx2, afterDec⟩ := q
                    simp only [hwr]
                    by_cases hcm : env.dbErr .commit = true
                    · simp [hcm]
                    · right
                      simp only [hcm]
                      refine ⟨user, tx, round, tx1, tx2, afterDec,
                        ⟨by simpa using hb, hu, hr, (codeToState_betting_iff _).mp hs, hw, hc,
                          hi, hwr, by simpa using hcm⟩, ?_⟩
                      simp only [cacheResult]
                      cases kv <;> rfl
        · simp [hs]

theorem getOrCreateUserInTx_ok (env : Env) (db tx : DB) (pid : Int) (puid name : String)
    (user : Customers) (h : getOrCreateUserInTx env db pid puid name = .ok (user, tx)) :
    (tx = db ∧
      db.customers.find? (fun u => u.PlatformID = pid ∧ u.PlatformUserID = puid) = some user) ∨
    (tx = { db with customers := db.customers ++ [user] } ∧
      db.customers.find? (fun u => u.PlatformID = pid ∧ u.PlatformUserID = puid) = none ∧
      user = { ID := nextCustomerID db, PlatformID := pid, PlatformUserID := puid,
               Username := name, Balance := ⟨0, 0⟩, Status := 1 }) := by
  unfold getOrCreateUserInTx GetUserByPlatformUserForUpdate at h
  by_cases hf : env.dbErr .getUserForUpdate = true
  · simp [hf, ErrBadConn, Err.Error] at h
  · simp only [hf] at h
    cases hfind : db.customers.find? (fun u => u.PlatformID = pid ∧ u.PlatformUserID = puid) with
    | some u =>
      simp only [hfind, Bool.false_eq_true, if_false, Except.ok.injEq, Prod.mk.injEq] at h
      left
      exact ⟨h.2.symm, by rw [h.1]⟩
    | none =>
      simp only [hfind, Bool.false_eq_true, if_false, ErrNoRows, Err.Error, if_true] at h
      have hany : db.customers.any
          (fun u => decide (u.PlatformID = pid ∧ u.PlatformUserID = puid)) = false := by
        rw [List.any_eq_false]
        intro u hu
        have := List.find?_eq_none.mp hfind u hu
        simpa using this
      by_cases hi : env.dbErr .insertCustomer = true
      · simp [hi] at h
      · simp only [hi, hany, Bool.false_eq_true, if_false, Except.ok.injEq,
          Prod.mk.injEq] at h
        right
        obtain ⟨h1, h2⟩ := h
        subst h1
        exact ⟨h2.symm, rfl, rfl⟩

theorem GetRoundForUpdate_ok (env : Env) (tx : DB) (roundID : String) (round : GameRoundInfo)
    (h : GetRoundForUpdate env tx roundID = .ok round) :
    tx.rounds.find? (fun r => r.GameRoundID = roundID) = some round := by
  unfold GetRoundForUpdate at h
  split_ifs at h
  split at h
  · simp only [Except.ok.injEq] at h
    subst h
    assumption
  · cases h

theorem IdempotencyKey_Insert_ok (env : Env) (tx tx1 : DB) (k : DtGame.IdempotencyKey)
    (h : IdempotencyKey.Insert env tx k = .ok tx1) :
    (∀ r ∈ tx.idemKeys, ¬ (r.IdempotencyKey = k.IdempotencyKey ∧ r.Purpose = k.Purpose)) ∧
    tx1 = { tx with idemKeys := tx.idemKeys ++ [k] } := by
  unfold IdempotencyKey.Insert at h
  split_ifs at h with h1 h2
  simp only [Except.ok.injEq] at h
  refine ⟨?_, h.symm⟩
  intro r hr
  simp only [List.any_eq_true, not_exists, not_and] at h2
  have := h2 r hr
  simpa using this

theorem PlaceBet_cases (env : Env) (st : State) (inp : BetInput) :
    (PlaceBet env st inp).2.db = st.db ∨
    ∃ a kv locked user tx round tx1 tx2 afterDec,
      validateBetAmount inp.BetAmount = .ok a ∧
      kvFastPath env st.kv inp.IdempotencyKey = .proceed kv locked ∧
      BetCommitted env st.db inp a user tx round tx1 tx2 afterDec ∧
      (PlaceBet env st inp).1 =
        .ok { BillNo := generateBillNo env user.ID, RemainAmount := afterDec.Round 2 } ∧
      (PlaceBet env st inp).2.db = tx2 ∧
      (PlaceBet env st inp).2.kv =
        (if locked then
          releaseLock env (cacheResult env kv inp.IdempotencyKey
            { BillNo := generateBillNo env user.ID, RemainAmount := afterDec.Round 2 })
            inp.IdempotencyKey
        else cacheResult env kv inp.IdempotencyKey
          { BillNo := generateBillNo env user.ID, RemainAmount := afterDec.Round 2 }) := by
  unfold PlaceBet
  cases hv : validateBetAmount inp.BetAmount with
  | error e1 => simp
  | ok a =>
    simp only []
    cases hk : kvFastPath env st.kv inp.IdempotencyKey with
    | hit out => simp
    | inFlight => simp
    | proceed kv locked =>
      simp only []
      rcases placeBetTx_cases env st.db kv inp a with h | ⟨user, tx, round, tx1, tx2, afterDec, hc, he⟩
      · left
        exact h.1
      · right
        refine ⟨a, kv, locked, user, tx, round, tx1, tx2, afterDec, rfl, rfl, hc, ?_, ?_, ?_⟩
        · rw [he]
        · rw [he]
        · rw [he]

theorem UpdateUserBalance_error (env : Env) (tx : DB) (userID : Int) (b : Float64) (e : Err)
    (h : UpdateUserBalance env tx userID b = .error e) : e = ErrBadConn := by
  unfold UpdateUserBalance at h
  split_ifs at h
  simp only [Except.error.injEq] at h
  exact h.symm

theorem WalletLedger_Insert_error (env : Env) (tx : DB) (l : WalletLedger) (e : Err)
    (h : l.Insert env tx = .error e) : e = ErrBadConn := by
  unfold WalletLedger.Insert at h
  split_ifs at h
  simp only [Except.error.injEq] at h
  exact h.symm

theorem Order_Insert_error (env : Env) (tx : DB) (o : Order) (e : Err)
    (h : o.Insert env tx = .error e) : e = ErrBadConn ∨ e = ErrDuplicateEntry := by
  unfold Order.Insert at h
  split_ifs at h <;> simp only [Except.error.injEq] at h
  · exact Or.inl h.symm
  · exact Or.inr h.symm

theorem CreateOutbox_error (env : Env) (tx : DB) (topic bizKey : String)
    (payload : List (String × JVal)) (e : Err)
    (h : CreateOutbox env tx topic bizKey payload = .error e) : e = ErrBadConn := by
  unfold CreateOutbox at h
  split_ifs at h
  simp only [Except.error.injEq] at h
  exact h.symm

theorem placeBetWrites_error (env : Env) (tx1 : DB) (inp : BetInput) (user : Customers)
    (a odds : Dec) (billNo : String) (e : Err)
    (h : placeBetWrites env tx1 inp user a odds billNo = .error e) :
    (user.Status ≠ 1 ∧ e = .msg "user disabled") ∨
    (user.Status = 1 ∧ (balanceDec user).Cmp a < 0 ∧ e = .msg "insufficient balance") ∨
    (user.Status = 1 ∧ ¬ (balanceDec user).Cmp a < 0 ∧
      (e = ErrBadConn ∨ e = ErrDuplicateEntry)) := by
  unfold placeBetWrites at h
  by_cases h1 : user.Status = 1
  · by_cases h2 : (balanceDec user).Cmp a < 0
    · right; left
      simp only [h1, h2, ne_eq, not_true_eq_false, if_false, if_true, Except.error.injEq] at h
      exact ⟨h1, h2, h.symm⟩
    · right; right
      refine ⟨h1, h2, ?_⟩
      simp only [h1, h2, ne_eq, not_true_eq_false, if_false] at h
      cases hu : UpdateUserBalance env tx1 user.ID
          (((balanceDec user).Sub a).Round 2).InexactFloat64 with
      | error e1 =>
        simp only [hu, Except.error.injEq] at h
        subst h
        exact Or.inl (UpdateUserBalance_error _ _ _ _ _ hu)
      | ok t1 =>
        simp only [hu] at h
        cases hli : (betLedger inp user a billNo).Insert env t1 with
        | error e1 =>
          simp only [hli, Except.error.injEq] at h
          subst h
          exact Or.inl (WalletLedger_Insert_error _ _ _ _ hli)
        | ok t2 =>
          simp only [hli] at h
          cases hoi : (betOrder inp user a odds billNo).Insert env t2 with
          | error e1 =>
            simp only [hoi, Except.error.injEq] at h
            subst h
            exact Order_Insert_error _ _ _ _ hoi
          | ok t3 =>
            simp only [hoi] at h
            cases hob : CreateOutbox env t3 "bet_placed" billNo (betPayload inp user billNo) with
            | error e1 =>
              simp only [hob, Except.error.injEq] at h
              subst h
              exact Or.inl (CreateOutbox_error _ _ _ _ _ _ hob)
            | ok t4 => simp [hob] at h
  · left
    rw [if_pos h1] at h
    simp only [Except.error.injEq] at h
    exact ⟨h1, h.symm⟩

theorem recoverPriorResult_error (env : Env) (db : DB) (kv : Option KV) (inp : BetInput)
    (err e : Err) (h : recoverPriorResult env db kv inp err = .error e) :
    e = .wrap "idempotency conflict or insert failed: " err := by
  unfold recoverPriorResult at h
  simp only [] at h
  split at h
  · cases h
  · split at h
    · split_ifs at h
      · split at h
        · cases h
        · simp only [Except.error.injEq] at h; exact h.symm
      · simp only [Except.error.injEq] at h; exact h.symm
    · simp only [Except.error.injEq] at h; exact h.symm

/-- The errors `PlaceBet` can return once the bet-window check is passed. -/
theorem placeBetTx_after_window (env : Env) (db : DB) (kv : Option KV) (inp : BetInput)
    (a : Dec) (user : Customers) (tx : DB) (round : GameRoundInfo)
    (hb : env.dbErr .beginTx = false)
    (hu : getOrCreateUserInTx env db inp.PlatformID inp.PlatformUserID inp.PlatformUserName
      = .ok (user, tx))
    (hr : GetRoundForUpdate env tx inp.GameRoundID = .ok round)
    (hs : round.GameStatus = 2)
    (hw : checkBetWindow env.now round.BetStartTime round.BetStopTime = none) (e : Err)
    (h : (placeBetTx env db kv inp a).1 = .error e) :
    (∃ p e1, e = .wrap p e1) ∨ e = ErrConflictingPlayTypes ∨ e = .msg "user disabled" ∨
      e = .msg "insufficient balance" ∨ e = ErrBadConn ∨ e = ErrDuplicateEntry := by
  have hs2 : codeToState round.GameStatus = StateBetting := (codeToState_betting_iff _).mpr hs
  unfold placeBetTx at h
  simp only [hb, hu, hr, hs2, hw, Bool.false_eq_true, if_false, ne_eq, not_true_eq_false] at h
  cases hc : checkConflictingBets env tx inp.GameRoundID inp.PlatformID
      inp.PlatformUserID inp.PlayType with
  | error e1 =>
    simp only [hc, Except.error.injEq] at h
    exact Or.inl ⟨_, _, h.symm⟩
  | ok b =>
    cases b with
    | true =>
      simp only [hc, Except.error.injEq] at h
      exact Or.inr (Or.inl h.symm)
    | false =>
      simp only [hc] at h
      cases hi : IdempotencyKey.Insert env tx
          { IdempotencyKey := inp.IdempotencyKey, Purpose := "bet",
            Ref := generateBillNo env user.ID } with
      | error e1 =>
        simp only [hi] at h
        split_ifs at h
        · exact Or.inl ⟨_, _, recoverPriorResult_error _ _ _ _ _ _ h⟩
        · simp only [Except.error.injEq] at h
          exact Or.inl ⟨_, _, h.symm⟩
      | ok tx1 =>
        simp only [hi] at h
        cases hwr : placeBetWrites env tx1 inp user a (calcOdds (ptMap inp.PlayType))
            (generateBillNo env user.ID) with
        | error e1 =>
          simp only [hwr, Except.error.injEq] at h
          subst h
          rcases placeBetWrites_error _ _ _ _ _ _ _ _ hwr with h1 | h1 | h1
          · exact Or.inr (Or.inr (Or.inl h1.2))
          · exact Or.inr (Or.inr (Or.inr (Or.inl h1.2.2)))
          · rcases h1.2.2 with h2 | h2
            · exact Or.inr (Or.inr (Or.inr (Or.inr (Or.inl h2))))
            · exact Or.inr (Or.inr (Or.inr (Or.inr (Or.inr h2))))
        | ok q =>
          obtain ⟨tx2, afterDec⟩ := q
          simp only [hwr] at h
          split_ifs at h
          simp only [Except.error.injEq] at h
          exact Or.inr (Or.inr (Or.inr (Or.inr (Or.inl h.symm))))

/-! ## The claims on the state machine and on bet placement -/

/-- C1: `NextState` follows the transition table.  For every state and event
either the pair is one of the six rows of the table and the call succeeds
with the row's target state, or the pair is in no row and the call returns
the current state unchanged together with the invalid-transition error. -/
theorem NextState_follows_table (cur evt : String) :
    (∃ nxt, (cur, evt, nxt) ∈ transitionTable ∧ NextState cur evt = (nxt, none)) ∨
    ((∀ nxt, (cur, evt, nxt) ∉ transitionTable) ∧
      NextState cur evt = (cur, some (invalidTransition cur evt))) := by
  unfold NextState transitionTable StateInit StateBetting StateSealed StateDealt StateDrawn
    StateSettled StateFinished EvtGameStart EvtGameStop EvtNewCard EvtGameDraw EvtGameEnd
  by_cases h1 : cur = "init" <;> by_cases h2 : cur = "betting" <;>
  by_cases h3 : cur = "sealed" <;> by_cases h4 : cur = "dealt" <;>
  by_cases h5 : cur = "drawn" <;> by_cases h6 : cur = "settled" <;>
  by_cases e1 : evt = "game_start" <;> by_cases e2 : evt = "game_stop" <;>
  by_cases e3 : evt = "new_card" <;> by_cases e4 : evt = "game_draw" <;>
  by_cases e5 : evt = "game_end" <;> simp_all

theorem PlaceBet_of_invalid_amount (env : Env) (st : State) (inp : BetInput) (e : Err)
    (h : validateBetAmount inp.BetAmount = .error e) :
    PlaceBet env st inp = (.error e, st) := by
  unfold PlaceBet
  rw [h]

theorem validateBetAmount_of_no_parse (s : String)
    (h : NewFromString (TrimSpace s.toList) = none) :
    validateBetAmount s = .error (.msg "invalid bet amount format") := by
  unfold validateBetAmount
  rw [h]

/-- C10: the amount validation that opens `PlaceBet`.  A bet amount that
parses as the decimal `a` is rejected as not positive iff `a ≤ 0`, as below
the minimum iff `0 < a < 0.01`, as above the maximum iff `a > 1000000`, and
passes iff `0.01 ≤ a ≤ 1000000`; an amount that does not parse is rejected
for its format; `0.01` and `1000000` pass, `0.00` is not positive and
`1000000.01` is above the maximum; and `PlaceBet` returns the validation
error without touching the state. -/
theorem validateBetAmount_contract :
    (∀ (s : String) (a : Dec), NewFromString (TrimSpace s.toList) = some a →
      (validateBetAmount s = .error (.msg "bet amount must be positive") ↔ a.toRat ≤ 0) ∧
      (validateBetAmount s = .error (.msg "bet amount below minimum limit: 0.01") ↔
        0 < a.toRat ∧ a.toRat < 1 / 100) ∧
      (validateBetAmount s = .error (.msg "bet amount exceeds maximum limit: 1000000") ↔
        1000000 < a.toRat) ∧
      (validateBetAmount s = .ok a ↔ 1 / 100 ≤ a.toRat ∧ a.toRat ≤ 1000000)) ∧
    (∀ s : String, NewFromString (TrimSpace s.toList) = none →
      validateBetAmount s = .error (.msg "invalid bet amount format")) ∧
    validateBetAmount "0.01" = .ok ⟨1, 2⟩ ∧
    validateBetAmount "1000000" = .ok ⟨1000000, 0⟩ ∧
    validateBetAmount "0.00" = .error (.msg "bet amount must be positive") ∧
    validateBetAmount "1000000.01" =
      .error (.msg "bet amount exceeds maximum limit: 1000000") ∧
    (∀ (env : Env) (st : State) (inp : BetInput) (e : Err),
      validateBetAmount inp.BetAmount = .error e → PlaceBet env st inp = (.error e, st)) :=
  ⟨validateBetAmount_of_parse, validateBetAmount_of_no_parse, by decide, by decide, by decide,
    by decide, PlaceBet_of_invalid_amount⟩

/-- The validation at the amount `0.5`, which parses and lies inside the
bounds. -/
theorem validateBetAmount_contract_witness :
    NewFromString (TrimSpace "0.5".toList) = some ⟨5, 1⟩ ∧
    validateBetAmount "0.5" = .ok ⟨5, 1⟩ :=
  ⟨by decide,
    ((validateBetAmount_contract.1 "0.5" ⟨5, 1⟩ (by decide)).2.2.2).mpr
      (by norm_num [Dec.toRat])⟩

theorem PlaceBet_eq_tx (env : Env) (st : State) (inp : BetInput) (a : Dec) (kv : Option KV)
    (locked : Bool) (hv : validateBetAmount inp.BetAmount = .ok a)
    (hk : kvFastPath env st.kv inp.IdempotencyKey = .proceed kv locked) :
    (PlaceBet env st inp).1 = (placeBetTx env st.db kv inp a).1 ∧
    (PlaceBet env st inp).2.db = (placeBetTx env st.db kv inp a).2.1 := by
  simp [PlaceBet, hv, hk]

theorem placeBetTx_invalid_state (env : Env) (db : DB) (kv : Option KV) (inp : BetInput)
    (a : Dec) (user : Customers) (tx : DB) (round : GameRoundInfo)
    (hb : env.dbErr .beginTx = false)
    (hu : getOrCreateUserInTx env db inp.PlatformID inp.PlatformUserID inp.PlatformUserName
      = .ok (user, tx))
    (hr : GetRoundForUpdate env tx inp.GameRoundID = .ok round)
    (hs : round.GameStatus ≠ 2) :
    placeBetTx env db kv inp a = (.error ErrInvalidStateBet, db, kv) := by
  have hs2 : codeToState round.GameStatus ≠ StateBetting := fun h =>
    hs ((codeToState_betting_iff _).mp h)
  simp [placeBetTx, hb, hu, hr, hs2]

/-- C3: bets are accepted only in state betting.  A `PlaceBet` call that
reaches the round check (valid amount, no cached result, lock taken or no
Redis client, user and round read) on a round whose stored status is not `2`
fails with `ErrInvalidStateBet`, whatever the clock and the bet window are;
and a call that adds an order found its round in status `2`. -/
theorem PlaceBet_only_in_betting (env : Env) (st : State) (inp : BetInput) :
    (∀ a kv locked user tx round,
      validateBetAmount inp.BetAmount = .ok a →
      kvFastPath env st.kv inp.IdempotencyKey = .proceed kv locked →
      env.dbErr .beginTx = false →
      getOrCreateUserInTx env st.db inp.PlatformID inp.PlatformUserID inp.PlatformUserName
        = .ok (user, tx) →
      GetRoundForUpdate env tx inp.GameRoundID = .ok round →
      round.GameStatus ≠ 2 →
      (PlaceBet env st inp).1 = .error ErrInvalidStateBet) ∧
    ((PlaceBet env st inp).2.db.orders ≠ st.db.orders →
      ∃ round ∈ st.db.rounds, round.GameRoundID = inp.GameRoundID ∧ round.GameStatus = 2) := by
  constructor
  · intro a kv locked user tx round hv hk hb hu hr hs
    rw [(PlaceBet_eq_tx env st inp a kv locked hv hk).1,
      placeBetTx_invalid_state env st.db kv inp a user tx round hb hu hr hs]
  · intro hne
    rcases PlaceBet_cases env st inp with h | ⟨a, kv, locked, user, tx, round, tx1, tx2, afterDec,
      _, _, hc, _, _, _⟩
    · rw [h] at hne
      exact absurd rfl hne
    · have hfind := GetRoundForUpdate_ok _ _ _ _ hc.round_ok
      have htx : tx.rounds = st.db.rounds := by
        rcases getOrCreateUserInTx_ok _ _ _ _ _ _ _ hc.user_ok with h1 | h1
        · rw [h1.1]
        · rw [h1.1]
      rw [htx] at hfind
      refine ⟨round, List.mem_of_find?_eq_some hfind, ?_, hc.betting⟩
      have := List.find?_some hfind
      simpa using this

/-- The round check on the sealed round `R1`, and the order placed while the
round was in betting. -/
theorem PlaceBet_only_in_betting_witness :
    (PlaceBet sampleEnv sampleSealed sampleBet).1 = .error ErrInvalidStateBet ∧
    ∃ round ∈ sampleBetting.db.rounds, round.GameRoundID = "R1" ∧ round.GameStatus = 2 :=
  ⟨(PlaceBet_only_in_betting sampleEnv sampleSealed sampleBet).1 ⟨10000, 2⟩ none false
      sampleUser sampleSealed.db { sampleRound with GameStatus := 3, BetStopTime := 2000 }
      (by decide) (by decide) (by decide) (by decide) (by decide) (by decide),
    (PlaceBet_only_in_betting sampleEnv sampleBetting sampleBet).2 (by decide)⟩

theorem checkBetWindow_none_iff (now start stop : Int) :
    checkBetWindow now start stop = none ↔ start ≤ now ∧ now ≤ stop := by
  unfold checkBetWindow
  split_ifs with h1 h2 <;> simp <;> omega

/-- C4: the bet window is the closed interval `[bet_start_ms, bet_stop_ms]`.
For a `PlaceBet` call that reaches the window check on a round in betting
whose window is an interval (`bet_start_ms ≤ bet_stop_ms`), the call fails
with `ErrBetWindowNotStart` iff `now < bet_start_ms`, fails with
`ErrBetWindowClosed` iff `now > bet_stop_ms`, and passes the check iff
`bet_start_ms ≤ now ≤ bet_stop_ms`; the check passes at both ends of the
window and fails one millisecond outside either end. -/
theorem PlaceBet_window (env : Env) (st : State) (inp : BetInput) (a : Dec)
    (kv : Option KV) (locked : Bool) (user : Customers) (tx : DB) (round : GameRoundInfo)
    (hv : validateBetAmount inp.BetAmount = .ok a)
    (hk : kvFastPath env st.kv inp.IdempotencyKey = .proceed kv locked)
    (hb : env.dbErr .beginTx = false)
    (hu : getOrCreateUserInTx env st.db inp.PlatformID inp.PlatformUserID
      inp.PlatformUserName = .ok (user, tx))
    (hr : GetRoundForUpdate env tx inp.GameRoundID = .ok round)
    (hs : round.GameStatus = 2)
    (hw : round.BetStartTime ≤ round.BetStopTime) :
    ((PlaceBet env st inp).1 = .error ErrBetWindowNotStart ↔ env.now < round.BetStartTime) ∧
    ((PlaceBet env st inp).1 = .error ErrBetWindowClosed ↔ env.now > round.BetStopTime) ∧
    (checkBetWindow env.now round.BetStartTime round.BetStopTime = none ↔
      round.BetStartTime ≤ env.now ∧ env.now ≤ round.BetStopTime) ∧
    checkBetWindow round.BetStartTime round.BetStartTime round.BetStopTime = none ∧
    checkBetWindow round.BetStopTime round.BetStartTime round.BetStopTime = none ∧
    checkBetWindow (round.BetStartTime - 1) round.BetStartTime round.BetStopTime =
      some ErrBetWindowNotStart ∧
    checkBetWindow (round.BetStopTime + 1) round.BetStartTime round.BetStopTime =
      some ErrBetWindowClosed := by
  have hs2 : codeToState round.GameStatus = StateBetting := (codeToState_betting_iff _).mpr hs
  have hres := (PlaceBet_eq_tx env st inp a kv locked hv hk).1
  have key : ∀ e, checkBetWindow env.now round.BetStartTime round.BetStopTime = some e →
      (PlaceBet env st inp).1 = .error e := by
    intro e he
    rw [hres]
    simp [placeBetTx, hb, hu, hr, hs2, he]
  have pass : checkBetWindow env.now round.BetStartTime round.BetStopTime = none →
      (PlaceBet env st inp).1 ≠ .error ErrBetWindowNotStart ∧
      (PlaceBet env st inp).1 ≠ .error ErrBetWindowClosed := by
    intro hn
    rw [hres]
    constructor <;> intro habs <;>
      rcases placeBetTx_after_window env st.db kv inp a user tx round hb hu hr hs hn _ habs
        with ⟨p, e1, h⟩ | h | h | h | h | h <;> simp [ErrBetWindowNotStart, ErrBetWindowClosed,
          ErrConflictingPlayTypes, ErrBadConn, ErrDuplicateEntry] at h
  refine ⟨?_, ?_, checkBetWindow_none_iff _ _ _, ?_, ?_, ?_, ?_⟩
  · constructor
    · intro h
      by_contra hlt
      by_cases h2 : env.now > round.BetStopTime
      · have := key ErrBetWindowClosed (by simp [checkBetWindow, hlt, h2])
        rw [h] at this
        simp [ErrBetWindowNotStart, ErrBetWindowClosed] at this
      · exact (pass (by simp [checkBetWindow, hlt, h2])).1 h
    · intro h
      exact key _ (by simp [checkBetWindow, h])
  · constructor
    · intro h
      by_contra hgt
      by_cases h1 : env.now < round.BetStartTime
      · have := key ErrBetWindowNotStart (by simp [checkBetWindow, h1])
        rw [h] at this
        simp [ErrBetWindowNotStart, ErrBetWindowClosed] at this
      · exact (pass (by simp [checkBetWindow, h1, hgt])).2 h
    · intro h
      have h1 : ¬ env.now < round.BetStartTime := by omega
      exact key _ (by simp [checkBetWindow, h1, h])
  · simp [checkBetWindow, hw]
  · simp [checkBetWindow]
    omega
  · simp [checkBetWindow]
  · simp [checkBetWindow]
    omega

/-- The window check of round `R1`, window `[1000, 46000]`, at clock value
`2000`. -/
theorem PlaceBet_window_witness :
    sampleRound.BetStartTime ≤ sampleRound.BetStopTime ∧
    ((PlaceBet sampleEnv sampleBetting sampleBet).1 = .error ErrBetWindowClosed ↔
      sampleEnv.now > sampleRound.BetStopTime) :=
  ⟨by decide,
    (PlaceBet_window sampleEnv sampleBetting sampleBet ⟨10000, 2⟩ none false sampleUser
      sampleBetting.db sampleRound (by decide) (by decide) (by decide) (by decide)
      (by decide) (by decide) (by decide)).2.1⟩

/-- C9: a failing `PlaceBet` changes no table.  Whenever `PlaceBet` returns an
error, the tables after the call are the tables before it: no order, ledger
row, idempotency key, outbox row or auto-registered user is stored and no
balance changes. -/
theorem PlaceBet_error_leaves_tables (env : Env) (st : State) (inp : BetInput) (e : Err)
    (h : (PlaceBet env st inp).1 = .error e) : (PlaceBet env st inp).2.db = st.db := by
  rcases PlaceBet_cases env st inp with h1 | ⟨a, kv, locked, user, tx, round, tx1, tx2,
    afterDec, _, _, _, hok, _, _⟩
  · exact h1
  · rw [hok] at h
    cases h

/-- A bet of `10.00` by a new user: the user is registered inside the
transaction with balance `0.00`, the balance check fails, and nothing is
stored. -/
theorem PlaceBet_error_leaves_tables_witness :
    (PlaceBet sampleEnv sampleBetting sampleBetNewUser).1 =
      .error (.msg "insufficient balance") ∧
    (PlaceBet sampleEnv sampleBetting sampleBetNewUser).2.db = sampleBetting.db :=
  ⟨by decide,
    PlaceBet_error_leaves_tables sampleEnv sampleBetting sampleBetNewUser _
      (show (PlaceBet sampleEnv sampleBetting sampleBetNewUser).1 =
        .error (.msg "insufficient balance") by decide)⟩

namespace Dec

theorem toRat_eq_zero_iff (d : Dec) : d.toRat = 0 ↔ d.value = 0 := by
  unfold toRat
  have hpos : (10 : ℚ) ^ d.scale ≠ 0 := by positivity
  rw [div_eq_zero_iff]
  simp [hpos]

theorem Sub_scale (a b : Dec) : (a.Sub b).scale = max a.scale b.scale := rfl

theorem toRat_Round_Sub_nonneg (b a : Dec) (h : ¬ b.Cmp a < 0) :
    0 ≤ ((b.Sub a).Round 2).toRat := by
  rw [toRat_nonneg_iff]
  apply Round_nonneg
  rw [← toRat_nonneg_iff, toRat_Sub]
  rw [Cmp_lt_zero_iff] at h
  linarith

theorem toRat_Round_Sub_exact (b a : Dec) (hb : b.scale ≤ 2) (ha : a.scale ≤ 2) :
    ((b.Sub a).Round 2).toRat = b.toRat - a.toRat := by
  rw [toRat_Round_of_scale_le _ _ (by rw [Sub_scale]; exact max_le hb ha), toRat_Sub]

theorem toRat_Round_Sub_zero (b a : Dec) (h : b.toRat = a.toRat) :
    ((b.Sub a).Round 2).toRat = 0 := by
  rw [toRat_eq_zero_iff]
  apply Round_zero
  rw [← toRat_eq_zero_iff, toRat_Sub, h, sub_self]

end Dec

theorem placeBetTx_of_reaches (env : Env) (db : DB) (kv : Option KV) (inp : BetInput)
    (a : Dec) (user : Customers) (tx : DB) (round : GameRoundInfo) (tx1 : DB)
    (hr : BetReachesWrites env db inp user tx round tx1) :
    placeBetTx env db kv inp a =
      match placeBetWrites env tx1 inp user a (calcOdds (ptMap inp.PlayType))
          (generateBillNo env user.ID) with
      | .error e => (.error e, db, kv)
      | .ok (tx2, afterDec) =>
        if env.dbErr .commit then (.error ErrBadConn, db, kv)
        else
          (.ok { BillNo := generateBillNo env user.ID, RemainAmount := afterDec.Round 2 }, tx2,
            cacheResult env kv inp.IdempotencyKey
              { BillNo := generateBillNo env user.ID, RemainAmount := afterDec.Round 2 }) := by
  have hs2 : codeToState round.GameStatus = StateBetting :=
    (codeToState_betting_iff _).mpr hr.betting
  unfold placeBetTx
  simp only [hr.begin_ok, hr.user_ok, hr.round_ok, hs2, hr.window_ok, hr.no_conflict,
    hr.idem_ok, Bool.false_eq_true, if_false, ne_eq, not_true_eq_false]
  cases placeBetWrites env tx1 inp user a (calcOdds (ptMap inp.PlayType))
      (generateBillNo env user.ID) with
  | error e => rfl
  | ok q =>
    obtain ⟨tx2, afterDec⟩ := q
    simp only [cacheResult]

theorem PlaceBet_customers_nonneg (env : Env) (st : State) (inp : BetInput)
    (h : ∀ u ∈ st.db.customers, 0 ≤ u.Balance.toRat) :
    ∀ u ∈ (PlaceBet env st inp).2.db.customers, 0 ≤ u.Balance.toRat := by
  rcases PlaceBet_cases env st inp with h1 | ⟨a, kv, locked, user, tx, round, tx1, tx2,
    afterDec, _, _, hc, _, hdb, _⟩
  · rw [h1]
    exact h
  · rw [hdb]
    obtain ⟨_, hw⟩ := placeBetWrites_ok _ _ _ _ _ _ _ _ _ hc.writes_ok
    obtain ⟨_, e1⟩ := IdempotencyKey_Insert_ok _ _ _ _ hc.idem_ok
    have htx : ∀ u ∈ tx.customers, 0 ≤ u.Balance.toRat := by
      rcases getOrCreateUserInTx_ok _ _ _ _ _ _ _ hc.user_ok with h1 | h1
      · rw [h1.1]
        exact h
      · rw [h1.1]
        intro u hu
        simp only [List.mem_append, List.mem_singleton] at hu
        rcases hu with hu | hu
        · exact h u hu
        · rw [hu, h1.2.2]
          norm_num [Dec.toRat]
    intro u hu
    rw [hw.customers_eq, e1] at hu
    simp only [List.mem_map] at hu
    obtain ⟨v, hv, rfl⟩ := hu
    split_ifs
    · show 0 ≤ ((((balanceDec user).Sub a).Round 2).InexactFloat64.toColumn).toRat
      rw [Dec.toRat_nonneg_iff]
      exact toColumn_nonneg _
        ((Dec.toRat_nonneg_iff _).mp (Dec.toRat_Round_Sub_nonneg _ _ hw.covered))
    · exact htx v hv

theorem validateBetAmount_ok_bounds (s : String) (a : Dec) (h : validateBetAmount s = .ok a) :
    1 / 100 ≤ a.toRat ∧ a.toRat ≤ 1000000 := by
  cases hp : NewFromString (TrimSpace s.toList) with
  | none =>
    rw [validateBetAmount_of_no_parse s hp] at h
    cases h
  | some d =>
    have hd : d = a := by
      unfold validateBetAmount at h
      rw [hp] at h
      simp only [] at h
      split_ifs at h
      simpa using h
    subst hd
    exact (validateBetAmount_of_parse s d hp).2.2.2.mp h

/-! ## The paths of `Handle` -/

theorem KeepsBets_refl (db : DB) : KeepsBets db db := ⟨rfl, rfl, rfl, rfl, rfl⟩

theorem KeepsBets_trans {a b c : DB} (h1 : KeepsBets a b) (h2 : KeepsBets b c) :
    KeepsBets a c :=
  ⟨h2.1.trans h1.1, h2.2.1.trans h1.2.1, h2.2.2.1.trans h1.2.2.1,
    h2.2.2.2.1.trans h1.2.2.2.1, h2.2.2.2.2.trans h1.2.2.2.2⟩

theorem KeepsBets_updateRound (db : DB) (id : String) (f : GameRoundInfo → GameRoundInfo) :
    KeepsBets db (updateRound db id f) := ⟨rfl, rfl, rfl, rfl, rfl⟩

theorem filter_length_pos_iff (rounds : List GameRoundInfo) (id : String) :
    (rounds.filter (fun r => r.GameRoundID = id)).length > 0 ↔
      rounds.find? (fun r => r.GameRoundID = id) ≠ none := by
  induction rounds with
  | nil => simp
  | cons r rs ih =>
    by_cases h : r.GameRoundID = id
    · simp [List.filter_cons, List.find?_cons, h]
    · simp only [List.filter_cons, List.find?_cons, h, decide_False, Bool.false_eq_true,
        if_false]
      exact ih

theorem EnsureOnStart_ok (env : Env) (tx tx1 : DB) (roundID gameID roomID traceID : String)
    (h : EnsureOnStart env tx roundID gameID roomID traceID = .ok tx1) :
    (tx1 = tx ∧ tx.rounds.find? (fun r => r.GameRoundID = roundID) ≠ none) ∨
    (tx1 = { tx with rounds := tx.rounds ++ [newRound roundID gameID roomID traceID] } ∧
      tx.rounds.find? (fun r => r.GameRoundID = roundID) = none) := by
  unfold EnsureOnStart at h
  split_ifs at h with h1 h2 h3
  · simp only [Except.ok.injEq] at h
    exact Or.inl ⟨h.symm, (filter_length_pos_iff _ _).mp h2⟩
  · simp only [Except.ok.injEq] at h
    refine Or.inr ⟨h.symm, ?_⟩
    by_contra hne
    exact h2 ((filter_length_pos_iff _ _).mpr hne)

theorem GetStatusForUpdate_ok (env : Env) (tx : DB) (roundID : String) (c : Int)
    (h : GetStatusForUpdate env tx roundID = .ok c) :
    ∃ r, tx.rounds.find? (fun r => r.GameRoundID = roundID) = some r ∧ r.GameStatus = c := by
  unfold GetStatusForUpdate at h
  split_ifs at h
  split at h
  · simp only [Except.ok.injEq] at h
    exact ⟨_, by assumption, h⟩
  · cases h

theorem SetBetTimes_ok (env : Env) (tx tx1 : DB) (roundID : String) (s t : Int)
    (h : SetBetTimes env tx roundID s t = .ok tx1) :
    tx1 = updateRound tx roundID (fun r => { r with BetStartTime := s, BetStopTime := t }) := by
  unfold SetBetTimes at h
  split_ifs at h
  simp only [Except.ok.injEq] at h
  exact h.symm

theorem SetBetStopNow_ok (env : Env) (tx tx1 : DB) (roundID : String)
    (h : SetBetStopNow env tx roundID = .ok tx1) :
    tx1 = updateRound tx roundID (fun r => { r with BetStopTime := env.now }) := by
  unfold SetBetStopNow at h
  split_ifs at h
  simp only [Except.ok.injEq] at h
  exact h.symm

theorem UpdateState_ok (env : Env) (tx tx1 : DB) (roundID : String) (c : Int)
    (h : UpdateState env tx roundID c = .ok tx1) :
    tx1 = updateRound tx roundID (fun r => { r with GameStatus := c }) := by
  unfold UpdateState at h
  split_ifs at h
  simp only [Except.ok.injEq] at h
  exact h.symm

theorem GameEventAudit_Insert_ok (env : Env) (tx tx1 : DB) (e : GameEventAudit)
    (h : e.Insert env tx = .ok tx1) : tx1 = { tx with audit := tx.audit ++ [e] } := by
  unfold GameEventAudit.Insert at h
  split_ifs at h
  simp only [Except.ok.injEq] at h
  exact h.symm

theorem CreateOutbox_keeps (env : Env) (tx tx1 : DB) (topic bizKey : String)
    (payload : List (String × JVal)) (h : CreateOutbox env tx topic bizKey payload = .ok tx1) :
    KeepsBets tx tx1 ∧ tx1.rounds = tx.rounds := by
  rw [CreateOutbox_ok _ _ _ _ _ _ h]
  exact ⟨⟨rfl, rfl, rfl, rfl, rfl⟩, rfl⟩

theorem handleOutbox_ok (env : Env) (tx tx1 : DB) (inp : GameEventInput) (evtStr : String)
    (s t : Int) (h : handleOutbox env tx inp evtStr s t = .ok tx1) :
    KeepsBets tx tx1 ∧ tx1.rounds = tx.rounds := by
  unfold handleOutbox at h
  simp only [] at h
  have step : ∀ (c : Prop) [Decidable c] (a b : DB) (topic key : String)
      (pl : List (String × JVal)),
      (if c then CreateOutbox env a topic key pl else .ok a) = .ok b →
      KeepsBets a b ∧ b.rounds = a.rounds := by
    intro c _ a b topic key pl hh
    split_ifs at hh
    · exact CreateOutbox_keeps _ _ _ _ _ _ hh
    · simp only [Except.ok.injEq] at hh
      subst hh
      exact ⟨KeepsBets_refl _, rfl⟩
  split at h
  · cases h
  · rename_i tx2 h2
    have k2 := step _ _ _ _ _ _ h2
    split at h
    · cases h
    · rename_i tx3 h3
      have k3 := step _ _ _ _ _ _ h3
      have k4 := step _ _ _ _ _ _ h
      exact ⟨KeepsBets_trans (KeepsBets_trans k2.1 k3.1) k4.1,
        by rw [k4.2, k3.2, k2.2]⟩

theorem handleEventEffects_ok (env : Env) (tx tx1 : DB) (inp : GameEventInput)
    (evtStr : String) (s t : Int) (h : handleEventEffects env tx inp evtStr = .ok (tx1, s, t)) :
    tx1 = updateRound tx inp.GameRoundID (fun r =>
      if evtStr = EvtGameStart then
        { r with BetStartTime := env.now,
                 BetStopTime := wrapInt64 (env.now + wrapInt64 (betWindowSeconds * 1000)) }
      else if evtStr = EvtGameStop then { r with BetStopTime := env.now }
      else r) ∧
    (evtStr = EvtGameStart →
      s = env.now ∧ t = wrapInt64 (env.now + wrapInt64 (betWindowSeconds * 1000))) ∧
    (evtStr = EvtGameEnd → ∃ round, GetRoundForUpdate env tx inp.GameRoundID = .ok round ∧
      round.GameResult ≠ 0 ∧ round.CardList ≠ "") := by
  have hid : tx = updateRound tx inp.GameRoundID (fun r => r) := by
    simp [updateRound]
  unfold handleEventEffects at h
  by_cases e1 : evtStr = EvtGameStart
  · simp only [e1, if_true] at h ⊢
    cases hs : SetBetTimes env tx inp.GameRoundID env.now
        (wrapInt64 (env.now + wrapInt64 (betWindowSeconds * 1000))) with
    | error e => simp [hs] at h
    | ok tx2 =>
      simp only [hs, Except.ok.injEq, Prod.mk.injEq] at h
      obtain ⟨h1, h2, h3⟩ := h
      subst h1
      refine ⟨SetBetTimes_ok _ _ _ _ _ _ hs, fun _ => ⟨h2.symm, h3.symm⟩, ?_⟩
      intro hend
      simp [EvtGameStart, EvtGameEnd] at hend
  · simp only [e1, if_false] at h ⊢
    by_cases e2 : evtStr = EvtGameStop
    · simp only [e2, if_true] at h ⊢
      cases hs : SetBetStopNow env tx inp.GameRoundID with
      | error e => simp [hs] at h
      | ok tx2 =>
        simp only [hs, Except.ok.injEq, Prod.mk.injEq] at h
        obtain ⟨h1, _, _⟩ := h
        subst h1
        refine ⟨SetBetStopNow_ok _ _ _ _ hs, fun hh => ?_, fun hh => ?_⟩
        · simp [EvtGameStart, EvtGameStop] at hh
        · simp [EvtGameStop, EvtGameEnd] at hh
    · simp only [e2, if_false] at h ⊢
      by_cases e3 : evtStr = EvtGameEnd
      · simp only [e3, if_true] at h
        cases hg : GetRoundForUpdate env tx inp.GameRoundID with
        | error e => simp [hg] at h
        | ok round =>
          simp only [hg] at h
          split_ifs at h with hc
          simp only [Except.ok.injEq, Prod.mk.injEq] at h
          refine ⟨by rw [← h.1]; exact hid, fun hh => hh.elim, fun _ => ?_⟩
          refine ⟨round, rfl, ?_⟩
          simpa [not_or] using hc
      · simp only [e3, if_false, Except.ok.injEq, Prod.mk.injEq] at h
        exact ⟨by rw [← h.1]; exact hid, fun hh => hh.elim, fun hh => absurd hh e3⟩


theorem handleTx_ok (env : Env) (db db1 : DB) (inp : GameEventInput) (evtStr : String)
    (s t : Int) (h : handleTx env db inp evtStr = .ok (db1, s, t)) :
    ∃ rs0 r0 nxt,
      (rs0 = db.rounds ∨
        (evtStr = EvtGameStart ∧
          db.rounds.find? (fun r => r.GameRoundID = inp.GameRoundID) = none ∧
          rs0 = db.rounds ++ [newRound inp.GameRoundID inp.GameID inp.RoomID inp.TraceID])) ∧
      rs0.find? (fun r => r.GameRoundID = inp.GameRoundID) = some r0 ∧
      NextState (codeToState r0.GameStatus) evtStr = (nxt, none) ∧
      db1.rounds = rs0.map (fun r =>
        if r.GameRoundID = inp.GameRoundID then handleRow env evtStr (stateToCode nxt) r
        else r) ∧
      KeepsBets db db1 ∧
      (evtStr = EvtGameStart →
        s = env.now ∧ t = wrapInt64 (env.now + wrapInt64 (betWindowSeconds * 1000))) ∧
      (evtStr = EvtGameEnd → r0.GameResult ≠ 0 ∧ r0.CardList ≠ "") := by
  unfold handleTx at h
  by_cases hb : env.dbErr .beginTx = true
  · simp [hb] at h
  · simp only [hb, Bool.false_eq_true, if_false] at h
    -- the round is ensured at game_start
    have hens : ∃ tx, (if evtStr = EvtGameStart then
          EnsureOnStart env db inp.GameRoundID inp.GameID inp.RoomID inp.TraceID
        else .ok db) = .ok tx := by
      cases hx : (if evtStr = EvtGameStart then
          EnsureOnStart env db inp.GameRoundID inp.GameID inp.RoomID inp.TraceID
        else .ok db) with
      | error e => simp [hx] at h
      | ok tx => exact ⟨tx, rfl⟩
    obtain ⟨tx, htx⟩ := hens
    simp only [htx] at h
    have hrs : (tx.rounds = db.rounds ∨
        (evtStr = EvtGameStart ∧
          db.rounds.find? (fun r => r.GameRoundID = inp.GameRoundID) = none ∧
          tx.rounds = db.rounds ++
            [newRound inp.GameRoundID inp.GameID inp.RoomID inp.TraceID])) ∧
        KeepsBets db tx := by
      split_ifs at htx with he
      · rcases EnsureOnStart_ok _ _ _ _ _ _ _ htx with h1 | h1
        · rw [h1.1]
          exact ⟨Or.inl rfl, KeepsBets_refl _⟩
        · rw [h1.1]
          exact ⟨Or.inr ⟨he, h1.2, rfl⟩, ⟨rfl, rfl, rfl, rfl, rfl⟩⟩
      · simp only [Except.ok.injEq] at htx
        rw [← htx]
        exact ⟨Or.inl rfl, KeepsBets_refl _⟩
    cases hst : GetStatusForUpdate env tx inp.GameRoundID with
    | error e => simp [hst] at h
    | ok prevStatus =>
      simp only [hst] at h
      obtain ⟨r0, hfind, hr0⟩ := GetStatusForUpdate_ok _ _ _ _ hst
      cases hn : NextState (codeToState prevStatus) evtStr with
      | mk nxt eo =>
        cases eo with
        | some e => simp [hn] at h
        | none =>
          simp only [hn] at h
          cases hef : handleEventEffects env tx inp evtStr with
          | error e => simp [hef] at h
          | ok q =>
            obtain ⟨tx1, s1, t1⟩ := q
            simp only [hef] at h
            obtain ⟨e1, hst1, hend⟩ := handleEventEffects_ok _ _ _ _ _ _ _ hef
            cases hup : UpdateState env tx1 inp.GameRoundID (stateToCode nxt) with
            | error e => simp [hup] at h
            | ok tx2 =>
              simp only [hup] at h
              have e2 := UpdateState_ok _ _ _ _ _ hup
              cases hob : handleOutbox env tx2 inp evtStr s1 t1 with
              | error e => simp [hob] at h
              | ok tx3 =>
                simp only [hob] at h
                obtain ⟨k3, r3⟩ := handleOutbox_ok _ _ _ _ _ _ _ hob
                split at h
                · cases h
                · rename_i tx4 hau
                  have e4 := GameEventAudit_Insert_ok _ _ _ _ hau
                  split_ifs at h
                  simp only [Except.ok.injEq, Prod.mk.injEq] at h
                  obtain ⟨h1, h2, h3⟩ := h
                  subst h1 h2 h3
                  refine ⟨tx.rounds, r0, nxt, hrs.1, hfind, by rw [hr0]; exact hn, ?_, ?_, hst1,
                    ?_⟩
                  · rw [e4]
                    show tx3.rounds = _
                    rw [r3, e2, e1]
                    simp only [updateRound, List.map_map]
                    apply List.map_congr_left
                    intro r _
                    simp only [Function.comp]
                    by_cases hid : r.GameRoundID = inp.GameRoundID
                    · simp only [hid, if_true, handleRow]
                      split_ifs <;> simp_all
                    · simp [hid]
                  · rw [e4]
                    have k12 : KeepsBets tx tx2 := by
                      rw [e2, e1]
                      exact ⟨rfl, rfl, rfl, rfl, rfl⟩
                    have := KeepsBets_trans (KeepsBets_trans hrs.2 k12) k3
                    exact ⟨this.1, this.2.1, this.2.2.1, this.2.2.2.1, this.2.2.2.2⟩
                  · intro hend1
                    obtain ⟨round, hg, hres⟩ := hend hend1
                    have := GetRoundForUpdate_ok _ _ _ _ hg
                    rw [hfind] at this
                    simp only [Option.some.injEq] at this
                    rw [this]
                    exact hres

theorem Handle_cases (env : Env) (st : State) (inp : GameEventInput) :
    (Handle env st inp).2 = st ∨
    ∃ db1 s t, handleTx env st.db inp (eventCodeToString inp.EventType) = .ok (db1, s, t) ∧
      (Handle env st inp).1 = none ∧
      (Handle env st inp).2 =
        { db := db1,
          kv := (handleCache env st.kv inp (eventCodeToString inp.EventType) s t) } := by
  unfold Handle
  split_ifs
  · exact Or.inl rfl
  · simp only []
    cases h : handleTx env st.db inp (eventCodeToString inp.EventType) with
    | error e => exact Or.inl rfl
    | ok q =>
      obtain ⟨db1, s, t⟩ := q
      exact Or.inr ⟨db1, s, t, rfl, rfl, rfl⟩

theorem handleCache_resultCache (env : Env) (kv : Option KV) (inp : GameEventInput)
    (evtStr : String) (s t : Int) :
    resultCache (handleCache env kv inp evtStr s t) = resultCache kv := by
  unfold handleCache resultCache
  cases kv with
  | none => rfl
  | some r =>
    simp only []
    split_ifs <;> rfl

/-! ## The paths of `SubmitDrawResult` -/

theorem SameBets_refl (db : DB) : SameBets db db := ⟨rfl, rfl, rfl⟩

theorem SameBets_trans {a b c : DB} (h1 : SameBets a b) (h2 : SameBets b c) : SameBets a c :=
  ⟨h2.1.trans h1.1, h2.2.1.trans h1.2.1, h2.2.2.trans h1.2.2⟩

theorem SameBets_of_KeepsBets {a b : DB} (h : KeepsBets a b) : SameBets a b :=
  ⟨h.2.2.2.1, by rw [h.2.1], by rw [h.1]⟩

theorem UpdateDraw_ok (env : Env) (tx tx1 : DB) (roundID cardList res : String) (status : Int)
    (h : UpdateDraw env tx roundID cardList res status = .ok tx1) :
    tx1 = updateRound tx roundID (fun r =>
      { r with CardList := cardList, GameResult := toPlayTypeCode res, GameResultStr := res,
               GameStatus := status, GameDrawTime := env.now }) := by
  unfold UpdateDraw at h
  simp only [] at h
  split_ifs at h
  simp only [Except.ok.injEq] at h
  exact h.symm

theorem CreateSettlementLog_ok (env : Env) (tx tx1 : DB) (log : SettlementLog)
    (h : CreateSettlementLog env tx log = .ok tx1) :
    tx1 = { tx with settlementLog := tx.settlementLog ++ [log] } := by
  unfold CreateSettlementLog at h
  split_ifs at h
  simp only [Except.ok.injEq] at h
  exact h.symm

theorem UpdateSettlement_ok (env : Env) (tx tx1 : DB) (billNo : String) (win : Dec)
    (billStatus gameResult : Int)
    (h : UpdateSettlement env tx billNo win billStatus gameResult = .ok tx1) :
    tx1 = { tx with orders := tx.orders.map (fun r =>
      if r.BillNo = billNo then
        { r with WinAmount := win, BillStatus := billStatus, GameResult := gameResult }
      else r) } := by
  unfold UpdateSettlement at h
  split_ifs at h
  simp only [Except.ok.injEq] at h
  exact h.symm

theorem UpdateSettlement_same (env : Env) (tx tx1 : DB) (billNo : String) (win : Dec)
    (billStatus gameResult : Int)
    (h : UpdateSettlement env tx billNo win billStatus gameResult = .ok tx1) :
    SameBets tx tx1 ∧ tx1.rounds = tx.rounds := by
  rw [UpdateSettlement_ok _ _ _ _ _ _ _ h]
  refine ⟨⟨rfl, ?_, rfl⟩, rfl⟩
  simp only [List.map_map]
  apply List.map_congr_left
  intro r _
  simp only [Function.comp]
  split_ifs <;> rfl

theorem settleOrders_same (env : Env) (res : String) (code : Int) (orders : List Order) :
    ∀ (tx tx1 : DB) (total total1 : Float64),
      settleOrders env res code orders tx total = .ok (tx1, total1) →
      SameBets tx tx1 ∧ tx1.rounds = tx.rounds := by
  induction orders with
  | nil =>
    intro tx tx1 total total1 h
    simp only [settleOrders, Except.ok.injEq, Prod.mk.injEq] at h
    rw [← h.1]
    exact ⟨SameBets_refl _, rfl⟩
  | cons o rest ih =>
    intro tx tx1 total total1 h
    simp only [settleOrders] at h
    split at h
    · cases h
    · rename_i tx2 h2
      obtain ⟨s2, r2⟩ := UpdateSettlement_same _ _ _ _ _ _ _ h2
      obtain ⟨s3, r3⟩ := ih _ _ _ _ h
      exact ⟨SameBets_trans s2 s3, by rw [r3, r2]⟩

theorem UpdateUserBalance_same (env : Env) (tx tx1 : DB) (userID : Int) (b : Float64)
    (h : UpdateUserBalance env tx userID b = .ok tx1) :
    SameBets tx tx1 ∧ tx1.rounds = tx.rounds := by
  rw [UpdateUserBalance_ok _ _ _ _ _ h]
  refine ⟨⟨rfl, rfl, ?_⟩, rfl⟩
  simp only [List.map_map]
  apply List.map_congr_left
  intro r _
  simp only [Function.comp]
  split_ifs <;> rfl

theorem WalletLedger_Insert_same (env : Env) (tx tx1 : DB) (l : WalletLedger)
    (h : l.Insert env tx = .ok tx1) : SameBets tx tx1 ∧ tx1.rounds = tx.rounds := by
  rw [WalletLedger_Insert_ok _ _ _ _ h]
  exact ⟨⟨rfl, rfl, rfl⟩, rfl⟩

theorem settleLedger_same (env : Env) (inp : DrawInput) (rows : List (Order × Dec)) :
    ∀ (cur : Dec) (tx tx1 : DB), settleLedger env inp rows cur tx = .ok tx1 →
      SameBets tx tx1 ∧ tx1.rounds = tx.rounds := by
  induction rows with
  | nil =>
    intro cur tx tx1 h
    simp only [settleLedger, Except.ok.injEq] at h
    rw [← h]
    exact ⟨SameBets_refl _, rfl⟩
  | cons p rest ih =>
    intro cur tx tx1 h
    obtain ⟨o, payoutDec⟩ := p
    simp only [settleLedger] at h
    split at h
    · cases h
    · rename_i tx2 h2
      obtain ⟨s2, r2⟩ := WalletLedger_Insert_same _ _ _ _ h2
      obtain ⟨s3, r3⟩ := ih _ _ _ h
      exact ⟨SameBets_trans s2 s3, by rw [r3, r2]⟩

theorem settleUsers_same (env : Env) (inp : DrawInput) (users : List userSettlement) :
    ∀ (tx tx1 : DB), settleUsers env inp users tx = .ok tx1 →
      SameBets tx tx1 ∧ tx1.rounds = tx.rounds := by
  induction users with
  | nil =>
    intro tx tx1 h
    simp only [settleUsers, Except.ok.injEq] at h
    rw [← h]
    exact ⟨SameBets_refl _, rfl⟩
  | cons us rest ih =>
    intro tx tx1 h
    simp only [settleUsers] at h
    split at h
    · cases h
    · split at h
      · cases h
      · rename_i tx2 h2
        obtain ⟨s2, r2⟩ := UpdateUserBalance_same _ _ _ _ _ h2
        split at h
        · cases h
        · rename_i tx3 h3
          obtain ⟨s3, r3⟩ := settleLedger_same _ _ _ _ _ _ h3
          obtain ⟨s4, r4⟩ := ih _ _ h
          exact ⟨SameBets_trans (SameBets_trans s2 s3) s4, by rw [r4, r3, r2]⟩

theorem settleOutbox_same (env : Env) (inp : DrawInput) (res : String) (orders : List Order) :
    ∀ (tx tx1 : DB), settleOutbox env inp res orders tx = .ok tx1 →
      SameBets tx tx1 ∧ tx1.rounds = tx.rounds := by
  induction orders with
  | nil =>
    intro tx tx1 h
    simp only [settleOutbox, Except.ok.injEq] at h
    rw [← h]
    exact ⟨SameBets_refl _, rfl⟩
  | cons o rest ih =>
    intro tx tx1 h
    simp only [settleOutbox] at h
    split at h
    · cases h
    · rename_i tx2 h2
      obtain ⟨k2, r2⟩ := CreateOutbox_keeps _ _ _ _ _ _ h2
      obtain ⟨s3, r3⟩ := ih _ _ h
      exact ⟨SameBets_trans (SameBets_of_KeepsBets k2) s3, by rw [r3, r2]⟩

theorem MarkAsSettled_ok (env : Env) (tx tx1 : DB) (roundID : String)
    (h : MarkAsSettled env tx roundID = .ok tx1) :
    tx1 = updateRound tx roundID (fun r => { r with IsSettled := 1, GameStatus := 6 }) := by
  unfold MarkAsSettled at h
  split_ifs at h
  simp only [Except.ok.injEq] at h
  exact h.symm

theorem UpdateSettlementStats_ok (env : Env) (tx tx1 : DB) (roundID : String) (n : Int)
    (p : Float64) (h : UpdateSettlementStats env tx roundID n p = .ok tx1) :
    SameBets tx tx1 ∧ tx1.rounds = tx.rounds := by
  unfold UpdateSettlementStats at h
  split_ifs at h
  simp only [Except.ok.injEq] at h
  rw [← h]
  exact ⟨⟨rfl, rfl, rfl⟩, rfl⟩

theorem settleRound_ok (env : Env) (tx tx1 : DB) (inp : DrawInput) (res : String) (n : Int)
    (p : Float64) (h : settleRound env tx inp res = .ok (tx1, n, p)) :
    SameBets tx tx1 ∧
    tx1.rounds = tx.rounds.map (fun r =>
      if r.GameRoundID = inp.GameRoundID then { r with IsSettled := 1, GameStatus := 6 }
      else r) := by
  unfold settleRound at h
  split at h
  · cases h
  · rename_i orders _
    simp only [] at h
    split at h
    · cases h
    · rename_i t1 total h1
      obtain ⟨s1, r1⟩ := settleOrders_same _ _ _ _ _ _ _ _ h1
      split at h
      · cases h
      · rename_i t2 h2
        obtain ⟨s2, r2⟩ := settleUsers_same _ _ _ _ _ h2
        split at h
        · cases h
        · rename_i t3 h3
          obtain ⟨s3, r3⟩ := settleOutbox_same _ _ _ _ _ _ h3
          split at h
          · cases h
          · rename_i t4 h4
            have e4 := MarkAsSettled_ok _ _ _ _ h4
            split at h
            · cases h
            · rename_i t5 h5
              obtain ⟨s5, r5⟩ := UpdateSettlementStats_ok _ _ _ _ _ _ h5
              split at h
              · cases h
              · rename_i t6 h6
                have e6 := GameEventAudit_Insert_ok _ _ _ _ h6
                simp only [Except.ok.injEq, Prod.mk.injEq] at h
                obtain ⟨h7, _, _⟩ := h
                subst h7
                have s4 : SameBets t3 t4 := by
                  rw [e4]
                  exact ⟨rfl, rfl, rfl⟩
                have s6 : SameBets t5 t6 := by
                  rw [e6]
                  exact ⟨rfl, rfl, rfl⟩
                refine ⟨SameBets_trans (SameBets_trans (SameBets_trans (SameBets_trans
                  (SameBets_trans s1 s2) s3) s4) s5) s6, ?_⟩
                rw [e6]
                show t5.rounds = _
                rw [r5, e4]
                simp only [updateRound]
                rw [r3, r2, r1]

theorem codeToState_drawn_iff (c : Int) : codeToState c = StateDrawn ↔ c = 5 := by
  unfold codeToState StateBetting StateInit StateSealed StateDealt StateDrawn StateSettled StateFinished
  split_ifs <;> simp_all

theorem GetSettlementStatusForUpdate_ok (env : Env) (tx : DB) (roundID : String) (c s : Int)
    (h : GetSettlementStatusForUpdate env tx roundID = .ok (c, s)) :
    ∃ r, tx.rounds.find? (fun r => r.GameRoundID = roundID) = some r ∧ r.GameStatus = c ∧
      r.IsSettled = s := by
  unfold GetSettlementStatusForUpdate at h
  split_ifs at h
  split at h
  · simp only [Except.ok.injEq, Prod.mk.injEq] at h
    exact ⟨_, by assumption, h.1, h.2⟩
  · cases h

theorem submitDrawTx_ok (env : Env) (db db1 : DB) (inp : DrawInput) (res : String) (n : Int)
    (p : Float64) (h : submitDrawTx env db inp res = .ok (some (db1, n, p))) :
    ∃ r0, db.rounds.find? (fun r => r.GameRoundID = inp.GameRoundID) = some r0 ∧
      r0.GameStatus = 5 ∧ r0.IsSettled ≠ 1 ∧ SameBets db db1 ∧
      db1.rounds = db.rounds.map (fun r =>
        if r.GameRoundID = inp.GameRoundID then drawRow env inp res r else r) := by
  unfold submitDrawTx at h
  by_cases hb : env.dbErr .beginTx = true
  · simp [hb] at h
  simp only [hb, Bool.false_eq_true, if_false] at h
  cases hst : GetSettlementStatusForUpdate env db inp.GameRoundID with
  | error e =>
    simp only [hst] at h
    split_ifs at h
  | ok q =>
    obtain ⟨statusCode, isSettled⟩ := q
    simp only [hst] at h
    obtain ⟨r0, hfind, hc, hs⟩ := GetSettlementStatusForUpdate_ok _ _ _ _ _ hst
    by_cases h1 : isSettled = 1
    · simp [h1] at h
    by_cases h2 : codeToState statusCode = StateDrawn
    · simp only [h1, h2, ne_eq, not_true_eq_false, if_false] at h
      have hdrawn : statusCode = 5 := (codeToState_drawn_iff _).mp h2
      cases hud : UpdateDraw env db inp.GameRoundID inp.CardList res 5 with
      | error e => simp [hud] at h
      | ok tx1 =>
        simp only [hud] at h
        have e1 := UpdateDraw_ok _ _ _ _ _ _ _ hud
        split at h
        · cases h
        · rename_i tx2 h2o
          obtain ⟨k2, r2⟩ := CreateOutbox_keeps _ _ _ _ _ _ h2o
          split at h
          · split_ifs at h
            cases h
          · rename_i tx3 h3
            have e3 := CreateSettlementLog_ok _ _ _ _ h3
            split at h
            · cases h
            · rename_i tx4 n4 p4 h4
              obtain ⟨s4, r4⟩ := settleRound_ok _ _ _ _ _ _ _ h4
              by_cases hcm : env.dbErr .commit = true
              · simp [hcm] at h
              simp only [hcm, Bool.false_eq_true, if_false, Except.ok.injEq, Option.some.injEq,
                Prod.mk.injEq] at h
              obtain ⟨h5, _, _⟩ := h
              subst h5
              have s1 : SameBets db tx1 := by
                rw [e1]
                exact ⟨rfl, rfl, rfl⟩
              have s3 : SameBets tx2 tx3 := by
                rw [e3]
                exact ⟨rfl, rfl, rfl⟩
              refine ⟨r0, hfind, by rw [hc, hdrawn], by rw [hs]; exact h1,
                SameBets_trans (SameBets_trans (SameBets_trans s1 (SameBets_of_KeepsBets k2)) s3)
                  s4, ?_⟩
              rw [r4, e3]
              show List.map _ tx2.rounds = _
              rw [r2, e1]
              simp only [updateRound, List.map_map]
              apply List.map_congr_left
              intro r _
              simp only [Function.comp]
              by_cases hid : r.GameRoundID = inp.GameRoundID
              · simp [hid, drawRow]
              · simp [hid]
    · simp [h1, h2] at h

theorem SubmitDrawResult_cases (env : Env) (st : State) (inp : DrawInput) :
    (SubmitDrawResult env st inp).2 = st ∨
    ∃ db1 n p, submitDrawTx env st.db inp (decideResult inp.CardList) = .ok (some (db1, n, p)) ∧
      (SubmitDrawResult env st inp).1 = none ∧
      (SubmitDrawResult env st inp).2 =
        { db := db1,
          kv := (drawCache env st.kv inp (decideResult inp.CardList) n p) } := by
  unfold SubmitDrawResult
  simp only []
  split_ifs
  · exact Or.inl rfl
  · exact Or.inl rfl
  · exact Or.inl rfl
  · cases h : submitDrawTx env st.db inp (decideResult inp.CardList) with
    | error e => exact Or.inl rfl
    | ok q =>
      cases q with
      | none => exact Or.inl rfl
      | some q =>
        obtain ⟨db1, n, p⟩ := q
        exact Or.inr ⟨db1, n, p, rfl, rfl, rfl⟩

theorem drawCache_resultCache (env : Env) (kv : Option KV) (inp : DrawInput) (res : String)
    (n : Int) (p : Float64) : resultCache (drawCache env kv inp res n p) = resultCache kv := by
  unfold drawCache resultCache
  cases kv with
  | none => rfl
  | some r =>
    simp only []
    split_ifs <;> rfl

/-! ## The status code of a round never decreases -/

theorem find_map_keep (rounds : List GameRoundInfo) (g : GameRoundInfo → GameRoundInfo)
    (hg : ∀ r, (g r).GameRoundID = r.GameRoundID) (id : String) :
    (rounds.map g).find? (fun r => r.GameRoundID = id) =
      (rounds.find? (fun r => r.GameRoundID = id)).map g := by
  induction rounds with
  | nil => rfl
  | cons r rs ih =>
    simp only [List.map_cons, List.find?_cons, hg]
    by_cases h : r.GameRoundID = id
    · simp [h]
    · simp [h, ih]

theorem statusIn_append (rounds extra : List GameRoundInfo) (id : String) (c : Int)
    (h : statusIn rounds id = some c) : statusIn (rounds ++ extra) id = some c := by
  unfold statusIn at h ⊢
  cases hf : rounds.find? (fun r => r.GameRoundID = id) with
  | none => simp [hf] at h
  | some r =>
    rw [List.find?_append, hf]
    simpa [hf] using h

theorem stateToCode_le (s : String) : stateToCode s ≤ 7 := by
  unfold stateToCode
  split_ifs <;> decide

theorem NextState_code_le (c : Int) (evt nxt : String) (hc : c ≤ 7)
    (h : NextState (codeToState c) evt = (nxt, none)) : c ≤ stateToCode nxt := by
  have hcases : c ≤ 0 ∨ c = 1 ∨ c = 2 ∨ c = 3 ∨ c = 4 ∨ c = 5 ∨ c = 6 ∨ c = 7 := by omega
  rcases hcases with h0 | h0 | h0 | h0 | h0 | h0 | h0 | h0
  · have hinit : codeToState c = StateInit := by
      unfold codeToState
      split_ifs <;> first | rfl | omega
    rw [hinit] at h
    unfold NextState at h
    simp only [if_true] at h
    split_ifs at h
    · simp only [Prod.mk.injEq] at h
      rw [← h.1]
      have : stateToCode StateBetting = 2 := by decide
      omega
    · simp at h
  all_goals
    subst h0
    simp only [codeToState] at h
    norm_num at h
    unfold NextState at h
    simp only [StateInit, StateBetting, StateSealed, StateDealt, StateDrawn, StateSettled,
      StateFinished] at h
    norm_num at h
    split_ifs at h <;> simp_all <;> (subst_vars; decide)

theorem handleRow_id (env : Env) (evtStr : String) (code : Int) (r : GameRoundInfo) :
    (handleRow env evtStr code r).GameRoundID = r.GameRoundID := by
  unfold handleRow
  split_ifs <;> rfl

theorem handleRow_status (env : Env) (evtStr : String) (code : Int) (r : GameRoundInfo) :
    (handleRow env evtStr code r).GameStatus = code := by
  unfold handleRow
  split_ifs <;> rfl

theorem statusIn_some (rounds : List GameRoundInfo) (id : String) (c : Int)
    (h : statusIn rounds id = some c) :
    ∃ r, rounds.find? (fun r => r.GameRoundID = id) = some r ∧ r.GameStatus = c ∧
      r.GameRoundID = id ∧ r ∈ rounds := by
  unfold statusIn at h
  cases hf : rounds.find? (fun r => r.GameRoundID = id) with
  | none => simp [hf] at h
  | some r =>
    refine ⟨r, rfl, by simpa [hf] using h, ?_, List.mem_of_find?_eq_some hf⟩
    have := List.find?_some hf
    simpa using this

/-- A rewrite of the rows of one round that keeps their id and does not lower
the status of the first of them keeps every status from decreasing. -/
theorem RoundsAdvance_map (rounds : List GameRoundInfo) (rid : String)
    (g : GameRoundInfo → GameRoundInfo) (hid : ∀ r, (g r).GameRoundID = r.GameRoundID)
    (hle : ∀ r, rounds.find? (fun r => r.GameRoundID = rid) = some r →
      r.GameStatus ≤ (g r).GameStatus) :
    RoundsAdvance rounds (rounds.map (fun r => if r.GameRoundID = rid then g r else r)) := by
  intro id c hst
  obtain ⟨r, hf, hc, hrid, _⟩ := statusIn_some _ _ _ hst
  have hkeep : ∀ r : GameRoundInfo,
      (if r.GameRoundID = rid then g r else r).GameRoundID = r.GameRoundID := by
    intro r
    split_ifs
    · exact hid r
    · rfl
  unfold statusIn
  rw [find_map_keep _ _ hkeep, hf]
  simp only [Option.map_some']
  by_cases h : r.GameRoundID = rid
  · refine ⟨(g r).GameStatus, by simp [h], ?_⟩
    rw [← hc]
    apply hle
    rw [← h, hrid]
    exact hf
  · exact ⟨c, by simp [h, hc], le_refl _⟩

theorem RoundsAdvance_refl (rounds : List GameRoundInfo) : RoundsAdvance rounds rounds :=
  fun _ c h => ⟨c, h, le_refl _⟩

theorem RoundsAdvance_trans {a b c : List GameRoundInfo} (h1 : RoundsAdvance a b)
    (h2 : RoundsAdvance b c) : RoundsAdvance a c := by
  intro id x hx
  obtain ⟨y, hy, hxy⟩ := h1 id x hx
  obtain ⟨z, hz, hyz⟩ := h2 id y hy
  exact ⟨z, hz, le_trans hxy hyz⟩

theorem PlaceBet_rounds (env : Env) (st : State) (inp : BetInput) :
    (PlaceBet env st inp).2.db.rounds = st.db.rounds := by
  rcases PlaceBet_cases env st inp with h | ⟨a, kv, locked, user, tx, round, tx1, tx2, afterDec,
    _, _, hc, _, hdb, _⟩
  · rw [h]
  · obtain ⟨_, hw⟩ := placeBetWrites_ok _ _ _ _ _ _ _ _ _ hc.writes_ok
    obtain ⟨_, e1⟩ := IdempotencyKey_Insert_ok _ _ _ _ hc.idem_ok
    rw [hdb, hw.rounds_eq, e1]
    rcases getOrCreateUserInTx_ok _ _ _ _ _ _ _ hc.user_ok with h1 | h1 <;> rw [h1.1]

theorem Handle_advance (env : Env) (st : State) (inp : GameEventInput)
    (hb : StatusBounded st) :
    RoundsAdvance st.db.rounds (Handle env st inp).2.db.rounds ∧
      StatusBounded (Handle env st inp).2 := by
  rcases Handle_cases env st inp with h | ⟨db1, s, t, htx, _, hst⟩
  · rw [h]
    exact ⟨RoundsAdvance_refl _, hb⟩
  · obtain ⟨rs0, r0, nxt, hrs0, hfind, hnext, hrounds, _, _, _⟩ := handleTx_ok _ _ _ _ _ _ _ htx
    have hb0 : ∀ r ∈ rs0, r.GameStatus ≤ 7 := by
      rcases hrs0 with h0 | ⟨_, _, h0⟩
      · rw [h0]
        exact hb
      · rw [h0]
        intro r hr
        simp only [List.mem_append, List.mem_singleton] at hr
        rcases hr with hr | hr
        · exact hb r hr
        · rw [hr]
          show (1 : Int) ≤ 7
          decide
    have hadv0 : RoundsAdvance st.db.rounds rs0 := by
      rcases hrs0 with h0 | ⟨_, _, h0⟩
      · rw [h0]
        exact RoundsAdvance_refl _
      · rw [h0]
        intro id c hc
        exact ⟨c, statusIn_append _ _ _ _ hc, le_refl _⟩
    rw [hst]
    constructor
    · show RoundsAdvance st.db.rounds db1.rounds
      rw [hrounds]
      refine RoundsAdvance_trans hadv0 (RoundsAdvance_map rs0 inp.GameRoundID _
        (handleRow_id env _ _) ?_)
      intro r hr
      rw [hfind] at hr
      simp only [Option.some.injEq] at hr
      subst hr
      rw [handleRow_status]
      exact NextState_code_le _ _ _ (hb0 _ (List.mem_of_find?_eq_some hfind)) hnext
    · intro r hr
      change r ∈ db1.rounds at hr
      rw [hrounds] at hr
      simp only [List.mem_map] at hr
      obtain ⟨r1, hr1, rfl⟩ := hr
      split_ifs
      · rw [handleRow_status]
        exact stateToCode_le _
      · exact hb0 r1 hr1

theorem SubmitDrawResult_advance (env : Env) (st : State) (inp : DrawInput)
    (hb : StatusBounded st) :
    RoundsAdvance st.db.rounds (SubmitDrawResult env st inp).2.db.rounds ∧
      StatusBounded (SubmitDrawResult env st inp).2 := by
  rcases SubmitDrawResult_cases env st inp with h | ⟨db1, n, p, htx, _, hst⟩
  · rw [h]
    exact ⟨RoundsAdvance_refl _, hb⟩
  · obtain ⟨r0, hfind, hstatus, _, _, hrounds⟩ := submitDrawTx_ok _ _ _ _ _ _ _ htx
    rw [hst]
    constructor
    · show RoundsAdvance st.db.rounds db1.rounds
      rw [hrounds]
      refine RoundsAdvance_map st.db.rounds inp.GameRoundID _ (fun _ => rfl) ?_
      intro r hr
      rw [hfind] at hr
      simp only [Option.some.injEq] at hr
      subst hr
      rw [hstatus]
      show (5 : Int) ≤ 6
      decide
    · intro r hr
      change r ∈ db1.rounds at hr
      rw [hrounds] at hr
      simp only [List.mem_map] at hr
      obtain ⟨r1, hr1, rfl⟩ := hr
      split_ifs
      · show (6 : Int) ≤ 7
        decide
      · exact hb r1 hr1

theorem Step_advance (st st1 : State) (hb : StatusBounded st) (hs : Step st st1) :
    RoundsAdvance st.db.rounds st1.db.rounds ∧ StatusBounded st1 := by
  cases hs with
  | bet env _ inp =>
    have := PlaceBet_rounds env st inp
    constructor
    · rw [this]
      exact RoundsAdvance_refl _
    · intro r hr
      rw [this] at hr
      exact hb r hr
  | event env _ inp => exact Handle_advance env st inp hb
  | draw env _ inp => exact SubmitDrawResult_advance env st inp hb
  | expire _ r fam k h => exact ⟨RoundsAdvance_refl _, hb⟩

theorem Reachable_bounded (st : State) (h : Reachable st) : StatusBounded st := by
  induction h with
  | init st hi =>
    intro r hr
    rw [hi.1] at hr
    cases hr
  | step st st1 _ hs ih => exact (Step_advance st st1 ih hs).2

/-- C2: the status code of a round never decreases.  In every state reached
from an initial state, where rounds are created by `game_start`, every move
of the system (a `Handle` call, a `SubmitDrawResult` call, a `PlaceBet` call
or the expiry of a Redis key, successful or not) leaves the stored
`game_status` of every round at least as large as it was. -/
theorem status_never_decreases (st st1 : State) (hr : Reachable st) (hs : Step st st1)
    (roundID : String) (c : Int) (h : roundStatus st roundID = some c) :
    ∃ c1, roundStatus st1 roundID = some c1 ∧ c ≤ c1 :=
  (Step_advance st st1 (Reachable_bounded st hr) hs).1 roundID c h

/-- The round `R1` goes from betting (`2`) to sealed (`3`) at `game_stop`. -/
theorem status_never_decreases_witness :
    roundStatus sampleBetting "R1" = some 2 ∧
    ∃ c1, roundStatus sampleSealed "R1" = some c1 ∧ 2 ≤ c1 :=
  ⟨by decide,
    status_never_decreases sampleBetting sampleSealed
      (Reachable.step sampleInitial sampleBetting
        (Reachable.init sampleInitial
          ⟨rfl, rfl, rfl, rfl, rfl, rfl, rfl, fun r h => by simp [sampleInitial] at h⟩)
        (Step.event { sampleEnv with now := 1000 } sampleInitial (sampleEvent 1)))
      (Step.event sampleEnv sampleBetting (sampleEvent 2)) "R1" 2 (by decide)⟩

/-! ## One bill number per idempotency key -/

theorem lookupKey_delKey {α : Type} (k k0 : String) (l : List (String × α)) :
    lookupKey k (delKey k0 l) = if k = k0 then none else lookupKey k l := by
  induction l with
  | nil => simp [delKey, lookupKey]
  | cons p rest ih =>
    obtain ⟨k1, v⟩ := p
    unfold delKey at ih ⊢
    by_cases h1 : k1 = k0
    · simp only [List.filter_cons, h1, ne_eq, not_true_eq_false, decide_False,
        Bool.false_eq_true, if_false]
      rw [ih]
      by_cases h2 : k = k0
      · simp [h2]
      · have : ¬ k0 = k := fun h => h2 h.symm
        simp [h2, lookupKey, this]
    · simp only [List.filter_cons, h1, ne_eq, not_false_eq_true, decide_True, if_true]
      simp only [lookupKey]
      by_cases h2 : k1 = k
      · have : ¬ k = k0 := fun h => h1 (h2.trans h)
        simp [h2, this]
      · simp only [h2, if_false]
        exact ih

theorem lookupKey_setKey {α : Type} (k k0 : String) (v : α) (l : List (String × α)) :
    lookupKey k (setKey k0 v l) = if k = k0 then some v else lookupKey k l := by
  unfold setKey
  simp only [lookupKey]
  by_cases h : k0 = k
  · simp [h]
  · have h2 : ¬ k = k0 := fun hh => h hh.symm
    simp only [h, h2, if_false]
    have := lookupKey_delKey k k0 l
    unfold delKey at this
    rw [this]
    simp [h2]

theorem generateBillNo_ne_empty (env : Env) (userID : Int) : generateBillNo env userID ≠ "" := by
  intro h
  have := congrArg String.length h
  simp only [generateBillNo, String.length_append] at this
  have h2 : "DT".length = 2 := by decide
  have h3 : "".length = 0 := by decide
  omega

theorem kvFastPath_hit (env : Env) (kv : Option KV) (key : String) (out : BetOutput)
    (h : kvFastPath env kv key = .hit out) : lookupKey key (resultCache kv) = some out := by
  unfold kvFastPath at h
  cases kv with
  | none => simp at h
  | some r =>
    simp only [resultCache]
    simp only [] at h
    split at h
    · rename_i out1 h1
      simp only [KvGate.hit.injEq] at h
      subst h
      split_ifs at h1
      exact h1
    · split_ifs at h
      split at h
      · rename_i out1 h1
        simp only [KvGate.hit.injEq] at h
        subst h
        exact h1
      · cases h

theorem kvFastPath_proceed (env : Env) (kv kv1 : Option KV) (key : String) (locked : Bool)
    (h : kvFastPath env kv key = .proceed kv1 locked) : resultCache kv1 = resultCache kv := by
  unfold kvFastPath at h
  cases kv with
  | none =>
    simp only [KvGate.proceed.injEq] at h
    rw [← h.1]
  | some r =>
    simp only [] at h
    split at h
    · cases h
    · split_ifs at h
      · split at h <;> cases h
      · simp only [KvGate.proceed.injEq] at h
        rw [← h.1]
        rfl

theorem releaseLock_resultCache (env : Env) (kv : Option KV) (key : String) :
    resultCache (releaseLock env kv key) = resultCache kv := by
  unfold releaseLock
  cases kv with
  | none => rfl
  | some r =>
    simp only []
    split_ifs <;> rfl

theorem cacheResult_resultCache (env : Env) (kv : Option KV) (key : String) (out : BetOutput) :
    resultCache (cacheResult env kv key out) = resultCache kv ∨
    resultCache (cacheResult env kv key out) = setKey key out (resultCache kv) := by
  unfold cacheResult
  cases kv with
  | none => exact Or.inl rfl
  | some r =>
    simp only []
    split_ifs
    · exact Or.inl rfl
    · exact Or.inr rfl

/-- The result cache after `PlaceBet`: as before, or with the result of the
committed bet written under its key. -/
theorem PlaceBet_cache (env : Env) (st : State) (inp : BetInput) :
    ((PlaceBet env st inp).2.db = st.db ∧
      resultCache (PlaceBet env st inp).2.kv = resultCache st.kv) ∨
    ∃ a user tx round tx1 tx2 afterDec,
      validateBetAmount inp.BetAmount = .ok a ∧
      BetCommitted env st.db inp a user tx round tx1 tx2 afterDec ∧
      (PlaceBet env st inp).2.db = tx2 ∧
      (resultCache (PlaceBet env st inp).2.kv = resultCache st.kv ∨
        resultCache (PlaceBet env st inp).2.kv = setKey inp.IdempotencyKey
          { BillNo := generateBillNo env user.ID, RemainAmount := afterDec.Round 2 }
          (resultCache st.kv)) := by
  unfold PlaceBet
  cases hv : validateBetAmount inp.BetAmount with
  | error e1 => exact Or.inl ⟨rfl, rfl⟩
  | ok a =>
    simp only []
    cases hk : kvFastPath env st.kv inp.IdempotencyKey with
    | hit out => exact Or.inl ⟨rfl, rfl⟩
    | inFlight => exact Or.inl ⟨rfl, rfl⟩
    | proceed kv locked =>
      simp only []
      have hkv := kvFastPath_proceed _ _ _ _ _ hk
      have hrel : ∀ x : Option KV,
          resultCache (if locked = true then releaseLock env x inp.IdempotencyKey else x) =
            resultCache x := by
        intro x
        split_ifs
        · exact releaseLock_resultCache _ _ _
        · rfl
      rcases placeBetTx_cases env st.db kv inp a with h | ⟨user, tx, round, tx1, tx2, afterDec,
        hc, he⟩
      · left
        refine ⟨h.1, ?_⟩
        show resultCache (if locked = true then _ else _) = _
        rw [hrel, h.2, hkv]
      · right
        refine ⟨a, user, tx, round, tx1, tx2, afterDec, rfl, hc, by rw [he], ?_⟩
        show resultCache (if locked = true then _ else _) = _ ∨
          resultCache (if locked = true then _ else _) = _
        rw [hrel, he]
        simp only []
        rw [← hkv]
        exact cacheResult_resultCache _ _ _ _

theorem mem_of_map_eq {α β : Type} (f : α → β) (l l1 : List α) (h : l1.map f = l.map f)
    (x : α) (hx : x ∈ l1) : ∃ y ∈ l, f y = f x := by
  have : f x ∈ l1.map f := List.mem_map_of_mem f hx
  rw [h] at this
  obtain ⟨y, hy, hfy⟩ := List.mem_map.mp this
  exact ⟨y, hy, hfy⟩

theorem BetInv_of_same (st st1 : State) (h : BetInv st) (hs : SameBets st.db st1.db)
    (hc : resultCache st1.kv = resultCache st.kv) : BetInv st1 := by
  obtain ⟨hidem, horders, hcust⟩ := hs
  refine ⟨?_, ?_, ?_, ?_, ?_, ?_⟩
  · rw [hidem]
    exact h.idem_bet
  · rw [hidem]
    exact h.idem_nodup
  · intro o ho
    obtain ⟨o0, ho0, he⟩ := mem_of_map_eq orderIdent _ _ horders o ho
    simp only [orderIdent, Prod.mk.injEq] at he
    obtain ⟨r, hr, h1, h2⟩ := h.order_idem o0 ho0
    rw [hidem]
    exact ⟨r, hr, by rw [h1, he.2.1], by rw [h2, he.1]⟩
  · have e : ∀ l : List OrderRow, l.map (fun o => o.IdempotencyKey) =
        (l.map orderIdent).map (fun p => p.2.1) := by
      intro l
      simp [List.map_map, orderIdent, Function.comp]
    rw [e, horders, ← e]
    exact h.order_nodup
  · intro o ho
    obtain ⟨o0, ho0, he⟩ := mem_of_map_eq orderIdent _ _ horders o ho
    simp only [orderIdent, Prod.mk.injEq] at he
    obtain ⟨u, hu, h1, h2⟩ := h.order_user o0 ho0
    obtain ⟨u1, hu1, hue⟩ := mem_of_map_eq customerIdent _ _ hcust.symm u hu
    simp only [customerIdent, Prod.mk.injEq] at hue
    exact ⟨u1, hu1, by rw [hue.2.1, h1, he.2.2.1], by rw [hue.2.2, h2, he.2.2.2]⟩
  · intro k out hk
    rw [hc] at hk
    rw [hidem]
    exact h.cache_idem k out hk

theorem PlaceBet_BetInv (env : Env) (st : State) (inp : BetInput) (h : BetInv st) :
    BetInv (PlaceBet env st inp).2 := by
  rcases PlaceBet_cache env st inp with ⟨hdb, hkv⟩ | ⟨a, user, tx, round, tx1, tx2, afterDec,
    hv, hc, hdb, hkv⟩
  · exact BetInv_of_same st _ h (by rw [hdb]; exact SameBets_refl _) hkv
  · obtain ⟨_, hw⟩ := placeBetWrites_ok _ _ _ _ _ _ _ _ _ hc.writes_ok
    obtain ⟨hfresh, e1⟩ := IdempotencyKey_Insert_ok _ _ _ _ hc.idem_ok
    -- the tables of the transaction before the idempotency key is taken
    have htx : tx.idemKeys = st.db.idemKeys ∧ tx.orders = st.db.orders ∧
        (∀ u ∈ st.db.customers, u ∈ tx.customers) ∧
        ∃ u ∈ tx.customers, u.PlatformID = inp.PlatformID ∧
          u.PlatformUserID = inp.PlatformUserID := by
      rcases getOrCreateUserInTx_ok _ _ _ _ _ _ _ hc.user_ok with h1 | h1
      · rw [h1.1]
        refine ⟨rfl, rfl, fun u hu => hu, user, List.mem_of_find?_eq_some h1.2, ?_⟩
        have := List.find?_some h1.2
        simpa using this
      · rw [h1.1]
        refine ⟨rfl, rfl, fun u hu => by simp [hu], user, by simp, ?_⟩
        rw [h1.2.2]
        exact ⟨rfl, rfl⟩
    obtain ⟨hti, hto, htc, hnew⟩ := htx
    have hidem : tx2.idemKeys = st.db.idemKeys ++
        [{ IdempotencyKey := inp.IdempotencyKey, Purpose := "bet",
           Ref := generateBillNo env user.ID }] := by
      rw [hw.idem_eq, e1, hti]
    have horders : tx2.orders = st.db.orders ++
        [orderRow env (betOrder inp user a (calcOdds (ptMap inp.PlayType))
          (generateBillNo env user.ID))] := by
      rw [hw.orders_eq, e1, hto]
    have hcust : ∀ u ∈ tx.customers, ∃ u1 ∈ tx2.customers,
        u1.PlatformID = u.PlatformID ∧ u1.PlatformUserID = u.PlatformUserID := by
      intro u hu
      rw [hw.customers_eq, e1]
      refine ⟨_, List.mem_map_of_mem _ hu, ?_⟩
      split_ifs <;> exact ⟨rfl, rfl⟩
    have hkfresh : ∀ r ∈ st.db.idemKeys, r.IdempotencyKey ≠ inp.IdempotencyKey := by
      intro r hr hk
      rw [← hti] at hr
      exact hfresh r hr ⟨hk, (h.idem_bet r (hti ▸ hr)).1⟩
    constructor
    · intro r hr
      rw [hdb, hidem] at hr
      simp only [List.mem_append, List.mem_singleton] at hr
      rcases hr with hr | hr
      · exact h.idem_bet r hr
      · rw [hr]
        exact ⟨rfl, generateBillNo_ne_empty _ _⟩
    · rw [hdb, hidem, List.map_append, List.nodup_append]
      refine ⟨h.idem_nodup, by simp, ?_⟩
      intro k hk1 hk2
      simp only [List.map_cons, List.map_nil, List.mem_singleton] at hk2
      obtain ⟨r, hr, hrk⟩ := List.mem_map.mp hk1
      exact hkfresh r hr (hrk.trans hk2)
    · intro o ho
      rw [hdb, horders] at ho
      rw [hdb, hidem]
      simp only [List.mem_append, List.mem_singleton] at ho
      rcases ho with ho | ho
      · obtain ⟨r, hr, h1, h2⟩ := h.order_idem o ho
        exact ⟨r, by simp [hr], h1, h2⟩
      · rw [ho]
        exact ⟨⟨inp.IdempotencyKey, "bet", generateBillNo env user.ID⟩, by simp, rfl, rfl⟩
    · rw [hdb, horders, List.map_append, List.nodup_append]
      refine ⟨h.order_nodup, by simp, ?_⟩
      intro k hk1 hk2
      simp only [List.map_cons, List.map_nil, List.mem_singleton] at hk2
      obtain ⟨r, hr, hrk⟩ := List.mem_map.mp hk1
      have hr1 : r ∈ tx1.orders := by
        rw [e1]
        show r ∈ tx.orders
        rw [hto]
        exact hr
      exact (hw.fresh r hr1).2 (hrk.trans hk2)
    · intro o ho
      rw [hdb, horders] at ho
      rw [hdb]
      simp only [List.mem_append, List.mem_singleton] at ho
      rcases ho with ho | ho
      · obtain ⟨u, hu, h1, h2⟩ := h.order_user o ho
        obtain ⟨u1, hu1, h3, h4⟩ := hcust u (htc u hu)
        exact ⟨u1, hu1, h3.trans h1, h4.trans h2⟩
      · obtain ⟨u, hu, h1, h2⟩ := hnew
        obtain ⟨u1, hu1, h3, h4⟩ := hcust u hu
        rw [ho]
        exact ⟨u1, hu1, h3.trans h1, h4.trans h2⟩
    · intro k out hk
      rw [hdb, hidem]
      rcases hkv with hkv | hkv
      · rw [hkv] at hk
        obtain ⟨r, hr, h1, h2⟩ := h.cache_idem k out hk
        exact ⟨r, by simp [hr], h1, h2⟩
      · rw [hkv, lookupKey_setKey] at hk
        split_ifs at hk with hkk
        · simp only [Option.some.injEq] at hk
          rw [← hk, hkk]
          exact ⟨⟨inp.IdempotencyKey, "bet", generateBillNo env user.ID⟩, by simp, rfl, rfl⟩
        · obtain ⟨r, hr, h1, h2⟩ := h.cache_idem k out hk
          exact ⟨r, by simp [hr], h1, h2⟩

theorem Step_BetInv (st st1 : State) (h : BetInv st) (hs : Step st st1) : BetInv st1 := by
  cases hs with
  | bet env _ inp => exact PlaceBet_BetInv env st inp h
  | event env _ inp =>
    rcases Handle_cases env st inp with h1 | ⟨db1, s, t, htx, _, hst⟩
    · rw [h1]
      exact h
    · obtain ⟨_, _, _, _, _, _, _, hk, _, _⟩ := handleTx_ok _ _ _ _ _ _ _ htx
      refine BetInv_of_same st _ h ?_ ?_
      · rw [hst]
        exact SameBets_of_KeepsBets hk
      · rw [hst]
        exact handleCache_resultCache _ _ _ _ _ _
  | draw env _ inp =>
    rcases SubmitDrawResult_cases env st inp with h1 | ⟨db1, n, p, htx, _, hst⟩
    · rw [h1]
      exact h
    · obtain ⟨_, _, _, _, hsame, _⟩ := submitDrawTx_ok _ _ _ _ _ _ _ htx
      refine BetInv_of_same st _ h ?_ ?_
      · rw [hst]
        exact hsame
      · rw [hst]
        exact drawCache_resultCache _ _ _ _ _ _
  | expire _ r fam k hkv =>
    refine ⟨h.idem_bet, h.idem_nodup, h.order_idem, h.order_nodup, h.order_user, ?_⟩
    intro k1 out hk
    apply h.cache_idem k1 out
    rw [hkv]
    simp only [resultCache] at hk ⊢
    cases fam with
    | idemResult =>
      simp only [expireKey, lookupKey_delKey] at hk
      split_ifs at hk
      exact hk
    | idemLock => exact hk
    | roundInfo => exact hk
    | roundResult => exact hk

theorem Reachable_BetInv (st : State) (h : Reachable st) : BetInv st := by
  induction h with
  | init st hi =>
    obtain ⟨_, ho, _, hk, _, _, _, hkv⟩ := hi
    refine ⟨?_, ?_, ?_, ?_, ?_, ?_⟩
    · intro r hr
      rw [hk] at hr
      cases hr
    · rw [hk]
      exact List.nodup_nil
    · intro o hoo
      rw [ho] at hoo
      cases hoo
    · rw [ho]
      exact List.nodup_nil
    · intro o hoo
      rw [ho] at hoo
      cases hoo
    · intro k out hlk
      cases hkv0 : st.kv with
      | none => simp [hkv0, resultCache, lookupKey] at hlk
      | some r =>
        rw [hkv0] at hlk
        simp only [resultCache, (hkv r hkv0).1, lookupKey] at hlk
        cases hlk
  | step st st1 _ hs ih => exact Step_BetInv st st1 ih hs

/-- C8: one bill number per idempotency key.  In every state reached from an
initial state by `PlaceBet` calls (and by any other move of the system), no
two orders share an idempotency key, every order has the row of its key in
`idempotency_keys`, that row is the only one with the key, and its `ref` is
the order's bill number. -/
theorem one_bill_per_key (st : State) (hr : Reachable st) :
    (st.db.orders.map (fun o => o.IdempotencyKey)).Nodup ∧
    (st.db.idemKeys.map (fun r => r.IdempotencyKey)).Nodup ∧
    (∀ o ∈ st.db.orders, ∃ r ∈ st.db.idemKeys, r.IdempotencyKey = o.IdempotencyKey) ∧
    (∀ o ∈ st.db.orders, ∀ r ∈ st.db.idemKeys,
      r.IdempotencyKey = o.IdempotencyKey → r.Ref = o.BillNo) := by
  have h := Reachable_BetInv st hr
  refine ⟨h.order_nodup, h.idem_nodup, ?_, ?_⟩
  · intro o ho
    obtain ⟨r, hr1, h1, _⟩ := h.order_idem o ho
    exact ⟨r, hr1, h1⟩
  · intro o ho r hr1 hk
    obtain ⟨r0, hr0, h1, h2⟩ := h.order_idem o ho
    have : r = r0 := List.inj_on_of_nodup_map h.idem_nodup hr1 hr0 (hk.trans h1.symm)
    rw [this]
    exact h2

theorem sampleAfterBet_reachable : Reachable sampleAfterBet :=
  Reachable.step sampleBetting sampleAfterBet
    (Reachable.step sampleInitial sampleBetting
      (Reachable.init sampleInitial
        ⟨rfl, rfl, rfl, rfl, rfl, rfl, rfl, fun r h => by simp [sampleInitial] at h⟩)
      (Step.event { sampleEnv with now := 1000 } sampleInitial (sampleEvent 1)))
    (Step.bet sampleEnv sampleBetting sampleBet)

/-- The state after the bet with key `K1`: one order, one key row, and the
row's `ref` is the order's bill number. -/
theorem one_bill_per_key_witness :
    sampleAfterBet.db.orders.map (fun o => (o.IdempotencyKey, o.BillNo)) =
      [("K1", "DT202501010000000007ABC")] ∧
    ∀ o ∈ sampleAfterBet.db.orders, ∀ r ∈ sampleAfterBet.db.idemKeys,
      r.IdempotencyKey = o.IdempotencyKey → r.Ref = o.BillNo :=
  ⟨by decide, (one_bill_per_key sampleAfterBet sampleAfterBet_reachable).2.2.2⟩

/-! ## A bet sent again -/

theorem recoverPriorResult_ok (env : Env) (db : DB) (kv : Option KV) (inp : BetInput)
    (err : Err) (out : BetOutput) (h : recoverPriorResult env db kv inp err = .ok out) :
    lookupKey inp.IdempotencyKey (resultCache kv) = some out ∨
    ∃ r, db.idemKeys.find? (fun r => r.IdempotencyKey = inp.IdempotencyKey) = some r ∧
      out.BillNo = r.Ref := by
  unfold recoverPriorResult at h
  simp only [] at h
  split at h
  · rename_i out1 h1
    simp only [Except.ok.injEq] at h
    subst h
    left
    cases kv with
    | none => simp at h1
    | some r =>
      simp only [resultCache]
      simp only [] at h1
      split_ifs at h1
      all_goals exact h1
  · right
    split at h
    · rename_i ref href
      split_ifs at h
      split at h
      · simp only [Except.ok.injEq] at h
        unfold SelectRefByIdemKey at href
        split_ifs at href
        split at href
        · rename_i r hr
          simp only [Except.ok.injEq] at href
          refine ⟨r, hr, ?_⟩
          rw [← h, href]
        · cases href
      · cases h
    · cases h

theorem placeBetTx_ok_cases (env : Env) (db : DB) (kv : Option KV) (inp : BetInput) (a : Dec)
    (out : BetOutput) (h : (placeBetTx env db kv inp a).1 = .ok out) :
    (∃ user tx round tx1 tx2 afterDec,
      BetCommitted env db inp a user tx round tx1 tx2 afterDec) ∨
    ∃ err, recoverPriorResult env db kv inp err = .ok out := by
  unfold placeBetTx at h
  by_cases hb : env.dbErr .beginTx = true
  · simp [hb] at h
  · simp only [hb] at h
    cases hu : getOrCreateUserInTx env db inp.PlatformID inp.PlatformUserID
        inp.PlatformUserName with
    | error e1 => simp [hu] at h
    | ok p =>
      obtain ⟨user, tx⟩ := p
      simp only [hu] at h
      cases hr : GetRoundForUpdate env tx inp.GameRoundID with
      | error e1 => simp [hr] at h
      | ok round =>
        simp only [hr] at h
        by_cases hs : codeToState round.GameStatus = StateBetting
        · simp only [hs, ne_eq, not_true_eq_false, if_false] at h
          cases hw : checkBetWindow env.now round.BetStartTime round.BetStopTime with
          | some e1 => simp [hw] at h
          | none =>
            simp only [hw] at h
            cases hc : checkConflictingBets env tx inp.GameRoundID inp.PlatformID
                inp.PlatformUserID inp.PlayType with
            | error e1 => simp [hc] at h
            | ok b =>
              cases b with
              | true => simp [hc] at h
              | false =>
                simp only [hc] at h
                cases hi : IdempotencyKey.Insert env tx
                    { IdempotencyKey := inp.IdempotencyKey, Purpose := "bet",
                      Ref := generateBillNo env user.ID } with
                | error e1 =>
                  simp only [hi] at h
                  by_cases hd : isMySQL1062 e1 = true
                  · right
                    exact ⟨e1, by simpa [hd] using h⟩
                  · simp [hd] at h
                | ok tx1 =>
                  simp only [hi] at h
                  cases hwr : placeBetWrites env tx1 inp user a (calcOdds (ptMap inp.PlayType))
                      (generateBillNo env user.ID) with
                  | error e1 => simp [hwr] at h
                  | ok q =>
                    obtain ⟨tx2, afterDec⟩ := q
                    simp only [hwr] at h
                    by_cases hcm : env.dbErr .commit = true
                    · simp [hcm] at h
                    · left
                      exact ⟨user, tx, round, tx1, tx2, afterDec,
                        ⟨by simpa using hb, hu, hr, (codeToState_betting_iff _).mp hs, hw, hc,
                          hi, hwr, by simpa using hcm⟩⟩
        · simp [hs] at h

/-- A transaction of `PlaceBet` cannot commit on a key that an order of a
reached state already carries. -/
theorem BetCommitted_fresh (env : Env) (st : State) (inp : BetInput) (a : Dec)
    (user : Customers) (tx : DB) (round : GameRoundInfo) (tx1 tx2 : DB) (afterDec : Dec)
    (hinv : BetInv st) (o : OrderRow) (ho : o ∈ st.db.orders)
    (hk : o.IdempotencyKey = inp.IdempotencyKey)
    (hc : BetCommitted env st.db inp a user tx round tx1 tx2 afterDec) : False := by
  obtain ⟨hfresh, _⟩ := IdempotencyKey_Insert_ok _ _ _ _ hc.idem_ok
  obtain ⟨r, hr, h1, _⟩ := hinv.order_idem o ho
  have hti : tx.idemKeys = st.db.idemKeys := by
    rcases getOrCreateUserInTx_ok _ _ _ _ _ _ _ hc.user_ok with h1 | h1 <;> rw [h1.1]
  exact hfresh r (hti ▸ hr) ⟨h1.trans hk, (hinv.idem_bet r hr).1⟩

theorem find_idem_of_mem (keys : List DtGame.IdempotencyKey) (key : String)
    (hn : (keys.map (fun r => r.IdempotencyKey)).Nodup) (r : DtGame.IdempotencyKey)
    (hr : r ∈ keys) (hk : r.IdempotencyKey = key) :
    keys.find? (fun r => r.IdempotencyKey = key) = some r := by
  cases hf : keys.find? (fun r => r.IdempotencyKey = key) with
  | none =>
    have := List.find?_eq_none.mp hf r hr
    simp [hk] at this
  | some r1 =>
    have h1 : r1 ∈ keys := List.mem_of_find?_eq_some hf
    have h2 : r1.IdempotencyKey = key := by
      have := List.find?_some hf
      simpa using this
    rw [List.inj_on_of_nodup_map hn h1 hr (h2.trans hk.symm)]

/-- A bet sent again stores nothing.  Once an order with idempotency key `k`
is stored, every later `PlaceBet` call with key `k` stores nothing (no new
order, ledger row, outbox row or deduction); whenever it returns success it
returns the bill number of that order; it returns success when the result
cache answers, and when it reaches the insert of the idempotency key (round
still in betting, clock inside the window, no conflicting bet, no failing
SQL call) for the user of the order. -/
theorem PlaceBet_replay (env : Env) (st : State) (inp : BetInput) (hr : Reachable st)
    (o : OrderRow) (ho : o ∈ st.db.orders) (hk : o.IdempotencyKey = inp.IdempotencyKey) :
    (PlaceBet env st inp).2.db = st.db ∧
    (∀ out, (PlaceBet env st inp).1 = .ok out → out.BillNo = o.BillNo) ∧
    (∀ a r out, validateBetAmount inp.BetAmount = .ok a → st.kv = some r →
      env.kvErr .getResult = false → lookupKey inp.IdempotencyKey r.idemResult = some out →
      (PlaceBet env st inp).1 = .ok out) ∧
    (∀ a kv locked user tx round,
      validateBetAmount inp.BetAmount = .ok a →
      kvFastPath env st.kv inp.IdempotencyKey = .proceed kv locked →
      env.dbErr .beginTx = false →
      getOrCreateUserInTx env st.db inp.PlatformID inp.PlatformUserID inp.PlatformUserName
        = .ok (user, tx) →
      GetRoundForUpdate env tx inp.GameRoundID = .ok round →
      round.GameStatus = 2 →
      checkBetWindow env.now round.BetStartTime round.BetStopTime = none →
      checkConflictingBets env tx inp.GameRoundID inp.PlatformID inp.PlatformUserID
        inp.PlayType = .ok false →
      env.dbErr .insertIdem = false → env.dbErr .selectRef = false →
      env.dbErr .getUser = false →
      o.PlatformID = inp.PlatformID → o.PlatformUserID = inp.PlatformUserID →
      ∃ out, (PlaceBet env st inp).1 = .ok out) := by
  have hinv := Reachable_BetInv st hr
  obtain ⟨r0, hr0, hr0k, hr0ref⟩ := hinv.order_idem o ho
  have hfind := find_idem_of_mem _ inp.IdempotencyKey hinv.idem_nodup r0 hr0 (hr0k.trans hk)
  have hcache : ∀ out, lookupKey inp.IdempotencyKey (resultCache st.kv) = some out →
      out.BillNo = o.BillNo := by
    intro out hl
    obtain ⟨r1, hr1, h1, h2⟩ := hinv.cache_idem _ _ hl
    have : r1 = r0 :=
      List.inj_on_of_nodup_map hinv.idem_nodup hr1 hr0 (h1.trans (hr0k.trans hk).symm)
    rw [← h2, this, hr0ref]
  refine ⟨?_, ?_, ?_, ?_⟩
  · rcases PlaceBet_cases env st inp with h | ⟨a, kv, locked, user, tx, round, tx1, tx2,
      afterDec, _, _, hc, _, _, _⟩
    · exact h
    · exact (BetCommitted_fresh env st inp a user tx round tx1 tx2 afterDec hinv o ho hk hc).elim
  · intro out hout
    unfold PlaceBet at hout
    cases hv : validateBetAmount inp.BetAmount with
    | error e => simp [hv] at hout
    | ok a =>
      simp only [hv] at hout
      cases hkf : kvFastPath env st.kv inp.IdempotencyKey with
      | hit out1 =>
        simp only [hkf, Except.ok.injEq] at hout
        rw [← hout]
        exact hcache _ (kvFastPath_hit _ _ _ _ hkf)
      | inFlight => simp [hkf] at hout
      | proceed kv locked =>
        simp only [hkf] at hout
        rcases placeBetTx_ok_cases env st.db kv inp a out hout with
          ⟨user, tx, round, tx1, tx2, afterDec, hc⟩ | ⟨err, hrec⟩
        · exact (BetCommitted_fresh env st inp a user tx round tx1 tx2 afterDec hinv o ho hk
            hc).elim
        · rcases recoverPriorResult_ok _ _ _ _ _ _ hrec with h1 | ⟨r1, hf1, h1⟩
          · rw [kvFastPath_proceed _ _ _ _ _ hkf] at h1
            exact hcache _ h1
          · rw [hfind] at hf1
            simp only [Option.some.injEq] at hf1
            rw [h1, ← hf1, hr0ref]
  · intro a r out hv hkv hget hl
    simp [PlaceBet, hv, kvFastPath, hkv, hget, hl]
  · intro a kv locked user tx round hv hkf hb hu hrd hbet hwin hconf hf1 hf2 hf3 hp1 hp2
    rw [(PlaceBet_eq_tx env st inp a kv locked hv hkf).1]
    have hs2 : codeToState round.GameStatus = StateBetting :=
      (codeToState_betting_iff _).mpr hbet
    have hti : tx.idemKeys = st.db.idemKeys := by
      rcases getOrCreateUserInTx_ok _ _ _ _ _ _ _ hu with h1 | h1 <;> rw [h1.1]
    have hdup : IdempotencyKey.Insert env tx
        { IdempotencyKey := inp.IdempotencyKey, Purpose := "bet",
          Ref := generateBillNo env user.ID } = .error ErrDuplicateEntry := by
      unfold IdempotencyKey.Insert
      rw [hf1, hti]
      simp only [Bool.false_eq_true, if_false]
      rw [if_pos]
      rw [List.any_eq_true]
      exact ⟨r0, hr0, by simp [hr0k.trans hk, (hinv.idem_bet r0 hr0).1]⟩
    have h1062 : isMySQL1062 ErrDuplicateEntry = true := rfl
    have htx : placeBetTx env st.db kv inp a =
        (recoverPriorResult env st.db kv inp ErrDuplicateEntry, st.db, kv) := by
      simp [placeBetTx, hb, hu, hrd, hs2, hwin, hconf, hdup, h1062]
    rw [htx]
    simp only []
    obtain ⟨u, hu1, hu2, hu3⟩ := hinv.order_user o ho
    have huser : ∃ u1, st.db.customers.find? (fun u =>
        u.PlatformID = inp.PlatformID ∧ u.PlatformUserID = inp.PlatformUserID) = some u1 := by
      cases hfu : st.db.customers.find? (fun u =>
          u.PlatformID = inp.PlatformID ∧ u.PlatformUserID = inp.PlatformUserID) with
      | some u1 => exact ⟨u1, rfl⟩
      | none =>
        have := List.find?_eq_none.mp hfu u hu1
        simp [hu2.trans hp1, hu3.trans hp2] at this
    obtain ⟨u1, hu1f⟩ := huser
    unfold recoverPriorResult
    simp only []
    split
    · exact ⟨_, rfl⟩
    · simp only [SelectRefByIdemKey, hf2, hfind, GetUserByPlatformUser, hf3, hu1f,
        Bool.false_eq_true, if_false]
      rw [if_pos (hinv.idem_bet r0 hr0).2]
      exact ⟨_, rfl⟩

/-- The bet with key `K1` sent again while the round is in betting and the
clock is inside the window, without a Redis client: the call stores nothing
and returns the first bill number. -/
theorem PlaceBet_replay_witness :
    sampleAfterBet.db.orders.map (fun o => (o.IdempotencyKey, o.BillNo)) =
      [("K1", "DT202501010000000007ABC")] ∧
    (PlaceBet { sampleEnv with now := 3000 } sampleAfterBet sampleBet).1 =
      .ok ⟨"DT202501010000000007ABC", ⟨90000, 2⟩⟩ ∧
    (PlaceBet { sampleEnv with now := 3000 } sampleAfterBet sampleBet).2.db =
      sampleAfterBet.db :=
  ⟨by decide, by decide,
    (PlaceBet_replay { sampleEnv with now := 3000 } sampleAfterBet sampleBet
      sampleAfterBet_reachable
      (orderRow sampleEnv (betOrder sampleBet sampleUser ⟨10000, 2⟩ ⟨97, 2⟩
        "DT202501010000000007ABC"))
      (by decide) (by decide)).1⟩

/-- C7: a processed bet that is sent again is not always answered with the
first result.  The bet with key `K1` commits at clock value `2000` with bill
number `DT202501010000000007ABC`.  Without a Redis client the same call at
clock value `50000`, after the bet window `[1000, 46000]` has closed, returns
`ErrBetWindowClosed`, and the same call after `game_stop` returns
`ErrInvalidStateBet`: the checks of the round come before the insert of the
idempotency key, whose duplicate-key branch alone looks the first result up
in the tables.  On the sibling path, with a Redis client that still holds the
result, the same call at clock value `50000` returns the first bill number
and balance; once that key has expired it returns `ErrBetWindowClosed` too.
No replay stores anything. -/
theorem PlaceBet_replay_after_window :
    (PlaceBet sampleEnv sampleBetting sampleBet).1 =
      .ok ⟨"DT202501010000000007ABC", ⟨90000, 2⟩⟩ ∧
    sampleAfterBet.db.orders.map (fun o => (o.BillNo, o.IdempotencyKey)) =
      [("DT202501010000000007ABC", "K1")] ∧
    PlaceBet { sampleEnv with now := 50000 } sampleAfterBet sampleBet =
      (.error ErrBetWindowClosed, sampleAfterBet) ∧
    PlaceBet sampleEnv sampleSealedAfterBet sampleBet =
      (.error ErrInvalidStateBet, sampleSealedAfterBet) ∧
    sampleAfterBetRedis.db = sampleAfterBet.db ∧
    PlaceBet { sampleEnv with now := 50000 } sampleAfterBetRedis sampleBet =
      (.ok ⟨"DT202501010000000007ABC", ⟨90000, 2⟩⟩, sampleAfterBetRedis) ∧
    (PlaceBet { sampleEnv with now := 50000 }
        { sampleAfterBetRedis with kv := some ⟨[], [], [], []⟩ } sampleBet).1 =
      .error ErrBetWindowClosed := by
  decide

/-! ## The play type of a bet -/

/-- C11 as stated fails on `PlaceBet` itself, which has no check of the play
type: called with play type `5` on a round in betting, it succeeds and stores
an order, with play-type code `0` and odds `0`. -/
theorem play_type_counterexample :
    sampleBetPlay5.PlayType = 5 ∧
    sampleBetting.db.orders = [] ∧
    (PlaceBet sampleEnv sampleBetting sampleBetPlay5).1 =
      .ok ⟨"DT202501010000000007ABC", ⟨90000, 2⟩⟩ ∧
    (PlaceBet sampleEnv sampleBetting sampleBetPlay5).2.db.orders.map
        (fun o => (o.BillNo, o.PlayType, o.BetOdds)) =
      [("DT202501010000000007ABC", 0, ⟨0, 0⟩)] := by
  decide

/-- C11 (as amended): the check of the play type stands in `ValidateBet`, which
the bet endpoint runs before it calls `PlaceBet`.  For every parsed request
whose play type is not 1, 2 or 3, `ValidateBet` refuses the request, and the
endpoint answers with a bad request without calling `PlaceBet`: no transaction
is opened and the state, the orders among it, is unchanged. -/
theorem Bet_rejects_play_type (env : Env) (st : State) (bp : BetParsed) (auth : PlatformData)
    (traceID : String) (h : bp.PlayType ≠ 1 ∧ bp.PlayType ≠ 2 ∧ bp.PlayType ≠ 3) :
    (ValidateBet bp).1 = false ∧
    Bet env st bp auth traceID = (.badRequest (ValidateBet bp).2, st) ∧
    (Bet env st bp auth traceID).2.db.orders = st.db.orders := by
  have hv : (ValidateBet bp).1 = false := by
    unfold ValidateBet
    split_ifs <;> rfl
  have hb : Bet env st bp auth traceID = (.badRequest (ValidateBet bp).2, st) := by
    unfold Bet
    simp only [hv, Bool.not_false, if_true]
  exact ⟨hv, hb, by rw [hb]⟩

/-- The request with play type `5` at the bet endpoint: refused with the
message of the play-type check, and nothing is stored. -/
theorem Bet_rejects_play_type_witness :
    (sampleParsedPlay5.PlayType ≠ 1 ∧ sampleParsedPlay5.PlayType ≠ 2 ∧
      sampleParsedPlay5.PlayType ≠ 3) ∧
    Bet sampleEnv sampleBetting sampleParsedPlay5 sampleAuth "T" =
      (.badRequest "play_type must be 1|2|3", sampleBetting) :=
  ⟨by decide,
    (Bet_rejects_play_type sampleEnv sampleBetting sampleParsedPlay5 sampleAuth "T"
      (by decide)).2.1⟩

/-! ## Conflicting bets -/

theorem hasConflict_iff (p : Int) (L : List Int) :
    hasConflict p L = true ↔ (p = 1 ∧ 2 ∈ L) ∨ (p = 2 ∧ 1 ∈ L) := by
  induction L with
  | nil => simp [hasConflict]
  | cons x rest ih =>
    simp only [hasConflict, List.mem_cons]
    split_ifs with h1 h2
    · simp [h1.1, h1.2]
    · simp [h2.1, h2.2]
    · rw [ih]
      constructor
      · rintro (⟨a, b⟩ | ⟨a, b⟩)
        · exact Or.inl ⟨a, Or.inr b⟩
        · exact Or.inr ⟨a, Or.inr b⟩
      · rintro (⟨a, b | b⟩ | ⟨a, b | b⟩)
        · exact absurd ⟨a, b.symm⟩ h1
        · exact Or.inl ⟨a, b⟩
        · exact absurd ⟨a, b.symm⟩ h2
        · exact Or.inr ⟨a, b⟩

/-- C12: for every play type `p`, those among 1 (dragon), 2 (tiger) and
3 (tie) included, and for every list `L` of play types, the loop of `checkConflictingBets` reports a
conflict iff `p` is dragon and tiger is in `L`, or `p` is tiger and dragon is
in `L`.  When the query of the existing bets does not fail,
`checkConflictingBets` returns that answer for the play types of the orders
of the same user in the round with bill status pending (1) or settled (2): a
conflict iff such an order exists on the opposite side.  A tie bet never
conflicts, and lists of tie and same-side bets never give a conflict. -/
theorem checkConflictingBets_contract (env : Env) (tx : DB) (gameRoundID : String)
    (platformID : Int) (platformUserID : String) (p : Int)
    (hf : env.dbErr .selectExistingBets = false) :
    (∀ L : List Int, hasConflict p L = true ↔ (p = 1 ∧ 2 ∈ L) ∨ (p = 2 ∧ 1 ∈ L)) ∧
    (∃ b, checkConflictingBets env tx gameRoundID platformID platformUserID p = .ok b ∧
      (b = true ↔
        ∃ o ∈ tx.orders, o.GameRoundID = gameRoundID ∧ o.PlatformID = platformID ∧
          o.PlatformUserID = platformUserID ∧ (o.BillStatus = 1 ∨ o.BillStatus = 2) ∧
          ((p = 1 ∧ o.PlayType = 2) ∨ (p = 2 ∧ o.PlayType = 1)))) ∧
    (p = 3 → checkConflictingBets env tx gameRoundID platformID platformUserID p = .ok false) ∧
    (∀ L : List Int, (∀ x ∈ L, x = 3 ∨ x = p) → hasConflict p L = false) := by
  refine ⟨hasConflict_iff p, ?_, ?_, ?_⟩
  · unfold checkConflictingBets
    by_cases h12 : p ≠ 1 ∧ p ≠ 2
    · refine ⟨false, by simp [h12], ?_⟩
      constructor
      · intro h
        cases h
      · rintro ⟨o, _, _, _, _, _, h | h⟩
        · exact absurd h.1 h12.1
        · exact absurd h.1 h12.2
    · refine ⟨_, by simp only [h12, hf, if_false, Bool.false_eq_true]; rfl, ?_⟩
      rw [hasConflict_iff]
      simp only [List.mem_map, List.mem_filter, decide_eq_true_eq]
      constructor
      · rintro (⟨a, o, ⟨ho, h1, h2, h3, h4⟩, h5⟩ | ⟨a, o, ⟨ho, h1, h2, h3, h4⟩, h5⟩)
        · exact ⟨o, ho, h1, h2, h3, h4, Or.inl ⟨a, h5⟩⟩
        · exact ⟨o, ho, h1, h2, h3, h4, Or.inr ⟨a, h5⟩⟩
      · rintro ⟨o, ho, h1, h2, h3, h4, ⟨a, h5⟩ | ⟨a, h5⟩⟩
        · exact Or.inl ⟨a, o, ⟨ho, h1, h2, h3, h4⟩, h5⟩
        · exact Or.inr ⟨a, o, ⟨ho, h1, h2, h3, h4⟩, h5⟩
  · intro h3
    unfold checkConflictingBets
    simp [h3]
  · intro L hL
    rw [← Bool.not_eq_true, hasConflict_iff]
    rintro (⟨a, b⟩ | ⟨a, b⟩)
    · rcases hL 2 b with h | h
      · exact absurd h (by decide)
      · rw [a] at h
        exact absurd h (by decide)
    · rcases hL 1 b with h | h
      · exact absurd h (by decide)
      · rw [a] at h
        exact absurd h (by decide)

/-- A tiger bet of `alice` in round `R1` after her dragon bet: a conflict. -/
theorem checkConflictingBets_contract_witness :
    sampleAfterBet.db.orders.map (fun o => (o.PlatformUserID, o.PlayType, o.BillStatus)) =
      [("alice", 1, 1)] ∧
    checkConflictingBets sampleEnv sampleAfterBet.db "R1" 1 "alice" 2 = .ok true ∧
    checkConflictingBets sampleEnv sampleAfterBet.db "R1" 1 "alice" 1 = .ok false ∧
    checkConflictingBets sampleEnv sampleAfterBet.db "R1" 1 "alice" 3 = .ok false ∧
    (∀ L : List Int, hasConflict 2 L = true ↔ ((2 : Int) = 1 ∧ 2 ∈ L) ∨ ((2 : Int) = 2 ∧ 1 ∈ L)) :=
  ⟨by decide, by decide, by decide, by decide,
    (checkConflictingBets_contract sampleEnv sampleAfterBet.db "R1" 1 "alice" 2
      (by decide)).1⟩

/-! ## Rounding to cents -/

namespace Dec

theorem toRat_Mul (a b : Dec) : (a.Mul b).toRat = a.toRat * b.toRat := by
  unfold Mul toRat
  simp only []
  push_cast
  rw [pow_add]
  field_simp

theorem ediv_ediv_of_nonneg (a b c : Int) (ha : 0 ≤ a) (hb : 0 ≤ b) (hc : 0 ≤ c) :
    a / b / c = a / (b * c) := by
  lift a to ℕ using ha
  lift b to ℕ using hb
  lift c to ℕ using hc
  norm_cast
  exact Nat.div_div_eq_div_mul _ _ _

theorem rescale_of_nonneg (d : Dec) (p : Nat) (hv : 0 ≤ d.value) (hs : p < d.scale) :
    d.rescale (p + 1) = d.value / 10 ^ (d.scale - p - 1) := by
  unfold rescale
  by_cases h1 : d.scale ≤ p + 1
  · have h2 : d.scale = p + 1 := by omega
    rw [if_pos h1]
    simp [h2]
  · rw [if_neg h1]
    unfold quoT
    rw [if_pos hv]
    congr 2

/-- The value `Round` gives on a non-negative decimal with more than `p`
fractional digits: the half of the last kept unit is added and the division
is rounded down. -/
theorem Round_of_nonneg (d : Dec) (p : Nat) (hv : 0 ≤ d.value) (hs : p < d.scale) :
    d.Round p =
      ⟨(d.value + 5 * 10 ^ (d.scale - p - 1)) / (10 ^ (d.scale - p - 1) * 10), p⟩ := by
  unfold Round
  rw [if_neg (by omega)]
  simp only []
  rw [rescale_of_nonneg d p hv hs]
  have hpos : (0 : Int) < 10 ^ (d.scale - p - 1) := by positivity
  have hq : 0 ≤ d.value / 10 ^ (d.scale - p - 1) := Int.ediv_nonneg hv (le_of_lt hpos)
  rw [if_neg (by omega)]
  rw [if_neg (by omega)]
  congr 1
  rw [← ediv_ediv_of_nonneg _ _ _ (by positivity) (le_of_lt hpos) (by decide),
    Int.add_mul_ediv_right _ _ (ne_of_gt hpos)]

/-- On a non-negative decimal, `Round` gives the multiple of `10 ^ (-p)`
nearest to it, and the upper one of the two when it lies halfway. -/
theorem toRat_Round_of_nonneg (d : Dec) (p : Nat) (hv : 0 ≤ d.value) :
    (d.Round p).toRat = (⌊d.toRat * 10 ^ p + 1 / 2⌋ : ℚ) / 10 ^ p := by
  by_cases hs : d.scale ≤ p
  · rw [Round_of_scale_le d p hs]
    have h1 : d.toRat * 10 ^ p = ((d.value * 10 ^ (p - d.scale) : Int) : ℚ) := by
      rw [toRat_eq_coef d p hs]
      unfold coef
      field_simp
    rw [h1]
    have h2 : ⌊((d.value * 10 ^ (p - d.scale) : Int) : ℚ) + 1 / 2⌋ =
        d.value * 10 ^ (p - d.scale) := by
      rw [Int.floor_eq_iff]
      constructor <;> norm_num
    rw [h2]
    rfl
  · have hs1 : p < d.scale := by omega
    rw [Round_of_nonneg d p hv hs1]
    have hk : d.scale = p + ((d.scale - p - 1) + 1) := by omega
    have h1 : d.toRat * 10 ^ p + 1 / 2 =
        ((d.value + 5 * 10 ^ (d.scale - p - 1) : Int) : ℚ) /
          ((10 ^ (d.scale - p - 1) * 10 : Nat) : ℚ) := by
      unfold toRat
      generalize d.scale - p - 1 = k at hk
      rw [hk]
      push_cast
      rw [pow_add, pow_succ]
      field_simp
      ring
    rw [h1, Rat.floor_intCast_div_natCast]
    unfold toRat
    simp only []
    push_cast
    rfl

/-- Rounding a non-negative decimal moves it by at most half a unit of the
last kept digit. -/
theorem Round_near (d : Dec) (p : Nat) (hv : 0 ≤ d.value) :
    |(d.Round p).toRat - d.toRat| ≤ 1 / 2 / 10 ^ p := by
  rw [toRat_Round_of_nonneg d p hv]
  have hp : (0 : ℚ) < 10 ^ p := by positivity
  have h1 := Int.floor_le (d.toRat * 10 ^ p + 1 / 2)
  have h2 := Int.lt_floor_add_one (d.toRat * 10 ^ p + 1 / 2)
  have e : (⌊d.toRat * 10 ^ p + 1 / 2⌋ : ℚ) / 10 ^ p - d.toRat =
      ((⌊d.toRat * 10 ^ p + 1 / 2⌋ : ℚ) - d.toRat * 10 ^ p) / 10 ^ p := by
    field_simp
    ring
  rw [e, abs_div, abs_of_pos hp]
  apply div_le_div_of_nonneg_right _ (le_of_lt hp)
  rw [abs_le]
  constructor <;> linarith

end Dec

/-! ## The payout table -/

theorem settlePayout_win (o : Order) (r : String)
    (h : String.mk (ToLower o.PlayType.toList) = r) :
    settlePayout o r = (o.BetAmount.Mul ((Dec.NewFromInt 1).Add o.BetOdds)).Round 2 := by
  unfold settlePayout
  simp only [h, if_true]

theorem one_Add_nonneg (odds : Dec) (h : 0 ≤ odds.value) :
    0 ≤ ((Dec.NewFromInt 1).Add odds).value := by
  unfold Dec.Add Dec.NewFromInt Dec.coef
  simp only []
  positivity

theorem toRat_stake_product (stake odds : Dec) :
    (stake.Mul ((Dec.NewFromInt 1).Add odds)).toRat = stake.toRat * (1 + odds.toRat) := by
  rw [Dec.toRat_Mul, Dec.toRat_Add, Dec.toRat_NewFromInt]
  norm_num

/-- C13: for an order with a positive stake `s` of at most two fractional
digits, a play type `p` among dragon, tiger and tie, the odds `calcOdds p`
(0.97, 0.97, 8.0), and every outcome `r`, those among dragon, tiger and tie
included, `settlePayout` gives: when `p = r` is dragon or tiger, `s * 1.97` rounded to
two decimals (a number of two fractional digits within half a cent of the
product); when `p = r` is tie, `s * 9`; when `p` is dragon or tiger and the
outcome is tie, the stake itself; and zero in every other case. -/
theorem settlePayout_table (o : Order) (p r : String)
    (hp : p = "dragon" ∨ p = "tiger" ∨ p = "tie")
    (hpt : o.PlayType = p) (hodds : o.BetOdds = calcOdds p)
    (hpos : 0 < o.BetAmount.value) (hsc : o.BetAmount.scale ≤ 2) :
    (p = r → p ≠ "tie" →
      (settlePayout o r).scale = 2 ∧
      |(settlePayout o r).toRat - o.BetAmount.toRat * (197 / 100)| ≤ 1 / 200) ∧
    (p = r → p = "tie" → (settlePayout o r).toRat = o.BetAmount.toRat * 9) ∧
    (p ≠ "tie" → r = "tie" → settlePayout o r = o.BetAmount) ∧
    (p ≠ r → ¬ (p ≠ "tie" ∧ r = "tie") → (settlePayout o r).toRat = 0) := by
  have hlow : String.mk (ToLower o.PlayType.toList) = p := by
    rw [hpt]
    rcases hp with h | h | h <;> rw [h] <;> decide
  refine ⟨?_, ?_, ?_, ?_⟩
  · intro hpr hnt
    have hwin := settlePayout_win o r (hlow.trans hpr)
    have ho : o.BetOdds = ⟨97, 2⟩ := by
      rw [hodds]
      rcases hp with h | h | h
      · rw [h]; decide
      · rw [h]; decide
      · exact absurd h hnt
    rw [hwin]
    refine ⟨Dec.Round_scale _ _, ?_⟩
    have hnn : 0 ≤ (o.BetAmount.Mul ((Dec.NewFromInt 1).Add o.BetOdds)).value := by
      unfold Dec.Mul
      simp only []
      exact mul_nonneg (le_of_lt hpos) (one_Add_nonneg _ (by rw [ho]; decide))
    have hnear := Dec.Round_near _ 2 hnn
    rw [toRat_stake_product, ho] at hnear
    have e1 : (1 : ℚ) + (⟨97, 2⟩ : Dec).toRat = 197 / 100 := by
      norm_num [Dec.toRat]
    rw [e1] at hnear
    rw [ho]
    calc _ ≤ (1 : ℚ) / 2 / 10 ^ 2 := hnear
      _ = 1 / 200 := by norm_num
  · intro hpr ht
    have hwin := settlePayout_win o r (hlow.trans hpr)
    have ho : o.BetOdds = ⟨8, 0⟩ := by
      rw [hodds, ht]
      decide
    rw [hwin, Dec.toRat_Round_of_scale_le, toRat_stake_product, ho]
    · norm_num [Dec.toRat]
    · rw [ho]
      show o.BetAmount.scale + max 0 0 ≤ 2
      simpa using hsc
  · intro hnt hrt
    unfold settlePayout
    simp only [hlow]
    have hne : p ≠ r := by
      rw [hrt]
      exact hnt
    rw [if_neg hne, if_pos]
    refine ⟨?_, hrt⟩
    rcases hp with h | h | h
    · exact Or.inl h
    · exact Or.inr h
    · exact absurd h hnt
  · intro hne hnot
    unfold settlePayout
    simp only [hlow]
    rw [if_neg hne, if_neg]
    · norm_num [Dec.toRat]
    · rintro ⟨hdt, hrt⟩
      apply hnot
      refine ⟨?_, hrt⟩
      rcases hdt with h | h <;> rw [h] <;> decide

/-- The stake `100.00` on dragon with outcome dragon pays `197.00`; on a tie
the stake comes back; on tiger nothing is paid. -/
theorem settlePayout_table_witness :
    settlePayout (sampleOrder "B1" ⟨10000, 2⟩ "dragon" ⟨97, 2⟩) "dragon" = ⟨19700, 2⟩ ∧
    settlePayout (sampleOrder "B1" ⟨10000, 2⟩ "dragon" ⟨97, 2⟩) "tiger" = ⟨0, 0⟩ ∧
    settlePayout (sampleOrder "B1" ⟨10000, 2⟩ "dragon" ⟨97, 2⟩) "tie" = ⟨10000, 2⟩ ∧
    |(settlePayout (sampleOrder "B1" ⟨10000, 2⟩ "dragon" ⟨97, 2⟩) "dragon").toRat -
      (sampleOrder "B1" ⟨10000, 2⟩ "dragon" ⟨97, 2⟩).BetAmount.toRat * (197 / 100)| ≤ 1 / 200 :=
  ⟨by decide, by decide, by decide,
    ((settlePayout_table (sampleOrder "B1" ⟨10000, 2⟩ "dragon" ⟨97, 2⟩) "dragon" "dragon"
      (Or.inl rfl) rfl (by decide) (by decide) (by decide)).1 rfl
      (by decide)).2⟩

/-! ## The rounding of a payout -/

/-- C14 as stated fails: the payout is rounded by `decimal.Round`, which takes
a half cent up, not to the even cent.  For the stake `0.50` at odds `0.97` the
exact product is `0.985`; the payout is `0.99`, where rounding half-even
(`RoundBank`) gives `0.98`. -/
theorem half_even_counterexample :
    (sampleOrder "B1" ⟨50, 2⟩ "dragon" ⟨97, 2⟩).BetAmount.toRat *
        (1 + (sampleOrder "B1" ⟨50, 2⟩ "dragon" ⟨97, 2⟩).BetOdds.toRat) = 985 / 1000 ∧
    settlePayout (sampleOrder "B1" ⟨50, 2⟩ "dragon" ⟨97, 2⟩) "dragon" = ⟨99, 2⟩ ∧
    ((⟨50, 2⟩ : Dec).Mul ((Dec.NewFromInt 1).Add ⟨97, 2⟩)).RoundBank 2 = ⟨98, 2⟩ ∧
    (settlePayout (sampleOrder "B1" ⟨50, 2⟩ "dragon" ⟨97, 2⟩) "dragon").toRat ≠ 98 / 100 := by
  refine ⟨?_, by decide, by decide, ?_⟩
  · norm_num [Dec.toRat, sampleOrder]
  · have h : settlePayout (sampleOrder "B1" ⟨50, 2⟩ "dragon" ⟨97, 2⟩) "dragon" = ⟨99, 2⟩ := by
      decide
    rw [h]
    norm_num [Dec.toRat]

/-- C14 (as amended): every payout product `stake * (1 + odds)` computed by
`settlePayout` (stake and odds not negative) is rounded to two decimals to
the nearest cent, a half cent going up (half away from zero): the payout is
`floor (100 * x + 1/2) / 100` for the exact product `x`, so whenever `x` lies
exactly halfway between two cents the payout is the upper one. -/
theorem settlePayout_rounding (o : Order) (r : String)
    (hwin : String.mk (ToLower o.PlayType.toList) = r)
    (hs : 0 ≤ o.BetAmount.value) (ho : 0 ≤ o.BetOdds.value) :
    (settlePayout o r).toRat =
      (⌊o.BetAmount.toRat * (1 + o.BetOdds.toRat) * 100 + 1 / 2⌋ : ℚ) / 100 ∧
    ∀ n : Int, o.BetAmount.toRat * (1 + o.BetOdds.toRat) * 100 = n + 1 / 2 →
      (settlePayout o r).toRat = (n + 1) / 100 := by
  have hnn : 0 ≤ (o.BetAmount.Mul ((Dec.NewFromInt 1).Add o.BetOdds)).value := by
    unfold Dec.Mul
    simp only []
    exact mul_nonneg hs (one_Add_nonneg _ ho)
  have h1 : (settlePayout o r).toRat =
      (⌊o.BetAmount.toRat * (1 + o.BetOdds.toRat) * 100 + 1 / 2⌋ : ℚ) / 100 := by
    rw [settlePayout_win o r hwin, Dec.toRat_Round_of_nonneg _ 2 hnn, toRat_stake_product]
    norm_num
  refine ⟨h1, ?_⟩
  intro n hn
  rw [h1, hn]
  have hfl : ⌊(n : ℚ) + 1 / 2 + 1 / 2⌋ = n + 1 := by
    rw [Int.floor_eq_iff]
    constructor
    · push_cast
      linarith
    · push_cast
      linarith
  rw [hfl]
  push_cast
  rfl

/-- The stake `0.50` at odds `0.97`: the product `0.985` is paid as `0.99`. -/
theorem settlePayout_rounding_witness :
    (0 : Int) ≤ (sampleOrder "B1" ⟨50, 2⟩ "dragon" ⟨97, 2⟩).BetAmount.value ∧
    (0 : Int) ≤ (sampleOrder "B1" ⟨50, 2⟩ "dragon" ⟨97, 2⟩).BetOdds.value ∧
    ∀ n : Int,
      (sampleOrder "B1" ⟨50, 2⟩ "dragon" ⟨97, 2⟩).BetAmount.toRat *
        (1 + (sampleOrder "B1" ⟨50, 2⟩ "dragon" ⟨97, 2⟩).BetOdds.toRat) * 100 = n + 1 / 2 →
      (settlePayout (sampleOrder "B1" ⟨50, 2⟩ "dragon" ⟨97, 2⟩) "dragon").toRat =
        (n + 1) / 100 :=
  ⟨by decide, by decide,
    (settlePayout_rounding (sampleOrder "B1" ⟨50, 2⟩ "dragon" ⟨97, 2⟩) "dragon" (by decide)
      (by decide) (by decide)).2⟩

/-! ## Trimming, splitting and lower case -/

theorem dropWhile_append_of_mem {α : Type} (p : α → Bool) (l1 l2 : List α)
    (h : ∃ x ∈ l1, p x = false) : (l1 ++ l2).dropWhile p = l1.dropWhile p ++ l2 := by
  induction l1 with
  | nil =>
    obtain ⟨x, hx, _⟩ := h
    cases hx
  | cons a rest ih =>
    by_cases ha : p a = true
    · have hrest : ∃ x ∈ rest, p x = false := by
        obtain ⟨x, hx, hpx⟩ := h
        rcases List.mem_cons.mp hx with h1 | h1
        · rw [h1, ha] at hpx
          cases hpx
        · exact ⟨x, h1, hpx⟩
      simp only [List.cons_append, List.dropWhile_cons, ha, if_true]
      exact ih hrest
    · simp only [List.cons_append, List.dropWhile_cons, ha, Bool.false_eq_true, if_false]

theorem trimRight_append (X Y : List Char) (h : ∃ y ∈ Y, isSpace y = false) :
    trimRight (X ++ Y) = X ++ trimRight Y := by
  unfold trimRight
  rw [List.reverse_append, dropWhile_append_of_mem isSpace Y.reverse X.reverse, List.reverse_append,
    List.reverse_reverse]
  obtain ⟨y, hy, hs⟩ := h
  exact ⟨y, List.mem_reverse.mpr hy, hs⟩

theorem trimRight_cons (c : Char) (l : List Char) (hc : isSpace c = false) :
    trimRight (c :: l) = c :: trimRight l := by
  have h := trimRight_append [c] l
  by_cases hl : ∃ y ∈ l, isSpace y = false
  · exact h hl
  · have hall : ∀ y ∈ l.reverse, isSpace y = true := by
      intro y hy
      by_contra hn
      exact hl ⟨y, List.mem_reverse.mp hy, by simpa using hn⟩
    unfold trimRight
    rw [List.reverse_cons, List.dropWhile_append_of_pos hall]
    have e : List.dropWhile isSpace l.reverse = [] := by
      rw [List.dropWhile_eq_nil_iff]
      exact hall
    simp [e, hc]

theorem TrimSpace_cons (c : Char) (l : List Char) (hc : isSpace c = false) :
    TrimSpace (c :: l) = c :: trimRight l := by
  have h : TrimSpace (c :: l) = trimRight (c :: l) := by
    unfold TrimSpace trimRight
    simp [hc]
  rw [h, trimRight_cons c l hc]

theorem trimRight_idem (l : List Char) : trimRight (trimRight l) = trimRight l := by
  unfold trimRight
  rw [List.reverse_reverse, List.dropWhile_idempotent]

theorem mem_trimRight (x : Char) (l : List Char) (h : x ∈ trimRight l) : x ∈ l := by
  unfold trimRight at h
  rw [List.mem_reverse] at h
  exact List.mem_reverse.mp ((List.dropWhile_sublist isSpace).subset h)

theorem splitComma_ne_nil (l : List Char) : splitComma l ≠ [] := by
  cases l with
  | nil => simp [splitComma]
  | cons c cs =>
    unfold splitComma
    split
    · simp
    · split_ifs <;> simp

theorem splitComma_cons (c : Char) (cs : List Char) :
    splitComma (c :: cs) =
      match splitComma cs with
      | [] => [[]]
      | p :: ps => if c = ',' then [] :: p :: ps else (c :: p) :: ps := rfl

theorem splitComma_of_no_comma (l : List Char) (h : ',' ∉ l) : splitComma l = [l] := by
  induction l with
  | nil => rfl
  | cons c cs ih =>
    have hc : c ≠ ',' := fun e => h (by simp [e])
    have hcs : ',' ∉ cs := fun e => h (List.mem_cons_of_mem _ e)
    rw [splitComma_cons, ih hcs]
    simp [hc]

theorem splitComma_append_comma (a b : List Char) (h : ',' ∉ a) :
    splitComma (a ++ ',' :: b) = a :: splitComma b := by
  induction a with
  | nil =>
    show splitComma (',' :: b) = [] :: splitComma b
    rw [splitComma_cons]
    cases hb : splitComma b with
    | nil => exact absurd hb (splitComma_ne_nil b)
    | cons p ps => simp
  | cons c cs ih =>
    have hc : c ≠ ',' := fun e => h (by simp [e])
    have hcs : ',' ∉ cs := fun e => h (List.mem_cons_of_mem _ e)
    show splitComma (c :: (cs ++ ',' :: b)) = (c :: cs) :: splitComma b
    rw [splitComma_cons, ih hcs]
    simp [hc]

theorem toLowerChar_idem (c : Char) : toLowerChar (toLowerChar c) = toLowerChar c := by
  unfold toLowerChar
  by_cases h1 : c.toNat = 0x130
  · simp only [h1, if_true]
    decide
  by_cases h2 : c.toNat = 0x212A
  · simp only [h1, h2, if_true, if_false]
    decide
  simp only [h1, h2, if_false]
  unfold Char.toLower
  simp only []
  by_cases h3 : c.toNat ≥ 65 ∧ c.toNat ≤ 90
  · have hc : c = Char.ofNat c.toNat := by
      rw [Char.ofNat_toNat]
    obtain ⟨h4, h5⟩ := h3
    generalize c.toNat = n at hc h4 h5
    subst hc
    interval_cases n <;> decide
  · simp only [h3, if_false, h1, h2]

theorem ToLower_idem (l : List Char) : ToLower (ToLower l) = ToLower l := by
  unfold ToLower
  rw [List.map_map]
  apply List.map_congr_left
  intro c _
  exact toLowerChar_idem c

/-! ## The outcome of a card list -/

theorem digits_card (n : Nat) (hn : 1 ≤ n ∧ n ≤ 13) :
    ',' ∉ (toString n).toList ∧ ∃ y ∈ (toString n).toList, isSpace y = false := by
  obtain ⟨h1, h2⟩ := hn
  interval_cases n <;> decide

theorem decideToken_card (acc : Int × Int × String) (c : Char) (n : Nat)
    (hn : 1 ≤ n ∧ n ≤ 13) :
    (c = 'D' ∨ c = 'd' →
      decideToken acc (c :: (toString n).toList) = ((n : Int), acc.2.1, acc.2.2)) ∧
    (c = 'T' ∨ c = 't' →
      decideToken acc (c :: (toString n).toList) = (acc.1, (n : Int), acc.2.2)) := by
  obtain ⟨h1, h2⟩ := hn
  interval_cases n <;>
    exact ⟨by rintro (rfl | rfl) <;> rfl, by rintro (rfl | rfl) <;> rfl⟩

theorem parseResultToken_ToLower (l : List Char) :
    parseResultToken (ToLower l) = parseResultToken l := by
  unfold parseResultToken
  rw [ToLower_idem]

theorem decideToken_tag (acc : Int × Int × String) (c : Char) (tag : List Char)
    (hc : c = 'R' ∨ c = 'r') :
    decideToken acc (c :: trimRight tag) =
      (acc.1, acc.2.1, parseResultToken (trimRight tag)) := by
  have hsp : isSpace c = false := by
    rcases hc with rfl | rfl <;> decide
  have hlow : ToLower (c :: trimRight tag) = 'r' :: ToLower (trimRight tag) := by
    rcases hc with rfl | rfl <;> rfl
  unfold decideToken
  rw [TrimSpace_cons c _ hsp, trimRight_idem, hlow]
  simp only [parseResultToken_ToLower]
  rfl

/-- The value of `decideResult` on a card list `D<d>,T<t>,R<tag>`: the outcome
the tag names, or the comparison of the two cards when it names none. -/
theorem decideResult_cardList (cD cT cR : Char) (d t : Nat) (tag : List Char)
    (hD : cD = 'D' ∨ cD = 'd') (hT : cT = 'T' ∨ cT = 't') (hR : cR = 'R' ∨ cR = 'r')
    (hd : 1 ≤ d ∧ d ≤ 13) (ht : 1 ≤ t ∧ t ≤ 13) (htag : ',' ∉ tag) :
    decideResult (cardList cD d cT t cR tag) =
      if parseResultToken (trimRight tag) ≠ "" then parseResultToken (trimRight tag)
      else calculateResult d t := by
  obtain ⟨hdc, hds⟩ := digits_card d hd
  obtain ⟨htc, _⟩ := digits_card t ht
  have hsD : isSpace cD = false := by
    rcases hD with rfl | rfl <;> decide
  have hsR : isSpace cR = false := by
    rcases hR with rfl | rfl <;> decide
  have hcD : cD ≠ ',' := by
    rcases hD with rfl | rfl <;> decide
  have hcT : cT ≠ ',' := by
    rcases hT with rfl | rfl <;> decide
  have hcR : cR ≠ ',' := by
    rcases hR with rfl | rfl <;> decide
  have htrim : TrimSpace (cardList cD d cT t cR tag).toList =
      (cD :: (toString d).toList) ++ ',' :: ((cT :: (toString t).toList) ++
        ',' :: (cR :: trimRight tag)) := by
    show TrimSpace (cD :: (toString d).toList ++ ',' :: cT :: (toString t).toList ++
      ',' :: cR :: tag) = _
    have e : (cD :: (toString d).toList ++ ',' :: cT :: (toString t).toList ++
        ',' :: cR :: tag) =
        cD :: (((toString d).toList ++ ',' :: cT :: (toString t).toList ++ [',']) ++
          (cR :: tag)) := by
      simp
    rw [e, TrimSpace_cons _ _ hsD, trimRight_append _ _ ⟨cR, by simp, hsR⟩,
      trimRight_cons _ _ hsR]
    simp
  have hno1 : ',' ∉ cD :: (toString d).toList := by
    intro h
    rcases List.mem_cons.mp h with h1 | h1
    · exact hcD h1.symm
    · exact hdc h1
  have hno2 : ',' ∉ cT :: (toString t).toList := by
    intro h
    rcases List.mem_cons.mp h with h1 | h1
    · exact hcT h1.symm
    · exact htc h1
  have hno3 : ',' ∉ cR :: trimRight tag := by
    intro h
    rcases List.mem_cons.mp h with h1 | h1
    · exact hcR h1.symm
    · exact htag (mem_trimRight _ _ h1)
  have hsplit : splitComma (TrimSpace (cardList cD d cT t cR tag).toList) =
      [cD :: (toString d).toList, cT :: (toString t).toList, cR :: trimRight tag] := by
    rw [htrim, splitComma_append_comma _ _ hno1, splitComma_append_comma _ _ hno2,
      splitComma_of_no_comma _ hno3]
  have hfold : List.foldl decideToken (0, 0, "")
      [cD :: (toString d).toList, cT :: (toString t).toList, cR :: trimRight tag] =
      ((d : Int), (t : Int), parseResultToken (trimRight tag)) := by
    simp only [List.foldl]
    rw [(decideToken_card _ cD d hd).1 hD, (decideToken_card _ cT t ht).2 hT,
      decideToken_tag _ cR tag hR]
  have hne : TrimSpace (cardList cD d cT t cR tag).toList ≠ [] := by
    rw [htrim]
    simp
  have hd0 : (d : Int) ≠ 0 := by
    have := hd.1
    omega
  have ht0 : (t : Int) ≠ 0 := by
    have := ht.1
    omega
  unfold decideResult
  simp only [hne, if_false, hsplit, hfold, List.length_cons, List.length_nil]
  simp [hd0, ht0]

/-- C15 as stated fails for the tags `-dragon` and `-tiger`, which are none
of `d`, `dragon`, `t`, `tiger` and `tie`: the card list `D1,T13,R-dragon` has
the outcome dragon where the comparison of the cards `1` and `13` gives tiger,
and `D13,T1,R-tiger` has the outcome tiger where the comparison gives dragon. -/
theorem result_tag_counterexample :
    "-dragon" ∉ ["d", "dragon", "t", "tiger", "tie"] ∧
    decideResult "D1,T13,R-dragon" = "dragon" ∧ calculateResult 1 13 = "tiger" ∧
    "-tiger" ∉ ["d", "dragon", "t", "tiger", "tie"] ∧
    decideResult "D13,T1,R-tiger" = "tiger" ∧ calculateResult 13 1 = "dragon" := by
  decide

/-- C15 (amended): for `d` and `t` from 1 to 13, the card list
`D<d>,T<t>,R<tag>` (the three letters in either case, the tag without a comma,
its trailing white space and its letter case set aside) is decided by the tag
whatever the cards: dragon for `d`, `dragon` or `-dragon`, tiger for `t`,
`tiger` or `-tiger`, tie for `tie`.  These seven are the tags
`parseResultToken` recognises.  With any other tag the outcome is the
comparison of the cards: dragon if `d > t`, tiger if `d < t`, tie if `d = t`. -/
theorem decideResult_tag (cD cT cR : Char) (d t : Nat) (tag : List Char)
    (hD : cD = 'D' ∨ cD = 'd') (hT : cT = 'T' ∨ cT = 't') (hR : cR = 'R' ∨ cR = 'r')
    (hd : 1 ≤ d ∧ d ≤ 13) (ht : 1 ≤ t ∧ t ≤ 13) (htag : ',' ∉ tag) :
    (String.mk (ToLower (trimRight tag)) = "d" ∨
      String.mk (ToLower (trimRight tag)) = "dragon" →
      decideResult (cardList cD d cT t cR tag) = "dragon") ∧
    (String.mk (ToLower (trimRight tag)) = "t" ∨
      String.mk (ToLower (trimRight tag)) = "tiger" →
      decideResult (cardList cD d cT t cR tag) = "tiger") ∧
    (String.mk (ToLower (trimRight tag)) = "tie" →
      decideResult (cardList cD d cT t cR tag) = "tie") ∧
    (String.mk (ToLower (trimRight tag)) = "-dragon" →
      decideResult (cardList cD d cT t cR tag) = "dragon") ∧
    (String.mk (ToLower (trimRight tag)) = "-tiger" →
      decideResult (cardList cD d cT t cR tag) = "tiger") ∧
    (String.mk (ToLower (trimRight tag)) ∉
        ["d", "dragon", "-dragon", "t", "tiger", "-tiger", "tie"] →
      decideResult (cardList cD d cT t cR tag) =
        if d > t then "dragon" else if d < t then "tiger" else "tie") := by
  rw [decideResult_cardList cD cT cR d t tag hD hT hR hd ht htag]
  unfold parseResultToken
  simp only []
  generalize String.mk (ToLower (trimRight tag)) = w
  refine ⟨?_, ?_, ?_, ?_, ?_, ?_⟩
  · rintro (h | h) <;> subst h <;> rfl
  · rintro (h | h) <;> subst h <;> rfl
  · intro h
    subst h
    rfl
  · intro h
    subst h
    rfl
  · intro h
    subst h
    rfl
  · intro h
    simp only [List.mem_cons, List.mem_singleton, List.not_mem_nil, or_false, not_or] at h
    obtain ⟨h1, h2, h3, h4, h5, h6, h7⟩ := h
    simp only [h1, h2, h3, h4, h5, h6, h7, or_self, if_false, ne_eq, not_true_eq_false]
    unfold calculateResult
    simp only [gt_iff_lt, Nat.cast_lt]

/-- The card lists `D9,T8,Rd`, `D1,T2,Rt` and `D9,T9,Rtie` give dragon, tiger
and tie; `D1,T13,RDragon` gives dragon against the cards, and `D1,T13,Rx` the
comparison of the cards. -/
theorem decideResult_tag_witness :
    decideResult "D9,T8,Rd" = "dragon" ∧ decideResult "D1,T2,Rt" = "tiger" ∧
    decideResult "D9,T9,Rtie" = "tie" ∧ decideResult "D1,T13,Rx" = "tiger" ∧
    cardList 'D' 1 'T' 13 'R' "Dragon".toList = "D1,T13,RDragon" ∧
    decideResult (cardList 'D' 1 'T' 13 'R' "Dragon".toList) = "dragon" :=
  ⟨by decide, by decide, by decide, by decide, by decide,
    (decideResult_tag 'D' 'T' 'R' 1 13 "Dragon".toList (Or.inl rfl) (Or.inl rfl) (Or.inl rfl)
      (by decide) (by decide) (by decide)).1 (Or.inr (by decide))⟩

/-! ## Card lists that are refused -/

theorem count_comma_dropWhile (l : List Char) :
    (l.dropWhile isSpace).count ',' = l.count ',' := by
  induction l with
  | nil => rfl
  | cons a rest ih =>
    by_cases ha : isSpace a = true
    · have hne : a ≠ ',' := by
        intro e
        rw [e] at ha
        exact absurd ha (by decide)
      rw [List.dropWhile_cons_of_pos ha, ih, List.count_cons_of_ne (Ne.symm hne)]
    · rw [List.dropWhile_cons_of_neg ha]

theorem count_comma_TrimSpace (l : List Char) : (TrimSpace l).count ',' = l.count ',' := by
  unfold TrimSpace
  rw [List.count_reverse, count_comma_dropWhile, List.count_reverse, count_comma_dropWhile]

theorem length_splitComma (l : List Char) : (splitComma l).length = l.count ',' + 1 := by
  induction l with
  | nil => rfl
  | cons c cs ih =>
    rw [splitComma_cons]
    cases h : splitComma cs with
    | nil => exact absurd h (splitComma_ne_nil cs)
    | cons p ps =>
      rw [h] at ih
      simp only [List.length_cons] at ih
      by_cases hc : c = ','
      · simp only [hc, if_true, List.length_cons, List.count_cons_self]
        omega
      · simp only [hc, if_false, List.length_cons]
        rw [List.count_cons_of_ne (Ne.symm hc)]
        omega

/-- A card list without exactly two commas has no outcome. -/
theorem decideResult_of_comma_count (s : String) (h : s.toList.count ',' ≠ 2) :
    decideResult s = "" := by
  unfold decideResult
  simp only []
  split_ifs with h1 h2
  · rfl
  · rfl
  · exfalso
    apply h2
    rw [length_splitComma, count_comma_TrimSpace]
    omega
  · exfalso
    apply h2
    rw [length_splitComma, count_comma_TrimSpace]
    omega
  · exfalso
    apply h2
    rw [length_splitComma, count_comma_TrimSpace]
    omega

theorem SubmitDrawResult_of_no_result (env : Env) (st : State) (inp : DrawInput)
    (hid : inp.GameRoundID ≠ "") (hcl : inp.CardList ≠ "")
    (h : decideResult inp.CardList = "") :
    SubmitDrawResult env st inp =
      (some (.msg "invalid card list format: unable to determine result"), st) := by
  have hlen : ¬ inp.CardList.length = 0 := by
    intro h0
    apply hcl
    have h1 : inp.CardList.data = [] := List.length_eq_zero.mp h0
    exact String.ext h1
  unfold SubmitDrawResult
  simp only [hid, hlen, or_self, if_false, h, if_true]

/-- C16 as stated fails: the card list `D5,T3` has no outcome, and
`SubmitDrawResult` refuses it as an invalid card list and leaves the drawn
round as it is. -/
theorem missing_R_counterexample :
    decideResult "D5,T3" = "" ∧
    roundStatus sampleDrawn "R1" = some 5 ∧
    SubmitDrawResult sampleEnv sampleDrawn (sampleDraw "D5,T3") =
      (some (.msg "invalid card list format: unable to determine result"), sampleDrawn) := by
  decide

/-- C16 (as amended): for `d` and `t` from 1 to 13, the card list `D<d>,T<t>`
without an `R` token is refused: `decideResult` gives the empty result, being
given two tokens where it asks for three, and `SubmitDrawResult` fails with
the invalid-card-list error and leaves the state unchanged.  The cards are
compared when the third token is there and names no outcome: `D<d>,T<t>,R`
gives dragon if `d > t`, tiger if `d < t` and tie if `d = t`. -/
theorem decideResult_missing_R (env : Env) (st : State) (inp : DrawInput)
    (cD cT cR : Char) (d t : Nat)
    (hD : cD = 'D' ∨ cD = 'd') (hT : cT = 'T' ∨ cT = 't') (hR : cR = 'R' ∨ cR = 'r')
    (hd : 1 ≤ d ∧ d ≤ 13) (ht : 1 ≤ t ∧ t ≤ 13)
    (hid : inp.GameRoundID ≠ "") (hcl : inp.CardList = cardPair cD d cT t) :
    decideResult (cardPair cD d cT t) = "" ∧
    SubmitDrawResult env st inp =
      (some (.msg "invalid card list format: unable to determine result"), st) ∧
    decideResult (cardList cD d cT t cR []) =
      if d > t then "dragon" else if d < t then "tiger" else "tie" := by
  obtain ⟨hdc, _⟩ := digits_card d hd
  obtain ⟨htc, _⟩ := digits_card t ht
  have hcD : cD ≠ ',' := by
    rcases hD with rfl | rfl <;> decide
  have hcT : cT ≠ ',' := by
    rcases hT with rfl | rfl <;> decide
  have hcount : (cardPair cD d cT t).toList.count ',' ≠ 2 := by
    show (cD :: (toString d).toList ++ ',' :: cT :: (toString t).toList).count ',' ≠ 2
    rw [List.count_append, List.count_cons_of_ne (Ne.symm hcD), List.count_cons_self,
      List.count_cons_of_ne (Ne.symm hcT), List.count_eq_zero_of_not_mem hdc,
      List.count_eq_zero_of_not_mem htc]
    decide
  have hres := decideResult_of_comma_count _ hcount
  have hne : inp.CardList ≠ "" := by
    rw [hcl]
    intro h
    have h1 := congrArg String.toList h
    cases h1
  refine ⟨hres, SubmitDrawResult_of_no_result env st inp hid hne (by rw [hcl]; exact hres), ?_⟩
  rw [decideResult_cardList cD cT cR d t [] hD hT hR hd ht (by simp)]
  have : parseResultToken (trimRight []) = "" := by decide
  rw [this]
  unfold calculateResult
  simp only [ne_eq, not_true_eq_false, if_false, gt_iff_lt, Nat.cast_lt]

/-- The card list `D5,T3` on the drawn round `R1` is refused and nothing
changes; `D5,T3,R` gives dragon. -/
theorem decideResult_missing_R_witness :
    cardPair 'D' 5 'T' 3 = "D5,T3" ∧ cardList 'D' 5 'T' 3 'R' [] = "D5,T3,R" ∧
    SubmitDrawResult sampleEnv sampleDrawn (sampleDraw "D5,T3") =
      (some (.msg "invalid card list format: unable to determine result"), sampleDrawn) ∧
    decideResult (cardList 'D' 5 'T' 3 'R' []) = "dragon" :=
  ⟨by decide, by decide,
    (decideResult_missing_R sampleEnv sampleDrawn (sampleDraw "D5,T3") 'D' 'T' 'R' 5 3
      (Or.inl rfl) (Or.inl rfl) (Or.inl rfl) (by decide) (by decide) (by decide)
      (by decide)).2.1,
    (decideResult_missing_R sampleEnv sampleDrawn (sampleDraw "D5,T3") 'D' 'T' 'R' 5 3
      (Or.inl rfl) (Or.inl rfl) (Or.inl rfl) (by decide) (by decide) (by decide)
      (by decide)).2.2⟩

theorem decideToken_keeps_dragon (acc : Int × Int × String) (tok : List Char)
    (h : isCardToken 'd' tok = false) : (decideToken acc tok).1 = acc.1 := by
  unfold isCardToken at h
  unfold decideToken
  cases hl : ToLower (TrimSpace tok) with
  | nil => rfl
  | cons x rest =>
    simp only [hl] at h
    simp only []
    by_cases hx : x = 'd'
    · simp only [hx, decide_True, Bool.true_and, if_true] at h ⊢
      cases ha : Atoi rest with
      | none => rfl
      | some n =>
        simp only [ha, decide_eq_false_iff_not] at h
        simp only []
        rw [if_neg h]
    · simp only [hx, if_false]
      split_ifs
      · cases ha : Atoi rest with
        | none => rfl
        | some n =>
          simp only []
          split_ifs <;> rfl
      · rfl
      · rfl

theorem decideToken_keeps_tiger (acc : Int × Int × String) (tok : List Char)
    (h : isCardToken 't' tok = false) : (decideToken acc tok).2.1 = acc.2.1 := by
  unfold isCardToken at h
  unfold decideToken
  cases hl : ToLower (TrimSpace tok) with
  | nil => rfl
  | cons x rest =>
    simp only [hl] at h
    simp only []
    by_cases hx : x = 't'
    · have hd : ¬ ('t' = 'd') := by decide
      simp only [hx, decide_True, Bool.true_and, hd, if_false, if_true] at h ⊢
      cases ha : Atoi rest with
      | none => rfl
      | some n =>
        simp only [ha, decide_eq_false_iff_not] at h
        simp only []
        rw [if_neg h]
    · simp only [hx, if_false]
      split_ifs
      · cases ha : Atoi rest with
        | none => rfl
        | some n =>
          simp only []
          split_ifs <;> rfl
      · rfl
      · rfl

theorem foldl_decideToken_dragon (tokens : List (List Char)) :
    ∀ acc : Int × Int × String, (∀ tok ∈ tokens, isCardToken 'd' tok = false) →
      (tokens.foldl decideToken acc).1 = acc.1 := by
  induction tokens with
  | nil =>
    intro acc _
    rfl
  | cons tok rest ih =>
    intro acc h
    rw [List.foldl_cons, ih _ (fun x hx => h x (List.mem_cons_of_mem _ hx)),
      decideToken_keeps_dragon acc tok (h tok (List.mem_cons_self _ _))]

theorem foldl_decideToken_tiger (tokens : List (List Char)) :
    ∀ acc : Int × Int × String, (∀ tok ∈ tokens, isCardToken 't' tok = false) →
      (tokens.foldl decideToken acc).2.1 = acc.2.1 := by
  induction tokens with
  | nil =>
    intro acc _
    rfl
  | cons tok rest ih =>
    intro acc h
    rw [List.foldl_cons, ih _ (fun x hx => h x (List.mem_cons_of_mem _ hx)),
      decideToken_keeps_tiger acc tok (h tok (List.mem_cons_self _ _))]

/-- C17 as stated fails for the empty card list, which has no token `D<n>`
and no token `T<n>`: its result is empty, and `SubmitDrawResult` refuses it at
the check of the parameters with `ErrBadRequest`, which is not the
invalid-card-list error.  A card list without cards sent with an empty round
id is refused in the same way. -/
theorem empty_card_list_counterexample :
    (∀ tok ∈ splitComma (TrimSpace (sampleDraw "").CardList.toList),
      isCardToken 'd' tok = false) ∧
    decideResult "" = "" ∧
    SubmitDrawResult sampleEnv sampleDrawn (sampleDraw "") = (some ErrBadRequest, sampleDrawn) ∧
    SubmitDrawResult sampleEnv sampleDrawn { sampleDraw "foo" with GameRoundID := "" } =
      (some ErrBadRequest, sampleDrawn) ∧
    ErrBadRequest ≠ .msg "invalid card list format: unable to determine result" := by
  decide

/-- C17 (amended): a card list in which no token is `D<n>` with `n` from 1 to
13, or in which no token is `T<n>` with `n` from 1 to 13 (tokens taken between
commas, trimmed, in either letter case), has the empty result.
`SubmitDrawResult` then fails before it opens a transaction and leaves the
state unchanged.  The error is the invalid-card-list error when the round id
and the card list are not empty, and `ErrBadRequest` of the check of the
parameters when the round id or the card list is empty. -/
theorem decideResult_without_card (env : Env) (st : State) (inp : DrawInput) (c : Char)
    (hc : c = 'd' ∨ c = 't')
    (h : ∀ tok ∈ splitComma (TrimSpace inp.CardList.toList), isCardToken c tok = false) :
    decideResult inp.CardList = "" ∧
    (SubmitDrawResult env st inp).1 ≠ none ∧
    (SubmitDrawResult env st inp).2 = st ∧
    (inp.GameRoundID ≠ "" → inp.CardList ≠ "" →
      SubmitDrawResult env st inp =
        (some (.msg "invalid card list format: unable to determine result"), st)) ∧
    (inp.GameRoundID = "" ∨ inp.CardList = "" →
      SubmitDrawResult env st inp = (some ErrBadRequest, st)) := by
  have hres : decideResult inp.CardList = "" := by
    unfold decideResult
    simp only []
    split_ifs with h1 h2 h3 h4
    · rfl
    · rfl
    · rfl
    · exfalso
      apply h3
      rcases hc with rfl | rfl
      · exact Or.inl (foldl_decideToken_dragon _ _ h)
      · exact Or.inr (foldl_decideToken_tiger _ _ h)
    · exfalso
      apply h3
      rcases hc with rfl | rfl
      · exact Or.inl (foldl_decideToken_dragon _ _ h)
      · exact Or.inr (foldl_decideToken_tiger _ _ h)
  refine ⟨hres, ?_, ?_, fun hid hcl => SubmitDrawResult_of_no_result env st inp hid hcl hres,
    ?_⟩
  · unfold SubmitDrawResult
    simp only [hres, if_true]
    split_ifs <;> simp
  · unfold SubmitDrawResult
    simp only [hres, if_true]
    split_ifs <;> rfl
  · intro hempty
    have hcheck : inp.GameRoundID = "" ∨ inp.CardList.length = 0 := by
      rcases hempty with h1 | h1
      · exact Or.inl h1
      · exact Or.inr (by rw [h1]; rfl)
    unfold SubmitDrawResult
    rw [if_pos hcheck]

/-- The card lists `foo`, `D14,T3,Rd` and `D0,T5,Rt` on the drawn round `R1`:
no outcome, the invalid-card-list error, and nothing changes; the card list
`T5` with an empty round id: `ErrBadRequest`, and nothing changes. -/
theorem decideResult_without_card_witness :
    decideResult "foo" = "" ∧ decideResult "D14,T3,Rd" = "" ∧ decideResult "D0,T5,Rt" = "" ∧
    SubmitDrawResult sampleEnv sampleDrawn (sampleDraw "foo") =
      (some (.msg "invalid card list format: unable to determine result"), sampleDrawn) ∧
    SubmitDrawResult sampleEnv sampleDrawn (sampleDraw "D14,T3,Rd") =
      (some (.msg "invalid card list format: unable to determine result"), sampleDrawn) ∧
    SubmitDrawResult sampleEnv sampleDrawn (sampleDraw "D0,T5,Rt") =
      (some (.msg "invalid card list format: unable to determine result"), sampleDrawn) ∧
    SubmitDrawResult sampleEnv sampleDrawn { sampleDraw "T5" with GameRoundID := "" } =
      (some ErrBadRequest, sampleDrawn) :=
  ⟨by decide, by decide, by decide,
    (decideResult_without_card sampleEnv sampleDrawn (sampleDraw "foo") 'd' (Or.inl rfl)
      (by decide)).2.2.2.1 (by decide) (by decide),
    (decideResult_without_card sampleEnv sampleDrawn (sampleDraw "D14,T3,Rd") 'd' (Or.inl rfl)
      (by decide)).2.2.2.1 (by decide) (by decide),
    (decideResult_without_card sampleEnv sampleDrawn (sampleDraw "D0,T5,Rt") 'd' (Or.inl rfl)
      (by decide)).2.2.2.1 (by decide) (by decide),
    (decideResult_without_card sampleEnv sampleDrawn { sampleDraw "T5" with GameRoundID := "" }
      'd' (Or.inl rfl) (by decide)).2.2.2.2 (Or.inl rfl)⟩

/-! ## The state check of `SubmitDrawResult` -/

theorem settleOrders_error (env : Env) (res : String) (code : Int) (orders : List Order) :
    ∀ (tx : DB) (total : Float64) (e : Err),
      settleOrders env res code orders tx total = .error e → e = ErrBadConn := by
  induction orders with
  | nil =>
    intro tx total e h
    simp only [settleOrders] at h
    cases h
  | cons o rest ih =>
    intro tx total e h
    simp only [settleOrders] at h
    cases hu : UpdateSettlement env tx o.BillNo (settlePayout o res) 2 code with
    | error e1 =>
      simp only [hu, Except.error.injEq] at h
      unfold UpdateSettlement at hu
      split_ifs at hu
      simp only [Except.error.injEq] at hu
      rw [← h, ← hu]
    | ok tx1 =>
      simp only [hu] at h
      exact ih _ _ _ h

theorem settleLedger_error (env : Env) (inp : DrawInput) (rows : List (Order × Dec)) :
    ∀ (cur : Dec) (tx : DB) (e : Err),
      settleLedger env inp rows cur tx = .error e → e = ErrBadConn := by
  induction rows with
  | nil =>
    intro cur tx e h
    simp only [settleLedger] at h
    cases h
  | cons p rest ih =>
    intro cur tx e h
    obtain ⟨o, payoutDec⟩ := p
    simp only [settleLedger] at h
    split at h
    · rename_i e1 h1
      simp only [Except.error.injEq] at h
      rw [← h]
      exact WalletLedger_Insert_error _ _ _ _ h1
    · exact ih _ _ _ h

theorem GetUserByIDForUpdate_error (env : Env) (tx : DB) (userID : Int) (e : Err)
    (h : GetUserByIDForUpdate env tx userID = .error e) : e = ErrBadConn ∨ e = ErrNoRows := by
  unfold GetUserByIDForUpdate at h
  split_ifs at h
  · simp only [Except.error.injEq] at h
    exact Or.inl h.symm
  · split at h
    · cases h
    · simp only [Except.error.injEq] at h
      exact Or.inr h.symm

theorem settleUsers_error (env : Env) (inp : DrawInput) (users : List userSettlement) :
    ∀ (tx : DB) (e : Err), settleUsers env inp users tx = .error e →
      e = ErrBadConn ∨ e = ErrNoRows := by
  induction users with
  | nil =>
    intro tx e h
    simp only [settleUsers] at h
    cases h
  | cons us rest ih =>
    intro tx e h
    simp only [settleUsers] at h
    split at h
    · rename_i e1 h1
      simp only [Except.error.injEq] at h
      rw [← h]
      exact GetUserByIDForUpdate_error _ _ _ _ h1
    · split at h
      · rename_i e2 h2
        simp only [Except.error.injEq] at h
        rw [← h]
        exact Or.inl (UpdateUserBalance_error _ _ _ _ _ h2)
      · split at h
        · rename_i e3 h3
          simp only [Except.error.injEq] at h
          rw [← h]
          exact Or.inl (settleLedger_error _ _ _ _ _ _ h3)
        · exact ih _ _ h

theorem settleOutbox_error (env : Env) (inp : DrawInput) (res : String) (orders : List Order) :
    ∀ (tx : DB) (e : Err), settleOutbox env inp res orders tx = .error e → e = ErrBadConn := by
  induction orders with
  | nil =>
    intro tx e h
    simp only [settleOutbox] at h
    cases h
  | cons o rest ih =>
    intro tx e h
    simp only [settleOutbox] at h
    split at h
    · rename_i e1 h1
      simp only [Except.error.injEq] at h
      rw [← h]
      exact CreateOutbox_error _ _ _ _ _ _ h1
    · exact ih _ _ h

theorem settleRound_error (env : Env) (tx : DB) (inp : DrawInput) (res : String) (e : Err)
    (h : settleRound env tx inp res = .error e) : e = ErrBadConn ∨ e = ErrNoRows := by
  unfold settleRound at h
  split at h
  · rename_i e1 h1
    simp only [Except.error.injEq] at h
    unfold ListByRoundForUpdate at h1
    split_ifs at h1
    simp only [Except.error.injEq] at h1
    exact Or.inl (by rw [← h, ← h1])
  · simp only [] at h
    split at h
    · rename_i e2 h2
      simp only [Except.error.injEq] at h
      rw [← h]
      exact Or.inl (settleOrders_error _ _ _ _ _ _ _ h2)
    · split at h
      · rename_i e3 h3
        simp only [Except.error.injEq] at h
        rw [← h]
        exact settleUsers_error _ _ _ _ _ h3
      · split at h
        · rename_i e4 h4
          simp only [Except.error.injEq] at h
          rw [← h]
          exact Or.inl (settleOutbox_error _ _ _ _ _ _ h4)
        · split at h
          · rename_i e5 h5
            simp only [Except.error.injEq] at h
            unfold MarkAsSettled at h5
            split_ifs at h5
            simp only [Except.error.injEq] at h5
            exact Or.inl (by rw [← h, ← h5])
          · split at h
            · rename_i e6 h6
              simp only [Except.error.injEq] at h
              unfold UpdateSettlementStats at h6
              split_ifs at h6
              simp only [Except.error.injEq] at h6
              exact Or.inl (by rw [← h, ← h6])
            · split at h
              · rename_i e7 h7
                simp only [Except.error.injEq] at h
                unfold GameEventAudit.Insert at h7
                split_ifs at h7
                simp only [Except.error.injEq] at h7
                exact Or.inl (by rw [← h, ← h7])
              · cases h

/-- The start of the transaction of `SubmitDrawResult` on a stored round:
without a failure of `BeginTxx` and of the status query, the call reads the
status and the settled flag of the round. -/
theorem GetSettlementStatusForUpdate_found (env : Env) (db : DB) (roundID : String)
    (r0 : GameRoundInfo) (hg : env.dbErr .getSettlementStatus = false)
    (hfind : db.rounds.find? (fun r => r.GameRoundID = roundID) = some r0) :
    GetSettlementStatusForUpdate env db roundID = .ok (r0.GameStatus, r0.IsSettled) := by
  unfold GetSettlementStatusForUpdate
  simp only [hg, Bool.false_eq_true, if_false, hfind]

theorem submitDrawTx_not_drawn (env : Env) (db : DB) (inp : DrawInput) (res : String)
    (r0 : GameRoundInfo) (hb : env.dbErr .beginTx = false)
    (hg : env.dbErr .getSettlementStatus = false)
    (hfind : db.rounds.find? (fun r => r.GameRoundID = inp.GameRoundID) = some r0)
    (hset : r0.IsSettled ≠ 1) (hst : r0.GameStatus ≠ 5) :
    submitDrawTx env db inp res = .error ErrInvalidStateDraw := by
  unfold submitDrawTx
  have hne : codeToState r0.GameStatus ≠ StateDrawn := fun h =>
    hst ((codeToState_drawn_iff _).mp h)
  simp only [hb, Bool.false_eq_true, if_false,
    GetSettlementStatusForUpdate_found env db _ r0 hg hfind, hset, hne, ne_eq,
    not_false_eq_true, if_true]

theorem submitDrawTx_drawn_error (env : Env) (db : DB) (inp : DrawInput) (res : String)
    (r0 : GameRoundInfo) (e : Err) (hb : env.dbErr .beginTx = false)
    (hg : env.dbErr .getSettlementStatus = false)
    (hfind : db.rounds.find? (fun r => r.GameRoundID = inp.GameRoundID) = some r0)
    (hset : r0.IsSettled ≠ 1) (hst : r0.GameStatus = 5)
    (h : submitDrawTx env db inp res = .error e) : e = ErrBadConn ∨ e = ErrNoRows := by
  unfold submitDrawTx at h
  have hd : codeToState r0.GameStatus = StateDrawn := (codeToState_drawn_iff _).mpr hst
  simp only [hb, Bool.false_eq_true, if_false,
    GetSettlementStatusForUpdate_found env db _ r0 hg hfind, hset, hd, ne_eq,
    not_true_eq_false] at h
  split at h
  · rename_i e1 h1
    simp only [Except.error.injEq] at h
    unfold UpdateDraw at h1
    simp only [] at h1
    split_ifs at h1
    simp only [Except.error.injEq] at h1
    exact Or.inl (by rw [← h, ← h1])
  · split at h
    · rename_i e2 h2
      simp only [Except.error.injEq] at h
      rw [← h]
      exact Or.inl (CreateOutbox_error _ _ _ _ _ _ h2)
    · split at h
      · rename_i e3 h3
        unfold CreateSettlementLog at h3
        split_ifs at h3 with c1 c2
        · simp only [Except.error.injEq] at h3
          rw [← h3] at h
          have : isMySQLDuplicateKeyError ErrBadConn = false := by decide
          simp only [this, Bool.false_eq_true, if_false, Except.error.injEq] at h
          exact Or.inl h.symm
        · simp only [Except.error.injEq] at h3
          rw [← h3] at h
          have : isMySQLDuplicateKeyError ErrDuplicateEntry = true := by decide
          simp only [this, if_true] at h
          cases h
      · split at h
        · rename_i e4 h4
          simp only [Except.error.injEq] at h
          rw [← h]
          exact settleRound_error _ _ _ _ _ h4
        · split_ifs at h
          simp only [Except.error.injEq] at h
          exact Or.inl h.symm

/-- On a request with a round id and a valid card list, `SubmitDrawResult` is
its transaction followed by the write of the round-result cache. -/
theorem SubmitDrawResult_of_valid (env : Env) (st : State) (inp : DrawInput)
    (hid : inp.GameRoundID ≠ "")
    (hvalid : decideResult inp.CardList = "dragon" ∨ decideResult inp.CardList = "tiger" ∨
      decideResult inp.CardList = "tie") :
    SubmitDrawResult env st inp =
      match submitDrawTx env st.db inp (decideResult inp.CardList) with
      | .error e => (some e, st)
      | .ok none => (none, st)
      | .ok (some (db1, totalOrders, totalPayout)) =>
        (none, { db := db1,
                 kv := (drawCache env st.kv inp (decideResult inp.CardList) totalOrders
                   totalPayout) }) := by
  have hcl : ¬ inp.CardList.length = 0 := by
    intro h0
    have h1 : inp.CardList.data = [] := List.length_eq_zero.mp h0
    have h2 : inp.CardList = "" := String.ext h1
    rw [h2] at hvalid
    revert hvalid
    decide
  have hne : decideResult inp.CardList ≠ "" := by
    rcases hvalid with h | h | h <;> rw [h] <;> decide
  have hok : ¬ (decideResult inp.CardList ≠ "dragon" ∧ decideResult inp.CardList ≠ "tiger" ∧
      decideResult inp.CardList ≠ "tie") := by
    rintro ⟨h1, h2, h3⟩
    rcases hvalid with h | h | h
    · exact h1 h
    · exact h2 h
    · exact h3 h
  unfold SubmitDrawResult
  simp only [hid, hcl, or_self, if_false, hne, hok]

/-- C18: for a stored round that is not settled (`is_settled = 0`) and a valid
card list, when the transaction opens and the status is read,
`SubmitDrawResult` fails with `ErrInvalidStateDraw` iff the status code of the
round is not 5 (drawn); in that case the state is unchanged.  The stored
tables change only when the status code is 5. -/
theorem SubmitDrawResult_only_drawn (env : Env) (st : State) (inp : DrawInput)
    (r0 : GameRoundInfo) (hid : inp.GameRoundID ≠ "")
    (hvalid : decideResult inp.CardList = "dragon" ∨ decideResult inp.CardList = "tiger" ∨
      decideResult inp.CardList = "tie")
    (hfind : st.db.rounds.find? (fun r => r.GameRoundID = inp.GameRoundID) = some r0)
    (hset : r0.IsSettled = 0)
    (hb : env.dbErr .beginTx = false) (hg : env.dbErr .getSettlementStatus = false) :
    ((SubmitDrawResult env st inp).1 = some ErrInvalidStateDraw ↔ r0.GameStatus ≠ 5) ∧
    (r0.GameStatus ≠ 5 → (SubmitDrawResult env st inp).2 = st) ∧
    ((SubmitDrawResult env st inp).2.db ≠ st.db → r0.GameStatus = 5) := by
  have hs1 : r0.IsSettled ≠ 1 := by
    rw [hset]
    decide
  have hunf := SubmitDrawResult_of_valid env st inp hid hvalid
  have hnot : r0.GameStatus ≠ 5 →
      SubmitDrawResult env st inp = (some ErrInvalidStateDraw, st) := by
    intro h5
    rw [hunf, submitDrawTx_not_drawn env st.db inp _ r0 hb hg hfind hs1 h5]
  have hback : (SubmitDrawResult env st inp).1 = some ErrInvalidStateDraw →
      r0.GameStatus ≠ 5 := by
    intro h h5
    rw [hunf] at h
    cases htx : submitDrawTx env st.db inp (decideResult inp.CardList) with
    | error e =>
      rw [htx] at h
      simp only [Option.some.injEq] at h
      rcases submitDrawTx_drawn_error env st.db inp _ r0 e hb hg hfind hs1 h5 htx with h1 | h1
      · rw [h1] at h
        exact absurd h (by decide)
      · rw [h1] at h
        exact absurd h (by decide)
    | ok q =>
      rw [htx] at h
      cases q with
      | none => cases h
      | some q => cases h
  refine ⟨⟨hback, fun h5 => by rw [hnot h5]⟩, fun h5 => by rw [hnot h5], ?_⟩
  intro hch
  by_contra h5
  apply hch
  rw [hnot h5]

/-- The round `R1` sealed (status code 3) and the same round drawn: the draw
result `D9,T8,Rd` is refused on the first with `ErrInvalidStateDraw` and
nothing changes, and is not refused so on the second. -/
theorem SubmitDrawResult_only_drawn_witness :
    roundStatus sampleSealedAfterBet "R1" = some 3 ∧
    SubmitDrawResult sampleEnv sampleSealedAfterBet (sampleDraw "D9,T8,Rd") =
      (some ErrInvalidStateDraw, sampleSealedAfterBet) ∧
    (SubmitDrawResult sampleEnv sampleDrawn (sampleDraw "D9,T8,Rd")).1 = none ∧
    ((SubmitDrawResult sampleEnv sampleSealedAfterBet (sampleDraw "D9,T8,Rd")).1 =
        some ErrInvalidStateDraw ↔
      ({ sampleRound with BetStopTime := 2000, GameStatus := 3 } : GameRoundInfo).GameStatus ≠ 5) :=
  ⟨by decide, by decide, by decide,
    (SubmitDrawResult_only_drawn sampleEnv sampleSealedAfterBet (sampleDraw "D9,T8,Rd")
      { sampleRound with BetStopTime := 2000, GameStatus := 3 } (by decide)
      (Or.inl (by decide)) (by decide) (by decide) (by decide) (by decide)).1⟩

/-! ## A draw result sent again -/

/-- A transaction of `SubmitDrawResult` that succeeds without settling met a
round already marked as settled, or a drawn round whose settlement log is
already written. -/
theorem submitDrawTx_none (env : Env) (db : DB) (inp : DrawInput) (res : String)
    (h : submitDrawTx env db inp res = .ok none) :
    ∃ r0, db.rounds.find? (fun r => r.GameRoundID = inp.GameRoundID) = some r0 ∧
      (r0.IsSettled = 1 ∨
        (r0.GameStatus = 5 ∧
          db.settlementLog.any (fun l => l.GameRoundID = inp.GameRoundID) = true)) := by
  unfold submitDrawTx at h
  by_cases hb : env.dbErr .beginTx = true
  · simp [hb] at h
  simp only [hb, Bool.false_eq_true, if_false] at h
  cases hst : GetSettlementStatusForUpdate env db inp.GameRoundID with
  | error e =>
    simp only [hst] at h
    split_ifs at h
  | ok q =>
    obtain ⟨statusCode, isSettled⟩ := q
    simp only [hst] at h
    obtain ⟨r0, hfind, hc, hs⟩ := GetSettlementStatusForUpdate_ok _ _ _ _ _ hst
    refine ⟨r0, hfind, ?_⟩
    by_cases h1 : isSettled = 1
    · exact Or.inl (hs.trans h1)
    by_cases h2 : codeToState statusCode = StateDrawn
    · right
      refine ⟨hc.trans ((codeToState_drawn_iff _).mp h2), ?_⟩
      simp only [h1, h2, ne_eq, not_true_eq_false, if_false] at h
      cases hud : UpdateDraw env db inp.GameRoundID inp.CardList res 5 with
      | error e => simp [hud] at h
      | ok tx1 =>
        simp only [hud] at h
        have e1 := UpdateDraw_ok _ _ _ _ _ _ _ hud
        split at h
        · cases h
        · rename_i tx2 h2o
          obtain ⟨k2, _⟩ := CreateOutbox_keeps _ _ _ _ _ _ h2o
          have hlog : tx2.settlementLog = db.settlementLog := by
            rw [k2.2.2.2.2, e1]
            rfl
          split at h
          · rename_i err h3
            unfold CreateSettlementLog at h3
            split_ifs at h3 with c1 c2
            · simp only [Except.error.injEq] at h3
              rw [← h3] at h
              have : isMySQLDuplicateKeyError ErrBadConn = false := by decide
              simp [this] at h
            · rw [hlog] at c2
              exact c2
          · split at h
            · cases h
            · split_ifs at h
              cases h
    · simp [h1, h2] at h

/-- On a round already marked as settled, or drawn with its settlement log
written, the transaction of `SubmitDrawResult` never settles; it succeeds
without a write when no SQL call fails. -/
theorem submitDrawTx_of_settled (env : Env) (db : DB) (inp : DrawInput) (res : String)
    (r0 : GameRoundInfo)
    (hfind : db.rounds.find? (fun r => r.GameRoundID = inp.GameRoundID) = some r0)
    (h : r0.IsSettled = 1 ∨
      (r0.GameStatus = 5 ∧
        db.settlementLog.any (fun l => l.GameRoundID = inp.GameRoundID) = true)) :
    (∀ q, submitDrawTx env db inp res ≠ .ok (some q)) ∧
    ((∀ op, env.dbErr op = false) → submitDrawTx env db inp res = .ok none) := by
  by_cases hs : r0.IsSettled = 1
  · constructor
    · intro q hq
      obtain ⟨db1, n, p⟩ := q
      obtain ⟨r1, hf1, _, hn1, _⟩ := submitDrawTx_ok _ _ _ _ _ _ _ hq
      rw [hfind] at hf1
      cases hf1
      exact hn1 hs
    · intro hno
      unfold submitDrawTx
      simp only [hno, Bool.false_eq_true, if_false,
        GetSettlementStatusForUpdate_found env db _ r0 (hno _) hfind, hs, if_true]
  · rcases h with h | ⟨h5, hlog⟩
    · exact absurd h hs
    have hd : codeToState r0.GameStatus = StateDrawn := (codeToState_drawn_iff _).mpr h5
    have key : ∀ tx1 tx2 : DB,
        UpdateDraw env db inp.GameRoundID inp.CardList res 5 = .ok tx1 →
        CreateOutbox env tx1 "game_drawn" inp.GameRoundID
          [ ("event", .str "game_drawn"), ("game_id", .str inp.GameID),
            ("room_id", .str inp.RoomID), ("game_round_id", .str inp.GameRoundID),
            ("card_list", .str inp.CardList), ("result", .str res),
            ("trace_id", .str inp.TraceID) ] = .ok tx2 →
        tx2.settlementLog.any (fun l => l.GameRoundID = inp.GameRoundID) = true := by
      intro tx1 tx2 hud h2o
      have e1 := UpdateDraw_ok _ _ _ _ _ _ _ hud
      obtain ⟨k2, _⟩ := CreateOutbox_keeps _ _ _ _ _ _ h2o
      have : tx2.settlementLog = db.settlementLog := by
        rw [k2.2.2.2.2, e1]
        rfl
      rw [this]
      exact hlog
    constructor
    · intro q hq
      unfold submitDrawTx at hq
      by_cases hb : env.dbErr .beginTx = true
      · simp [hb] at hq
      simp only [hb, Bool.false_eq_true, if_false] at hq
      cases hst : GetSettlementStatusForUpdate env db inp.GameRoundID with
      | error e =>
        simp only [hst] at hq
        split_ifs at hq
      | ok c =>
        obtain ⟨statusCode, isSettled⟩ := c
        simp only [hst] at hq
        obtain ⟨r1, hf1, hc1, hs1⟩ := GetSettlementStatusForUpdate_ok _ _ _ _ _ hst
        rw [hfind] at hf1
        cases hf1
        have hs2 : ¬ isSettled = 1 := fun e => hs (hs1.trans e)
        have hd2 : codeToState statusCode = StateDrawn := by
          rw [← hc1]
          exact hd
        simp only [hs2, hd2, ne_eq, not_true_eq_false, if_false] at hq
        split at hq
        · cases hq
        · rename_i tx1 hud
          split at hq
          · cases hq
          · rename_i tx2 h2o
            have hany := key tx1 tx2 hud h2o
            split at hq
            · split_ifs at hq
              cases hq
            · rename_i tx3 h3
              unfold CreateSettlementLog at h3
              simp only [hany, if_true] at h3
              split_ifs at h3
    · intro hno
      have hud : UpdateDraw env db inp.GameRoundID inp.CardList res 5 =
          .ok (updateRound db inp.GameRoundID (fun r =>
            { r with CardList := inp.CardList, GameResult := toPlayTypeCode res,
                     GameResultStr := res, GameStatus := 5, GameDrawTime := env.now })) := by
        unfold UpdateDraw
        simp only [hno, Bool.false_eq_true, if_false]
      unfold submitDrawTx
      simp only [hno, Bool.false_eq_true, if_false,
        GetSettlementStatusForUpdate_found env db _ r0 (hno _) hfind, hs, hd, ne_eq,
        not_true_eq_false, hud]
      cases h2o : CreateOutbox env (updateRound db inp.GameRoundID (fun r =>
            { r with CardList := inp.CardList, GameResult := toPlayTypeCode res,
                     GameResultStr := res, GameStatus := 5, GameDrawTime := env.now }))
          "game_drawn" inp.GameRoundID
          [ ("event", .str "game_drawn"), ("game_id", .str inp.GameID),
            ("room_id", .str inp.RoomID), ("game_round_id", .str inp.GameRoundID),
            ("card_list", .str inp.CardList), ("result", .str res),
            ("trace_id", .str inp.TraceID) ] with
      | error e =>
        have := CreateOutbox_error _ _ _ _ _ _ h2o
        unfold CreateOutbox at h2o
        simp [hno] at h2o
      | ok tx2 =>
        have hany := key _ tx2 hud h2o
        simp only []
        unfold CreateSettlementLog
        simp only [hno, Bool.false_eq_true, if_false, hany, if_true]
        have : isMySQLDuplicateKeyError ErrDuplicateEntry = true := by decide
        simp only [this, if_true]

/-- A `SubmitDrawResult` that returns success passed the checks of its
request, and its transaction either settled nothing or committed. -/
theorem SubmitDrawResult_success (env : Env) (st st1 : State) (inp : DrawInput)
    (h : SubmitDrawResult env st inp = (none, st1)) :
    inp.GameRoundID ≠ "" ∧
    (decideResult inp.CardList = "dragon" ∨ decideResult inp.CardList = "tiger" ∨
      decideResult inp.CardList = "tie") ∧
    ((submitDrawTx env st.db inp (decideResult inp.CardList) = .ok none ∧ st1 = st) ∨
      ∃ db1 n p, submitDrawTx env st.db inp (decideResult inp.CardList) =
          .ok (some (db1, n, p)) ∧
        st1 = { db := db1,
                kv := (drawCache env st.kv inp (decideResult inp.CardList) n p) }) := by
  have hid : inp.GameRoundID ≠ "" := by
    intro h0
    unfold SubmitDrawResult at h
    simp [h0] at h
  have hvalid : decideResult inp.CardList = "dragon" ∨ decideResult inp.CardList = "tiger" ∨
      decideResult inp.CardList = "tie" := by
    by_contra hnv
    simp only [not_or] at hnv
    unfold SubmitDrawResult at h
    simp only [] at h
    split_ifs at h <;> simp at h
  refine ⟨hid, hvalid, ?_⟩
  rw [SubmitDrawResult_of_valid env st inp hid hvalid] at h
  cases htx : submitDrawTx env st.db inp (decideResult inp.CardList) with
  | error e =>
    rw [htx] at h
    simp at h
  | ok q =>
    cases q with
    | none =>
      rw [htx] at h
      simp only [Prod.mk.injEq, true_and] at h
      exact Or.inl ⟨rfl, h.symm⟩
    | some q =>
      obtain ⟨db1, n, p⟩ := q
      rw [htx] at h
      simp only [Prod.mk.injEq, true_and] at h
      exact Or.inr ⟨db1, n, p, rfl, h.symm⟩

/-- C19: after a `SubmitDrawResult` that succeeded on a round, a further
`SubmitDrawResult` for that round, with the same or any other valid card
list, leaves the whole state unchanged - orders, balances, ledger, settlement
log, outbox, rounds and the Redis state - whatever fails in it, and returns
success when no SQL call fails.  The payout of the first call is therefore
credited once. -/
theorem SubmitDrawResult_again (env env2 : Env) (st st1 : State) (inp inp2 : DrawInput)
    (hfirst : SubmitDrawResult env st inp = (none, st1))
    (hsame : inp2.GameRoundID = inp.GameRoundID)
    (hvalid : decideResult inp2.CardList = "dragon" ∨ decideResult inp2.CardList = "tiger" ∨
      decideResult inp2.CardList = "tie") :
    (SubmitDrawResult env2 st1 inp2).2 = st1 ∧
    ((∀ op, env2.dbErr op = false) → SubmitDrawResult env2 st1 inp2 = (none, st1)) := by
  obtain ⟨hid, _, hcases⟩ := SubmitDrawResult_success env st st1 inp hfirst
  have hid2 : inp2.GameRoundID ≠ "" := by
    rw [hsame]
    exact hid
  -- the round is settled in the state the first call leaves
  have hsettled : ∃ r1, st1.db.rounds.find? (fun r => r.GameRoundID = inp2.GameRoundID) =
      some r1 ∧ (r1.IsSettled = 1 ∨ (r1.GameStatus = 5 ∧
        st1.db.settlementLog.any (fun l => l.GameRoundID = inp2.GameRoundID) = true)) := by
    rw [hsame]
    rcases hcases with ⟨hnone, hst⟩ | ⟨db1, n, p, htx, hst⟩
    · rw [hst]
      exact submitDrawTx_none _ _ _ _ hnone
    · obtain ⟨r0, hf0, _, _, _, hrounds⟩ := submitDrawTx_ok _ _ _ _ _ _ _ htx
      have hf1 := find_map_keep st.db.rounds
        (fun r => if r.GameRoundID = inp.GameRoundID then
          drawRow env inp (decideResult inp.CardList) r else r)
        (by intro r; simp only []; split_ifs <;> rfl) inp.GameRoundID
      rw [← hrounds, hf0] at hf1
      have hid0 : r0.GameRoundID = inp.GameRoundID := by
        have := List.find?_some hf0
        simpa using this
      simp only [Option.map_some', if_pos hid0] at hf1
      refine ⟨drawRow env inp (decideResult inp.CardList) r0, ?_, Or.inl rfl⟩
      rw [hst]
      exact hf1
  obtain ⟨r1, hf1, hs1⟩ := hsettled
  obtain ⟨hnever, hnoop⟩ := submitDrawTx_of_settled env2 st1.db inp2
    (decideResult inp2.CardList) r1 hf1 hs1
  have hunf := SubmitDrawResult_of_valid env2 st1 inp2 hid2 hvalid
  constructor
  · rw [hunf]
    cases htx : submitDrawTx env2 st1.db inp2 (decideResult inp2.CardList) with
    | error e => rfl
    | ok q =>
      cases q with
      | none => rfl
      | some q => exact absurd htx (hnever q)
  · intro hno
    rw [hunf, hnoop hno]

/-- The draw result `D9,T8,Rd` settles the drawn round `R1` and pays `197.00`
to the balance `900.00`; sent again, with the same cards or with `D1,T2,Rt`,
it succeeds and nothing changes. -/
theorem SubmitDrawResult_again_witness :
    (SubmitDrawResult sampleEnv sampleDrawn (sampleDraw "D9,T8,Rd")).1 = none ∧
    sampleDrawn.db.customers.map (fun u => u.Balance) = [⟨90000, 2⟩] ∧
    (SubmitDrawResult sampleEnv sampleDrawn (sampleDraw "D9,T8,Rd")).2.db.customers.map
      (fun u => u.Balance) = [⟨109700, 2⟩] ∧
    SubmitDrawResult sampleEnv
        (SubmitDrawResult sampleEnv sampleDrawn (sampleDraw "D9,T8,Rd")).2
        (sampleDraw "D1,T2,Rt") =
      (none, (SubmitDrawResult sampleEnv sampleDrawn (sampleDraw "D9,T8,Rd")).2) :=
  ⟨by decide, by decide, by decide,
    (SubmitDrawResult_again sampleEnv sampleEnv sampleDrawn
      (SubmitDrawResult sampleEnv sampleDrawn (sampleDraw "D9,T8,Rd")).2
      (sampleDraw "D9,T8,Rd") (sampleDraw "D1,T2,Rt") (by decide) rfl
      (Or.inr (Or.inl (by decide)))).2 (fun _ => rfl)⟩

/-! ## The writes of a settlement -/

theorem ListByRoundForUpdate_ok (env : Env) (tx : DB) (roundID : String) (os : List Order)
    (h : ListByRoundForUpdate env tx roundID = .ok os) :
    os = (tx.orders.filter (isPending roundID)).map listedOrder := by
  unfold ListByRoundForUpdate at h
  split_ifs at h
  simp only [Except.ok.injEq] at h
  rw [← h]
  rfl

theorem settleOrders_ok (env : Env) (res : String) (code : Int) (orders : List Order) :
    ∀ (tx tx1 : DB) (total total1 : Float64),
      settleOrders env res code orders tx total = .ok (tx1, total1) →
      tx1 = { tx with orders := tx.orders.map (fun r => orders.foldl (settleRow res code) r) } := by
  induction orders with
  | nil =>
    intro tx tx1 total total1 h
    simp only [settleOrders, Except.ok.injEq, Prod.mk.injEq] at h
    rw [← h.1]
    simp
  | cons o rest ih =>
    intro tx tx1 total total1 h
    simp only [settleOrders] at h
    split at h
    · cases h
    · rename_i tx2 h2
      have e2 := UpdateSettlement_ok _ _ _ _ _ _ _ h2
      rw [ih _ _ _ _ h, e2]
      simp only [List.map_map, List.foldl_cons]
      congr 1

theorem settleLedger_keeps (env : Env) (inp : DrawInput) (rows : List (Order × Dec)) :
    ∀ (cur : Dec) (tx tx1 : DB), settleLedger env inp rows cur tx = .ok tx1 →
      tx1.orders = tx.orders ∧ tx1.settlementLog = tx.settlementLog := by
  induction rows with
  | nil =>
    intro cur tx tx1 h
    simp only [settleLedger, Except.ok.injEq] at h
    rw [← h]
    exact ⟨rfl, rfl⟩
  | cons p rest ih =>
    intro cur tx tx1 h
    obtain ⟨o, payoutDec⟩ := p
    simp only [settleLedger] at h
    split at h
    · cases h
    · rename_i tx2 h2
      obtain ⟨a, b⟩ := ih _ _ _ h
      rw [a, b, WalletLedger_Insert_ok _ _ _ _ h2]
      exact ⟨rfl, rfl⟩

theorem settleUsers_keeps (env : Env) (inp : DrawInput) (users : List userSettlement) :
    ∀ (tx tx1 : DB), settleUsers env inp users tx = .ok tx1 →
      tx1.orders = tx.orders ∧ tx1.settlementLog = tx.settlementLog := by
  induction users with
  | nil =>
    intro tx tx1 h
    simp only [settleUsers, Except.ok.injEq] at h
    rw [← h]
    exact ⟨rfl, rfl⟩
  | cons us rest ih =>
    intro tx tx1 h
    simp only [settleUsers] at h
    split at h
    · cases h
    · split at h
      · cases h
      · rename_i tx2 h2
        split at h
        · cases h
        · rename_i tx3 h3
          obtain ⟨a3, b3⟩ := settleLedger_keeps _ _ _ _ _ _ h3
          obtain ⟨a4, b4⟩ := ih _ _ h
          rw [a4, b4, a3, b3, UpdateUserBalance_ok _ _ _ _ _ h2]
          exact ⟨rfl, rfl⟩

theorem settleOutbox_keeps (env : Env) (inp : DrawInput) (res : String) (orders : List Order) :
    ∀ (tx tx1 : DB), settleOutbox env inp res orders tx = .ok tx1 →
      tx1.orders = tx.orders ∧ tx1.settlementLog = tx.settlementLog := by
  induction orders with
  | nil =>
    intro tx tx1 h
    simp only [settleOutbox, Except.ok.injEq] at h
    rw [← h]
    exact ⟨rfl, rfl⟩
  | cons o rest ih =>
    intro tx tx1 h
    simp only [settleOutbox] at h
    split at h
    · cases h
    · rename_i tx2 h2
      obtain ⟨k2, _⟩ := CreateOutbox_keeps _ _ _ _ _ _ h2
      obtain ⟨a3, b3⟩ := ih _ _ h
      rw [a3, b3, k2.2.1, k2.2.2.2.2]
      exact ⟨rfl, rfl⟩

/-- The orders and the settlement log after the settlement proper: every row
went through the `UpdateSettlement` of each listed order, and the settlement
log kept the rounds of its rows. -/
theorem settleRound_orders (env : Env) (tx tx1 : DB) (inp : DrawInput) (res : String) (n : Int)
    (p : Float64) (h : settleRound env tx inp res = .ok (tx1, n, p)) :
    tx1.orders = tx.orders.map (fun r =>
      ((tx.orders.filter (isPending inp.GameRoundID)).map listedOrder).foldl
        (settleRow res (resultToCode res)) r) ∧
    tx1.settlementLog.map (fun l => l.GameRoundID) =
      tx.settlementLog.map (fun l => l.GameRoundID) := by
  unfold settleRound at h
  split at h
  · cases h
  · rename_i orders hl
    have el := ListByRoundForUpdate_ok _ _ _ _ hl
    simp only [] at h
    split at h
    · cases h
    · rename_i t1 total h1
      have e1 := settleOrders_ok _ _ _ _ _ _ _ _ h1
      split at h
      · cases h
      · rename_i t2 h2
        obtain ⟨a2, b2⟩ := settleUsers_keeps _ _ _ _ _ h2
        split at h
        · cases h
        · rename_i t3 h3
          obtain ⟨a3, b3⟩ := settleOutbox_keeps _ _ _ _ _ _ h3
          split at h
          · cases h
          · rename_i t4 h4
            have e4 := MarkAsSettled_ok _ _ _ _ h4
            split at h
            · cases h
            · rename_i t5 h5
              have e5 : t5.orders = t4.orders ∧
                  t5.settlementLog.map (fun l => l.GameRoundID) =
                    t4.settlementLog.map (fun l => l.GameRoundID) := by
                unfold UpdateSettlementStats at h5
                split_ifs at h5
                simp only [Except.ok.injEq] at h5
                rw [← h5]
                refine ⟨rfl, ?_⟩
                simp only [List.map_map]
                apply List.map_congr_left
                intro l _
                simp only [Function.comp]
                split_ifs <;> rfl
              split at h
              · cases h
              · rename_i t6 h6
                have e6 := GameEventAudit_Insert_ok _ _ _ _ h6
                simp only [Except.ok.injEq, Prod.mk.injEq] at h
                obtain ⟨h7, _, _⟩ := h
                subst h7
                rw [e6]
                show t5.orders = _ ∧ t5.settlementLog.map _ = _
                rw [e5.1, e5.2, e4]
                show t3.orders = _ ∧ t3.settlementLog.map _ = _
                rw [a3, b3, a2, b2, e1, el]
                exact ⟨rfl, rfl⟩

theorem settleRow_BillNo (res : String) (code : Int) (r : OrderRow) (o : Order) :
    (settleRow res code r o).BillNo = r.BillNo := by
  unfold settleRow
  split_ifs <;> rfl

/-- The settlement loop on one row, when every listed order of its bill
number is the order read from the row itself: the row is settled if such an
order is listed, and kept otherwise. -/
theorem foldl_settleRow (res : String) (r0 : OrderRow) (os : List Order)
    (hos : ∀ o ∈ os, o.BillNo = r0.BillNo → o = listedOrder r0) :
    ∀ acc : OrderRow, acc = r0 ∨ acc = settledRow res r0 →
      os.foldl (settleRow res (resultToCode res)) acc =
        if ∃ o ∈ os, o.BillNo = r0.BillNo then settledRow res r0 else acc := by
  induction os with
  | nil =>
    intro acc _
    simp
  | cons o rest ih =>
    intro acc hacc
    have hrest : ∀ o ∈ rest, o.BillNo = r0.BillNo → o = listedOrder r0 :=
      fun x hx => hos x (List.mem_cons_of_mem _ hx)
    rw [List.foldl_cons]
    by_cases hb : o.BillNo = r0.BillNo
    · have ho := hos o (List.mem_cons_self _ _) hb
      have hstep : settleRow res (resultToCode res) acc o = settledRow res r0 := by
        unfold settleRow
        rcases hacc with h | h
        · rw [h, if_pos hb.symm, ho]
          rfl
        · rw [h]
          have : (settledRow res r0).BillNo = o.BillNo := hb.symm
          rw [if_pos this, ho]
          rfl
      rw [hstep, ih hrest _ (Or.inr rfl)]
      have hex : ∃ x ∈ o :: rest, x.BillNo = r0.BillNo := ⟨o, List.mem_cons_self _ _, hb⟩
      rw [if_pos hex]
      split_ifs <;> rfl
    · have hacc_bill : acc.BillNo = r0.BillNo := by
        rcases hacc with h | h
        · rw [h]
        · rw [h]
          rfl
      have hstep : settleRow res (resultToCode res) acc o = acc := by
        unfold settleRow
        rw [if_neg]
        rw [hacc_bill]
        exact fun e => hb e.symm
      rw [hstep, ih hrest _ hacc]
      have hiff : (∃ x ∈ o :: rest, x.BillNo = r0.BillNo) ↔ ∃ x ∈ rest, x.BillNo = r0.BillNo := by
        constructor
        · rintro ⟨x, hx, hxb⟩
          rcases List.mem_cons.mp hx with h | h
          · rw [h] at hxb
            exact absurd hxb hb
          · exact ⟨x, h, hxb⟩
        · rintro ⟨x, hx, hxb⟩
          exact ⟨x, List.mem_cons_of_mem _ hx, hxb⟩
      simp only [hiff]

/-- With bill numbers that are not repeated, the first settlement loop
settles the pending orders of the round and keeps every other row. -/
theorem settle_orders_of_nodup (res : String) (roundID : String) (orders : List OrderRow)
    (hnd : (orders.map (fun o => o.BillNo)).Nodup) :
    orders.map (fun r =>
      ((orders.filter (isPending roundID)).map listedOrder).foldl
        (settleRow res (resultToCode res)) r) =
    orders.map (fun r => if isPending roundID r then settledRow res r else r) := by
  apply List.map_congr_left
  intro r hr
  have hos : ∀ o ∈ (orders.filter (isPending roundID)).map listedOrder,
      o.BillNo = r.BillNo → o = listedOrder r := by
    intro o ho hb
    obtain ⟨r1, hr1, rfl⟩ := List.mem_map.mp ho
    have hr1m : r1 ∈ orders := (List.mem_filter.mp hr1).1
    have : r1 = r := List.inj_on_of_nodup_map hnd hr1m hr hb
    rw [this]
  rw [foldl_settleRow res r _ hos r (Or.inl rfl)]
  by_cases hp : isPending roundID r = true
  · have hex : ∃ o ∈ (orders.filter (isPending roundID)).map listedOrder,
        o.BillNo = r.BillNo :=
      ⟨listedOrder r, List.mem_map.mpr ⟨r, List.mem_filter.mpr ⟨hr, hp⟩, rfl⟩, rfl⟩
    rw [if_pos hex, if_pos hp]
  · have hnex : ¬ ∃ o ∈ (orders.filter (isPending roundID)).map listedOrder,
        o.BillNo = r.BillNo := by
      rintro ⟨o, ho, hb⟩
      obtain ⟨r1, hr1, rfl⟩ := List.mem_map.mp ho
      have hr1m : r1 ∈ orders := (List.mem_filter.mp hr1).1
      have : r1 = r := List.inj_on_of_nodup_map hnd hr1m hr hb
      rw [this] at hr1
      exact hp (List.mem_filter.mp hr1).2
    rw [if_neg hnex, if_neg hp]

/-- What a settling transaction of `SubmitDrawResult` leaves in the orders and
in the settlement log. -/
theorem submitDrawTx_writes (env : Env) (db db1 : DB) (inp : DrawInput) (res : String) (n : Int)
    (p : Float64) (h : submitDrawTx env db inp res = .ok (some (db1, n, p))) :
    db1.orders = db.orders.map (fun r =>
      ((db.orders.filter (isPending inp.GameRoundID)).map listedOrder).foldl
        (settleRow res (resultToCode res)) r) ∧
    db1.settlementLog.map (fun l => l.GameRoundID) =
      db.settlementLog.map (fun l => l.GameRoundID) ++ [inp.GameRoundID] ∧
    db.settlementLog.any (fun l => l.GameRoundID = inp.GameRoundID) = false := by
  unfold submitDrawTx at h
  by_cases hb : env.dbErr .beginTx = true
  · simp [hb] at h
  simp only [hb, Bool.false_eq_true, if_false] at h
  cases hst : GetSettlementStatusForUpdate env db inp.GameRoundID with
  | error e =>
    simp only [hst] at h
    split_ifs at h
  | ok q =>
    obtain ⟨statusCode, isSettled⟩ := q
    simp only [hst] at h
    by_cases h1 : isSettled = 1
    · simp [h1] at h
    by_cases h2 : codeToState statusCode = StateDrawn
    · simp only [h1, h2, ne_eq, not_true_eq_false, if_false] at h
      cases hud : UpdateDraw env db inp.GameRoundID inp.CardList res 5 with
      | error e => simp [hud] at h
      | ok tx1 =>
        simp only [hud] at h
        have e1 := UpdateDraw_ok _ _ _ _ _ _ _ hud
        split at h
        · cases h
        · rename_i tx2 h2o
          obtain ⟨k2, _⟩ := CreateOutbox_keeps _ _ _ _ _ _ h2o
          have ho2 : tx2.orders = db.orders := by
            rw [k2.2.1, e1]
            rfl
          have hl2 : tx2.settlementLog = db.settlementLog := by
            rw [k2.2.2.2.2, e1]
            rfl
          split at h
          · split_ifs at h
            cases h
          · rename_i tx3 h3
            have e3 := CreateSettlementLog_ok _ _ _ _ h3
            have hany : tx2.settlementLog.any
                (fun l => l.GameRoundID = inp.GameRoundID) = false := by
              unfold CreateSettlementLog at h3
              split_ifs at h3 with c1 c2
              simpa using c2
            split at h
            · cases h
            · rename_i tx4 n4 p4 h4
              obtain ⟨a4, b4⟩ := settleRound_orders _ _ _ _ _ _ _ h4
              split_ifs at h
              simp only [Except.ok.injEq, Option.some.injEq, Prod.mk.injEq] at h
              obtain ⟨h5, _, _⟩ := h
              subst h5
              rw [a4, b4, e3]
              simp only [List.map_append, List.map_cons, List.map_nil]
              rw [ho2, hl2]
              rw [hl2] at hany
              exact ⟨rfl, rfl, hany⟩
    · simp [h1, h2] at h

/-! ## The invariant of settlements -/

theorem PlaceBet_SettleInv (env : Env) (st : State) (inp : BetInput) (h : SettleInv st) :
    SettleInv (PlaceBet env st inp).2 := by
  rcases PlaceBet_cases env st inp with hdb | ⟨a, kv, locked, user, tx, round, tx1, tx2,
    afterDec, _, _, hc, _, hdb, _⟩
  · exact ⟨by rw [hdb]; exact h.bill_nodup, by rw [hdb]; exact h.bet_status,
      by rw [hdb]; exact h.log_round, by rw [hdb]; exact h.log_settled⟩
  · obtain ⟨_, hw⟩ := placeBetWrites_ok _ _ _ _ _ _ _ _ _ hc.writes_ok
    obtain ⟨_, e1⟩ := IdempotencyKey_Insert_ok _ _ _ _ hc.idem_ok
    have htx : tx.orders = st.db.orders ∧ tx.rounds = st.db.rounds ∧
        tx.settlementLog = st.db.settlementLog := by
      rcases getOrCreateUserInTx_ok _ _ _ _ _ _ _ hc.user_ok with h1 | h1 <;> rw [h1.1] <;>
        exact ⟨rfl, rfl, rfl⟩
    have h1o : tx1.orders = st.db.orders := by
      rw [e1]
      exact htx.1
    have horders : tx2.orders = st.db.orders ++
        [orderRow env (betOrder inp user a (calcOdds (ptMap inp.PlayType))
          (generateBillNo env user.ID))] := by
      rw [hw.orders_eq, h1o]
    have hrounds : tx2.rounds = st.db.rounds := by
      rw [hw.rounds_eq, e1]
      exact htx.2.1
    have hlog : tx2.settlementLog = st.db.settlementLog := by
      rw [hw.log_eq, e1]
      exact htx.2.2
    refine ⟨?_, ?_, ?_, ?_⟩
    · rw [hdb, horders, List.map_append, List.nodup_append]
      refine ⟨h.bill_nodup, List.nodup_singleton _, ?_⟩
      intro b hb1 hb2
      obtain ⟨r, hr, hrb⟩ := List.mem_map.mp hb1
      simp only [List.map_cons, List.map_nil, List.mem_singleton] at hb2
      rw [← h1o] at hr
      exact (hw.fresh r hr).1 (hrb.trans hb2)
    · intro o ho
      rw [hdb, horders] at ho
      rcases List.mem_append.mp ho with h1 | h1
      · exact h.bet_status o h1
      · rw [List.mem_singleton.mp h1]
        rfl
    · rw [hdb, hlog, hrounds]
      exact h.log_round
    · rw [hdb, hlog, hrounds]
      exact h.log_settled

theorem handleRow_settled (env : Env) (evtStr : String) (code : Int) (r : GameRoundInfo) :
    (handleRow env evtStr code r).IsSettled = r.IsSettled := by
  unfold handleRow
  split_ifs <;> rfl

theorem Handle_SettleInv (env : Env) (st : State) (inp : GameEventInput) (h : SettleInv st) :
    SettleInv (Handle env st inp).2 := by
  rcases Handle_cases env st inp with hst | ⟨db1, s, t, htx, _, hst⟩
  · rw [hst]
    exact h
  · obtain ⟨rs0, r0, nxt, hrs, _, _, hrounds, hk, _, _⟩ := handleTx_ok _ _ _ _ _ _ _ htx
    have hmem : ∀ r ∈ st.db.rounds, r ∈ rs0 := by
      intro r hr
      rcases hrs with e | ⟨_, _, e⟩ <;> rw [e]
      · exact hr
      · exact List.mem_append_left _ hr
    rw [hst]
    refine ⟨?_, ?_, ?_, ?_⟩
    · show (db1.orders.map _).Nodup
      rw [hk.2.1]
      exact h.bill_nodup
    · show ∀ o ∈ db1.orders, _
      rw [hk.2.1]
      exact h.bet_status
    · show ∀ l ∈ db1.settlementLog, ∃ r ∈ db1.rounds, _
      rw [hk.2.2.2.2, hrounds]
      intro l hl
      obtain ⟨r, hr, hrl⟩ := h.log_round l hl
      refine ⟨_, List.mem_map_of_mem _ (hmem r hr), ?_⟩
      split_ifs
      · rw [handleRow_id]
        exact hrl
      · exact hrl
    · show ∀ l ∈ db1.settlementLog, ∀ r ∈ db1.rounds, _
      rw [hk.2.2.2.2, hrounds]
      intro l hl r1 hr1 hid
      obtain ⟨r, hr, rfl⟩ := List.mem_map.mp hr1
      have hrid : r.GameRoundID = l.GameRoundID := by
        by_cases hc : r.GameRoundID = inp.GameRoundID
        · rw [if_pos hc, handleRow_id] at hid
          exact hid
        · rw [if_neg hc] at hid
          exact hid
      have hrs1 : r.IsSettled = 1 := by
        rcases hrs with e | ⟨_, hnone, e⟩
        · rw [e] at hr
          exact h.log_settled l hl r hr hrid
        · rw [e] at hr
          rcases List.mem_append.mp hr with h1 | h1
          · exact h.log_settled l hl r h1 hrid
          · exfalso
            rw [List.mem_singleton.mp h1] at hrid
            obtain ⟨r2, hr2, hr2l⟩ := h.log_round l hl
            have := List.find?_eq_none.mp hnone r2 hr2
            apply this
            simp only [decide_eq_true_eq]
            rw [hr2l, ← hrid]
            rfl
      by_cases hc : r.GameRoundID = inp.GameRoundID
      · rw [if_pos hc, handleRow_settled]
        exact hrs1
      · rw [if_neg hc]
        exact hrs1

theorem SubmitDrawResult_SettleInv (env : Env) (st : State) (inp : DrawInput)
    (h : SettleInv st) : SettleInv (SubmitDrawResult env st inp).2 := by
  rcases SubmitDrawResult_cases env st inp with hst | ⟨db1, n, p, htx, _, hst⟩
  · rw [hst]
    exact h
  · obtain ⟨r0, hf0, _, _, _, hrounds⟩ := submitDrawTx_ok _ _ _ _ _ _ _ htx
    obtain ⟨horders, hlog, _⟩ := submitDrawTx_writes _ _ _ _ _ _ _ htx
    rw [settle_orders_of_nodup _ _ _ h.bill_nodup] at horders
    have hr0 : r0 ∈ st.db.rounds ∧ r0.GameRoundID = inp.GameRoundID := by
      refine ⟨List.mem_of_find?_eq_some hf0, ?_⟩
      have := List.find?_some hf0
      simpa using this
    have hlogid : ∀ l ∈ db1.settlementLog,
        (∃ l0 ∈ st.db.settlementLog, l0.GameRoundID = l.GameRoundID) ∨
          l.GameRoundID = inp.GameRoundID := by
      intro l hl
      have hm : l.GameRoundID ∈ db1.settlementLog.map (fun l => l.GameRoundID) :=
        List.mem_map_of_mem _ hl
      rw [hlog] at hm
      rcases List.mem_append.mp hm with h1 | h1
      · obtain ⟨l0, hl0, e⟩ := List.mem_map.mp h1
        exact Or.inl ⟨l0, hl0, e⟩
      · exact Or.inr (List.mem_singleton.mp h1)
    rw [hst]
    refine ⟨?_, ?_, ?_, ?_⟩
    · show (db1.orders.map _).Nodup
      rw [horders, List.map_map]
      have : ((fun o : OrderRow => o.BillNo) ∘
          fun r => if isPending inp.GameRoundID r = true then
            settledRow (decideResult inp.CardList) r else r) = fun o => o.BillNo := by
        funext r
        simp only [Function.comp]
        split_ifs <;> rfl
      rw [this]
      exact h.bill_nodup
    · show ∀ o ∈ db1.orders, _
      rw [horders]
      intro o ho
      obtain ⟨r, hr, rfl⟩ := List.mem_map.mp ho
      have := h.bet_status r hr
      split_ifs
      · exact this
      · exact this
    · show ∀ l ∈ db1.settlementLog, ∃ r ∈ db1.rounds, _
      intro l hl
      rw [hrounds]
      rcases hlogid l hl with ⟨l0, hl0, e⟩ | e
      · obtain ⟨r, hr, hrl⟩ := h.log_round l0 hl0
        refine ⟨_, List.mem_map_of_mem _ hr, ?_⟩
        split_ifs
        · exact hrl.trans e
        · exact hrl.trans e
      · refine ⟨_, List.mem_map_of_mem _ hr0.1, ?_⟩
        rw [if_pos hr0.2]
        exact hr0.2.trans e.symm
    · show ∀ l ∈ db1.settlementLog, ∀ r ∈ db1.rounds, _
      intro l hl r1 hr1 hid
      rw [hrounds] at hr1
      obtain ⟨r, hr, rfl⟩ := List.mem_map.mp hr1
      by_cases hc : r.GameRoundID = inp.GameRoundID
      · rw [if_pos hc]
        rfl
      · rw [if_neg hc] at hid ⊢
        rcases hlogid l hl with ⟨l0, hl0, e⟩ | e
        · exact h.log_settled l0 hl0 r hr (hid.trans e.symm)
        · exact absurd (hid.trans e) hc

theorem Step_SettleInv (st st1 : State) (h : SettleInv st) (hs : Step st st1) :
    SettleInv st1 := by
  cases hs with
  | bet env _ inp => exact PlaceBet_SettleInv env st inp h
  | event env _ inp => exact Handle_SettleInv env st inp h
  | draw env _ inp => exact SubmitDrawResult_SettleInv env st inp h
  | expire _ r fam k hkv => exact ⟨h.bill_nodup, h.bet_status, h.log_round, h.log_settled⟩

theorem Reachable_SettleInv (st : State) (h : Reachable st) : SettleInv st := by
  induction h with
  | init st hi =>
    obtain ⟨_, ho, _, _, _, hl, _, _⟩ := hi
    refine ⟨?_, ?_, ?_, ?_⟩
    · rw [ho]
      exact List.nodup_nil
    · intro o hoo
      rw [ho] at hoo
      cases hoo
    · intro l hll
      rw [hl] at hll
      cases hll
    · intro l hll
      rw [hl] at hll
      cases hll
  | step st st1 _ hs ih => exact Step_SettleInv st st1 ih hs

/-! ## The round and its orders after the settlement -/

theorem sampleDrawn_reachable : Reachable sampleDrawn :=
  Reachable.step _ _
    (Reachable.step _ _
      (Reachable.step sampleAfterBet sampleSealedAfterBet sampleAfterBet_reachable
        (Step.event sampleEnv sampleAfterBet (sampleEvent 2)))
      (Step.event sampleEnv sampleSealedAfterBet (sampleEvent 3)))
    (Step.event sampleEnv (Handle sampleEnv sampleSealedAfterBet (sampleEvent 3)).2
      (sampleEvent 4))

/-- C20: in a reachable state, after a `SubmitDrawResult` that succeeds on a
round not yet settled (`is_settled = 0`), with decided outcome `r`: the round
was drawn (status code 5) and now has `is_settled = 1`, status code 6
(settled), the result code of `r` and the card list as it was sent; the orders
are the former ones, where every order of the round that was pending (bill
status 1, bet status 2) has bill status 2 (settled), the game result of `r`
and the win amount `settlePayout` gives for it, and every other row is as it
was; and no order of the round is pending any more. -/
theorem SubmitDrawResult_settles (env : Env) (st st1 : State) (inp : DrawInput)
    (r0 : GameRoundInfo) (hr : Reachable st)
    (hfind : st.db.rounds.find? (fun r => r.GameRoundID = inp.GameRoundID) = some r0)
    (hset : r0.IsSettled = 0)
    (hok : SubmitDrawResult env st inp = (none, st1)) :
    r0.GameStatus = 5 ∧
    (∃ r1, st1.db.rounds.find? (fun r => r.GameRoundID = inp.GameRoundID) = some r1 ∧
      r1.IsSettled = 1 ∧ r1.GameStatus = 6 ∧
      r1.GameResult = resultToCode (decideResult inp.CardList) ∧
      r1.CardList = inp.CardList) ∧
    st1.db.orders = st.db.orders.map (fun o =>
      if o.GameRoundID = inp.GameRoundID ∧ o.BillStatus = 1 ∧ o.BetStatus = 2 then
        { o with WinAmount := settlePayout (listedOrder o) (decideResult inp.CardList),
                 BillStatus := 2, GameResult := resultToCode (decideResult inp.CardList) }
      else o) ∧
    (∀ o ∈ st1.db.orders, o.GameRoundID = inp.GameRoundID → o.BillStatus ≠ 1) := by
  have hinv := Reachable_SettleInv st hr
  obtain ⟨_, hvalid, hcases⟩ := SubmitDrawResult_success env st st1 inp hok
  have hr0 : r0 ∈ st.db.rounds ∧ r0.GameRoundID = inp.GameRoundID := by
    refine ⟨List.mem_of_find?_eq_some hfind, ?_⟩
    have := List.find?_some hfind
    simpa using this
  have hs1 : r0.IsSettled ≠ 1 := by
    rw [hset]
    decide
  rcases hcases with ⟨hnone, _⟩ | ⟨db1, n, p, htx, hst⟩
  · -- a success that settles nothing is excluded: the round is not settled,
    -- and no settlement log of it is stored
    exfalso
    obtain ⟨r1, hf1, h1⟩ := submitDrawTx_none _ _ _ _ hnone
    rw [hfind] at hf1
    cases hf1
    rcases h1 with h1 | ⟨_, hany⟩
    · exact hs1 h1
    · obtain ⟨l, hl, hlid⟩ := List.any_eq_true.mp hany
      simp only [decide_eq_true_eq] at hlid
      exact hs1 (hinv.log_settled l hl r0 hr0.1 (hr0.2.trans hlid.symm))
  · obtain ⟨r1, hf1, h5, _, _, hrounds⟩ := submitDrawTx_ok _ _ _ _ _ _ _ htx
    rw [hfind] at hf1
    cases hf1
    obtain ⟨horders, _, _⟩ := submitDrawTx_writes _ _ _ _ _ _ _ htx
    rw [settle_orders_of_nodup _ _ _ hinv.bill_nodup] at horders
    have hord : st1.db.orders = st.db.orders.map (fun o =>
        if o.GameRoundID = inp.GameRoundID ∧ o.BillStatus = 1 ∧ o.BetStatus = 2 then
          { o with WinAmount := settlePayout (listedOrder o) (decideResult inp.CardList),
                   BillStatus := 2, GameResult := resultToCode (decideResult inp.CardList) }
        else o) := by
      rw [hst]
      show db1.orders = _
      rw [horders]
      apply List.map_congr_left
      intro o _
      unfold isPending settledRow
      simp only [decide_eq_true_eq]
    refine ⟨h5, ?_, hord, ?_⟩
    · have hfm := find_map_keep st.db.rounds
        (fun r => if r.GameRoundID = inp.GameRoundID then
          drawRow env inp (decideResult inp.CardList) r else r)
        (by intro r; simp only []; split_ifs <;> rfl) inp.GameRoundID
      rw [← hrounds, hfind] at hfm
      simp only [Option.map_some', if_pos hr0.2] at hfm
      refine ⟨drawRow env inp (decideResult inp.CardList) r0, ?_, rfl, rfl, ?_, rfl⟩
      · rw [hst]
        exact hfm
      · show toPlayTypeCode (decideResult inp.CardList) = resultToCode (decideResult inp.CardList)
        rcases hvalid with h | h | h <;> rw [h] <;> decide
    · intro o ho hoid
      rw [hord] at ho
      obtain ⟨r, hrm, rfl⟩ := List.mem_map.mp ho
      by_cases hp : r.GameRoundID = inp.GameRoundID ∧ r.BillStatus = 1 ∧ r.BetStatus = 2
      · rw [if_pos hp]
        show (2 : Int) ≠ 1
        decide
      · rw [if_neg hp] at hoid ⊢
        intro hb
        exact hp ⟨hoid, hb, hinv.bet_status r hrm⟩

/-- The draw result `D9,T8,Rd` on the drawn round `R1` with the dragon bet of
`100.00`: the round is settled with result code 1, and the order is settled
with the win amount `197.00`. -/
theorem SubmitDrawResult_settles_witness :
    sampleDrawn.db.orders.map (fun o => (o.BillNo, o.BillStatus, o.BetStatus, o.WinAmount)) =
      [("DT202501010000000007ABC", 1, 2, ⟨0, 0⟩)] ∧
    (SubmitDrawResult sampleEnv sampleDrawn (sampleDraw "D9,T8,Rd")).2.db.orders.map
        (fun o => (o.BillNo, o.BillStatus, o.GameResult, o.WinAmount)) =
      [("DT202501010000000007ABC", 2, 1, ⟨19700, 2⟩)] ∧
    (SubmitDrawResult sampleEnv sampleDrawn (sampleDraw "D9,T8,Rd")).2.db.rounds.map
        (fun r => (r.GameRoundID, r.IsSettled, r.GameStatus, r.GameResult, r.CardList)) =
      [("R1", 1, 6, 1, "D9,T8,Rd")] ∧
    ∀ o ∈ (SubmitDrawResult sampleEnv sampleDrawn (sampleDraw "D9,T8,Rd")).2.db.orders,
      o.GameRoundID = (sampleDraw "D9,T8,Rd").GameRoundID → o.BillStatus ≠ 1 :=
  ⟨by decide, by decide, by decide,
    (SubmitDrawResult_settles sampleEnv sampleDrawn
      (SubmitDrawResult sampleEnv sampleDrawn (sampleDraw "D9,T8,Rd")).2
      (sampleDraw "D9,T8,Rd")
      { sampleRound with BetStopTime := 2000, GameStatus := 5 } sampleDrawn_reachable
      (by decide) (by decide) (by decide)).2.2.2⟩

/-! ## The end of a round -/

/-- The transaction of `Handle` at `game_end` on a stored drawn or settled
round, when no SQL call fails: refused without a draw result, committed
otherwise. -/
theorem handleTx_game_end (env : Env) (db : DB) (inp : GameEventInput) (r0 : GameRoundInfo)
    (hno : ∀ op, env.dbErr op = false)
    (hfind : db.rounds.find? (fun r => r.GameRoundID = inp.GameRoundID) = some r0)
    (hst : r0.GameStatus = 5 ∨ r0.GameStatus = 6) :
    ((r0.GameResult = 0 ∨ r0.CardList = "") →
      handleTx env db inp EvtGameEnd = .error ErrGameEndWithoutDrawResult) ∧
    (¬ (r0.GameResult = 0 ∨ r0.CardList = "") →
      ∃ db1 s t, handleTx env db inp EvtGameEnd = .ok (db1, s, t)) := by
  have hne : ¬ (EvtGameEnd = EvtGameStart) := by decide
  have hne2 : ¬ (EvtGameEnd = EvtGameStop) := by decide
  have hne3 : ¬ (EvtGameEnd = EvtGameDraw) := by decide
  have hnext : NextState (codeToState r0.GameStatus) EvtGameEnd = (StateFinished, none) := by
    rcases hst with h | h <;> rw [h] <;> decide
  have hround : GetRoundForUpdate env db inp.GameRoundID = .ok r0 := by
    unfold GetRoundForUpdate
    simp only [hno, Bool.false_eq_true, if_false, hfind]
  have hstatus : GetStatusForUpdate env db inp.GameRoundID = .ok r0.GameStatus := by
    unfold GetStatusForUpdate
    simp only [hno, Bool.false_eq_true, if_false, hfind]
  constructor
  · intro hc
    unfold handleTx
    simp only [hno, Bool.false_eq_true, if_false, hne, hstatus, hnext]
    unfold handleEventEffects
    simp only [hne, hne2, if_false, if_true, hround, hc]
  · intro hc
    unfold handleTx
    simp only [hno, Bool.false_eq_true, if_false, hne, hstatus, hnext]
    unfold handleEventEffects
    simp only [hne, hne2, if_false, if_true, hround, hc]
    unfold UpdateState
    simp only [hno, Bool.false_eq_true, if_false]
    unfold handleOutbox
    simp only [hne, hne3, if_false, if_true]
    unfold CreateOutbox
    simp only [hno, Bool.false_eq_true, if_false]
    unfold GameEventAudit.Insert
    simp only [hno, Bool.false_eq_true, if_false]
    exact ⟨_, _, _, rfl⟩

/-- C24: for a stored round in state drawn (5) or settled (6), when no SQL
call fails, a `game_end` event fails with `ErrGameEndWithoutDrawResult` iff
the result code of the round is unset (0) or its card list is empty, and the
state, the status of the round in it, is then unchanged; otherwise the event
succeeds and the round is finished (7). -/
theorem Handle_game_end (env : Env) (st : State) (inp : GameEventInput) (r0 : GameRoundInfo)
    (hid : inp.GameRoundID ≠ "") (hevt : inp.EventType = 5)
    (hno : ∀ op, env.dbErr op = false)
    (hfind : st.db.rounds.find? (fun r => r.GameRoundID = inp.GameRoundID) = some r0)
    (hst : r0.GameStatus = 5 ∨ r0.GameStatus = 6) :
    ((Handle env st inp).1 = some ErrGameEndWithoutDrawResult ↔
      (r0.GameResult = 0 ∨ r0.CardList = "")) ∧
    ((r0.GameResult = 0 ∨ r0.CardList = "") → (Handle env st inp).2 = st) ∧
    (¬ (r0.GameResult = 0 ∨ r0.CardList = "") →
      (Handle env st inp).1 = none ∧
      roundStatus (Handle env st inp).2 inp.GameRoundID = some 7) := by
  obtain ⟨hbad, hgood⟩ := handleTx_game_end env st.db inp r0 hno hfind hst
  have hevs : eventCodeToString inp.EventType = EvtGameEnd := by
    rw [hevt]
    decide
  have hrange : ¬ (inp.GameRoundID = "" ∨ inp.EventType < 1 ∨ inp.EventType > 5) := by
    rw [hevt]
    simp [hid]
  have hfail : (r0.GameResult = 0 ∨ r0.CardList = "") →
      Handle env st inp = (some ErrGameEndWithoutDrawResult, st) := by
    intro hc
    unfold Handle
    simp only [hrange, if_false, hevs, hbad hc]
  have hsucc : ¬ (r0.GameResult = 0 ∨ r0.CardList = "") →
      (Handle env st inp).1 = none ∧
      roundStatus (Handle env st inp).2 inp.GameRoundID = some 7 := by
    intro hc
    obtain ⟨db1, s, t, htx⟩ := hgood hc
    obtain ⟨rs0, r1, nxt, hrs, hf1, hnext, hrounds, _, _, _⟩ := handleTx_ok _ _ _ _ _ _ _ htx
    have hrs0 : rs0 = st.db.rounds := by
      rcases hrs with h | ⟨h, _, _⟩
      · exact h
      · exact absurd h (by decide)
    rw [hrs0, hfind] at hf1
    cases hf1
    have hH : Handle env st inp =
        (none, { db := db1, kv := handleCache env st.kv inp EvtGameEnd s t }) := by
      unfold Handle
      simp only [hrange, if_false, hevs, htx]
    have hnx : nxt = StateFinished := by
      have h2 : NextState (codeToState r0.GameStatus) EvtGameEnd = (StateFinished, none) := by
        rcases hst with h | h <;> rw [h] <;> decide
      rw [h2] at hnext
      exact (congrArg Prod.fst hnext).symm
    rw [hH]
    refine ⟨rfl, ?_⟩
    unfold roundStatus
    show (db1.rounds.find? _).map _ = _
    have hkeep : ∀ r : GameRoundInfo,
        (if r.GameRoundID = inp.GameRoundID then
          handleRow env EvtGameEnd (stateToCode nxt) r else r).GameRoundID = r.GameRoundID := by
      intro r
      split_ifs
      · exact handleRow_id _ _ _ _
      · rfl
    rw [hrounds, hrs0, find_map_keep _ _ hkeep, hfind]
    have hid0 : r0.GameRoundID = inp.GameRoundID := by
      have := List.find?_some hfind
      simpa using this
    simp only [Option.map_some', if_pos hid0, handleRow_status, hnx]
    rfl
  refine ⟨⟨?_, fun hc => by rw [hfail hc]⟩, fun hc => by rw [hfail hc], hsucc⟩
  intro herr
  by_contra hc
  rw [(hsucc hc).1] at herr
  cases herr

/-- The round `R1` drawn, with no result yet: `game_end` is refused with
`ErrGameEndWithoutDrawResult` and nothing changes; the same round settled, with
result dragon: `game_end` succeeds and the round is finished. -/
theorem Handle_game_end_witness :
    Handle sampleEnv sampleDrawn (sampleEvent 5) =
      (some ErrGameEndWithoutDrawResult, sampleDrawn) ∧
    roundStatus sampleSettled "R1" = some 6 ∧
    ((Handle sampleEnv sampleDrawn (sampleEvent 5)).1 = some ErrGameEndWithoutDrawResult ↔
      (({ sampleRound with BetStopTime := 2000, GameStatus := 5 } : GameRoundInfo).GameResult = 0 ∨
       ({ sampleRound with BetStopTime := 2000, GameStatus := 5 } : GameRoundInfo).CardList = "")) ∧
    (Handle sampleEnv sampleSettled (sampleEvent 5)).1 = none ∧
    roundStatus (Handle sampleEnv sampleSettled (sampleEvent 5)).2
      (sampleEvent 5).GameRoundID = some 7 :=
  ⟨by decide, by decide,
    (Handle_game_end sampleEnv sampleDrawn (sampleEvent 5)
      { sampleRound with BetStopTime := 2000, GameStatus := 5 } (by decide) (by decide)
      (fun _ => rfl) (by decide) (Or.inl (by decide))).1,
    (Handle_game_end sampleEnv sampleSettled (sampleEvent 5)
      { sampleRound with BetStopTime := 2000, GameDrawTime := 2000, CardList := "D9,T8,Rd",
                         GameResult := 1, GameResultStr := "dragon", GameStatus := 6,
                         IsSettled := 1 }
      (by decide) (by decide) (fun _ => rfl) (by decide) (Or.inr (by decide))).2.2 (by decide)⟩

/-! ## The bet window written at `game_start` -/

/-- The outbox after a committed `game_start`: one new pending row of topic
`game_started`, whose payload carries the two window times. -/
theorem handleTx_start_outbox (env : Env) (db db1 : DB) (inp : GameEventInput) (s t : Int)
    (h : handleTx env db inp EvtGameStart = .ok (db1, s, t)) :
    db1.outbox = db.outbox ++
      [{ ID := nextOutboxID db, Topic := "game_started", BizKey := inp.GameRoundID,
         Payload :=
           [ ("event", .str "game_started"), ("game_id", .str inp.GameID),
             ("room_id", .str inp.RoomID), ("game_round_id", .str inp.GameRoundID),
             ("bet_start_time", .num s), ("bet_stop_time", .num t),
             ("trace_id", .str inp.TraceID) ],
         Status := 1, RetryCount := 0, LastError := "" }] := by
  unfold handleTx at h
  by_cases hb : env.dbErr .beginTx = true
  · simp [hb] at h
  simp only [hb, Bool.false_eq_true, if_false, if_true] at h
  cases hen : EnsureOnStart env db inp.GameRoundID inp.GameID inp.RoomID inp.TraceID with
  | error e => simp [hen] at h
  | ok tx =>
    simp only [hen] at h
    have hox : tx.outbox = db.outbox := by
      rcases EnsureOnStart_ok _ _ _ _ _ _ _ hen with h1 | h1 <;> rw [h1.1]
    cases hst : GetStatusForUpdate env tx inp.GameRoundID with
    | error e => simp [hst] at h
    | ok prevStatus =>
      simp only [hst] at h
      cases hn : NextState (codeToState prevStatus) EvtGameStart with
      | mk nxt eo =>
        cases eo with
        | some e => simp [hn] at h
        | none =>
          simp only [hn] at h
          cases hef : handleEventEffects env tx inp EvtGameStart with
          | error e => simp [hef] at h
          | ok q =>
            obtain ⟨tx1, s1, t1⟩ := q
            simp only [hef] at h
            obtain ⟨e1, _, _⟩ := handleEventEffects_ok _ _ _ _ _ _ _ hef
            cases hup : UpdateState env tx1 inp.GameRoundID (stateToCode nxt) with
            | error e => simp [hup] at h
            | ok tx2 =>
              simp only [hup] at h
              have e2 := UpdateState_ok _ _ _ _ _ hup
              have hox2 : tx2.outbox = db.outbox := by
                rw [e2, e1]
                exact hox
              cases hob : handleOutbox env tx2 inp EvtGameStart s1 t1 with
              | error e => simp [hob] at h
              | ok tx3 =>
                simp only [hob] at h
                have hd : ¬ (EvtGameStart = EvtGameDraw) := by decide
                have he : ¬ (EvtGameStart = EvtGameEnd) := by decide
                unfold handleOutbox at hob
                simp only [if_true, hd, he, if_false] at hob
                cases hco : CreateOutbox env tx2 "game_started" inp.GameRoundID
                    [ ("event", .str "game_started"), ("game_id", .str inp.GameID),
                      ("room_id", .str inp.RoomID), ("game_round_id", .str inp.GameRoundID),
                      ("bet_start_time", .num s1), ("bet_stop_time", .num t1),
                      ("trace_id", .str inp.TraceID) ] with
                | error e => simp [hco] at hob
                | ok tx2b =>
                  simp only [hco, Except.ok.injEq] at hob
                  have e3 := CreateOutbox_ok _ _ _ _ _ _ hco
                  split at h
                  · cases h
                  · rename_i tx4 hau
                    have e4 := GameEventAudit_Insert_ok _ _ _ _ hau
                    split_ifs at h
                    simp only [Except.ok.injEq, Prod.mk.injEq] at h
                    obtain ⟨h1, h2, h3⟩ := h
                    subst h1 h2 h3
                    rw [e4, ← hob, e3]
                    show tx2.outbox ++ _ = _
                    have hid : nextOutboxID tx2 = nextOutboxID db := by
                      unfold nextOutboxID
                      rw [hox2]
                    rw [hid, hox2]

theorem wrapInt64_of_range (n : Int) (h1 : -(2 ^ 63) ≤ n) (h2 : n < 2 ^ 63) :
    wrapInt64 n = n := by
  unfold wrapInt64
  have : (n + 2 ^ 63) % 2 ^ 64 = n + 2 ^ 63 := by
    apply Int.emod_eq_of_lt
    · omega
    · omega
  omega

/-- C25: after a `game_start` event that succeeds at clock value `now`, the
sum `now + 45000` being an `int64`: the round has bet start time `now` and bet
stop time `now + 45000`, so the window is 45000 ms; its status is betting (2);
and the one new outbox row, of topic `game_started`, carries exactly these two
times in its payload. -/
theorem Handle_game_start (env : Env) (st st1 : State) (inp : GameEventInput)
    (hevt : inp.EventType = 1)
    (hlo : -(2 ^ 63) ≤ env.now + 45000) (hhi : env.now + 45000 < 2 ^ 63)
    (hok : Handle env st inp = (none, st1)) :
    (∃ r1, st1.db.rounds.find? (fun r => r.GameRoundID = inp.GameRoundID) = some r1 ∧
      r1.BetStartTime = env.now ∧ r1.BetStopTime = env.now + 45000 ∧
      r1.BetStopTime - r1.BetStartTime = 45000 ∧ r1.GameStatus = 2) ∧
    (∃ row, st1.db.outbox = st.db.outbox ++ [row] ∧ row.Topic = "game_started" ∧
      row.Status = 1 ∧
      lookupKey "bet_start_time" row.Payload = some (.num env.now) ∧
      lookupKey "bet_stop_time" row.Payload = some (.num (env.now + 45000))) := by
  have hevs : eventCodeToString inp.EventType = EvtGameStart := by
    rw [hevt]
    decide
  have hstop : wrapInt64 (env.now + wrapInt64 (betWindowSeconds * 1000)) = env.now + 45000 := by
    have h45 : wrapInt64 (betWindowSeconds * 1000) = 45000 := by decide
    rw [h45]
    exact wrapInt64_of_range _ hlo hhi
  unfold Handle at hok
  split_ifs at hok
  · cases hok
  simp only [hevs] at hok
  cases htx : handleTx env st.db inp EvtGameStart with
  | error e =>
    rw [htx] at hok
    cases hok
  | ok q =>
    obtain ⟨db1, s, t⟩ := q
    rw [htx] at hok
    simp only [Prod.mk.injEq, true_and] at hok
    subst hok
    obtain ⟨rs0, r0, nxt, _, hf0, hnext, hrounds, _, htimes, _⟩ :=
      handleTx_ok _ _ _ _ _ _ _ htx
    obtain ⟨hs, ht⟩ := htimes rfl
    have hkeep : ∀ r : GameRoundInfo,
        (if r.GameRoundID = inp.GameRoundID then
          handleRow env EvtGameStart (stateToCode nxt) r else r).GameRoundID =
          r.GameRoundID := by
      intro r
      split_ifs
      · exact handleRow_id _ _ _ _
      · rfl
    have hid0 : r0.GameRoundID = inp.GameRoundID := by
      have := List.find?_some hf0
      simpa using this
    have hnx : stateToCode nxt = 2 := by
      have h2 : ∀ c n : String, NextState c EvtGameStart = (n, none) → n = StateBetting := by
        intro c n hc
        unfold NextState at hc
        have e2 : ¬ (EvtGameStart = EvtGameStop) := by decide
        have e3 : ¬ (EvtGameStart = EvtNewCard) := by decide
        have e4 : ¬ (EvtGameStart = EvtGameDraw) := by decide
        have e5 : ¬ (EvtGameStart = EvtGameEnd) := by decide
        simp only [e2, e3, e4, e5, if_false, if_true] at hc
        split_ifs at hc <;> simp only [Prod.mk.injEq, reduceCtorEq, and_false] at hc
        exact hc.1.symm
      rw [h2 _ _ hnext]
      decide
    refine ⟨⟨handleRow env EvtGameStart (stateToCode nxt) r0, ?_, ?_, ?_, ?_, ?_⟩, ?_⟩
    · show db1.rounds.find? _ = _
      rw [hrounds, find_map_keep _ _ hkeep, hf0]
      simp only [Option.map_some', if_pos hid0]
    · rfl
    · show wrapInt64 (env.now + wrapInt64 (betWindowSeconds * 1000)) = _
      exact hstop
    · show wrapInt64 (env.now + wrapInt64 (betWindowSeconds * 1000)) - env.now = _
      rw [hstop]
      omega
    · rw [handleRow_status]
      exact hnx
    · refine ⟨_, handleTx_start_outbox _ _ _ _ _ _ htx, rfl, rfl, ?_, ?_⟩
      · rw [hs]
        rfl
      · rw [ht, hstop]
        rfl

/-- The `game_start` of round `R1` at clock value `1000`: the window is
`[1000, 46000]`, the round is betting, and the outbox row says so. -/
theorem Handle_game_start_witness :
    Handle { sampleEnv with now := 1000 } sampleInitial (sampleEvent 1) =
      (none, sampleBetting) ∧
    sampleBetting.db.rounds.map
        (fun r => (r.GameRoundID, r.BetStartTime, r.BetStopTime, r.GameStatus)) =
      [("R1", 1000, 46000, 2)] ∧
    sampleBetting.db.outbox.map (fun o => (o.Topic, lookupKey "bet_start_time" o.Payload,
        lookupKey "bet_stop_time" o.Payload)) =
      [("game_started", some (.num 1000), some (.num 46000))] ∧
    (∃ r1, sampleBetting.db.rounds.find? (fun r => r.GameRoundID = (sampleEvent 1).GameRoundID) =
        some r1 ∧
      r1.BetStartTime = 1000 ∧ r1.BetStopTime = 1000 + 45000 ∧
      r1.BetStopTime - r1.BetStartTime = 45000 ∧ r1.GameStatus = 2) :=
  ⟨by decide, by decide, by decide,
    (Handle_game_start { sampleEnv with now := 1000 } sampleInitial sampleBetting
      (sampleEvent 1) (by decide) (by decide) (by decide) (by decide)).1⟩

/-! ## The result, the settled mark and the status of a round -/

theorem find_of_nodup (rounds : List GameRoundInfo) (id : String) (r0 r : GameRoundInfo)
    (hnd : (rounds.map (fun r => r.GameRoundID)).Nodup)
    (hfind : rounds.find? (fun r => r.GameRoundID = id) = some r0)
    (hr : r ∈ rounds) (hid : r.GameRoundID = id) : r = r0 := by
  induction rounds with
  | nil => cases hr
  | cons a rs ih =>
    simp only [List.map_cons, List.nodup_cons, List.mem_map, not_exists, not_and] at hnd
    simp only [List.find?_cons] at hfind
    by_cases ha : a.GameRoundID = id
    · simp only [ha, decide_True] at hfind
      cases hfind
      rcases List.mem_cons.mp hr with h | h
      · exact h
      · exact absurd (hid.trans ha.symm) (hnd.1 r h)
    · simp only [ha, decide_False] at hfind
      rcases List.mem_cons.mp hr with h | h
      · rw [h] at hid
        exact absurd hid ha
      · exact ih hnd.2 hfind h

/-- A transition of the table leaves the codes 6 and 7 aside, except for
`game_end` on a drawn or settled round, which gives 7. -/
theorem NextState_settled (c : Int) (evt nxt : String)
    (h : NextState (codeToState c) evt = (nxt, none)) :
    (c ≠ 6 ∧ c ≠ 7 ∧ stateToCode nxt ≠ 6 ∧ stateToCode nxt ≠ 7) ∨
    (c = 5 ∧ evt = EvtGameEnd ∧ stateToCode nxt = 7) ∨
    (c = 6 ∧ stateToCode nxt = 7) := by
  have hcases : c = 1 ∨ c = 2 ∨ c = 3 ∨ c = 4 ∨ c = 5 ∨ c = 6 ∨ c = 7 ∨
      (c ≠ 1 ∧ c ≠ 2 ∧ c ≠ 3 ∧ c ≠ 4 ∧ c ≠ 5 ∧ c ≠ 6 ∧ c ≠ 7) := by omega
  rcases hcases with h0 | h0 | h0 | h0 | h0 | h0 | h0 | h0
  case inr.inr.inr.inr.inr.inr.inr =>
    obtain ⟨h1, h2, h3, h4, h5, h6, h7⟩ := h0
    have hinit : codeToState c = StateInit := by
      unfold codeToState
      simp only [h1, h2, h3, h4, h5, h6, h7, if_false]
    rw [hinit] at h
    unfold NextState at h
    simp only [if_true] at h
    split_ifs at h
    · simp only [Prod.mk.injEq, and_true] at h
      rw [← h]
      exact Or.inl ⟨h6, h7, by decide, by decide⟩
    · simp at h
  all_goals
    subst h0
    simp only [codeToState] at h
    norm_num at h
    unfold NextState at h
    simp only [StateInit, StateBetting, StateSealed, StateDealt, StateDrawn, StateSettled,
      StateFinished] at h
    norm_num at h
    split_ifs at h <;> simp_all <;> (subst_vars; decide)

theorem handleRow_result (env : Env) (evtStr : String) (code : Int) (r : GameRoundInfo) :
    (handleRow env evtStr code r).GameResult = r.GameResult := by
  unfold handleRow
  split_ifs <;> rfl

theorem Handle_RoundInv (env : Env) (st : State) (inp : GameEventInput) (h : RoundInv st) :
    RoundInv (Handle env st inp).2 := by
  by_cases hv : inp.GameRoundID = "" ∨ inp.EventType < 1 ∨ inp.EventType > 5
  · have : (Handle env st inp).2 = st := by
      unfold Handle
      rw [if_pos hv]
    rw [this]
    exact h
  rcases Handle_cases env st inp with hst | ⟨db1, s, t, htx, _, hst⟩
  · rw [hst]
    exact h
  · obtain ⟨rs0, r0, nxt, hrs, hfind, hnext, hrounds, _, _, hend⟩ :=
      handleTx_ok _ _ _ _ _ _ _ htx
    have hname : inp.GameRoundID ≠ "" := fun e => hv (Or.inl e)
    have hnd0 : (rs0.map (fun r => r.GameRoundID)).Nodup := by
      rcases hrs with e | ⟨_, hnone, e⟩
      · rw [e]
        exact h.ids_nodup
      · rw [e, List.map_append, List.nodup_append]
        refine ⟨h.ids_nodup, List.nodup_singleton _, ?_⟩
        intro a ha hb
        simp only [List.map_cons, List.map_nil, List.mem_singleton] at hb
        obtain ⟨r, hr, hra⟩ := List.mem_map.mp ha
        have := List.find?_eq_none.mp hnone r hr
        apply this
        simp only [decide_eq_true_eq]
        rw [hra, hb]
        rfl
    have hnamed0 : ∀ r ∈ rs0, r.GameRoundID ≠ "" := by
      intro r hr
      rcases hrs with e | ⟨_, _, e⟩
      · rw [e] at hr
        exact h.ids_named r hr
      · rw [e] at hr
        rcases List.mem_append.mp hr with h1 | h1
        · exact h.ids_named r h1
        · rw [List.mem_singleton.mp h1]
          exact hname
    have hset0 : ∀ r ∈ rs0, RowSettled r := by
      intro r hr
      rcases hrs with e | ⟨_, _, e⟩
      · rw [e] at hr
        exact h.settled r hr
      · rw [e] at hr
        rcases List.mem_append.mp hr with h1 | h1
        · exact h.settled r h1
        · rw [List.mem_singleton.mp h1]
          unfold RowSettled newRound
          simp
    have hkeep : ∀ r : GameRoundInfo,
        (if r.GameRoundID = inp.GameRoundID then
          handleRow env (eventCodeToString inp.EventType) (stateToCode nxt) r
          else r).GameRoundID = r.GameRoundID := by
      intro r
      split_ifs
      · exact handleRow_id _ _ _ _
      · rfl
    rw [hst]
    refine ⟨?_, ?_, ?_⟩
    · show (db1.rounds.map _).Nodup
      rw [hrounds, List.map_map]
      have : ((fun r : GameRoundInfo => r.GameRoundID) ∘ fun r =>
          if r.GameRoundID = inp.GameRoundID then
            handleRow env (eventCodeToString inp.EventType) (stateToCode nxt) r
          else r) = fun r => r.GameRoundID := by
        funext r
        exact hkeep r
      rw [this]
      exact hnd0
    · show ∀ r ∈ db1.rounds, _
      rw [hrounds]
      intro r1 hr1
      obtain ⟨r, hr, rfl⟩ := List.mem_map.mp hr1
      rw [hkeep]
      exact hnamed0 r hr
    · show ∀ r ∈ db1.rounds, _
      rw [hrounds]
      intro r1 hr1
      obtain ⟨r, hr, rfl⟩ := List.mem_map.mp hr1
      by_cases hc : r.GameRoundID = inp.GameRoundID
      · rw [if_pos hc]
        have hr0 : r = r0 := find_of_nodup rs0 _ r0 r hnd0 hfind hr hc
        subst hr0
        obtain ⟨ha, hb⟩ := hset0 r hr
        unfold RowSettled
        rw [handleRow_result, handleRow_settled, handleRow_status]
        refine ⟨ha, ?_⟩
        rcases NextState_settled _ _ _ hnext with ⟨h6, h7, n6, n7⟩ | ⟨h5, he, _⟩ | ⟨h6, n7⟩
        · constructor
          · intro h1
            rcases hb.mp h1 with h2 | h2
            · exact absurd h2 h6
            · exact absurd h2 h7
          · intro h1
            rcases h1 with h2 | h2
            · exact absurd h2 n6
            · exact absurd h2 n7
        · exfalso
          have h1 := ha.mp (hend he).1
          rcases hb.mp h1 with h2 | h2 <;> rw [h5] at h2 <;> exact absurd h2 (by decide)
        · constructor
          · intro _
            exact Or.inr n7
          · intro _
            exact hb.mpr (Or.inl h6)
      · rw [if_neg hc]
        exact hset0 r hr

theorem toPlayTypeCode_of_valid (res : String)
    (h : res = "dragon" ∨ res = "tiger" ∨ res = "tie") : toPlayTypeCode res ≠ 0 := by
  rcases h with h | h | h <;> rw [h] <;> decide

theorem SubmitDrawResult_RoundInv (env : Env) (st : State) (inp : DrawInput)
    (h : RoundInv st) : RoundInv (SubmitDrawResult env st inp).2 := by
  rcases SubmitDrawResult_cases env st inp with hst | ⟨db1, n, p, htx, hnone, hst⟩
  · rw [hst]
    exact h
  · obtain ⟨_, hvalid, _⟩ := SubmitDrawResult_success env st (SubmitDrawResult env st inp).2 inp
      (by rw [← hnone])
    obtain ⟨r0, _, _, _, _, hrounds⟩ := submitDrawTx_ok _ _ _ _ _ _ _ htx
    have hkeep : ∀ r : GameRoundInfo,
        (if r.GameRoundID = inp.GameRoundID then
          drawRow env inp (decideResult inp.CardList) r else r).GameRoundID =
          r.GameRoundID := by
      intro r
      split_ifs <;> rfl
    rw [hst]
    refine ⟨?_, ?_, ?_⟩
    · show (db1.rounds.map _).Nodup
      rw [hrounds, List.map_map]
      have : ((fun r : GameRoundInfo => r.GameRoundID) ∘ fun r =>
          if r.GameRoundID = inp.GameRoundID then
            drawRow env inp (decideResult inp.CardList) r
          else r) = fun r => r.GameRoundID := by
        funext r
        exact hkeep r
      rw [this]
      exact h.ids_nodup
    · show ∀ r ∈ db1.rounds, _
      rw [hrounds]
      intro r1 hr1
      obtain ⟨r, hr, rfl⟩ := List.mem_map.mp hr1
      rw [hkeep]
      exact h.ids_named r hr
    · show ∀ r ∈ db1.rounds, _
      rw [hrounds]
      intro r1 hr1
      obtain ⟨r, hr, rfl⟩ := List.mem_map.mp hr1
      by_cases hc : r.GameRoundID = inp.GameRoundID
      · rw [if_pos hc]
        unfold RowSettled
        refine ⟨⟨fun _ => rfl, fun _ => toPlayTypeCode_of_valid _ hvalid⟩,
          ⟨fun _ => Or.inl rfl, fun _ => rfl⟩⟩
      · rw [if_neg hc]
        exact h.settled r hr

theorem Step_RoundInv (st st1 : State) (h : RoundInv st) (hs : Step st st1) : RoundInv st1 := by
  cases hs with
  | bet env _ inp =>
    have e := PlaceBet_rounds env st inp
    exact ⟨by rw [e]; exact h.ids_nodup, by rw [e]; exact h.ids_named,
      by rw [e]; exact h.settled⟩
  | event env _ inp => exact Handle_RoundInv env st inp h
  | draw env _ inp => exact SubmitDrawResult_RoundInv env st inp h
  | expire _ r fam k hkv => exact ⟨h.ids_nodup, h.ids_named, h.settled⟩

theorem Reachable_RoundInv (st : State) (h : Reachable st) : RoundInv st := by
  induction h with
  | init st hi =>
    refine ⟨?_, ?_, ?_⟩
    · rw [hi.1]
      exact List.nodup_nil
    · rw [hi.1]
      intro r hr
      cases hr
    · rw [hi.1]
      intro r hr
      cases hr
  | step st st1 _ hs ih => exact Step_RoundInv st st1 ih hs

theorem roundStatus_some (st : State) (id : String) (c : Int)
    (h : roundStatus st id = some c) :
    ∃ r, st.db.rounds.find? (fun r => r.GameRoundID = id) = some r ∧ r.GameStatus = c ∧
      r.GameRoundID = id ∧ r ∈ st.db.rounds := by
  unfold roundStatus at h
  cases hf : st.db.rounds.find? (fun r => r.GameRoundID = id) with
  | none => simp [hf] at h
  | some r =>
    rw [hf] at h
    simp only [Option.map_some', Option.some.injEq] at h
    have hid : r.GameRoundID = id := by
      have := List.find?_some hf
      simpa using this
    exact ⟨r, rfl, h, hid, List.mem_of_find?_eq_some hf⟩

/-- C30: in every reachable state, for every stored round, the result code is
set (not 0) iff the round is marked as settled (`is_settled = 1`) iff its
status is settled (6) or finished (7), so a drawn round (5) has result code 0;
every `game_end` event for a drawn round is rejected and leaves the state as it
is, with `ErrGameEndWithoutDrawResult` when no SQL call fails; and no step of
the service takes a drawn round to finished. -/
theorem drawn_never_finished (st : State) (h : Reachable st) :
    (∀ r ∈ st.db.rounds,
      (r.GameResult ≠ 0 ↔ r.IsSettled = 1) ∧
      (r.IsSettled = 1 ↔ (r.GameStatus = 6 ∨ r.GameStatus = 7)) ∧
      (r.GameStatus = 5 → r.GameResult = 0)) ∧
    (∀ (env : Env) (inp : GameEventInput), inp.EventType = 5 →
      roundStatus st inp.GameRoundID = some 5 →
      (Handle env st inp).1 ≠ none ∧ (Handle env st inp).2 = st ∧
      ((∀ op, env.dbErr op = false) →
        (Handle env st inp).1 = some ErrGameEndWithoutDrawResult)) ∧
    (∀ (st1 : State) (id : String), Step st st1 → roundStatus st id = some 5 →
      roundStatus st1 id ≠ some 7) := by
  have hinv := Reachable_RoundInv st h
  have hdrawn : ∀ r ∈ st.db.rounds, r.GameStatus = 5 → r.GameResult = 0 := by
    intro r hr h5
    by_contra hne
    obtain ⟨ha, hb⟩ := hinv.settled r hr
    rcases hb.mp (ha.mp hne) with h2 | h2 <;> rw [h5] at h2 <;> exact absurd h2 (by decide)
  refine ⟨fun r hr => ⟨(hinv.settled r hr).1, (hinv.settled r hr).2, hdrawn r hr⟩, ?_, ?_⟩
  · intro env inp hevt hst
    obtain ⟨r0, hfind, h5, hid, hmem⟩ := roundStatus_some _ _ _ hst
    have hres : r0.GameResult = 0 := hdrawn r0 hmem h5
    have hevs : eventCodeToString inp.EventType = EvtGameEnd := by
      rw [hevt]
      decide
    have hname : inp.GameRoundID ≠ "" := by
      rw [← hid]
      exact hinv.ids_named r0 hmem
    have hrange : ¬ (inp.GameRoundID = "" ∨ inp.EventType < 1 ∨ inp.EventType > 5) := by
      rw [hevt]
      simp [hname]
    cases htx : handleTx env st.db inp EvtGameEnd with
    | ok q =>
      exfalso
      obtain ⟨db1, s, t⟩ := q
      obtain ⟨rs0, r1, nxt, hrs, hf1, _, _, _, _, hend⟩ := handleTx_ok _ _ _ _ _ _ _ htx
      have hrs0 : rs0 = st.db.rounds := by
        rcases hrs with e | ⟨e, _, _⟩
        · exact e
        · exact absurd e (by decide)
      rw [hrs0, hfind] at hf1
      cases hf1
      exact (hend rfl).1 hres
    | error e =>
      have hH : Handle env st inp = (some e, st) := by
        unfold Handle
        simp only [hrange, if_false, hevs, htx]
      rw [hH]
      refine ⟨by simp, rfl, ?_⟩
      intro hno
      have := (handleTx_game_end env st.db inp r0 hno hfind (Or.inl h5)).1 (Or.inl hres)
      rw [this] at htx
      cases htx
      rfl
  · intro st1 id hs hst
    obtain ⟨r0, hfind, h5, hid, hmem⟩ := roundStatus_some _ _ _ hst
    have hsame : ∀ st2 : State, st2.db.rounds = st.db.rounds → roundStatus st2 id ≠ some 7 := by
      intro st2 e
      unfold roundStatus
      rw [e, hfind]
      simp only [Option.map_some', h5]
      decide
    cases hs with
    | bet env _ inp => exact hsame _ (PlaceBet_rounds env st inp)
    | expire _ r fam k hkv => exact hsame _ rfl
    | draw env _ inp =>
      rcases SubmitDrawResult_cases env st inp with e | ⟨db1, n, p, htx, _, e⟩
      · rw [e]
        exact hsame _ rfl
      · obtain ⟨_, _, _, _, _, hrounds⟩ := submitDrawTx_ok _ _ _ _ _ _ _ htx
        rw [e]
        unfold roundStatus
        show (db1.rounds.find? _).map _ ≠ _
        have hkeep : ∀ r : GameRoundInfo,
            (if r.GameRoundID = inp.GameRoundID then
              drawRow env inp (decideResult inp.CardList) r else r).GameRoundID =
              r.GameRoundID := by
          intro r
          split_ifs <;> rfl
        rw [hrounds, find_map_keep _ _ hkeep, hfind]
        simp only [Option.map_some']
        split_ifs
        · show some (6 : Int) ≠ some 7
          decide
        · rw [h5]
          decide
    | event env _ inp =>
      rcases Handle_cases env st inp with e | ⟨db1, s, t, htx, _, e⟩
      · rw [e]
        exact hsame _ rfl
      · obtain ⟨rs0, r1, nxt, hrs, hf1, hnext, hrounds, _, _, hend⟩ :=
          handleTx_ok _ _ _ _ _ _ _ htx
        have hf0 : rs0.find? (fun r => r.GameRoundID = id) = some r0 := by
          rcases hrs with e1 | ⟨_, _, e1⟩
          · rw [e1]
            exact hfind
          · rw [e1, List.find?_append, hfind]
            rfl
        rw [e]
        unfold roundStatus
        show (db1.rounds.find? _).map _ ≠ _
        have hkeep : ∀ r : GameRoundInfo,
            (if r.GameRoundID = inp.GameRoundID then
              handleRow env (eventCodeToString inp.EventType) (stateToCode nxt) r
              else r).GameRoundID = r.GameRoundID := by
          intro r
          split_ifs
          · exact handleRow_id _ _ _ _
          · rfl
        rw [hrounds, find_map_keep _ _ hkeep, hf0]
        simp only [Option.map_some']
        by_cases hc : r0.GameRoundID = inp.GameRoundID
        · rw [if_pos hc, handleRow_status]
          have hidd : id = inp.GameRoundID := hid.symm.trans hc
          rw [hidd, hf1] at hf0
          cases hf0
          rw [h5] at hnext
          rcases NextState_settled _ _ _ hnext with ⟨_, _, _, n7⟩ | ⟨_, he, _⟩ | ⟨h6, _⟩
          · intro h7
            exact n7 (Option.some.inj h7)
          · exact absurd (hdrawn _ hmem h5) (hend he).1
          · exact absurd h6 (by decide)
        · rw [if_neg hc, h5]
          decide

/-- The round `R1` drawn: its result code is 0 and it is not marked as
settled, `game_end` is refused with `ErrGameEndWithoutDrawResult` and nothing
changes. -/
theorem drawn_never_finished_witness :
    sampleDrawn.db.rounds.map (fun r => (r.GameStatus, r.GameResult, r.IsSettled)) =
      [(5, 0, 0)] ∧
    Handle sampleEnv sampleDrawn (sampleEvent 5) =
      (some ErrGameEndWithoutDrawResult, sampleDrawn) ∧
    sampleSettled.db.rounds.map (fun r => (r.GameStatus, r.GameResult, r.IsSettled)) =
      [(6, 1, 1)] ∧
    ((Handle sampleEnv sampleDrawn (sampleEvent 5)).1 ≠ none ∧
      (Handle sampleEnv sampleDrawn (sampleEvent 5)).2 = sampleDrawn ∧
      ((∀ op, sampleEnv.dbErr op = false) →
        (Handle sampleEnv sampleDrawn (sampleEvent 5)).1 =
          some ErrGameEndWithoutDrawResult)) :=
  ⟨by decide, by decide, by decide,
    (drawn_never_finished sampleDrawn sampleDrawn_reachable).2.1 sampleEnv (sampleEvent 5)
      (by decide) (by decide)⟩

/-! ## The answers of the bet endpoint -/

/-- C27: a bet of `2000.00` by a user with balance `1000.00` in a betting round
passes the request validation, `PlaceBet` refuses it with `insufficient
balance`, and the endpoint answers HTTP 400 with business code 1000
(`CodeBadRequest`), not with `CodeInsufficientBalance` (2007), whose message
the answer carries. -/
theorem Bet_insufficient_balance :
    (ValidateBet sampleParsedOver).1 = true ∧
    (Bet sampleEnv sampleBetting sampleParsedOver sampleAuth "T") =
      (.served (.error (.msg "insufficient balance")), sampleBetting) ∧
    betAnswer (Bet sampleEnv sampleBetting sampleParsedOver sampleAuth "T").1 =
      { Status := 400, RetryAfter := none,
        Body := { Code := 1000, Message := "余额不足", Data := none } } ∧
    (betAnswer (Bet sampleEnv sampleBetting sampleParsedOver sampleAuth "T").1).Body.Code ≠
      CodeInsufficientBalance ∧
    getErrorMessage CodeInsufficientBalance = "余额不足" ∧
    betErrorAnswer (.msg "insufficient balance") = response.BadRequest "余额不足" := by
  refine ⟨by decide, by decide, by decide, by decide, by decide, by decide⟩

theorem errorsIs_msg_unique (err : Err) (t1 t2 : String)
    (h1 : errorsIs err (.msg t1) = true) (h2 : errorsIs err (.msg t2) = true) : t1 = t2 := by
  induction err with
  | msg t =>
    unfold errorsIs at h1 h2
    simp only [Bool.or_false, decide_eq_true_eq, Err.msg.injEq] at h1 h2
    rw [← h1, ← h2]
  | mysql n t =>
    unfold errorsIs at h1
    simp at h1
  | wrap p e ih =>
    unfold errorsIs at h1 h2
    simp only [reduceCtorEq, decide_False, Bool.false_or] at h1 h2
    exact ih h1 h2

theorem errorsIs_not_mysql (err : Err) (t : String) (h : errorsIs err (.msg t) = true) :
    isMySQL1062 err = false := by
  cases err with
  | msg t0 => rfl
  | mysql n t0 =>
    unfold errorsIs at h
    simp at h
  | wrap p e => rfl

theorem errorsIs_other (err : Err) (t1 t2 : String) (hne : t1 ≠ t2)
    (h1 : errorsIs err (.msg t1) = true) : errorsIs err (.msg t2) = false := by
  cases h2 : errorsIs err (.msg t2) with
  | false => rfl
  | true => exact absurd (errorsIs_msg_unique err t1 t2 h1 h2) hne

/-- C28: the answers of the bet endpoint to the errors of `PlaceBet`, as HTTP
status and business code: `ErrDuplicateInFlight` gives (202, 2001) with the
header `Retry-After: 1`; `ErrInvalidStateBet` (409, 2003); `ErrBetWindowNotStart`
(409, 2004); `ErrBetWindowClosed` (409, 2005); `ErrConflictingPlayTypes`
(409, 2006); every failure of the amount validation (400, 1000); and an error
that no branch of the mapping recognises (500, 5000). -/
theorem betErrorAnswer_mapping :
    (∀ err, errorsIs err ErrDuplicateInFlight = true →
      (betErrorAnswer err).Status = 202 ∧ (betErrorAnswer err).Body.Code = 2001 ∧
      (betErrorAnswer err).RetryAfter = some "1") ∧
    (∀ err, errorsIs err ErrInvalidStateBet = true →
      (betErrorAnswer err).Status = 409 ∧ (betErrorAnswer err).Body.Code = 2003) ∧
    (∀ err, errorsIs err ErrBetWindowNotStart = true →
      (betErrorAnswer err).Status = 409 ∧ (betErrorAnswer err).Body.Code = 2004) ∧
    (∀ err, errorsIs err ErrBetWindowClosed = true →
      (betErrorAnswer err).Status = 409 ∧ (betErrorAnswer err).Body.Code = 2005) ∧
    (∀ err, errorsIs err ErrConflictingPlayTypes = true →
      (betErrorAnswer err).Status = 409 ∧ (betErrorAnswer err).Body.Code = 2006) ∧
    (∀ amount err, validateBetAmount amount = .error err →
      (betErrorAnswer err).Status = 400 ∧ (betErrorAnswer err).Body.Code = 1000) ∧
    (∀ err, isMySQL1062 err = false →
      errorsIs err ErrDuplicateInFlight = false → errorsIs err ErrInvalidStateBet = false →
      errorsIs err ErrBetWindowNotStart = false → errorsIs err ErrBetWindowClosed = false →
      errorsIs err ErrConflictingPlayTypes = false →
      Contains err.Error.toList "invalid bet amount".toList = false →
      Contains err.Error.toList "bet amount must be positive".toList = false →
      Contains err.Error.toList "below minimum limit".toList = false →
      Contains err.Error.toList "exceeds maximum limit".toList = false →
      Contains err.Error.toList "insufficient balance".toList = false →
      Contains err.Error.toList "user disabled".toList = false →
      (betErrorAnswer err).Status = 500 ∧ (betErrorAnswer err).Body.Code = 5000) := by
  refine ⟨?_, ?_, ?_, ?_, ?_, ?_, ?_⟩
  · intro err h
    have h0 := errorsIs_not_mysql err _ h
    unfold betErrorAnswer
    simp only [h0, h, Bool.false_eq_true, if_false, if_true]
    exact ⟨rfl, rfl, rfl⟩
  · intro err h
    have h0 := errorsIs_not_mysql err _ h
    have h1 : errorsIs err ErrDuplicateInFlight = false :=
      errorsIs_other err _ _ (by decide) h
    unfold betErrorAnswer
    simp only [h0, h1, h, Bool.false_eq_true, if_false, if_true]
    exact ⟨rfl, rfl⟩
  · intro err h
    have h0 := errorsIs_not_mysql err _ h
    have h1 : errorsIs err ErrDuplicateInFlight = false :=
      errorsIs_other err _ _ (by decide) h
    have h2 : errorsIs err ErrInvalidStateBet = false :=
      errorsIs_other err _ _ (by decide) h
    unfold betErrorAnswer
    simp only [h0, h1, h2, h, Bool.false_eq_true, if_false, if_true]
    exact ⟨rfl, rfl⟩
  · intro err h
    have h0 := errorsIs_not_mysql err _ h
    have h1 : errorsIs err ErrDuplicateInFlight = false :=
      errorsIs_other err _ _ (by decide) h
    have h2 : errorsIs err ErrInvalidStateBet = false :=
      errorsIs_other err _ _ (by decide) h
    have h3 : errorsIs err ErrBetWindowNotStart = false :=
      errorsIs_other err _ _ (by decide) h
    unfold betErrorAnswer
    simp only [h0, h1, h2, h3, h, Bool.false_eq_true, if_false, if_true]
    exact ⟨rfl, rfl⟩
  · intro err h
    have h0 := errorsIs_not_mysql err _ h
    have h1 : errorsIs err ErrDuplicateInFlight = false :=
      errorsIs_other err _ _ (by decide) h
    have h2 : errorsIs err ErrInvalidStateBet = false :=
      errorsIs_other err _ _ (by decide) h
    have h3 : errorsIs err ErrBetWindowNotStart = false :=
      errorsIs_other err _ _ (by decide) h
    have h4 : errorsIs err ErrBetWindowClosed = false :=
      errorsIs_other err _ _ (by decide) h
    unfold betErrorAnswer
    simp only [h0, h1, h2, h3, h4, h, Bool.false_eq_true, if_false, if_true]
    exact ⟨rfl, rfl⟩
  · intro amount err h
    have hcases : err = .msg "invalid bet amount format" ∨
        err = .msg "bet amount must be positive" ∨
        err = .msg "bet amount below minimum limit: 0.01" ∨
        err = .msg "bet amount exceeds maximum limit: 1000000" := by
      unfold validateBetAmount at h
      split at h
      · simp only [Except.error.injEq] at h
        exact Or.inl h.symm
      · simp only [] at h
        split_ifs at h
        · simp only [Except.error.injEq] at h
          exact Or.inr (Or.inl h.symm)
        · simp only [Except.error.injEq] at h
          exact Or.inr (Or.inr (Or.inl h.symm))
        · simp only [Except.error.injEq] at h
          exact Or.inr (Or.inr (Or.inr h.symm))
    rcases hcases with e | e | e | e <;> rw [e] <;> exact ⟨by decide, by decide⟩
  · intro err h0 h1 h2 h3 h4 h5 c1 c2 c3 c4 c5 c6
    unfold betErrorAnswer
    simp only [h0, h1, h2, h3, h4, h5, c1, c2, c3, c4, c5, c6, Bool.false_eq_true, if_false,
      Bool.or_self]
    exact ⟨rfl, rfl⟩

/-- The answers to the five sentinel errors of `PlaceBet`, to the amount
`0.001`, which is below the minimum, and to a failing SQL call. -/
theorem betErrorAnswer_mapping_witness :
    ((betErrorAnswer ErrDuplicateInFlight).Status = 202 ∧
      (betErrorAnswer ErrDuplicateInFlight).Body.Code = 2001 ∧
      (betErrorAnswer ErrDuplicateInFlight).RetryAfter = some "1") ∧
    ((betErrorAnswer ErrInvalidStateBet).Status = 409 ∧
      (betErrorAnswer ErrInvalidStateBet).Body.Code = 2003) ∧
    ((betErrorAnswer ErrBetWindowNotStart).Status = 409 ∧
      (betErrorAnswer ErrBetWindowNotStart).Body.Code = 2004) ∧
    ((betErrorAnswer ErrBetWindowClosed).Status = 409 ∧
      (betErrorAnswer ErrBetWindowClosed).Body.Code = 2005) ∧
    ((betErrorAnswer ErrConflictingPlayTypes).Status = 409 ∧
      (betErrorAnswer ErrConflictingPlayTypes).Body.Code = 2006) ∧
    validateBetAmount "0.001" = .error (.msg "bet amount below minimum limit: 0.01") ∧
    ((betErrorAnswer (.msg "bet amount below minimum limit: 0.01")).Status = 400 ∧
      (betErrorAnswer (.msg "bet amount below minimum limit: 0.01")).Body.Code = 1000) ∧
    ((betErrorAnswer ErrBadConn).Status = 500 ∧ (betErrorAnswer ErrBadConn).Body.Code = 5000) :=
  ⟨betErrorAnswer_mapping.1 ErrDuplicateInFlight (by decide),
    betErrorAnswer_mapping.2.1 ErrInvalidStateBet (by decide),
    betErrorAnswer_mapping.2.2.1 ErrBetWindowNotStart (by decide),
    betErrorAnswer_mapping.2.2.2.1 ErrBetWindowClosed (by decide),
    betErrorAnswer_mapping.2.2.2.2.1 ErrConflictingPlayTypes (by decide),
    by decide,
    betErrorAnswer_mapping.2.2.2.2.2.1 "0.001" _ (by decide),
    betErrorAnswer_mapping.2.2.2.2.2.2 ErrBadConn (by decide) (by decide) (by decide)
      (by decide) (by decide) (by decide) (by decide) (by decide) (by decide) (by decide)
      (by decide) (by decide)⟩

/-! ## Luhn check digits -/

theorem digit_toNat (k : Fin 10) : (Char.ofNat (48 + k.val)).toNat = 48 + k.val := by
  revert k
  decide

theorem digit_toNat_of_lt (k : Nat) (h : k < 10) : (Char.ofNat (48 + k)).toNat = 48 + k :=
  digit_toNat ⟨k, h⟩

theorem digit_bounds (c : Char) (h : (c < '0' || c > '9') = false) :
    48 ≤ c.toNat ∧ c.toNat ≤ 57 := by
  simp only [Bool.or_eq_false_iff, decide_eq_false_iff_not, Char.lt_def, gt_iff_lt,
    UInt32.lt_def, BitVec.lt_def] at h
  obtain ⟨h1, h2⟩ := h
  have h1 : ¬ (c.toNat < 48) := h1
  have h2 : ¬ (57 < c.toNat) := h2
  omega

theorem digit_of_bounds (c : Char) (h1 : 48 ≤ c.toNat) (h2 : c.toNat ≤ 57) :
    (c < '0' || c > '9') = false := by
  simp only [Bool.or_eq_false_iff, decide_eq_false_iff_not, Char.lt_def, gt_iff_lt,
    UInt32.lt_def, BitVec.lt_def]
  constructor
  · show ¬ (c.toNat < 48)
    omega
  · show ¬ (57 < c.toNat)
    omega

theorem digit_ofNat (k : Nat) (h : k < 10) :
    (Char.ofNat (48 + k) < '0' || Char.ofNat (48 + k) > '9') = false := by
  apply digit_of_bounds <;> rw [digit_toNat_of_lt k h] <;> omega

theorem luhnStep_eq (s : Nat) (b : Bool) (c : Char) :
    luhnStep (s, b) c = (s + (luhnStep (0, b) c).1, !b) := by
  unfold luhnStep
  simp only [Nat.zero_add]

theorem foldl_luhnStep (l : List Char) (s : Nat) (b : Bool) :
    (l.foldl luhnStep (s, b)).1 = s + (l.foldl luhnStep (0, b)).1 := by
  induction l generalizing s b with
  | nil => rfl
  | cons c cs ih =>
    simp only [List.foldl_cons]
    rw [luhnStep_eq s, ih, luhnStep_eq 0, ih (0 + _)]
    omega

/-- On a body of digits followed by a digit, `LuhnCheck` adds the last digit
to the sum `luhnDigit` forms over the body. -/
theorem LuhnCheck_append (body : List Char) (c : Char)
    (hbody : ∀ x ∈ body, (x < '0' || x > '9') = false)
    (hc : (c < '0' || c > '9') = false) :
    LuhnCheck (body ++ [c]) =
      decide ((c.toNat - 48 + (body.reverse.foldl luhnStep (0, true)).1) % 10 = 0) := by
  have hb := digit_bounds c hc
  unfold LuhnCheck
  have hlen : ¬ ((body ++ [c]).length = 0) := by simp
  have hany : (body ++ [c]).any (fun c => c < '0' || c > '9') = false := by
    rw [List.any_eq_false]
    intro x hx
    rcases List.mem_append.mp hx with h | h
    · rw [hbody x h]
      simp
    · rw [List.mem_singleton.mp h, hc]
      simp
  rw [if_neg hlen, hany]
  simp only [Bool.false_eq_true, if_false, List.reverse_append, List.reverse_cons,
    List.reverse_nil, List.nil_append, List.singleton_append, List.foldl_cons]
  have hstep : luhnStep (0, false) c = (c.toNat - 48, true) := by
    unfold luhnStep
    simp only [Bool.false_eq_true, if_false, Nat.zero_add, Bool.not_false, Prod.mk.injEq,
      and_true]
    omega
  rw [hstep, foldl_luhnStep]

theorem luhnDigit_lt (body : List Char) : luhnDigit body < 10 := by
  unfold luhnDigit
  omega

theorem LuhnCheck_iff (body : List Char) (c : Char)
    (hbody : ∀ x ∈ body, (x < '0' || x > '9') = false)
    (hc : (c < '0' || c > '9') = false) :
    LuhnCheck (body ++ [c]) = true ↔ c = Char.ofNat (48 + luhnDigit body) := by
  have hb := digit_bounds c hc
  rw [LuhnCheck_append body c hbody hc, decide_eq_true_eq]
  have hd := digit_toNat_of_lt _ (luhnDigit_lt body)
  constructor
  · intro h
    have : c.toNat = 48 + luhnDigit body := by
      unfold luhnDigit
      omega
    rw [← Char.ofNat_toNat c, this]
  · intro h
    have : c.toNat = 48 + luhnDigit body := by
      rw [h, hd]
    unfold luhnDigit at this
    omega

theorem randomDigits_ok (rnd : Nat → Except Err (Fin 10)) (count i : Nat) (body : List Char)
    (h : randomDigits rnd count i = .ok body) :
    body.length = count ∧ ∀ x ∈ body, (x < '0' || x > '9') = false := by
  induction count generalizing i body with
  | zero =>
    unfold randomDigits at h
    cases h
    exact ⟨rfl, fun x hx => by cases hx⟩
  | succ k ih =>
    unfold randomDigits at h
    cases hr : rnd i with
    | error e => simp [hr] at h
    | ok n =>
      simp only [hr] at h
      cases hrest : randomDigits rnd k (i + 1) with
      | error e => simp [hrest] at h
      | ok rest =>
        simp only [hrest, Except.ok.injEq] at h
        obtain ⟨h1, h2⟩ := ih _ _ hrest
        rw [← h]
        refine ⟨by simp [h1], ?_⟩
        intro x hx
        rcases List.mem_cons.mp hx with e | e
        · rw [e]
          exact digit_ofNat n.val n.isLt
        · exact h2 x e

theorem randomDigits_total (rnd : Nat → Except Err (Fin 10)) (count i : Nat)
    (h : ∀ j, i ≤ j → j < i + count → ∃ n, rnd j = .ok n) :
    ∃ body, randomDigits rnd count i = .ok body := by
  induction count generalizing i with
  | zero => exact ⟨[], rfl⟩
  | succ k ih =>
    obtain ⟨n, hn⟩ := h i (le_refl _) (by omega)
    obtain ⟨rest, hrest⟩ := ih (i + 1) (fun j h1 h2 => h j (by omega) (by omega))
    refine ⟨Char.ofNat (48 + n.val) :: rest, ?_⟩
    unfold randomDigits
    simp only [hn, hrest]

/-- C29: for every body of digits (of any length, so of length 9) and every
digit `c`, `LuhnCheck` accepts the body followed by `c` iff `c` is the digit
`luhnDigit` computes for the body; every code `Generate9PlusLuhn` returns has
length 10, consists of digits, passes `LuhnCheck`, and fails it once its last
digit `x` is replaced by `(x + 1) mod 10`; and `Generate9PlusLuhn` returns a
code whenever its nine random draws succeed. -/
theorem Luhn_contract :
    (∀ (body : List Char) (c : Char), (∀ x ∈ body, (x < '0' || x > '9') = false) →
      (c < '0' || c > '9') = false →
      (LuhnCheck (body ++ [c]) = true ↔ c = Char.ofNat (48 + luhnDigit body))) ∧
    (∀ (rnd : Nat → Except Err (Fin 10)) (code : List Char),
      Generate9PlusLuhn rnd = .ok code →
      code.length = 10 ∧ (∀ x ∈ code, (x < '0' || x > '9') = false) ∧
      LuhnCheck code = true ∧ LuhnCheck (mutateLast code) = false) ∧
    (∀ rnd : Nat → Except Err (Fin 10), (∀ j, j < 9 → ∃ n, rnd j = .ok n) →
      ∃ code, Generate9PlusLuhn rnd = .ok code) := by
  refine ⟨LuhnCheck_iff, ?_, ?_⟩
  · intro rnd code h
    unfold Generate9PlusLuhn at h
    cases hb : randomDigits rnd 9 0 with
    | error e => simp [hb] at h
    | ok body =>
      simp only [hb, Except.ok.injEq] at h
      obtain ⟨hlen, hdig⟩ := randomDigits_ok _ _ _ _ hb
      have hlt := luhnDigit_lt body
      have hchk := digit_ofNat _ hlt
      have hmut : mutateLast code =
          body ++ [Char.ofNat (48 + (luhnDigit body + 1) % 10)] := by
        unfold mutateLast
        rw [← h]
        have e1 : (body ++ [Char.ofNat (48 + luhnDigit body)]).getD 9 '0' =
            Char.ofNat (48 + luhnDigit body) := by
          rw [List.getD_eq_getElem?_getD, List.getElem?_append_right (by omega)]
          simp [hlen]
        rw [e1, digit_toNat_of_lt _ hlt, List.set_append_right _ _ (by omega)]
        simp only [hlen, Nat.sub_self, List.set_cons_zero]
        have : (48 + luhnDigit body + 256 - 48) % 256 = luhnDigit body := by omega
        rw [this]
      rw [hmut, ← h]
      refine ⟨by simp [hlen], ?_, ?_, ?_⟩
      · intro x hx
        rcases List.mem_append.mp hx with e | e
        · exact hdig x e
        · rw [List.mem_singleton.mp e]
          exact hchk
      · exact (LuhnCheck_iff body _ hdig hchk).mpr rfl
      · have hlt2 : (luhnDigit body + 1) % 10 < 10 := by omega
        cases hL : LuhnCheck (body ++ [Char.ofNat (48 + (luhnDigit body + 1) % 10)]) with
        | false => rfl
        | true =>
          exfalso
          have e2 := (LuhnCheck_iff body _ hdig (digit_ofNat _ hlt2)).mp hL
          have e3 := congrArg Char.toNat e2
          rw [digit_toNat_of_lt _ hlt2, digit_toNat_of_lt _ hlt] at e3
          omega
  · intro rnd hr
    obtain ⟨body, hb⟩ := randomDigits_total rnd 9 0 (fun j _ h2 => hr j (by omega))
    refine ⟨body ++ [Char.ofNat (48 + luhnDigit body)], ?_⟩
    unfold Generate9PlusLuhn
    simp only [hb]

/-- The body `307418529` has check digit 3; the draws 3, 0, 7, 4, 1, 8, 5, 2, 9
give the code `3074185293`, which the mutation turns into `3074185294`. -/
theorem Luhn_contract_witness :
    luhnDigit "307418529".toList = 3 ∧
    (LuhnCheck ("307418529".toList ++ ['3']) = true ↔
      '3' = Char.ofNat (48 + luhnDigit "307418529".toList)) ∧
    Generate9PlusLuhn (fun i => .ok (Fin.ofNat (i * 7 + 3))) = .ok "3074185293".toList ∧
    mutateLast "3074185293".toList = "3074185294".toList ∧
    ("3074185293".toList.length = 10 ∧
      (∀ x ∈ "3074185293".toList, (x < '0' || x > '9') = false) ∧
      LuhnCheck "3074185293".toList = true ∧
      LuhnCheck (mutateLast "3074185293".toList) = false) :=
  ⟨by decide,
    Luhn_contract.1 "307418529".toList '3' (by decide) (by decide),
    by decide, by decide,
    Luhn_contract.2.1 (fun i => .ok (Fin.ofNat (i * 7 + 3))) "3074185293".toList (by decide)⟩

/-! ## What the settlement writes -/

theorem settleLedger_ok (env : Env) (inp : DrawInput) (rows : List (Order × Dec)) :
    ∀ (cur : Dec) (tx tx1 : DB), settleLedger env inp rows cur tx = .ok tx1 →
      tx1 = { tx with ledger := tx.ledger ++ settleLedgerRows inp rows cur } := by
  induction rows with
  | nil =>
    intro cur tx tx1 h
    simp only [settleLedger, Except.ok.injEq] at h
    rw [← h]
    simp [settleLedgerRows]
  | cons p rest ih =>
    intro cur tx tx1 h
    obtain ⟨o, payoutDec⟩ := p
    simp only [settleLedger] at h
    split at h
    · cases h
    · rename_i tx2 h2
      rw [ih _ _ _ h, WalletLedger_Insert_ok _ _ _ _ h2]
      simp only [settleLedgerRows, List.append_assoc, List.singleton_append]
      rfl

theorem GetUserByIDForUpdate_ok (env : Env) (tx : DB) (userID : Int) (u : Customers)
    (h : GetUserByIDForUpdate env tx userID = .ok u) :
    tx.customers.find? (fun u => u.ID = userID) = some u := by
  unfold GetUserByIDForUpdate at h
  split_ifs at h
  split at h
  · rename_i u1 hu
    cases h
    exact hu
  · cases h

theorem settleUsers_ok (env : Env) (inp : DrawInput) (users : List userSettlement) :
    ∀ (tx tx1 : DB), settleUsers env inp users tx = .ok tx1 →
      tx1 = { tx with customers := settleUsersCustomers users tx.customers,
                      ledger := tx.ledger ++ settleUsersRows inp users tx.customers } := by
  induction users with
  | nil =>
    intro tx tx1 h
    simp only [settleUsers, Except.ok.injEq] at h
    rw [← h]
    simp [settleUsersCustomers, settleUsersRows]
  | cons us rest ih =>
    intro tx tx1 h
    simp only [settleUsers] at h
    split at h
    · cases h
    · rename_i user hu
      have hfind := GetUserByIDForUpdate_ok _ _ _ _ hu
      have hbal : balanceOf tx.customers us.userID = user.Balance := by
        unfold balanceOf
        rw [hfind]
      split at h
      · cases h
      · rename_i tx2 h2
        split at h
        · cases h
        · rename_i tx3 h3
          rw [ih _ _ h, settleLedger_ok _ _ _ _ _ _ h3, UpdateUserBalance_ok _ _ _ _ _ h2]
          simp only [settleUsersCustomers, settleUsersRows, creditUser, creditedBalance,
            balanceRead, balanceDec, hbal, List.append_assoc]

theorem settleUsers_found (env : Env) (inp : DrawInput) (users : List userSettlement) :
    ∀ (tx tx1 : DB), settleUsers env inp users tx = .ok tx1 →
      ∀ us ∈ users, ∃ u ∈ tx.customers, u.ID = us.userID := by
  induction users with
  | nil =>
    intro tx tx1 _ us hus
    cases hus
  | cons us0 rest ih =>
    intro tx tx1 h us hus
    simp only [settleUsers] at h
    split at h
    · cases h
    · rename_i user hu
      have hfind := GetUserByIDForUpdate_ok _ _ _ _ hu
      split at h
      · cases h
      · rename_i tx2 h2
        split at h
        · cases h
        · rename_i tx3 h3
          rcases List.mem_cons.mp hus with e | e
          · rw [e]
            refine ⟨user, List.mem_of_find?_eq_some hfind, ?_⟩
            have := List.find?_some hfind
            simpa using this
          · obtain ⟨u, hu1, hu2⟩ := ih _ _ h us e
            rw [settleLedger_ok _ _ _ _ _ _ h3, UpdateUserBalance_ok _ _ _ _ _ h2] at hu1
            simp only [List.mem_map] at hu1
            obtain ⟨u0, hu0, rfl⟩ := hu1
            refine ⟨u0, hu0, ?_⟩
            rw [← hu2]
            split_ifs <;> rfl

/-! ## The outbox rows of the service -/

theorem OutboxGrows_trans {a b c : List Outbox} (h1 : OutboxGrows a b) (h2 : OutboxGrows b c) :
    OutboxGrows a c := by
  induction h2 with
  | refl => exact h1
  | insert c0 row _ hid hs hr ih => exact OutboxGrows.insert a c0 row ih hid hs hr

theorem OutboxGrows_of_eq {a b : List Outbox} (h : b = a) : OutboxGrows a b := by
  rw [h]
  exact OutboxGrows.refl a

theorem CreateOutbox_grows (env : Env) (tx tx1 : DB) (topic bizKey : String)
    (payload : List (String × JVal)) (h : CreateOutbox env tx topic bizKey payload = .ok tx1) :
    OutboxGrows tx.outbox tx1.outbox := by
  rw [CreateOutbox_ok _ _ _ _ _ _ h]
  exact OutboxGrows.insert _ _ _ (OutboxGrows.refl _) rfl rfl rfl

theorem placeBetWrites_grows (env : Env) (tx1 tx2 : DB) (inp : BetInput) (user : Customers)
    (a odds afterDec : Dec) (billNo : String)
    (h : placeBetWrites env tx1 inp user a odds billNo = .ok (tx2, afterDec)) :
    OutboxGrows tx1.outbox tx2.outbox := by
  unfold placeBetWrites at h
  by_cases h1 : user.Status = 1
  · by_cases h2 : (balanceDec user).Cmp a < 0
    · simp [h1, h2] at h
    · simp only [h1, h2, ne_eq, not_true_eq_false, if_false] at h
      cases hu : UpdateUserBalance env tx1 user.ID
          (((balanceDec user).Sub a).Round 2).InexactFloat64 with
      | error e => simp [hu] at h
      | ok t1 =>
        simp only [hu] at h
        have e1 := UpdateUserBalance_ok _ _ _ _ _ hu
        cases hli : (betLedger inp user a billNo).Insert env t1 with
        | error e => simp [hli] at h
        | ok t2 =>
          simp only [hli] at h
          have e2 := WalletLedger_Insert_ok _ _ _ _ hli
          cases hoi : (betOrder inp user a odds billNo).Insert env t2 with
          | error e => simp [hoi] at h
          | ok t3 =>
            simp only [hoi] at h
            obtain ⟨_, e3⟩ := Order_Insert_ok _ _ _ _ hoi
            cases hob : CreateOutbox env t3 "bet_placed" billNo (betPayload inp user billNo) with
            | error e => simp [hob] at h
            | ok t4 =>
              simp only [hob, Except.ok.injEq, Prod.mk.injEq] at h
              have g := CreateOutbox_grows _ _ _ _ _ _ hob
              have e : t3.outbox = tx1.outbox := by rw [e3, e2, e1]
              rw [e, h.1] at g
              exact g
  · simp [h1] at h

theorem PlaceBet_grows (env : Env) (st : State) (inp : BetInput) :
    OutboxGrows st.db.outbox (PlaceBet env st inp).2.db.outbox := by
  rcases PlaceBet_cases env st inp with h | ⟨a, kv, locked, user, tx, round, tx1, tx2, afterDec,
    _, _, hc, _, hdb, _⟩
  · rw [h]
    exact OutboxGrows.refl _
  · have g := placeBetWrites_grows _ _ _ _ _ _ _ _ _ hc.writes_ok
    obtain ⟨_, e1⟩ := IdempotencyKey_Insert_ok _ _ _ _ hc.idem_ok
    have e : tx1.outbox = st.db.outbox := by
      rw [e1]
      rcases getOrCreateUserInTx_ok _ _ _ _ _ _ _ hc.user_ok with h1 | h1 <;> rw [h1.1]
    rw [hdb]
    rw [e] at g
    exact g

theorem handleOutbox_grows (env : Env) (tx tx1 : DB) (inp : GameEventInput) (evtStr : String)
    (s t : Int) (h : handleOutbox env tx inp evtStr s t = .ok tx1) :
    OutboxGrows tx.outbox tx1.outbox := by
  unfold handleOutbox at h
  simp only [] at h
  split at h
  · cases h
  · rename_i ta ha
    have ga : OutboxGrows tx.outbox ta.outbox := by
      split_ifs at ha
      · exact CreateOutbox_grows _ _ _ _ _ _ ha
      · cases ha
        exact OutboxGrows.refl _
    split at h
    · cases h
    · rename_i tb hb
      have gb : OutboxGrows ta.outbox tb.outbox := by
        split_ifs at hb
        · exact CreateOutbox_grows _ _ _ _ _ _ hb
        · cases hb
          exact OutboxGrows.refl _
      have gc : OutboxGrows tb.outbox tx1.outbox := by
        split_ifs at h
        · exact CreateOutbox_grows _ _ _ _ _ _ h
        · cases h
          exact OutboxGrows.refl _
      exact OutboxGrows_trans (OutboxGrows_trans ga gb) gc

theorem handleTx_grows (env : Env) (db db1 : DB) (inp : GameEventInput) (evtStr : String)
    (s t : Int) (h : handleTx env db inp evtStr = .ok (db1, s, t)) :
    OutboxGrows db.outbox db1.outbox := by
  unfold handleTx at h
  by_cases hb : env.dbErr .beginTx = true
  · simp [hb] at h
  · simp only [hb, Bool.false_eq_true, if_false] at h
    have hens : ∃ tx, (if evtStr = EvtGameStart then
          EnsureOnStart env db inp.GameRoundID inp.GameID inp.RoomID inp.TraceID
        else .ok db) = .ok tx := by
      cases hx : (if evtStr = EvtGameStart then
          EnsureOnStart env db inp.GameRoundID inp.GameID inp.RoomID inp.TraceID
        else .ok db) with
      | error e => simp [hx] at h
      | ok tx => exact ⟨tx, rfl⟩
    obtain ⟨tx, htx⟩ := hens
    simp only [htx] at h
    have hox : tx.outbox = db.outbox := by
      split_ifs at htx with he
      · rcases EnsureOnStart_ok _ _ _ _ _ _ _ htx with h1 | h1 <;> rw [h1.1]
      · simp only [Except.ok.injEq] at htx
        rw [← htx]
    cases hst : GetStatusForUpdate env tx inp.GameRoundID with
    | error e => simp [hst] at h
    | ok prevStatus =>
      simp only [hst] at h
      cases hn : NextState (codeToState prevStatus) evtStr with
      | mk nxt eo =>
        cases eo with
        | some e => simp [hn] at h
        | none =>
          simp only [hn] at h
          cases hef : handleEventEffects env tx inp evtStr with
          | error e => simp [hef] at h
          | ok q =>
            obtain ⟨tx1, s1, t1⟩ := q
            simp only [hef] at h
            obtain ⟨e1, _, _⟩ := handleEventEffects_ok _ _ _ _ _ _ _ hef
            cases hup : UpdateState env tx1 inp.GameRoundID (stateToCode nxt) with
            | error e => simp [hup] at h
            | ok tx2 =>
              simp only [hup] at h
              have e2 := UpdateState_ok _ _ _ _ _ hup
              have hox2 : tx2.outbox = db.outbox := by
                rw [e2, e1]
                exact hox
              cases hob : handleOutbox env tx2 inp evtStr s1 t1 with
              | error e => simp [hob] at h
              | ok tx3 =>
                simp only [hob] at h
                have g := handleOutbox_grows _ _ _ _ _ _ _ hob
                split at h
                · cases h
                · rename_i tx4 hau
                  have e4 := GameEventAudit_Insert_ok _ _ _ _ hau
                  split_ifs at h
                  simp only [Except.ok.injEq, Prod.mk.injEq] at h
                  obtain ⟨h1, _, _⟩ := h
                  subst h1
                  rw [hox2] at g
                  rw [e4]
                  exact g

theorem Handle_grows (env : Env) (st : State) (inp : GameEventInput) :
    OutboxGrows st.db.outbox (Handle env st inp).2.db.outbox := by
  rcases Handle_cases env st inp with h | ⟨db1, s, t, htx, _, hst⟩
  · rw [h]
    exact OutboxGrows.refl _
  · rw [hst]
    exact handleTx_grows _ _ _ _ _ _ _ htx

theorem settleOutbox_grows (env : Env) (inp : DrawInput) (res : String) (orders : List Order) :
    ∀ (tx tx1 : DB), settleOutbox env inp res orders tx = .ok tx1 →
      OutboxGrows tx.outbox tx1.outbox ∧ tx1.customers = tx.customers ∧
        tx1.ledger = tx.ledger := by
  induction orders with
  | nil =>
    intro tx tx1 h
    simp only [settleOutbox, Except.ok.injEq] at h
    rw [← h]
    exact ⟨OutboxGrows.refl _, rfl, rfl⟩
  | cons o rest ih =>
    intro tx tx1 h
    simp only [settleOutbox] at h
    split at h
    · cases h
    · rename_i tx2 h2
      obtain ⟨g, c, l⟩ := ih _ _ h
      refine ⟨OutboxGrows_trans (CreateOutbox_grows _ _ _ _ _ _ h2) g, ?_, ?_⟩
      · rw [c, CreateOutbox_ok _ _ _ _ _ _ h2]
      · rw [l, CreateOutbox_ok _ _ _ _ _ _ h2]

/-- The users, the ledger and the outbox after the settlement proper: the
credits and the ledger rows of the third loop, on the pending orders of the
round grouped by user, and new outbox rows. -/
theorem settleRound_writes (env : Env) (tx tx1 : DB) (inp : DrawInput) (res : String) (n : Int)
    (p : Float64) (h : settleRound env tx inp res = .ok (tx1, n, p)) :
    tx1.customers = settleUsersCustomers
      (groupByUser res ((tx.orders.filter (isPending inp.GameRoundID)).map listedOrder))
      tx.customers ∧
    tx1.ledger = tx.ledger ++ settleUsersRows inp
      (groupByUser res ((tx.orders.filter (isPending inp.GameRoundID)).map listedOrder))
      tx.customers ∧
    OutboxGrows tx.outbox tx1.outbox ∧
    (∀ us ∈ groupByUser res ((tx.orders.filter (isPending inp.GameRoundID)).map listedOrder),
      ∃ u ∈ tx.customers, u.ID = us.userID) := by
  unfold settleRound at h
  cases hl : ListByRoundForUpdate env tx inp.GameRoundID with
  | error e => simp [hl] at h
  | ok orders =>
    simp only [hl] at h
    have hos := ListByRoundForUpdate_ok _ _ _ _ hl
    cases ho : settleOrders env res (resultToCode res) orders tx ⟨0, 0⟩ with
    | error e => simp [ho] at h
    | ok q =>
      obtain ⟨t1, total⟩ := q
      simp only [ho] at h
      have e1 := settleOrders_ok _ _ _ _ _ _ _ _ ho
      cases hu : settleUsers env inp (groupByUser res orders) t1 with
      | error e => simp [hu] at h
      | ok t2 =>
        simp only [hu] at h
        have e2 := settleUsers_ok _ _ _ _ _ hu
        have f2 := settleUsers_found _ _ _ _ _ hu
        cases hb : settleOutbox env inp res orders t2 with
        | error e => simp [hb] at h
        | ok t3 =>
          simp only [hb] at h
          obtain ⟨g3, c3, l3⟩ := settleOutbox_grows _ _ _ _ _ _ hb
          cases hm : MarkAsSettled env t3 inp.GameRoundID with
          | error e => simp [hm] at h
          | ok t4 =>
            simp only [hm] at h
            have e4 := MarkAsSettled_ok _ _ _ _ hm
            cases hs : UpdateSettlementStats env t4 inp.GameRoundID orders.length total with
            | error e => simp [hs] at h
            | ok t5 =>
              simp only [hs] at h
              have e5 : t5 = { t4 with settlementLog := t5.settlementLog } := by
                unfold UpdateSettlementStats at hs
                split_ifs at hs
                cases hs
                rfl
              split at h
              · cases h
              · rename_i t6 hau
                have e6 := GameEventAudit_Insert_ok _ _ _ _ hau
                simp only [Except.ok.injEq, Prod.mk.injEq] at h
                obtain ⟨h1, _, _⟩ := h
                subst h1
                have ec : t1.customers = tx.customers := by rw [e1]
                have el : t1.ledger = tx.ledger := by rw [e1]
                have eo : t1.outbox = tx.outbox := by rw [e1]
                rw [e6, e5, e4]
                simp only [updateRound]
                rw [c3, l3, e2, ec, el, ← hos]
                refine ⟨rfl, rfl, ?_, ?_⟩
                · have : t2.outbox = tx.outbox := by rw [e2, eo]
                  rw [this] at g3
                  exact g3
                · intro us hus
                  obtain ⟨u, hu1, hu2⟩ := f2 us hus
                  rw [ec] at hu1
                  exact ⟨u, hu1, hu2⟩

/-- The users, the ledger and the outbox after a settling transaction of
`SubmitDrawResult`: the credits and ledger rows of the paying pending orders
of the round, grouped by user, and new outbox rows. -/
theorem submitDrawTx_effects (env : Env) (db db1 : DB) (inp : DrawInput) (res : String)
    (n : Int) (p : Float64) (h : submitDrawTx env db inp res = .ok (some (db1, n, p))) :
    db1.customers = settleUsersCustomers
      (groupByUser res ((db.orders.filter (isPending inp.GameRoundID)).map listedOrder))
      db.customers ∧
    db1.ledger = db.ledger ++ settleUsersRows inp
      (groupByUser res ((db.orders.filter (isPending inp.GameRoundID)).map listedOrder))
      db.customers ∧
    OutboxGrows db.outbox db1.outbox ∧
    (∀ us ∈ groupByUser res ((db.orders.filter (isPending inp.GameRoundID)).map listedOrder),
      ∃ u ∈ db.customers, u.ID = us.userID) := by
  unfold submitDrawTx at h
  by_cases hb : env.dbErr .beginTx = true
  · simp [hb] at h
  simp only [hb, Bool.false_eq_true, if_false] at h
  cases hst : GetSettlementStatusForUpdate env db inp.GameRoundID with
  | error e =>
    simp only [hst] at h
    split_ifs at h
  | ok q =>
    obtain ⟨statusCode, isSettled⟩ := q
    simp only [hst] at h
    by_cases h1 : isSettled = 1
    · simp [h1] at h
    by_cases h2 : codeToState statusCode = StateDrawn
    · simp only [h1, h2, ne_eq, not_true_eq_false, if_false] at h
      cases hud : UpdateDraw env db inp.GameRoundID inp.CardList res 5 with
      | error e => simp [hud] at h
      | ok tx1 =>
        simp only [hud] at h
        have e1 := UpdateDraw_ok _ _ _ _ _ _ _ hud
        split at h
        · cases h
        · rename_i tx2 h2o
          have e2 := CreateOutbox_ok _ _ _ _ _ _ h2o
          have g2 := CreateOutbox_grows _ _ _ _ _ _ h2o
          split at h
          · split_ifs at h
            cases h
          · rename_i tx3 h3
            have e3 := CreateSettlementLog_ok _ _ _ _ h3
            split at h
            · cases h
            · rename_i tx4 n4 p4 h4
              obtain ⟨c4, l4, g4, f4⟩ := settleRound_writes _ _ _ _ _ _ _ h4
              by_cases hcm : env.dbErr .commit = true
              · simp [hcm] at h
              simp only [hcm, Bool.false_eq_true, if_false, Except.ok.injEq, Option.some.injEq,
                Prod.mk.injEq] at h
              obtain ⟨h5, _, _⟩ := h
              subst h5
              have ec : tx3.customers = db.customers := by rw [e3, e2, e1]; rfl
              have el : tx3.ledger = db.ledger := by rw [e3, e2, e1]; rfl
              have eo : tx3.orders = db.orders := by rw [e3, e2, e1]; rfl
              have ex : tx3.outbox = tx2.outbox := by rw [e3]
              have ex1 : tx1.outbox = db.outbox := by rw [e1]; rfl
              rw [ec, eo] at c4
              rw [el, eo, ec] at l4
              rw [eo, ec] at f4
              rw [ex] at g4
              rw [ex1] at g2
              exact ⟨c4, l4, OutboxGrows_trans g2 g4, f4⟩
    · simp [h1, h2] at h

theorem SubmitDrawResult_grows (env : Env) (st : State) (inp : DrawInput) :
    OutboxGrows st.db.outbox (SubmitDrawResult env st inp).2.db.outbox := by
  rcases SubmitDrawResult_cases env st inp with h | ⟨db1, n, p, htx, _, hst⟩
  · rw [h]
    exact OutboxGrows.refl _
  · rw [hst]
    exact (submitDrawTx_effects _ _ _ _ _ _ _ htx).2.2.1

theorem Step_grows (st st1 : State) (hs : Step st st1) :
    OutboxGrows st.db.outbox st1.db.outbox := by
  cases hs with
  | bet env _ inp => exact PlaceBet_grows env st inp
  | event env _ inp => exact Handle_grows env st inp
  | draw env _ inp => exact SubmitDrawResult_grows env st inp
  | expire _ r fam k hkv => exact OutboxGrows.refl _

/-! ## The retries of the outbox dispatcher -/

theorem foldl_max_ge (l : List Int) :
    ∀ init : Int, init ≤ l.foldl max init ∧ ∀ x ∈ l, x ≤ l.foldl max init := by
  induction l with
  | nil =>
    intro init
    exact ⟨le_refl _, fun x hx => by cases hx⟩
  | cons a rest ih =>
    intro init
    simp only [List.foldl_cons]
    obtain ⟨h1, h2⟩ := ih (max init a)
    refine ⟨le_trans (le_max_left _ _) h1, ?_⟩
    intro x hx
    rcases List.mem_cons.mp hx with e | e
    · rw [e]
      exact le_trans (le_max_right _ _) h1
    · exact h2 x e

theorem next_id_fresh (b : List Outbox) (row : Outbox)
    (hid : row.ID = (b.map (fun o => o.ID)).foldl max 0 + 1) :
    ∀ o ∈ b, o.ID ≠ row.ID := by
  intro o ho heq
  have := (foldl_max_ge (b.map (fun o => o.ID)) 0).2 o.ID (List.mem_map_of_mem _ ho)
  omega

theorem OutboxGrows_inv {a b : List Outbox} (h : OutboxGrows a b) (ha : OutboxInv a) :
    OutboxInv b := by
  induction h with
  | refl => exact ha
  | insert b0 row _ hid hs hr ih =>
    have hfresh := next_id_fresh b0 row hid
    refine ⟨?_, ?_⟩
    · rw [List.map_append, List.nodup_append]
      refine ⟨ih.ids_nodup, List.nodup_singleton _, ?_⟩
      intro x hx hx1
      simp only [List.map_cons, List.map_nil, List.mem_singleton] at hx1
      obtain ⟨o, ho, rfl⟩ := List.mem_map.mp hx
      exact hfresh o ho hx1
    · intro o ho hst
      rcases List.mem_append.mp ho with e | e
      · exact ih.pending_bound o e hst
      · rw [List.mem_singleton.mp e, hr]
        decide

theorem OutboxGrows_attempts {a b : List Outbox} (attempts : List Int) (h : OutboxGrows a b)
    (ha : AttemptInv a attempts) : AttemptInv b attempts := by
  induction h with
  | refl => exact ha
  | insert b0 row _ hid hs hr ih =>
    have hfresh := next_id_fresh b0 row hid
    refine ⟨?_, ?_⟩
    · intro id hmem
      obtain ⟨o, ho, e⟩ := ih.known id hmem
      exact ⟨o, List.mem_append_left _ ho, e⟩
    · intro o ho
      rcases List.mem_append.mp ho with e | e
      · exact ih.counted o e
      · rw [List.mem_singleton.mp e]
        refine Or.inl ⟨hs, by rw [hr], by rw [hr]; decide, ?_⟩
        have hnot : row.ID ∉ attempts := by
          intro hmem
          obtain ⟨o1, ho1, e1⟩ := ih.known _ hmem
          exact hfresh o1 ho1 e1
        rw [List.count_eq_zero_of_not_mem hnot, hr]
        rfl

theorem eq_of_same_id (l : List Outbox) (hnd : (l.map (fun o => o.ID)).Nodup)
    (a b : Outbox) (ha : a ∈ l) (hb : b ∈ l) (h : a.ID = b.ID) : a = b :=
  List.inj_on_of_nodup_map hnd ha hb h

/-- The table after the handling of one listed row: the row of the id is
marked as the outcome of `Publish` says, or kept when the status update
fails; the rows of other ids are kept. -/
theorem dispatchRow_outbox (penv : PublishEnv) (acc : DB × List Int) (r : OutboxRow) :
    (dispatchRow penv acc r).2 = acc.2 ++ [r.ID] ∧
    ((penv.markErr r.ID = true ∧ (dispatchRow penv acc r).1.outbox = acc.1.outbox) ∨
      (∃ lastError, penv.publish r = some lastError ∧
        (dispatchRow penv acc r).1.outbox = acc.1.outbox.map (fun o =>
          if o.ID = r.ID then
            { o with Status := (if o.RetryCount ≥ 9 then 3 else 1), LastError := lastError,
                     RetryCount := o.RetryCount + 1 }
          else o)) ∨
      (penv.publish r = none ∧
        (dispatchRow penv acc r).1.outbox = acc.1.outbox.map (fun o =>
          if o.ID = r.ID then { o with Status := 2 } else o))) := by
  cases hp : penv.publish r with
  | some lastError =>
    cases hm : penv.markErr r.ID with
    | true =>
      refine ⟨?_, Or.inl ⟨rfl, ?_⟩⟩ <;>
        simp only [dispatchRow, MarkOutboxFailed, hp, hm, if_true]
    | false =>
      refine ⟨?_, Or.inr (Or.inl ⟨lastError, rfl, ?_⟩)⟩ <;>
        simp only [dispatchRow, MarkOutboxFailed, hp, hm, Bool.false_eq_true, if_false]
  | none =>
    cases hm : penv.markErr r.ID with
    | true =>
      refine ⟨?_, Or.inl ⟨rfl, ?_⟩⟩ <;>
        simp only [dispatchRow, MarkOutboxSent, hp, hm, if_true]
    | false =>
      refine ⟨?_, Or.inr (Or.inr ⟨rfl, ?_⟩)⟩ <;>
        simp only [dispatchRow, MarkOutboxSent, hp, hm, Bool.false_eq_true, if_false]

theorem dispatchRow_inv (penv : PublishEnv) (acc : DB × List Int) (r : OutboxRow)
    (h : OutboxInv acc.1.outbox) : OutboxInv (dispatchRow penv acc r).1.outbox := by
  obtain ⟨_, hcase⟩ := dispatchRow_outbox penv acc r
  rcases hcase with ⟨_, e⟩ | ⟨lastError, _, e⟩ | ⟨_, e⟩
  · rw [e]
    exact h
  · rw [e]
    refine ⟨?_, ?_⟩
    · rw [List.map_map]
      have : ((fun o : Outbox => o.ID) ∘ fun o : Outbox =>
          if o.ID = r.ID then
            { o with Status := (if o.RetryCount ≥ 9 then 3 else 1), LastError := lastError,
                     RetryCount := o.RetryCount + 1 }
          else o) = fun o => o.ID := by
        funext o
        simp only [Function.comp]
        split_ifs <;> rfl
      rw [this]
      exact h.ids_nodup
    · intro o1 ho1 hst
      obtain ⟨o, ho, rfl⟩ := List.mem_map.mp ho1
      by_cases hc : o.ID = r.ID
      · rw [if_pos hc] at hst ⊢
        simp only at hst ⊢
        split_ifs at hst with h9
        · exact absurd hst (by decide)
        · omega
      · rw [if_neg hc] at hst ⊢
        exact h.pending_bound o ho hst
  · rw [e]
    refine ⟨?_, ?_⟩
    · rw [List.map_map]
      have : ((fun o : Outbox => o.ID) ∘ fun o : Outbox =>
          if o.ID = r.ID then { o with Status := 2 } else o) = fun o => o.ID := by
        funext o
        simp only [Function.comp]
        split_ifs <;> rfl
      rw [this]
      exact h.ids_nodup
    · intro o1 ho1 hst
      obtain ⟨o, ho, rfl⟩ := List.mem_map.mp ho1
      by_cases hc : o.ID = r.ID
      · rw [if_pos hc] at hst
        have h21 : (2 : Int) = 1 := hst
        omega
      · rw [if_neg hc] at hst ⊢
        exact h.pending_bound o ho hst

theorem foldl_dispatchRow_inv (penv : PublishEnv) (rows : List OutboxRow) :
    ∀ acc : DB × List Int, OutboxInv acc.1.outbox →
      OutboxInv (rows.foldl (dispatchRow penv) acc).1.outbox := by
  induction rows with
  | nil =>
    intro acc h
    exact h
  | cons r rest ih =>
    intro acc h
    simp only [List.foldl_cons]
    exact ih _ (dispatchRow_inv penv acc r h)

theorem dispatchTick_inv (penv : PublishEnv) (acc : DB × List Int)
    (h : OutboxInv acc.1.outbox) : OutboxInv (dispatchTick penv acc).1.outbox := by
  unfold dispatchTick
  split
  · exact h
  · exact foldl_dispatchRow_inv penv _ acc h

/-- The handling of a listed row that is still pending keeps the account of
the attempts, when the status update succeeds. -/
theorem dispatchRow_attempts (penv : PublishEnv) (acc : DB × List Int) (r : OutboxRow)
    (hm : penv.markErr r.ID = false) (h : OutboxInv acc.1.outbox)
    (ha : AttemptInv acc.1.outbox acc.2)
    (hr : ∃ o ∈ acc.1.outbox, o.ID = r.ID ∧ o.Status = 1) :
    AttemptInv (dispatchRow penv acc r).1.outbox (dispatchRow penv acc r).2 ∧
    (∀ o ∈ acc.1.outbox, o.ID ≠ r.ID → o ∈ (dispatchRow penv acc r).1.outbox) := by
  obtain ⟨hlog, hcase⟩ := dispatchRow_outbox penv acc r
  obtain ⟨o0, ho0, hid0, hst0⟩ := hr
  have hcount : ∀ id : Int, ((acc.2 ++ [r.ID]).count id : Int) =
      (acc.2.count id : Int) + (if id = r.ID then 1 else 0) := by
    intro id
    rw [List.count_append]
    by_cases hc : id = r.ID
    · rw [if_pos hc, hc]
      simp
    · rw [if_neg hc, List.count_singleton]
      simp [Ne.symm hc]
  have hpend : ∀ o ∈ acc.1.outbox, o.ID = r.ID →
      o.Status = 1 ∧ 0 ≤ o.RetryCount ∧ o.RetryCount ≤ 9 ∧
        (acc.2.count o.ID : Int) = o.RetryCount := by
    intro o ho hid
    have : o = o0 := eq_of_same_id _ h.ids_nodup o o0 ho ho0 (hid.trans hid0.symm)
    subst this
    rcases ha.counted o ho with c | c | c
    · exact c
    · exact absurd (c.1.symm.trans hst0) (by decide)
    · exact absurd (c.1.symm.trans hst0) (by decide)
  rw [hlog]
  rcases hcase with ⟨e, _⟩ | ⟨lastError, _, e⟩ | ⟨_, e⟩
  · rw [hm] at e
    cases e
  · rw [e]
    refine ⟨⟨?_, ?_⟩, ?_⟩
    · intro id hmem
      have : id ∈ acc.2 ∨ id = r.ID := by
        rcases List.mem_append.mp hmem with e1 | e1
        · exact Or.inl e1
        · exact Or.inr (List.mem_singleton.mp e1)
      rcases this with e1 | e1
      · obtain ⟨o, ho, hoid⟩ := ha.known id e1
        refine ⟨_, List.mem_map_of_mem _ ho, ?_⟩
        split_ifs <;> exact hoid
      · refine ⟨_, List.mem_map_of_mem _ ho0, ?_⟩
        rw [if_pos hid0, e1]
        exact hid0
    · intro o1 ho1
      obtain ⟨o, ho, rfl⟩ := List.mem_map.mp ho1
      by_cases hc : o.ID = r.ID
      · obtain ⟨_, p1, p2, p3⟩ := hpend o ho hc
        rw [if_pos hc]
        unfold rowCounted
        simp only [hcount, hc, if_true]
        rw [hc] at p3
        by_cases h9 : o.RetryCount ≥ 9
        · rw [if_pos h9]
          refine Or.inr (Or.inr ⟨rfl, by omega, by omega⟩)
        · rw [if_neg h9]
          refine Or.inl ⟨rfl, by omega, by omega, by omega⟩
      · rw [if_neg hc]
        unfold rowCounted
        simp only [hcount, hc, if_false, add_zero]
        exact ha.counted o ho
    · intro o ho hc
      have : o = (fun o : Outbox =>
          if o.ID = r.ID then
            { o with Status := (if o.RetryCount ≥ 9 then 3 else 1), LastError := lastError,
                     RetryCount := o.RetryCount + 1 }
          else o) o := by
        simp only [if_neg hc]
      rw [this]
      exact List.mem_map_of_mem _ ho
  · rw [e]
    refine ⟨⟨?_, ?_⟩, ?_⟩
    · intro id hmem
      have : id ∈ acc.2 ∨ id = r.ID := by
        rcases List.mem_append.mp hmem with e1 | e1
        · exact Or.inl e1
        · exact Or.inr (List.mem_singleton.mp e1)
      rcases this with e1 | e1
      · obtain ⟨o, ho, hoid⟩ := ha.known id e1
        refine ⟨_, List.mem_map_of_mem _ ho, ?_⟩
        split_ifs <;> exact hoid
      · refine ⟨_, List.mem_map_of_mem _ ho0, ?_⟩
        rw [if_pos hid0, e1]
        exact hid0
    · intro o1 ho1
      obtain ⟨o, ho, rfl⟩ := List.mem_map.mp ho1
      by_cases hc : o.ID = r.ID
      · obtain ⟨_, p1, p2, p3⟩ := hpend o ho hc
        rw [if_pos hc]
        unfold rowCounted
        refine Or.inr (Or.inl ⟨rfl, p1, p2, ?_⟩)
        show ((acc.2 ++ [r.ID]).count o.ID : Int) = o.RetryCount + 1
        rw [hcount, if_pos hc, p3]
      · rw [if_neg hc]
        unfold rowCounted
        simp only [hcount, hc, if_false, add_zero]
        exact ha.counted o ho
    · intro o ho hc
      have : o = (fun o : Outbox => if o.ID = r.ID then { o with Status := 2 } else o) o := by
        simp only [if_neg hc]
      rw [this]
      exact List.mem_map_of_mem _ ho

theorem foldl_dispatchRow_attempts (penv : PublishEnv) (hm : ∀ id, penv.markErr id = false)
    (rows : List OutboxRow) :
    ∀ acc : DB × List Int, OutboxInv acc.1.outbox → AttemptInv acc.1.outbox acc.2 →
      (rows.map (fun r => r.ID)).Nodup →
      (∀ r ∈ rows, ∃ o ∈ acc.1.outbox, o.ID = r.ID ∧ o.Status = 1) →
      AttemptInv (rows.foldl (dispatchRow penv) acc).1.outbox
        (rows.foldl (dispatchRow penv) acc).2 := by
  induction rows with
  | nil =>
    intro acc _ ha _ _
    exact ha
  | cons r rest ih =>
    intro acc h ha hnd hrows
    simp only [List.foldl_cons]
    simp only [List.map_cons, List.nodup_cons, List.mem_map, not_exists, not_and] at hnd
    obtain ⟨ha1, hkeep⟩ := dispatchRow_attempts penv acc r (hm r.ID) h ha
      (hrows r (List.mem_cons_self _ _))
    refine ih _ (dispatchRow_inv penv acc r h) ha1 hnd.2 ?_
    intro r1 hr1
    obtain ⟨o, ho, hid, hst⟩ := hrows r1 (List.mem_cons_of_mem _ hr1)
    have hne : o.ID ≠ r.ID := by
      rw [hid]
      exact hnd.1 r1 hr1
    exact ⟨o, hkeep o ho hne, hid, hst⟩

/-- The rows `ListOutboxPending` returns are stored rows that are pending
with `retry_count` below 10, each id once. -/
theorem ListOutboxPending_ok (db : DB) (limit : Nat) (rows : List OutboxRow) (fail : Bool)
    (h : ListOutboxPending fail db limit = .ok rows)
    (hnd : (db.outbox.map (fun o => o.ID)).Nodup) :
    (rows.map (fun r => r.ID)).Nodup ∧
    ∀ r ∈ rows, ∃ o ∈ db.outbox, o.ID = r.ID ∧ o.Status = 1 ∧ o.RetryCount < 10 := by
  unfold ListOutboxPending at h
  split_ifs at h
  simp only [Except.ok.injEq] at h
  rw [← h]
  have hperm := List.perm_insertionSort (fun a b : Outbox => a.ID ≤ b.ID)
    (db.outbox.filter (fun o => o.Status = 1 ∧ o.RetryCount < 10))
  constructor
  · rw [List.map_map]
    have e : ((fun r : OutboxRow => r.ID) ∘ fun o : Outbox =>
        ({ ID := o.ID, Topic := o.Topic, BizKey := o.BizKey, Payload := o.Payload } :
          OutboxRow)) = fun o => o.ID := rfl
    rw [e]
    have h1 : ((db.outbox.filter (fun o => o.Status = 1 ∧ o.RetryCount < 10)).map
        (fun o => o.ID)).Nodup :=
      hnd.sublist ((List.filter_sublist _).map _)
    have h2 := ((hperm.map (fun o : Outbox => o.ID)).nodup_iff).mpr h1
    exact h2.sublist ((List.take_sublist _ _).map _)
  · intro r hr
    obtain ⟨o, ho, rfl⟩ := List.mem_map.mp hr
    have ho1 := hperm.mem_iff.mp (List.mem_of_mem_take ho)
    obtain ⟨hmem, hp⟩ := List.mem_filter.mp ho1
    simp only [decide_eq_true_eq] at hp
    exact ⟨o, hmem, rfl, hp.1, hp.2⟩

theorem dispatchTick_attempts (penv : PublishEnv) (hm : ∀ id, penv.markErr id = false)
    (acc : DB × List Int) (h : OutboxInv acc.1.outbox) (ha : AttemptInv acc.1.outbox acc.2) :
    AttemptInv (dispatchTick penv acc).1.outbox (dispatchTick penv acc).2 := by
  unfold dispatchTick
  split
  · exact ha
  · rename_i rows hl
    obtain ⟨hnd, hrows⟩ := ListOutboxPending_ok _ _ _ _ hl h.ids_nodup
    refine foldl_dispatchRow_attempts penv hm rows acc h ha hnd ?_
    intro r hr
    obtain ⟨o, ho, hid, hst, _⟩ := hrows r hr
    exact ⟨o, ho, hid, hst⟩

/-- The invariants of the runs of the service with its dispatcher. -/
theorem Dispatched_inv (sound : Bool) (s : State × List Int) (h : Dispatched sound s) :
    OutboxInv s.1.db.outbox ∧ (sound = true → AttemptInv s.1.db.outbox s.2) := by
  induction h with
  | init st hi =>
    have e : st.db.outbox = [] := hi.2.2.2.2.1
    refine ⟨⟨?_, ?_⟩, fun _ => ⟨?_, ?_⟩⟩
    · rw [e]
      exact List.nodup_nil
    · rw [e]
      intro o ho
      cases ho
    · intro id hid
      cases hid
    · rw [e]
      intro o ho
      cases ho
  | service st st1 attempts _ hs ih =>
    have g := Step_grows st st1 hs
    exact ⟨OutboxGrows_inv g ih.1, fun hsd => OutboxGrows_attempts attempts g (ih.2 hsd)⟩
  | tick st attempts penv _ hsound ih =>
    exact ⟨dispatchTick_inv penv (st.db, attempts) ih.1,
      fun hsd => dispatchTick_attempts penv (hsound hsd) (st.db, attempts) ih.1 (ih.2 hsd)⟩

/-- The retries of the outbox while the status updates succeed: on every row
of the given id, `MarkOutboxFailed` raises `retry_count` from `n` to `n + 1`
and sets the status to dead (3) iff `n + 1 ≥ 10`, to pending (1) otherwise; in
every run of the service with its dispatcher, no pending row has
`retry_count ≥ 10`; and when the status updates of the dispatcher succeed, no
row id is handed to `Publish` more than 10 times. -/
theorem outbox_retry_bound :
    (∀ (db db1 : DB) (id : Int) (lastError : String),
      MarkOutboxFailed false db id lastError = .ok db1 →
      db1.outbox = db.outbox.map (fun o =>
        if o.ID = id then
          { o with Status := (if o.RetryCount + 1 ≥ 10 then 3 else 1), LastError := lastError,
                   RetryCount := o.RetryCount + 1 }
        else o)) ∧
    (∀ (sound : Bool) (s : State × List Int), Dispatched sound s →
      ∀ o ∈ s.1.db.outbox, o.Status = 1 → o.RetryCount < 10) ∧
    (∀ s : State × List Int, Dispatched true s → ∀ id : Int, s.2.count id ≤ 10) := by
  refine ⟨?_, ?_, ?_⟩
  · intro db db1 id lastError h
    unfold MarkOutboxFailed at h
    simp only [Bool.false_eq_true, if_false, Except.ok.injEq] at h
    rw [← h]
    apply List.map_congr_left
    intro o _
    by_cases hc : o.ID = id
    · simp only [hc, if_true]
      by_cases h9 : o.RetryCount ≥ 9
      · have h10 : o.RetryCount + 1 ≥ 10 := by omega
        rw [if_pos h9, if_pos h10]
      · have h10 : ¬ (o.RetryCount + 1 ≥ 10) := by omega
        rw [if_neg h9, if_neg h10]
    · simp only [hc, if_false]
  · intro sound s h o ho hst
    have := (Dispatched_inv sound s h).1.pending_bound o ho hst
    omega
  · intro s h id
    have ha := (Dispatched_inv true s h).2 rfl
    by_cases hmem : id ∈ s.2
    · obtain ⟨o, ho, hid⟩ := ha.known id hmem
      rw [← hid]
      rcases ha.counted o ho with c | c | c
      · have := c.2.2.2
        omega
      · have := c.2.2.2
        omega
      · have := c.2.2
        omega
    · rw [List.count_eq_zero_of_not_mem hmem]
      decide

theorem sampleTicks_dispatched (n : Nat) : Dispatched true (sampleTicks n) := by
  induction n with
  | zero =>
    exact Dispatched.service sampleInitial sampleBetting []
      (Dispatched.init sampleInitial
        ⟨rfl, rfl, rfl, rfl, rfl, rfl, rfl, fun r h => by simp [sampleInitial] at h⟩)
      (Step.event { sampleEnv with now := 1000 } sampleInitial (sampleEvent 1))
  | succ k ih =>
    exact Dispatched.tick (sampleTicks k).1 (sampleTicks k).2 samplePublishFails ih
      (fun _ _ => rfl)

/-- The `game_started` row of round `R1` against a bus that refuses every
message: after 9 ticks the row is pending with `retry_count` 9, after 10 ticks
it is dead with `retry_count` 10, and two ticks later it is still so and was
handed to `Publish` 10 times. -/
theorem outbox_retry_bound_witness :
    MarkOutboxFailed false sampleBetting.db 1 "bus down" = .ok (sampleTicks 1).1.db ∧
    (sampleTicks 1).1.db.outbox = sampleBetting.db.outbox.map (fun o =>
      if o.ID = 1 then
        { o with Status := (if o.RetryCount + 1 ≥ 10 then 3 else 1), LastError := "bus down",
                 RetryCount := o.RetryCount + 1 }
      else o) ∧
    (sampleTicks 9).1.db.outbox.map (fun o => (o.ID, o.Status, o.RetryCount)) = [(1, 1, 9)] ∧
    (sampleTicks 10).1.db.outbox.map (fun o => (o.ID, o.Status, o.RetryCount)) = [(1, 3, 10)] ∧
    (sampleTicks 12).1.db.outbox.map (fun o => (o.ID, o.Status, o.RetryCount)) = [(1, 3, 10)] ∧
    (sampleTicks 12).2.count 1 = 10 ∧
    (∀ o ∈ (sampleTicks 9).1.db.outbox, o.Status = 1 → o.RetryCount < 10) ∧
    (sampleTicks 12).2.count 1 ≤ 10 :=
  ⟨by decide,
    outbox_retry_bound.1 sampleBetting.db (sampleTicks 1).1.db 1 "bus down" (by decide),
    by decide, by decide, by decide, by decide,
    outbox_retry_bound.2.1 true (sampleTicks 9) (sampleTicks_dispatched 9),
    outbox_retry_bound.2.2 (sampleTicks 12) (sampleTicks_dispatched 12) 1⟩

theorem sampleLostUpdates_eq (n : Nat) :
    sampleLostUpdates n = (sampleBetting, List.replicate n 1) := by
  induction n with
  | zero => rfl
  | succ k ih =>
    have hlist : ListOutboxPending false sampleBetting.db 100 =
        .ok [{ ID := 1, Topic := "game_started", BizKey := "R1",
               Payload := (sampleBetting.db.outbox.map (fun o => o.Payload)).head! }] := by
      decide
    have htick : dispatchTick sampleUpdatesFail (sampleBetting.db, List.replicate k 1) =
        (sampleBetting.db, List.replicate k 1 ++ [1]) := by
      unfold dispatchTick
      have e : sampleUpdatesFail.listErr = false := rfl
      rw [e, hlist]
      rfl
    show (({ (sampleLostUpdates k).1 with
        db := (dispatchTick sampleUpdatesFail
          ((sampleLostUpdates k).1.db, (sampleLostUpdates k).2)).1 } : State),
      (dispatchTick sampleUpdatesFail
        ((sampleLostUpdates k).1.db, (sampleLostUpdates k).2)).2) = _
    rw [ih]
    simp only [htick]
    rw [List.replicate_succ', ]

theorem sampleLostUpdates_dispatched (n : Nat) : Dispatched false (sampleLostUpdates n) := by
  induction n with
  | zero =>
    exact Dispatched.service sampleInitial sampleBetting []
      (Dispatched.init sampleInitial
        ⟨rfl, rfl, rfl, rfl, rfl, rfl, rfl, fun r h => by simp [sampleInitial] at h⟩)
      (Step.event { sampleEnv with now := 1000 } sampleInitial (sampleEvent 1))
  | succ k ih =>
    exact Dispatched.tick (sampleLostUpdates k).1 (sampleLostUpdates k).2 sampleUpdatesFail ih
      (fun h => Bool.noConfusion h)

/-- C26: the dispatcher hands a row to `Publish` more than 10 times when its
status updates fail.  The bus refuses the `game_started` row of round `R1`
and the update of `MarkOutboxFailed` fails on every tick: the dispatcher drops
that error, so after any number `n` of ticks of this run the row is still
pending with `retry_count` 0 and has been handed to `Publish` `n` times, 11
times after 11 ticks.  The rule of `MarkOutboxFailed` itself and the bound on
pending rows hold: one update that succeeds takes `retry_count` from 0 to 1
and keeps the row pending. -/
theorem outbox_retry_unbounded :
    (∀ n : Nat, Dispatched false (sampleLostUpdates n) ∧
      (sampleLostUpdates n).1.db.outbox.map (fun o => (o.ID, o.Status, o.RetryCount)) =
        [(1, 1, 0)] ∧
      (sampleLostUpdates n).2.count 1 = n) ∧
    (sampleLostUpdates 11).2.count 1 = 11 ∧
    (MarkOutboxFailed false sampleBetting.db 1 "bus down").toOption.map
      (fun db => db.outbox.map (fun o => (o.ID, o.Status, o.RetryCount))) =
        some [(1, 1, 1)] := by
  refine ⟨fun n => ⟨sampleLostUpdates_dispatched n, ?_, ?_⟩, ?_, by decide⟩
  · rw [sampleLostUpdates_eq]
    show sampleBetting.db.outbox.map (fun o => (o.ID, o.Status, o.RetryCount)) = [(1, 1, 0)]
    decide
  · rw [sampleLostUpdates_eq]
    simp
  · rw [sampleLostUpdates_eq]
    decide

/-! ## The second settlement loop -/

theorem groupByUser_snoc (res : String) (orders : List Order) (o : Order) :
    groupByUser res (orders ++ [o]) =
      if paying res o then addToUser (groupByUser res orders) o (settlePayout o res)
      else groupByUser res orders := by
  unfold groupByUser paying
  rw [List.foldl_append]
  simp only [List.foldl_cons, List.foldl_nil, decide_eq_true_eq]

theorem addToUser_new (userMap : List userSettlement) (o : Order) (payout : Dec)
    (h : userMap.any (fun us => us.userID = o.UserID) = false) :
    addToUser userMap o payout =
      userMap ++ [{ userID := o.UserID, totalPayout := (⟨0, 0⟩ : Float64).add payout.InexactFloat64,
                    orders := [o], payoutAmounts := [payout] }] := by
  unfold addToUser
  rw [h]
  simp

theorem addToUser_old (userMap : List userSettlement) (o : Order) (payout : Dec)
    (h : userMap.any (fun us => us.userID = o.UserID) = true) :
    addToUser userMap o payout =
      userMap.map (fun us =>
        if us.userID = o.UserID then
          { us with totalPayout := us.totalPayout.add payout.InexactFloat64, orders := us.orders ++ [o],
                    payoutAmounts := us.payoutAmounts ++ [payout] }
        else us) := by
  unfold addToUser
  rw [h]
  simp

theorem Grouped_nil (res : String) : Grouped res [] [] :=
  ⟨List.nodup_nil, fun _ h => (List.not_mem_nil _ h).elim,
    fun _ h => (List.not_mem_nil _ h).elim, fun _ h => (List.not_mem_nil _ h).elim,
    fun _ h => (List.not_mem_nil _ h).elim⟩

theorem Grouped_skip (res : String) (orders : List Order) (o : Order)
    (userMap : List userSettlement) (h : Grouped res orders userMap)
    (hp : paying res o = false) : Grouped res (orders ++ [o]) userMap := by
  refine ⟨h.ids_nodup, ?_, h.payouts_eq, h.total_eq, ?_⟩
  · intro us hus
    rw [h.orders_eq us hus, List.filter_append]
    simp [hp]
  · intro o1 ho1 hp1
    rcases List.mem_append.mp ho1 with e | e
    · exact h.covered o1 e hp1
    · rw [List.mem_singleton.mp e, hp] at hp1
      cases hp1

theorem Grouped_new (res : String) (orders : List Order) (o : Order)
    (userMap : List userSettlement) (h : Grouped res orders userMap)
    (hp : paying res o = true)
    (hany : userMap.any (fun us => us.userID = o.UserID) = false) :
    Grouped res (orders ++ [o])
      (userMap ++ [{ userID := o.UserID, totalPayout :=
                       (⟨0, 0⟩ : Float64).add (settlePayout o res).InexactFloat64,
                     orders := [o], payoutAmounts := [settlePayout o res] }]) := by
  have hno : ∀ us ∈ userMap, us.userID ≠ o.UserID := by
    intro us hus
    have := List.any_eq_false.mp hany us hus
    simpa using this
  have hnone : orders.filter (fun o1 => paying res o1 ∧ o1.UserID = o.UserID) = [] := by
    rw [List.filter_eq_nil_iff]
    intro o1 ho1 hc
    simp only [decide_eq_true_eq] at hc
    obtain ⟨us, hus, hid⟩ := h.covered o1 ho1 hc.1
    exact hno us hus (hid.trans hc.2)
  refine ⟨?_, ?_, ?_, ?_, ?_⟩
  · rw [List.map_append, List.nodup_append]
    refine ⟨h.ids_nodup, List.nodup_singleton _, ?_⟩
    intro x hx hx1
    simp only [List.map_cons, List.map_nil, List.mem_singleton] at hx1
    obtain ⟨us, hus, rfl⟩ := List.mem_map.mp hx
    exact hno us hus hx1
  · intro us hus
    rcases List.mem_append.mp hus with e | e
    · rw [h.orders_eq us e, List.filter_append]
      have : [o].filter (fun o1 => paying res o1 ∧ o1.UserID = us.userID) = [] := by
        rw [List.filter_eq_nil_iff]
        intro o1 ho1 hc
        simp only [decide_eq_true_eq] at hc
        rw [List.mem_singleton.mp ho1] at hc
        exact hno us e hc.2.symm
      rw [this, List.append_nil]
    · rw [List.mem_singleton.mp e]
      simp only []
      rw [List.filter_append, hnone]
      simp [hp]
  · intro us hus
    rcases List.mem_append.mp hus with e | e
    · exact h.payouts_eq us e
    · rw [List.mem_singleton.mp e]
      rfl
  · intro us hus
    rcases List.mem_append.mp hus with e | e
    · exact h.total_eq us e
    · rw [List.mem_singleton.mp e]
      rfl
  · intro o1 ho1 hp1
    rcases List.mem_append.mp ho1 with e | e
    · obtain ⟨us, hus, hid⟩ := h.covered o1 e hp1
      exact ⟨us, List.mem_append_left _ hus, hid⟩
    · rw [List.mem_singleton.mp e]
      exact ⟨_, List.mem_append_right _ (List.mem_singleton.mpr rfl), rfl⟩

theorem Grouped_old (res : String) (orders : List Order) (o : Order)
    (userMap : List userSettlement) (h : Grouped res orders userMap)
    (hp : paying res o = true)
    (hany : userMap.any (fun us => us.userID = o.UserID) = true) :
    Grouped res (orders ++ [o])
      (userMap.map (fun us =>
        if us.userID = o.UserID then
          { us with totalPayout := us.totalPayout.add (settlePayout o res).InexactFloat64,
                    orders := us.orders ++ [o],
                    payoutAmounts := us.payoutAmounts ++ [settlePayout o res] }
        else us)) := by
  have hkeep : ∀ us : userSettlement,
      (if us.userID = o.UserID then
        { us with totalPayout := us.totalPayout.add (settlePayout o res).InexactFloat64,
                  orders := us.orders ++ [o],
                  payoutAmounts := us.payoutAmounts ++ [settlePayout o res] }
      else us).userID = us.userID := by
    intro us
    split_ifs <;> rfl
  refine ⟨?_, ?_, ?_, ?_, ?_⟩
  · rw [List.map_map]
    have : ((fun us : userSettlement => us.userID) ∘ fun us =>
        if us.userID = o.UserID then
          { us with totalPayout := us.totalPayout.add (settlePayout o res).InexactFloat64,
                    orders := us.orders ++ [o],
                    payoutAmounts := us.payoutAmounts ++ [settlePayout o res] }
        else us) = fun us => us.userID := by
      funext us
      exact hkeep us
    rw [this]
    exact h.ids_nodup
  · intro us1 hus1
    obtain ⟨us, hus, rfl⟩ := List.mem_map.mp hus1
    rw [hkeep, List.filter_append]
    by_cases hc : us.userID = o.UserID
    · rw [if_pos hc]
      simp only []
      rw [h.orders_eq us hus]
      simp [hp, hc]
    · rw [if_neg hc, h.orders_eq us hus]
      have : [o].filter (fun o1 => paying res o1 ∧ o1.UserID = us.userID) = [] := by
        rw [List.filter_eq_nil_iff]
        intro o1 ho1 hc1
        simp only [decide_eq_true_eq] at hc1
        rw [List.mem_singleton.mp ho1] at hc1
        exact hc hc1.2.symm
      rw [this, List.append_nil]
  · intro us1 hus1
    obtain ⟨us, hus, rfl⟩ := List.mem_map.mp hus1
    by_cases hc : us.userID = o.UserID
    · rw [if_pos hc]
      simp only [List.map_append, List.map_cons, List.map_nil]
      rw [h.payouts_eq us hus]
    · rw [if_neg hc]
      exact h.payouts_eq us hus
  · intro us1 hus1
    obtain ⟨us, hus, rfl⟩ := List.mem_map.mp hus1
    by_cases hc : us.userID = o.UserID
    · rw [if_pos hc]
      simp only [List.foldl_append, List.foldl_cons, List.foldl_nil]
      rw [h.total_eq us hus]
    · rw [if_neg hc]
      exact h.total_eq us hus
  · intro o1 ho1 hp1
    have hmap : ∀ us ∈ userMap, ∃ us1 ∈ userMap.map (fun us =>
        if us.userID = o.UserID then
          { us with totalPayout := us.totalPayout.add (settlePayout o res).InexactFloat64,
                    orders := us.orders ++ [o],
                    payoutAmounts := us.payoutAmounts ++ [settlePayout o res] }
        else us), us1.userID = us.userID := by
      intro us hus
      exact ⟨_, List.mem_map_of_mem _ hus, hkeep us⟩
    rcases List.mem_append.mp ho1 with e | e
    · obtain ⟨us, hus, hid⟩ := h.covered o1 e hp1
      obtain ⟨us1, hus1, hid1⟩ := hmap us hus
      exact ⟨us1, hus1, hid1.trans hid⟩
    · rw [List.mem_singleton.mp e]
      obtain ⟨us, hus, hid⟩ := List.any_eq_true.mp hany
      simp only [decide_eq_true_eq] at hid
      obtain ⟨us1, hus1, hid1⟩ := hmap us hus
      exact ⟨us1, hus1, hid1.trans hid⟩

theorem groupByUser_Grouped (res : String) (orders : List Order) :
    Grouped res orders (groupByUser res orders) := by
  induction orders using List.reverseRecOn with
  | nil => exact Grouped_nil res
  | append_singleton l o ih =>
    rw [groupByUser_snoc]
    by_cases hp : paying res o = true
    · rw [if_pos hp]
      cases hany : (groupByUser res l).any (fun us => us.userID = o.UserID) with
      | false =>
        rw [addToUser_new _ _ _ hany]
        exact Grouped_new res l o _ ih hp hany
      | true =>
        rw [addToUser_old _ _ _ hany]
        exact Grouped_old res l o _ ih hp hany
    · rw [if_neg hp]
      exact Grouped_skip res l o _ ih (by simpa using hp)

theorem userPairs_append (a b : List userSettlement) :
    userPairs (a ++ b) = userPairs a ++ userPairs b := by
  induction a with
  | nil => rfl
  | cons us rest ih =>
    show us.orders.zip us.payoutAmounts ++ userPairs (rest ++ b) = _
    rw [ih]
    simp only [userPairs, List.append_assoc]

theorem userPairs_map_other (userMap : List userSettlement) (o : Order) (payout : Dec)
    (hno : ∀ us ∈ userMap, us.userID ≠ o.UserID) :
    userMap.map (fun us =>
      if us.userID = o.UserID then
        { us with totalPayout := us.totalPayout.add payout.InexactFloat64, orders := us.orders ++ [o],
                  payoutAmounts := us.payoutAmounts ++ [payout] }
      else us) = userMap := by
  induction userMap with
  | nil => rfl
  | cons us rest ih =>
    simp only [List.map_cons]
    rw [if_neg (hno us (List.mem_cons_self _ _)),
      ih (fun us1 h1 => hno us1 (List.mem_cons_of_mem _ h1))]

theorem userPairs_map (userMap : List userSettlement) (o : Order) (payout : Dec)
    (hnd : (userMap.map (fun us => us.userID)).Nodup)
    (hlen : ∀ us ∈ userMap, us.orders.length = us.payoutAmounts.length)
    (hex : ∃ us ∈ userMap, us.userID = o.UserID) :
    (userPairs (userMap.map (fun us =>
      if us.userID = o.UserID then
        { us with totalPayout := us.totalPayout.add payout.InexactFloat64, orders := us.orders ++ [o],
                  payoutAmounts := us.payoutAmounts ++ [payout] }
      else us))).Perm (userPairs userMap ++ [(o, payout)]) := by
  induction userMap with
  | nil =>
    obtain ⟨us, hus, _⟩ := hex
    cases hus
  | cons us rest ih =>
    simp only [List.map_cons, List.nodup_cons, List.mem_map, not_exists, not_and] at hnd
    simp only [List.map_cons]
    by_cases hc : us.userID = o.UserID
    · rw [if_pos hc]
      have hno : ∀ us1 ∈ rest, us1.userID ≠ o.UserID := by
        intro us1 h1 e1
        exact hnd.1 us1 h1 (e1.trans hc.symm)
      rw [userPairs_map_other rest o payout hno]
      simp only [userPairs]
      rw [List.zip_append (hlen us (List.mem_cons_self _ _))]
      simp only [List.zip_cons_cons, List.zip_nil_right, List.append_assoc]
      exact List.Perm.append_left _ List.perm_append_comm
    · rw [if_neg hc]
      simp only [userPairs, List.append_assoc]
      apply List.Perm.append_left
      apply ih hnd.2 (fun us1 h1 => hlen us1 (List.mem_cons_of_mem _ h1))
      obtain ⟨us1, hus1, hid1⟩ := hex
      rcases List.mem_cons.mp hus1 with e | e
      · rw [e] at hid1
        exact absurd hid1 hc
      · exact ⟨us1, e, hid1⟩

/-- The orders of the settlement records with their payouts are the paying
orders with their payouts, in some order. -/
theorem userPairs_groupByUser (res : String) (orders : List Order) :
    (userPairs (groupByUser res orders)).Perm
      ((orders.filter (paying res)).map (fun o => (o, settlePayout o res))) := by
  induction orders using List.reverseRecOn with
  | nil => exact List.Perm.refl _
  | append_singleton l o ih =>
    have hg := groupByUser_Grouped res l
    rw [groupByUser_snoc, List.filter_append, List.map_append]
    by_cases hp : paying res o = true
    · rw [if_pos hp]
      have hf : [o].filter (paying res) = [o] := by simp [hp]
      rw [hf]
      cases hany : (groupByUser res l).any (fun us => us.userID = o.UserID) with
      | false =>
        rw [addToUser_new _ _ _ hany, userPairs_append]
        exact List.Perm.append_right _ ih
      | true =>
        rw [addToUser_old _ _ _ hany]
        have hex : ∃ us ∈ groupByUser res l, us.userID = o.UserID := by
          obtain ⟨us, hus, hid⟩ := List.any_eq_true.mp hany
          simp only [decide_eq_true_eq] at hid
          exact ⟨us, hus, hid⟩
        have hlen : ∀ us ∈ groupByUser res l, us.orders.length = us.payoutAmounts.length := by
          intro us hus
          rw [hg.payouts_eq us hus, List.length_map]
        exact (userPairs_map _ o _ hg.ids_nodup hlen hex).trans (List.Perm.append_right _ ih)
    · rw [if_neg hp]
      have hf : [o].filter (paying res) = [] := by simp [hp]
      rw [hf]
      simpa using ih

/-! ## Win amounts and settle ledger rows -/

theorem settleLedgerRows_key (inp : DrawInput) (pairs : List (Order × Dec)) :
    ∀ cur : Dec, (settleLedgerRows inp pairs cur).map ledgerKey = pairs.map (pairKey inp) := by
  induction pairs with
  | nil =>
    intro cur
    rfl
  | cons q rest ih =>
    intro cur
    obtain ⟨o, p⟩ := q
    simp only [settleLedgerRows, List.map_cons, ih]
    rfl

theorem settleUsersRows_key (inp : DrawInput) (users : List userSettlement) :
    ∀ customers : List Customers,
      (settleUsersRows inp users customers).map ledgerKey =
        (userPairs users).map (pairKey inp) := by
  induction users with
  | nil =>
    intro customers
    rfl
  | cons us rest ih =>
    intro customers
    simp only [settleUsersRows, userPairs, List.map_append, settleLedgerRows_key, ih]

/-- The key columns of the ledger rows a settlement writes are those of the
paying listed orders, in some order. -/
theorem settleUsersRows_perm (inp : DrawInput) (res : String) (orders : List Order)
    (customers : List Customers) :
    ((settleUsersRows inp (groupByUser res orders) customers).map ledgerKey).Perm
      ((orders.filter (paying res)).map
        (fun o => (o.UserID, (2 : Int), o.BillNo, inp.GameRoundID, settlePayout o res))) := by
  rw [settleUsersRows_key]
  have h := (userPairs_groupByUser res orders).map (pairKey inp)
  rw [List.map_map] at h
  exact h

theorem sum_filter_map {α : Type} (l : List α) (p : α → Bool) (f : α → ℚ) :
    ((l.filter p).map f).sum = (l.map (fun x => if p x then f x else 0)).sum := by
  induction l with
  | nil => rfl
  | cons a rest ih =>
    simp only [List.filter_cons, List.map_cons, List.sum_cons]
    by_cases h : p a = true
    · simp only [h, if_true, List.map_cons, List.sum_cons, ih]
    · simp only [h, Bool.false_eq_true, if_false, ih, zero_add]

theorem settlePayout_nonneg (o : Order) (res : String) (hs : 0 ≤ o.BetAmount.toRat)
    (ho : 0 ≤ o.BetOdds.toRat) : 0 ≤ (settlePayout o res).toRat := by
  unfold settlePayout
  simp only []
  split_ifs
  · rw [Dec.toRat_nonneg_iff]
    apply Dec.Round_nonneg
    rw [← Dec.toRat_nonneg_iff, toRat_stake_product]
    positivity
  · exact hs
  · norm_num [Dec.toRat]

theorem settlePayout_scale (o : Order) (res : String) (hs : o.BetAmount.scale ≤ 2) :
    (settlePayout o res).scale ≤ 2 := by
  unfold settlePayout
  simp only []
  split_ifs
  · rw [Dec.Round_scale]
  · exact hs
  · decide

theorem toRat_of_not_paying (o : Order) (res : String) (hs : 0 ≤ o.BetAmount.toRat)
    (ho : 0 ≤ o.BetOdds.toRat) (hp : paying res o = false) :
    (settlePayout o res).toRat = 0 := by
  have h0 := settlePayout_nonneg o res hs ho
  unfold paying at hp
  simp only [decide_eq_false_iff_not, Dec.Cmp_pos_iff] at hp
  have hz : (⟨0, 0⟩ : Dec).toRat = 0 := by norm_num [Dec.toRat]
  rw [hz] at hp
  exact le_antisymm (not_lt.mp hp) h0

theorem calcOdds_nonneg (pt : String) : 0 ≤ (calcOdds pt).toRat := by
  unfold calcOdds
  simp only []
  split_ifs <;> norm_num [Dec.toRat]

theorem winSum_append (a b : List OrderRow) (roundID : String) :
    winSum (a ++ b) roundID = winSum a roundID + winSum b roundID := by
  unfold winSum
  rw [List.filter_append, List.map_append, List.sum_append]

theorem settleSum_append (a b : List WalletLedger) (roundID : String) :
    settleSum (a ++ b) roundID = settleSum a roundID + settleSum b roundID := by
  unfold settleSum
  rw [List.filter_append, List.map_append, List.sum_append]

theorem betLedgerStored_biz (inp : BetInput) (user : Customers) (a : Dec) (billNo : String) :
    (betLedgerStored inp user a billNo).BizType = 1 := by
  simp [betLedgerStored, ledgerBizCode, betLedger, BIZ_TYPE_BET]

theorem PlaceBet_PayInv (env : Env) (st : State) (inp : BetInput) (h : PayInv st) :
    PayInv (PlaceBet env st inp).2 := by
  rcases PlaceBet_cases env st inp with hdb | ⟨a, kv, locked, user, tx, round, tx1, tx2,
    afterDec, hval, _, hc, _, hdb, _⟩
  · exact ⟨by rw [hdb]; exact h.stake_nonneg, by rw [hdb]; exact h.stake_scale,
      by rw [hdb]; exact h.pending_win, by rw [hdb]; exact h.settle_bill,
      by rw [hdb]; exact h.sums⟩
  · obtain ⟨_, hw⟩ := placeBetWrites_ok _ _ _ _ _ _ _ _ _ hc.writes_ok
    obtain ⟨_, e1⟩ := IdempotencyKey_Insert_ok _ _ _ _ hc.idem_ok
    have htx : tx.orders = st.db.orders ∧ tx.ledger = st.db.ledger := by
      rcases getOrCreateUserInTx_ok _ _ _ _ _ _ _ hc.user_ok with h1 | h1 <;> rw [h1.1] <;>
        exact ⟨rfl, rfl⟩
    have horders : tx2.orders = st.db.orders ++
        [orderRow env (betOrder inp user a (calcOdds (ptMap inp.PlayType))
          (generateBillNo env user.ID))] := by
      rw [hw.orders_eq, e1]
      show tx.orders ++ _ = _
      rw [htx.1]
    have hledger : tx2.ledger = st.db.ledger ++
        [betLedgerStored inp user a (generateBillNo env user.ID)] := by
      rw [hw.ledger_eq, e1]
      show tx.ledger ++ _ = _
      rw [htx.2]
    have hbounds := validateBetAmount_ok_bounds _ _ hval
    have hapos : 0 ≤ a.value := by
      rw [← Dec.toRat_nonneg_iff]
      linarith [hbounds.1]
    rw [← hdb] at horders hledger
    refine ⟨?_, ?_, ?_, ?_, ?_⟩
    · intro o ho
      rw [horders] at ho
      rcases List.mem_append.mp ho with e | e
      · exact h.stake_nonneg o e
      · rw [List.mem_singleton.mp e]
        constructor
        · show 0 ≤ (a.Round 2).toRat
          rw [Dec.toRat_nonneg_iff]
          exact Dec.Round_nonneg a 2 hapos
        · exact calcOdds_nonneg _
    · intro o ho
      rw [horders] at ho
      rcases List.mem_append.mp ho with e | e
      · exact h.stake_scale o e
      · rw [List.mem_singleton.mp e]
        show (a.Round 2).scale ≤ 2
        rw [Dec.Round_scale]
    · intro o ho hst
      rw [horders] at ho
      rcases List.mem_append.mp ho with e | e
      · exact h.pending_win o e hst
      · rw [List.mem_singleton.mp e]
        show (⟨0, 0⟩ : Dec).toRat = 0
        norm_num [Dec.toRat]
    · intro l hl hbiz
      rw [hledger] at hl
      rw [horders]
      rcases List.mem_append.mp hl with e | e
      · obtain ⟨o, ho, hb, hs⟩ := h.settle_bill l e hbiz
        exact ⟨o, List.mem_append_left _ ho, hb, hs⟩
      · rw [List.mem_singleton.mp e, betLedgerStored_biz] at hbiz
        exact absurd hbiz (by decide)
    · intro roundID
      rw [horders, hledger, winSum_append, settleSum_append, h.sums roundID]
      congr 1
      have hw0 : winSum [orderRow env (betOrder inp user a (calcOdds (ptMap inp.PlayType))
          (generateBillNo env user.ID))] roundID = 0 := by
        unfold winSum
        simp only [List.filter_cons, List.filter_nil]
        split_ifs
        · show (⟨0, 0⟩ : Dec).toRat + 0 = 0
          norm_num [Dec.toRat]
        · rfl
      have hs0 : settleSum [betLedgerStored inp user a (generateBillNo env user.ID)]
          roundID = 0 := by
        unfold settleSum
        have : ([betLedgerStored inp user a (generateBillNo env user.ID)].filter
            (fun l => l.BizType = 2 ∧ l.GameRoundID = roundID)) = [] := by
          rw [List.filter_eq_nil_iff]
          intro l hl hc1
          simp only [decide_eq_true_eq] at hc1
          rw [List.mem_singleton.mp hl, betLedgerStored_biz] at hc1
          exact absurd hc1.1 (by decide)
        rw [this]
        rfl
      rw [hw0, hs0]

theorem Handle_PayInv (env : Env) (st : State) (inp : GameEventInput) (h : PayInv st) :
    PayInv (Handle env st inp).2 := by
  rcases Handle_cases env st inp with hst | ⟨db1, s, t, htx, _, hst⟩
  · rw [hst]
    exact h
  · obtain ⟨_, _, _, _, _, _, _, hk, _, _⟩ := handleTx_ok _ _ _ _ _ _ _ htx
    rw [hst]
    have eo : db1.orders = st.db.orders := hk.2.1
    have el : db1.ledger = st.db.ledger := hk.2.2.1
    exact ⟨by show ∀ o ∈ db1.orders, _; rw [eo]; exact h.stake_nonneg,
      by show ∀ o ∈ db1.orders, _; rw [eo]; exact h.stake_scale,
      by show ∀ o ∈ db1.orders, _; rw [eo]; exact h.pending_win,
      by show ∀ l ∈ db1.ledger, _ → ∃ o ∈ db1.orders, _; rw [eo, el]; exact h.settle_bill,
      by show ∀ roundID, winSum db1.orders roundID = settleSum db1.ledger roundID
         rw [eo, el]; exact h.sums⟩

/-- The orders and the ledger after a settling transaction, in a state whose
bill numbers are not repeated: the pending orders of the round are settled,
and the ledger has the new rows of the paying ones. -/
theorem submitDrawTx_tables (env : Env) (st : State) (db1 : DB) (inp : DrawInput)
    (res : String) (n : Int) (p : Float64) (hinv : SettleInv st)
    (htx : submitDrawTx env st.db inp res = .ok (some (db1, n, p))) :
    db1.orders = st.db.orders.map (fun r =>
      if isPending inp.GameRoundID r then settledRow res r else r) ∧
    db1.ledger = st.db.ledger ++ settleUsersRows inp
      (groupByUser res ((st.db.orders.filter (isPending inp.GameRoundID)).map listedOrder))
      st.db.customers := by
  obtain ⟨horders, _, _⟩ := submitDrawTx_writes _ _ _ _ _ _ _ htx
  obtain ⟨_, hledger, _, _⟩ := submitDrawTx_effects _ _ _ _ _ _ _ htx
  rw [settle_orders_of_nodup res inp.GameRoundID st.db.orders hinv.bill_nodup] at horders
  exact ⟨horders, hledger⟩

theorem listed_stake (st : State) (roundID : String) (h : PayInv st) :
    ∀ o ∈ (st.db.orders.filter (isPending roundID)).map listedOrder,
      0 ≤ o.BetAmount.toRat ∧ 0 ≤ o.BetOdds.toRat ∧ o.BetAmount.scale ≤ 2 := by
  intro o ho
  obtain ⟨r, hr, rfl⟩ := List.mem_map.mp ho
  have hm := (List.mem_filter.mp hr).1
  exact ⟨(h.stake_nonneg r hm).1, (h.stake_nonneg r hm).2, h.stake_scale r hm⟩

/-- The amounts of the new ledger rows of a round add up to the payouts of
the listed orders. -/
theorem settleSum_new (inp : DrawInput) (res : String) (orders : List Order)
    (customers : List Customers) (roundID : String)
    (hstake : ∀ o ∈ orders, 0 ≤ o.BetAmount.toRat ∧ 0 ≤ o.BetOdds.toRat) :
    settleSum (settleUsersRows inp (groupByUser res orders) customers) roundID =
      (orders.map (fun o =>
        if inp.GameRoundID = roundID then (settlePayout o res).toRat else 0)).sum := by
  unfold settleSum
  rw [sum_filter_map]
  have hkey : (settleUsersRows inp (groupByUser res orders) customers).map (fun l =>
      if (decide (l.BizType = 2 ∧ l.GameRoundID = roundID)) = true then l.Amount.toRat else 0) =
      ((settleUsersRows inp (groupByUser res orders) customers).map ledgerKey).map
        (fun k => if k.2.1 = 2 ∧ k.2.2.2.1 = roundID then k.2.2.2.2.toRat else 0) := by
    rw [List.map_map]
    apply List.map_congr_left
    intro l _
    simp only [Function.comp, ledgerKey, decide_eq_true_eq]
  rw [hkey, ((settleUsersRows_perm inp res orders customers).map _).sum_eq, List.map_map,
    sum_filter_map]
  congr 1
  apply List.map_congr_left
  intro o ho
  simp only [Function.comp, true_and]
  by_cases hp : paying res o = true
  · rw [if_pos hp]
  · rw [if_neg hp]
    have := toRat_of_not_paying o res (hstake o ho).1 (hstake o ho).2 (by simpa using hp)
    rw [this]
    simp

theorem SubmitDrawResult_PayInv (env : Env) (st : State) (inp : DrawInput)
    (hinv : SettleInv st) (h : PayInv st) : PayInv (SubmitDrawResult env st inp).2 := by
  rcases SubmitDrawResult_cases env st inp with hst | ⟨db1, n, p, htx, _, hst⟩
  · rw [hst]
    exact h
  · obtain ⟨horders, hledger⟩ := submitDrawTx_tables env st db1 inp _ n p hinv htx
    have hlisted := listed_stake st inp.GameRoundID h
    rw [hst]
    refine ⟨?_, ?_, ?_, ?_, ?_⟩
    · show ∀ o ∈ db1.orders, _
      rw [horders]
      intro o1 ho1
      obtain ⟨o, ho, rfl⟩ := List.mem_map.mp ho1
      split_ifs
      · exact h.stake_nonneg o ho
      · exact h.stake_nonneg o ho
    · show ∀ o ∈ db1.orders, _
      rw [horders]
      intro o1 ho1
      obtain ⟨o, ho, rfl⟩ := List.mem_map.mp ho1
      split_ifs
      · exact h.stake_scale o ho
      · exact h.stake_scale o ho
    · show ∀ o ∈ db1.orders, _
      rw [horders]
      intro o1 ho1 hs1
      obtain ⟨o, ho, rfl⟩ := List.mem_map.mp ho1
      by_cases hc : isPending inp.GameRoundID o = true
      · rw [if_pos hc] at hs1
        have h21 : (2 : Int) = 1 := hs1
        omega
      · rw [if_neg hc] at hs1 ⊢
        exact h.pending_win o ho hs1
    · show ∀ l ∈ db1.ledger, _ → ∃ o ∈ db1.orders, _
      rw [horders, hledger]
      intro l hl hbiz
      rcases List.mem_append.mp hl with e | e
      · obtain ⟨o, ho, hb, hs⟩ := h.settle_bill l e hbiz
        refine ⟨_, List.mem_map_of_mem _ ho, ?_⟩
        have hnp : ¬ (isPending inp.GameRoundID o = true) := by
          unfold isPending
          simp only [decide_eq_true_eq, not_and]
          intro _ h1
          rw [hs] at h1
          exact absurd h1 (by decide)
        rw [if_neg hnp]
        exact ⟨hb, hs⟩
      · have hk := List.mem_map_of_mem ledgerKey e
        rw [(settleUsersRows_perm inp _ _ _).mem_iff] at hk
        obtain ⟨o1, ho1, hkey⟩ := List.mem_map.mp hk
        obtain ⟨r, hr, rfl⟩ := List.mem_map.mp (List.mem_filter.mp ho1).1
        obtain ⟨hrm, hrp⟩ := List.mem_filter.mp hr
        refine ⟨_, List.mem_map_of_mem _ hrm, ?_⟩
        rw [if_pos hrp]
        simp only [ledgerKey, Prod.mk.injEq] at hkey
        exact ⟨hkey.2.2.1, rfl⟩
    · show ∀ roundID, winSum db1.orders roundID = settleSum db1.ledger roundID
      intro roundID
      rw [horders, hledger, settleSum_append, ← h.sums roundID,
        settleSum_new inp _ _ _ roundID (fun o ho => ⟨(hlisted o ho).1, (hlisted o ho).2.1⟩)]
      unfold winSum
      rw [sum_filter_map, sum_filter_map, List.map_map, List.map_map, sum_filter_map,
        ← List.sum_map_add]
      congr 1
      apply List.map_congr_left
      intro o ho
      simp only [Function.comp, decide_eq_true_eq]
      by_cases hc : isPending inp.GameRoundID o = true
      · rw [if_pos hc, if_pos hc]
        have hrd : o.GameRoundID = inp.GameRoundID := by
          unfold isPending at hc
          simp only [decide_eq_true_eq] at hc
          exact hc.1
        have hst1 : o.BillStatus = 1 := by
          unfold isPending at hc
          simp only [decide_eq_true_eq] at hc
          exact hc.2.1
        have hw0 := h.pending_win o ho hst1
        show (if (settledRow _ o).GameRoundID = roundID then (settledRow _ o).WinAmount.toRat
          else 0) = _
        have e1 : (settledRow (decideResult inp.CardList) o).GameRoundID = o.GameRoundID := rfl
        have e2 : (settledRow (decideResult inp.CardList) o).WinAmount =
          settlePayout (listedOrder o) (decideResult inp.CardList) := rfl
        rw [e1, e2, hrd, hw0]
        by_cases hr : inp.GameRoundID = roundID
        · simp [hr]
        · simp [hr]
      · rw [if_neg hc, if_neg hc]
        simp

theorem Step_PayInv (st st1 : State) (hinv : SettleInv st) (h : PayInv st) (hs : Step st st1) :
    PayInv st1 := by
  cases hs with
  | bet env _ inp => exact PlaceBet_PayInv env st inp h
  | event env _ inp => exact Handle_PayInv env st inp h
  | draw env _ inp => exact SubmitDrawResult_PayInv env st inp hinv h
  | expire _ r fam k hkv =>
    exact ⟨h.stake_nonneg, h.stake_scale, h.pending_win, h.settle_bill, h.sums⟩

theorem Reachable_PayInv (st : State) (h : Reachable st) : PayInv st := by
  induction h with
  | init st hi =>
    have eo : st.db.orders = [] := hi.2.1
    have el : st.db.ledger = [] := hi.2.2.1
    refine ⟨?_, ?_, ?_, ?_, ?_⟩
    · rw [eo]
      intro o ho
      cases ho
    · rw [eo]
      intro o ho
      cases ho
    · rw [eo]
      intro o ho
      cases ho
    · rw [el]
      intro l hl
      cases hl
    · intro roundID
      rw [eo, el]
      rfl
  | step st st1 hr hs ih => exact Step_PayInv st st1 (Reachable_SettleInv st hr) ih hs

/-! ## The ledger rows of a settlement -/

/-- A `SubmitDrawResult` that succeeds in a reachable state on a round not yet
settled commits its settling transaction. -/
theorem SubmitDrawResult_commits (env : Env) (st st1 : State) (inp : DrawInput)
    (r0 : GameRoundInfo) (hr : Reachable st)
    (hfind : st.db.rounds.find? (fun r => r.GameRoundID = inp.GameRoundID) = some r0)
    (hset : r0.IsSettled = 0)
    (hok : SubmitDrawResult env st inp = (none, st1)) :
    ∃ db1 n p, submitDrawTx env st.db inp (decideResult inp.CardList) =
        .ok (some (db1, n, p)) ∧ st1.db = db1 := by
  have hinv := Reachable_SettleInv st hr
  obtain ⟨_, _, hcases⟩ := SubmitDrawResult_success env st st1 inp hok
  have hr0 : r0 ∈ st.db.rounds ∧ r0.GameRoundID = inp.GameRoundID := by
    refine ⟨List.mem_of_find?_eq_some hfind, ?_⟩
    have := List.find?_some hfind
    simpa using this
  have hs1 : r0.IsSettled ≠ 1 := by
    rw [hset]
    decide
  rcases hcases with ⟨hnone, _⟩ | ⟨db1, n, p, htx, hst⟩
  · exfalso
    obtain ⟨r1, hf1, h1⟩ := submitDrawTx_none _ _ _ _ hnone
    rw [hfind] at hf1
    cases hf1
    rcases h1 with h1 | ⟨_, hany⟩
    · exact hs1 h1
    · obtain ⟨l, hl, hlid⟩ := List.any_eq_true.mp hany
      simp only [decide_eq_true_eq] at hlid
      exact hs1 (hinv.log_settled l hl r0 hr0.1 (hr0.2.trans hlid.symm))
  · exact ⟨db1, n, p, htx, by rw [hst]⟩

theorem countP_bill (orders : List OrderRow) (o : OrderRow) (q : OrderRow → Bool)
    (hnd : (orders.map (fun r => r.BillNo)).Nodup) (ho : o ∈ orders) :
    (orders.filter q).countP (fun r => r.BillNo = o.BillNo) = if q o then 1 else 0 := by
  rw [List.countP_filter]
  have hcongr : orders.countP (fun r => decide (r.BillNo = o.BillNo) && q r) =
      orders.countP (fun r => decide (r = o) && q o) := by
    apply List.countP_congr
    intro r hr
    by_cases hb : r.BillNo = o.BillNo
    · have : r = o := List.inj_on_of_nodup_map hnd hr ho hb
      subst this
      simp
    · have : r ≠ o := fun e => hb (by rw [e])
      simp [hb, this]
  rw [hcongr]
  by_cases hq : q o = true
  · simp only [hq, Bool.and_true, if_true]
    have h1 : orders.countP (fun r => decide (r = o)) = orders.count o := by
      unfold List.count
      apply List.countP_congr
      intro r _
      simp
    rw [h1]
    exact List.count_eq_one_of_mem (List.Nodup.of_map _ hnd) ho
  · simp only [hq, Bool.and_false, Bool.false_eq_true, if_false]
    rw [List.countP_false]
    rfl

/-- C21: in a reachable state, after a `SubmitDrawResult` that succeeds on a
round not yet settled, every order that was pending in the round has exactly
one ledger row with business type `settle` (2) and its bill number when its
payout is positive, and no such row when its payout is zero; such a row
carries the payout as its amount and the id of the round. -/
theorem settle_rows_of_paying (env : Env) (st st1 : State) (inp : DrawInput)
    (r0 : GameRoundInfo) (hr : Reachable st)
    (hfind : st.db.rounds.find? (fun r => r.GameRoundID = inp.GameRoundID) = some r0)
    (hset : r0.IsSettled = 0)
    (hok : SubmitDrawResult env st inp = (none, st1)) :
    ∀ o ∈ st.db.orders, isPending inp.GameRoundID o = true →
      (0 < (settlePayout (listedOrder o) (decideResult inp.CardList)).toRat →
        (st1.db.ledger.filter (fun l => l.BizType = 2 ∧ l.BillNo = o.BillNo)).length = 1) ∧
      ((settlePayout (listedOrder o) (decideResult inp.CardList)).toRat = 0 →
        (st1.db.ledger.filter (fun l => l.BizType = 2 ∧ l.BillNo = o.BillNo)).length = 0) ∧
      (0 ≤ (settlePayout (listedOrder o) (decideResult inp.CardList)).toRat) ∧
      (∀ l ∈ st1.db.ledger, l.BizType = 2 → l.BillNo = o.BillNo →
        l.Amount = settlePayout (listedOrder o) (decideResult inp.CardList) ∧
        l.GameRoundID = inp.GameRoundID) := by
  intro o ho hpend
  have hinv := Reachable_SettleInv st hr
  have hpay := Reachable_PayInv st hr
  obtain ⟨db1, n, p, htx, hdb⟩ := SubmitDrawResult_commits env st st1 inp r0 hr hfind hset hok
  obtain ⟨_, hledger⟩ := submitDrawTx_tables env st db1 inp _ n p hinv htx
  rw [hdb, hledger]
  have hst1 : o.BillStatus = 1 := by
    unfold isPending at hpend
    simp only [decide_eq_true_eq] at hpend
    exact hpend.2.1
  -- no settle row of the bill is stored before
  have hold : ∀ l ∈ st.db.ledger, ¬ (l.BizType = 2 ∧ l.BillNo = o.BillNo) := by
    intro l hl hc
    obtain ⟨o2, ho2, hb2, hs2⟩ := hpay.settle_bill l hl hc.1
    have : o2 = o := List.inj_on_of_nodup_map hinv.bill_nodup ho2 ho (hb2.trans hc.2)
    rw [this, hst1] at hs2
    exact absurd hs2 (by decide)
  have hfold : st.db.ledger.filter (fun l => l.BizType = 2 ∧ l.BillNo = o.BillNo) = [] := by
    rw [List.filter_eq_nil_iff]
    intro l hl hc
    simp only [decide_eq_true_eq] at hc
    exact hold l hl hc
  have hperm := settleUsersRows_perm inp (decideResult inp.CardList)
    ((st.db.orders.filter (isPending inp.GameRoundID)).map listedOrder) st.db.customers
  -- the new rows of the bill are counted on the paying listed orders
  have hcount : ((settleUsersRows inp
      (groupByUser (decideResult inp.CardList)
        ((st.db.orders.filter (isPending inp.GameRoundID)).map listedOrder))
      st.db.customers).filter (fun l => l.BizType = 2 ∧ l.BillNo = o.BillNo)).length =
      if paying (decideResult inp.CardList) (listedOrder o) then 1 else 0 := by
    rw [← List.countP_eq_length_filter]
    have e1 : ∀ rows : List WalletLedger,
        rows.countP (fun l => l.BizType = 2 ∧ l.BillNo = o.BillNo) =
        (rows.map ledgerKey).countP (fun k => k.2.1 = 2 ∧ k.2.2.1 = o.BillNo) := by
      intro rows
      rw [List.countP_map]
      rfl
    rw [e1, hperm.countP_eq, List.countP_map, List.filter_map, List.countP_map,
      List.filter_filter]
    have e2 : (st.db.orders.filter (fun r =>
        (paying (decideResult inp.CardList) ∘ listedOrder) r &&
          isPending inp.GameRoundID r)).countP
        (((fun k : Int × Int × String × String × Dec =>
            decide (k.2.1 = 2 ∧ k.2.2.1 = o.BillNo)) ∘
          fun o1 : Order => (o1.UserID, (2 : Int), o1.BillNo, inp.GameRoundID,
            settlePayout o1 (decideResult inp.CardList))) ∘ listedOrder) =
        (st.db.orders.filter (fun r =>
          (paying (decideResult inp.CardList) ∘ listedOrder) r &&
            isPending inp.GameRoundID r)).countP (fun r => r.BillNo = o.BillNo) := by
      apply List.countP_congr
      intro r _
      simp [Function.comp, listedOrder]
    rw [e2, countP_bill st.db.orders o _ hinv.bill_nodup ho]
    simp [hpend]
  have hs := (listed_stake st inp.GameRoundID hpay) (listedOrder o)
    (List.mem_map_of_mem _ (List.mem_filter.mpr ⟨ho, hpend⟩))
  have hnn := settlePayout_nonneg (listedOrder o) (decideResult inp.CardList) hs.1 hs.2.1
  have hz : (⟨0, 0⟩ : Dec).toRat = 0 := by norm_num [Dec.toRat]
  refine ⟨?_, ?_, hnn, ?_⟩
  · intro hpos
    rw [List.filter_append, hfold, List.nil_append, hcount]
    have : paying (decideResult inp.CardList) (listedOrder o) = true := by
      unfold paying
      simp only [decide_eq_true_eq, Dec.Cmp_pos_iff]
      rw [hz]
      exact hpos
    rw [if_pos this]
  · intro hzero
    rw [List.filter_append, hfold, List.nil_append, hcount]
    have : ¬ (paying (decideResult inp.CardList) (listedOrder o) = true) := by
      unfold paying
      simp only [decide_eq_true_eq, Dec.Cmp_pos_iff]
      rw [hz, hzero]
      exact lt_irrefl 0
    rw [if_neg this]
  · intro l hl hbiz hbill
    rcases List.mem_append.mp hl with e | e
    · exact absurd ⟨hbiz, hbill⟩ (hold l e)
    · have hk := List.mem_map_of_mem ledgerKey e
      rw [hperm.mem_iff] at hk
      obtain ⟨o1, ho1, hkey⟩ := List.mem_map.mp hk
      obtain ⟨r, hrm, rfl⟩ := List.mem_map.mp (List.mem_filter.mp ho1).1
      simp only [ledgerKey, Prod.mk.injEq] at hkey
      have hrb : r.BillNo = o.BillNo := by
        have : (listedOrder r).BillNo = l.BillNo := hkey.2.2.1
        exact this.trans hbill
      have : r = o :=
        List.inj_on_of_nodup_map hinv.bill_nodup (List.mem_filter.mp hrm).1 ho hrb
      subst this
      exact ⟨hkey.2.2.2.2.symm, hkey.2.2.2.1.symm⟩

/-- The bet of `100.00` on dragon, pending in round `R1`, after the outcome
tiger: the settlement succeeds, the order is settled with win amount zero, and
the ledger holds the `bet` row of the order and no `settle` row with its bill
number. -/
theorem lost_order_counterexample :
    sampleDrawn.db.orders.map (fun o => (o.BillNo, o.GameRoundID, o.BillStatus, o.PlayType)) =
      [("DT202501010000000007ABC", "R1", 1, 1)] ∧
    decideResult "D3,T8,Rt" = "tiger" ∧
    SubmitDrawResult sampleEnv sampleDrawn (sampleDraw "D3,T8,Rt") = (none, sampleLost) ∧
    sampleLost.db.rounds.map (fun r => (r.GameRoundID, r.IsSettled, r.GameStatus)) =
      [("R1", 1, 6)] ∧
    sampleLost.db.orders.map (fun o => (o.BillNo, o.BillStatus, o.WinAmount)) =
      [("DT202501010000000007ABC", 2, ⟨0, 0⟩)] ∧
    sampleLost.db.ledger.map (fun l => (l.BizType, l.BillNo)) =
      [(1, "DT202501010000000007ABC")] ∧
    (sampleLost.db.ledger.filter
      (fun l => l.BizType = 2 ∧ l.BillNo = "DT202501010000000007ABC")).length = 0 := by
  refine ⟨by decide, by decide, by decide, by decide, by decide, by decide, by decide⟩

/-- The bet of `100.00` on dragon after the outcome dragon has one `settle`
row of `197.00`; after the outcome tiger it has none. -/
theorem settle_rows_of_paying_witness :
    sampleSettled.db.ledger.map (fun l => (l.BizType, l.BillNo, l.Amount)) =
      [(1, "DT202501010000000007ABC", ⟨10000, 2⟩),
       (2, "DT202501010000000007ABC", ⟨19700, 2⟩)] ∧
    (∀ o ∈ sampleDrawn.db.orders, isPending (sampleDraw "D9,T8,Rd").GameRoundID o = true →
      (0 < (settlePayout (listedOrder o) (decideResult (sampleDraw "D9,T8,Rd").CardList)).toRat →
        (sampleSettled.db.ledger.filter
          (fun l => l.BizType = 2 ∧ l.BillNo = o.BillNo)).length = 1) ∧
      ((settlePayout (listedOrder o) (decideResult (sampleDraw "D9,T8,Rd").CardList)).toRat = 0 →
        (sampleSettled.db.ledger.filter
          (fun l => l.BizType = 2 ∧ l.BillNo = o.BillNo)).length = 0) ∧
      (0 ≤ (settlePayout (listedOrder o) (decideResult (sampleDraw "D9,T8,Rd").CardList)).toRat) ∧
      (∀ l ∈ sampleSettled.db.ledger, l.BizType = 2 → l.BillNo = o.BillNo →
        l.Amount = settlePayout (listedOrder o) (decideResult (sampleDraw "D9,T8,Rd").CardList) ∧
        l.GameRoundID = (sampleDraw "D9,T8,Rd").GameRoundID)) :=
  ⟨by decide,
    settle_rows_of_paying sampleEnv sampleDrawn sampleSettled (sampleDraw "D9,T8,Rd")
      { sampleRound with BetStopTime := 2000, GameStatus := 5 } sampleDrawn_reachable
      (by decide) (by decide) (by decide)⟩

theorem sampleSettled_reachable : Reachable sampleSettled :=
  Reachable.step sampleDrawn sampleSettled sampleDrawn_reachable
    (Step.draw sampleEnv sampleDrawn (sampleDraw "D9,T8,Rd"))

/-- C22: in every reachable state and for every stored round with
`is_settled = 1`, the sum of `win_amount` over the orders of the round equals
the sum of `amount` over the ledger rows with business type `settle` (2) and
the id of the round. -/
theorem settled_round_sums (st : State) (h : Reachable st) :
    ∀ r ∈ st.db.rounds, r.IsSettled = 1 →
      winSum st.db.orders r.GameRoundID = settleSum st.db.ledger r.GameRoundID := by
  intro r _ _
  exact (Reachable_PayInv st h).sums r.GameRoundID

/-- The round `R1` settled with outcome dragon: the one order has win amount
`197.00`, and the one `settle` row of the round has amount `197.00`. -/
theorem settled_round_sums_witness :
    sampleSettled.db.rounds.map (fun r => (r.GameRoundID, r.IsSettled)) = [("R1", 1)] ∧
    (sampleSettled.db.orders.filter (fun o => o.GameRoundID = "R1")).map
      (fun o => o.WinAmount) = [⟨19700, 2⟩] ∧
    (sampleSettled.db.ledger.filter (fun l => l.BizType = 2 ∧ l.GameRoundID = "R1")).map
      (fun l => l.Amount) = [⟨19700, 2⟩] ∧
    (∀ r ∈ sampleSettled.db.rounds, r.IsSettled = 1 →
      winSum sampleSettled.db.orders r.GameRoundID =
        settleSum sampleSettled.db.ledger r.GameRoundID) :=
  ⟨by decide, by decide, by decide, settled_round_sums sampleSettled sampleSettled_reachable⟩

/-! ## The balance and the ledger row of a bet -/

namespace Dec

theorem eq_of_toRat (a b : Dec) (hs : a.scale = b.scale) (h : a.toRat = b.toRat) : a = b := by
  cases a with
  | mk va sa =>
    cases b with
    | mk vb sb =>
      simp only at hs
      subst hs
      unfold toRat at h
      simp only at h
      have hp : (10 : ℚ) ^ sa ≠ 0 := by positivity
      have : va = vb := by
        field_simp at h
        exact_mod_cast h
      rw [this]

theorem Round_idem (d : Dec) (p : Nat) : (d.Round p).Round p = d.Round p := by
  conv_lhs => rw [Round]
  rw [if_pos (Round_scale d p)]

theorem Round_eq_of_toRat (x y : Dec) (p : Nat) (hx : 0 ≤ x.value) (hy : 0 ≤ y.value)
    (h : x.toRat = y.toRat) : x.Round p = y.Round p := by
  apply eq_of_toRat
  · rw [Round_scale, Round_scale]
  · rw [toRat_Round_of_nonneg x p hx, toRat_Round_of_nonneg y p hy, h]

end Dec

/-- A balance of at most two fractional digits from `0` to below `2 ^ 45` is
read without a change: `decimal.NewFromFloat` of its float64 is the same
number. -/
theorem balanceDec_exact (user : Customers) (hs : user.Balance.scale ≤ 2)
    (h0 : 0 ≤ user.Balance.toRat) (hlt : user.Balance.toRat < 2 ^ 45) :
    (balanceDec user).toRat = user.Balance.toRat ∧ (balanceDec user).scale ≤ 2 ∧
    0 ≤ (balanceDec user).value := by
  have hv : 0 ≤ user.Balance.value := (Dec.toRat_nonneg_iff _).mp h0
  have hz : user.Balance.toRat < (2 : ℚ) ^ (45 : Int) := by
    have e : (2 : ℚ) ^ (45 : Int) = (2 : ℚ) ^ (45 : Nat) := by norm_cast
    rw [e]
    exact hlt
  obtain ⟨h1, h2⟩ := NewFromFloat_exact user.Balance hs hv hz
  refine ⟨h1, h2, ?_⟩
  rw [← Dec.toRat_nonneg_iff]
  show 0 ≤ (NewFromFloat user.Balance.InexactFloat64).toRat
  rw [h1]
  exact h0

/-- What `PlaceBet` stores and returns for such a balance: the balance less
the amount, rounded to two digits. -/
theorem bet_stored_exact (user : Customers) (a : Dec) (hs : user.Balance.scale ≤ 2)
    (h0 : 0 ≤ user.Balance.toRat) (hlt : user.Balance.toRat < 2 ^ 45)
    (hcov : ¬ (balanceDec user).Cmp a < 0) (ha : 0 ≤ a.toRat) :
    ((balanceDec user).Sub a).Round 2 = (user.Balance.Sub a).Round 2 ∧
    (((balanceDec user).Sub a).Round 2).InexactFloat64.toColumn =
      (user.Balance.Sub a).Round 2 := by
  obtain ⟨h1, _, _⟩ := balanceDec_exact user hs h0 hlt
  rw [Dec.Cmp_lt_zero_iff, h1] at hcov
  have hsub : ((balanceDec user).Sub a).toRat = (user.Balance.Sub a).toRat := by
    rw [Dec.toRat_Sub, Dec.toRat_Sub, h1]
  have hnn : 0 ≤ (user.Balance.Sub a).toRat := by
    rw [Dec.toRat_Sub]
    linarith
  have hv1 : 0 ≤ ((balanceDec user).Sub a).value := by
    rw [← Dec.toRat_nonneg_iff, hsub]
    exact hnn
  have hv2 : 0 ≤ (user.Balance.Sub a).value := (Dec.toRat_nonneg_iff _).mp hnn
  have heq := Dec.Round_eq_of_toRat _ _ 2 hv1 hv2 hsub
  refine ⟨heq, ?_⟩
  rw [heq]
  have hr0 : 0 ≤ ((user.Balance.Sub a).Round 2).value := Dec.Round_nonneg _ _ hv2
  have hrlt : ((user.Balance.Sub a).Round 2).toRat < (2 : ℚ) ^ (45 : Int) := by
    have e : (2 : ℚ) ^ (45 : Int) = (2 : ℚ) ^ (45 : Nat) := by norm_cast
    rw [e]
    -- a balance on the grid of cents is not passed by the rounding of a smaller number
    rw [Dec.toRat_Round_of_nonneg _ _ hv2]
    have hb : user.Balance.toRat * 10 ^ 2 = ((user.Balance.coef 2 : Int) : ℚ) := by
      rw [Dec.toRat_eq_coef _ 2 hs]
      field_simp
    have hle : (user.Balance.Sub a).toRat * 10 ^ 2 + 1 / 2 <
        ((user.Balance.coef 2 + 1 : Int) : ℚ) := by
      rw [Dec.toRat_Sub]
      push_cast
      rw [← hb]
      nlinarith
    have hfl : ⌊(user.Balance.Sub a).toRat * 10 ^ 2 + 1 / 2⌋ < user.Balance.coef 2 + 1 :=
      Int.floor_lt.mpr hle
    have hfl2 : ((⌊(user.Balance.Sub a).toRat * 10 ^ 2 + 1 / 2⌋ : Int) : ℚ) ≤
        ((user.Balance.coef 2 : Int) : ℚ) := by
      exact_mod_cast Int.lt_add_one_iff.mp hfl
    have : ((⌊(user.Balance.Sub a).toRat * 10 ^ 2 + 1 / 2⌋ : Int) : ℚ) / 10 ^ 2 ≤
        user.Balance.toRat := by
      rw [div_le_iff₀ (by norm_num), hb]
      exact hfl2
    linarith
  rw [toColumn_exact _ (by rw [Dec.Round_scale]) hr0 hrlt, Dec.Round_idem]

/-- The before-amount of the ledger row of a bet for such a balance. -/
theorem bet_before_exact (user : Customers) (hs : user.Balance.scale ≤ 2)
    (h0 : 0 ≤ user.Balance.toRat) (hlt : user.Balance.toRat < 2 ^ 45) :
    (((balanceDec user).Round 2).InexactFloat64.toColumn).toRat = user.Balance.toRat := by
  obtain ⟨h1, h2, h3⟩ := balanceDec_exact user hs h0 hlt
  have hr : ((balanceDec user).Round 2).toRat = user.Balance.toRat := by
    rw [Dec.toRat_Round_of_scale_le _ _ h2, h1]
  have hz : ((balanceDec user).Round 2).toRat < (2 : ℚ) ^ (45 : Int) := by
    have e : (2 : ℚ) ^ (45 : Int) = (2 : ℚ) ^ (45 : Nat) := by norm_cast
    rw [e, hr]
    exact hlt
  rw [toColumn_exact _ (by rw [Dec.Round_scale]) (Dec.Round_nonneg _ _ h3) hz, Dec.Round_idem, hr]

/-- C5 (amended): the balance check and the stored balance.  For a `PlaceBet`
call that reaches the balance check with an active user and the validated
amount `a`, where the stored balance `b` has at most two fractional digits and
`0 ≤ b < 2 ^ 45` (the balances that pass through float64 without a change):
the call fails with `insufficient balance` iff `b < a`; when the call
succeeds, the user's stored balance is `b - a` rounded to two decimals, which
is `≥ 0`, is `b - a` itself when `a` has at most two fractional digits, and is
`0` when `b = a`.  Every `PlaceBet`, whatever the balances, keeps all balances
`≥ 0`. -/
theorem PlaceBet_balance (env : Env) (st : State) (inp : BetInput) (a : Dec)
    (kv : Option KV) (locked : Bool) (user : Customers) (tx : DB) (round : GameRoundInfo)
    (tx1 : DB)
    (hv : validateBetAmount inp.BetAmount = .ok a)
    (hk : kvFastPath env st.kv inp.IdempotencyKey = .proceed kv locked)
    (hr : BetReachesWrites env st.db inp user tx round tx1)
    (hact : user.Status = 1)
    (hscale : user.Balance.scale ≤ 2) (hnonneg : 0 ≤ user.Balance.toRat)
    (hsize : user.Balance.toRat < 2 ^ 45) :
    ((PlaceBet env st inp).1 = .error (.msg "insufficient balance") ↔
      user.Balance.toRat < a.toRat) ∧
    (∀ out, (PlaceBet env st inp).1 = .ok out →
      (∃ u ∈ (PlaceBet env st inp).2.db.customers, u.ID = user.ID) ∧
      (∀ u ∈ (PlaceBet env st inp).2.db.customers, u.ID = user.ID →
        u.Balance = (user.Balance.Sub a).Round 2) ∧
      0 ≤ ((user.Balance.Sub a).Round 2).toRat ∧
      (a.scale ≤ 2 →
        ((user.Balance.Sub a).Round 2).toRat = user.Balance.toRat - a.toRat) ∧
      (user.Balance.toRat = a.toRat → ((user.Balance.Sub a).Round 2).toRat = 0)) ∧
    (∀ (env1 : Env) (st1 : State) (inp1 : BetInput),
      (∀ u ∈ st1.db.customers, 0 ≤ u.Balance.toRat) →
      ∀ u ∈ (PlaceBet env1 st1 inp1).2.db.customers, 0 ≤ u.Balance.toRat) := by
  obtain ⟨hres, hdb⟩ := PlaceBet_eq_tx env st inp a kv locked hv hk
  have htx := placeBetTx_of_reaches env st.db kv inp a user tx round tx1 hr
  obtain ⟨hbd, _, _⟩ := balanceDec_exact user hscale hnonneg hsize
  have hbounds := validateBetAmount_ok_bounds _ _ hv
  refine ⟨?_, ?_, PlaceBet_customers_nonneg⟩
  · rw [hres, htx, ← hbd, ← Dec.Cmp_lt_zero_iff]
    cases hw : placeBetWrites env tx1 inp user a (calcOdds (ptMap inp.PlayType))
        (generateBillNo env user.ID) with
    | error e =>
      simp only [Except.error.injEq]
      rcases placeBetWrites_error _ _ _ _ _ _ _ _ hw with h1 | h1 | h1
      · exact absurd hact h1.1
      · rw [h1.2.2]
        simp [h1.2.1]
      · constructor
        · intro he
          rcases h1.2.2 with h2 | h2 <;> rw [h2] at he <;>
            simp [ErrBadConn, ErrDuplicateEntry] at he
        · intro hlt
          exact absurd hlt h1.2.1
    | ok q =>
      obtain ⟨tx2, afterDec⟩ := q
      obtain ⟨_, hwr⟩ := placeBetWrites_ok _ _ _ _ _ _ _ _ _ hw
      simp only []
      constructor
      · intro he
        split_ifs at he
        simp [ErrBadConn] at he
      · intro hlt
        exact absurd hlt hwr.covered
  · intro out hout
    rw [hres, htx] at hout
    rw [hdb, htx]
    cases hw : placeBetWrites env tx1 inp user a (calcOdds (ptMap inp.PlayType))
        (generateBillNo env user.ID) with
    | error e => simp [hw] at hout
    | ok q =>
      obtain ⟨tx2, afterDec⟩ := q
      obtain ⟨_, hwr⟩ := placeBetWrites_ok _ _ _ _ _ _ _ _ _ hw
      simp only [hw] at hout ⊢
      by_cases hcm : env.dbErr .commit = true
      · simp [hcm] at hout
      · simp only [hcm, Bool.false_eq_true, if_false]
        obtain ⟨_, e1⟩ := IdempotencyKey_Insert_ok _ _ _ _ hr.idem_ok
        have hmem : user ∈ tx.customers := by
          rcases getOrCreateUserInTx_ok _ _ _ _ _ _ _ hr.user_ok with h1 | h1
          · rw [h1.1]
            exact List.mem_of_find?_eq_some h1.2
          · rw [h1.1]
            simp
        have hstored := (bet_stored_exact user a hscale hnonneg hsize hwr.covered
          (by linarith [hbounds.1])).2
        have hcov : ¬ user.Balance.Cmp a < 0 := by
          have := hwr.covered
          rw [Dec.Cmp_lt_zero_iff, hbd] at this
          rw [Dec.Cmp_lt_zero_iff]
          exact this
        refine ⟨?_, ?_, Dec.toRat_Round_Sub_nonneg _ _ hcov,
          Dec.toRat_Round_Sub_exact _ _ hscale, Dec.toRat_Round_Sub_zero _ _⟩
        · rw [hwr.customers_eq, e1]
          refine ⟨_, List.mem_map.mpr ⟨user, hmem, rfl⟩, ?_⟩
          simp
        · intro u hu hid
          rw [hwr.customers_eq, e1] at hu
          simp only [List.mem_map] at hu
          obtain ⟨v, _, rfl⟩ := hu
          split_ifs at hid ⊢ with hc
          · exact hstored
          · exact absurd hid hc

set_option maxRecDepth 4096 in
/-- C5 as stated fails on amounts with more than two fractional digits and
on balances that are no float64.  The amount `0.015` passes the validation of
`PlaceBet`, the balance `1000.00` covers it, the call succeeds, and the stored
balance is `999.99`, which is not `1000.00 - 0.015`.  With the balance
`100000000000000.01` the bet of `0.01` succeeds and returns the remaining
amount `100000000000000.01`, and the stored balance is `100000000000000.02`,
which is not `100000000000000.01 - 0.01`. -/
theorem stored_balance_counterexample :
    validateBetAmount sampleBetMilli.BetAmount = .ok ⟨15, 3⟩ ∧
    sampleBetting.db.customers = [sampleUser] ∧
    (PlaceBet sampleEnv sampleBetting sampleBetMilli).1 =
      .ok ⟨"DT202501010000000007ABC", ⟨99999, 2⟩⟩ ∧
    (PlaceBet sampleEnv sampleBetting sampleBetMilli).2.db.customers =
      [{ sampleUser with Balance := ⟨99999, 2⟩ }] ∧
    (⟨99999, 2⟩ : Dec).toRat ≠ sampleUser.Balance.toRat - (⟨15, 3⟩ : Dec).toRat ∧
    validateBetAmount sampleBetCent.BetAmount = .ok ⟨1, 2⟩ ∧
    sampleRichBetting.db.customers =
      [{ sampleUser with Balance := ⟨10000000000000001, 2⟩ }] ∧
    (PlaceBet sampleEnv sampleRichBetting sampleBetCent).1 =
      .ok ⟨"DT202501010000000007ABC", ⟨10000000000000001, 2⟩⟩ ∧
    (PlaceBet sampleEnv sampleRichBetting sampleBetCent).2.db.customers =
      [{ sampleUser with Balance := ⟨10000000000000002, 2⟩ }] ∧
    (⟨10000000000000002, 2⟩ : Dec).toRat ≠
      (⟨10000000000000001, 2⟩ : Dec).toRat - (⟨1, 2⟩ : Dec).toRat := by
  refine ⟨by decide, by decide, by decide, by decide, ?_, by decide, by decide, by decide,
    by decide, ?_⟩
  · norm_num [Dec.toRat, sampleUser]
  · norm_num [Dec.toRat]

/-- The balance check of the bet of `100.00` against the balance `1000.00`,
which has two fractional digits and lies below `2 ^ 45`. -/
theorem PlaceBet_balance_witness :
    sampleUser.Status = 1 ∧ sampleUser.Balance.scale ≤ 2 ∧
    0 ≤ sampleUser.Balance.toRat ∧ sampleUser.Balance.toRat < 2 ^ 45 ∧
    ((PlaceBet sampleEnv sampleBetting sampleBet).1 = .error (.msg "insufficient balance") ↔
      sampleUser.Balance.toRat < (⟨10000, 2⟩ : Dec).toRat) ∧
    (∀ u ∈ (PlaceBet sampleEnv sampleBetting sampleBet).2.db.customers, u.ID = sampleUser.ID →
      u.Balance = (sampleUser.Balance.Sub ⟨10000, 2⟩).Round 2) :=
  ⟨by decide, by decide, by norm_num [Dec.toRat, sampleUser],
    by norm_num [Dec.toRat, sampleUser],
    (PlaceBet_balance sampleEnv sampleBetting sampleBet ⟨10000, 2⟩ none false sampleUser
      sampleBetting.db sampleRound sampleKeyTaken (by decide) (by decide)
      ⟨by decide, by decide, by decide, by decide, by decide, by decide, by decide⟩
      (by decide) (by decide) (by norm_num [Dec.toRat, sampleUser])
      (by norm_num [Dec.toRat, sampleUser])).1,
    ((PlaceBet_balance sampleEnv sampleBetting sampleBet ⟨10000, 2⟩ none false sampleUser
      sampleBetting.db sampleRound sampleKeyTaken (by decide) (by decide)
      ⟨by decide, by decide, by decide, by decide, by decide, by decide, by decide⟩
      (by decide) (by decide) (by norm_num [Dec.toRat, sampleUser])
      (by norm_num [Dec.toRat, sampleUser])).2.1
        ⟨"DT202501010000000007ABC", ⟨90000, 2⟩⟩ (by decide)).2.1⟩

set_option maxRecDepth 4096 in
/-- C6 as stated fails on amounts with more than two fractional digits and
on balances that are no float64.  The amount `0.025` passes the validation of
`PlaceBet`; the ledger row of the bet has amount `0.03`, before-amount
`1000.00` and after-amount `999.98`, and `999.98` is not `1000.00 - 0.03`.
With the balance `100000000000000.01` the ledger row of the bet of `0.01` has
before-amount `100000000000000.02`, which is not the balance before the call,
and after-amount `100000000000000.02`, which is neither
`before_amount - amount` nor the returned `100000000000000.01`. -/
theorem ledger_row_counterexample :
    validateBetAmount sampleBetMilli25.BetAmount = .ok ⟨25, 3⟩ ∧
    (PlaceBet sampleEnv sampleBetting sampleBetMilli25).1 =
      .ok ⟨"DT202501010000000007ABC", ⟨99998, 2⟩⟩ ∧
    (PlaceBet sampleEnv sampleBetting sampleBetMilli25).2.db.ledger.map
      (fun l => (l.Amount, l.BeforeAmount, l.AfterAmount)) =
      [((⟨3, 2⟩ : Dec), (⟨100000, 2⟩ : Dec), (⟨99998, 2⟩ : Dec))] ∧
    (⟨99998, 2⟩ : Dec).toRat ≠ (⟨100000, 2⟩ : Dec).toRat - (⟨3, 2⟩ : Dec).toRat ∧
    sampleRichBetting.db.customers.map (fun u => u.Balance) = [⟨10000000000000001, 2⟩] ∧
    (PlaceBet sampleEnv sampleRichBetting sampleBetCent).1 =
      .ok ⟨"DT202501010000000007ABC", ⟨10000000000000001, 2⟩⟩ ∧
    (PlaceBet sampleEnv sampleRichBetting sampleBetCent).2.db.ledger.map
      (fun l => (l.Amount, l.BeforeAmount, l.AfterAmount)) =
      [((⟨1, 2⟩ : Dec), (⟨10000000000000002, 2⟩ : Dec), (⟨10000000000000002, 2⟩ : Dec))] ∧
    (⟨10000000000000002, 2⟩ : Dec).toRat ≠ (⟨10000000000000001, 2⟩ : Dec).toRat ∧
    (⟨10000000000000002, 2⟩ : Dec).toRat ≠
      (⟨10000000000000002, 2⟩ : Dec).toRat - (⟨1, 2⟩ : Dec).toRat := by
  refine ⟨by decide, by decide, by decide, ?_, by decide, by decide, by decide, ?_, ?_⟩
  · norm_num [Dec.toRat]
  · norm_num [Dec.toRat]
  · norm_num [Dec.toRat]

/-- C6 (amended): the ledger row of a bet.  A `PlaceBet` call that stores an
order read the user from the table, succeeds, and appends exactly one ledger
row and one order; the row has business type bet and the order's bill number,
its amount is the order's `bet_amount`, and its after-amount is the user's
stored balance.  When the balance `b` before the call has at most two
fractional digits and `0 ≤ b < 2 ^ 45` (the balances that pass through float64
without a change), the after-amount is also the returned `remain_amount` and
the before-amount is `b`; when moreover the bet amount has at most two
fractional digits, the amount of the row is the bet amount and
`after_amount = before_amount - amount`. -/
theorem PlaceBet_ledger_row (env : Env) (st : State) (inp : BetInput)
    (h : (PlaceBet env st inp).2.db.orders ≠ st.db.orders) :
    ∃ a user l o out,
      validateBetAmount inp.BetAmount = .ok a ∧
      st.db.customers.find? (fun u =>
        u.PlatformID = inp.PlatformID ∧ u.PlatformUserID = inp.PlatformUserID) = some user ∧
      (PlaceBet env st inp).1 = .ok out ∧
      (PlaceBet env st inp).2.db.ledger = st.db.ledger ++ [l] ∧
      (PlaceBet env st inp).2.db.orders = st.db.orders ++ [o] ∧
      l.BizType = 1 ∧ l.UserID = user.ID ∧ o.UserID = user.ID ∧
      l.BillNo = out.BillNo ∧ o.BillNo = out.BillNo ∧
      l.Amount = o.BetAmount ∧
      (∀ u ∈ (PlaceBet env st inp).2.db.customers, u.ID = user.ID →
        u.Balance = l.AfterAmount) ∧
      (user.Balance.scale ≤ 2 → 0 ≤ user.Balance.toRat → user.Balance.toRat < 2 ^ 45 →
        l.AfterAmount = out.RemainAmount ∧
        l.BeforeAmount.toRat = user.Balance.toRat ∧
        (a.scale ≤ 2 →
          l.Amount.toRat = a.toRat ∧
          l.AfterAmount.toRat = l.BeforeAmount.toRat - l.Amount.toRat)) := by
  rcases PlaceBet_cases env st inp with h1 | ⟨a, kv, locked, user, tx, round, tx1, tx2,
    afterDec, hv, _, hc, hok, hdb, _⟩
  · rw [h1] at h
    exact absurd rfl h
  · obtain ⟨hafter, hw⟩ := placeBetWrites_ok _ _ _ _ _ _ _ _ _ hc.writes_ok
    obtain ⟨_, e1⟩ := IdempotencyKey_Insert_ok _ _ _ _ hc.idem_ok
    have hbounds := validateBetAmount_ok_bounds _ _ hv
    have huser : tx = st.db ∧ st.db.customers.find? (fun u =>
        u.PlatformID = inp.PlatformID ∧ u.PlatformUserID = inp.PlatformUserID) = some user := by
      rcases getOrCreateUserInTx_ok _ _ _ _ _ _ _ hc.user_ok with h1 | h1
      · exact h1
      · exfalso
        apply hw.covered
        have hz : user.Balance.toRat = 0 := by
          rw [h1.2.2]
          norm_num [Dec.toRat]
        have hs0 : user.Balance.scale ≤ 2 := by
          rw [h1.2.2]
          exact Nat.zero_le _
        obtain ⟨hbd, _, _⟩ := balanceDec_exact user hs0 (by rw [hz]) (by rw [hz]; norm_num)
        rw [Dec.Cmp_lt_zero_iff, hbd, hz]
        linarith [hbounds.1]
    refine ⟨a, user, betLedgerStored inp user a (generateBillNo env user.ID),
      orderRow env (betOrder inp user a (calcOdds (ptMap inp.PlayType))
        (generateBillNo env user.ID)), _, hv, huser.2, hok, ?_, ?_, ?_, rfl, rfl, rfl, rfl, rfl,
      ?_, ?_⟩
    · rw [hdb, hw.ledger_eq, e1, huser.1]
    · rw [hdb, hw.orders_eq, e1, huser.1]
    · simp [betLedgerStored, ledgerBizCode, betLedger, BIZ_TYPE_BET]
    · intro u hu hid
      rw [hdb, hw.customers_eq] at hu
      simp only [List.mem_map] at hu
      obtain ⟨v, _, rfl⟩ := hu
      split_ifs at hid ⊢ with hcnd
      · rfl
      · exact absurd hid hcnd
    · intro hb h0 hlt
      obtain ⟨hr1, hr2⟩ := bet_stored_exact user a hb h0 hlt hw.covered
        (by linarith [hbounds.1])
      have hbefore := bet_before_exact user hb h0 hlt
      refine ⟨?_, hbefore, fun ha => ⟨Dec.toRat_Round_of_scale_le _ _ ha, ?_⟩⟩
      · show (((balanceDec user).Sub a).Round 2).InexactFloat64.toColumn = afterDec.Round 2
        rw [hr2, hafter, hr1]
      · show ((((balanceDec user).Sub a).Round 2).InexactFloat64.toColumn).toRat =
          (((balanceDec user).Round 2).InexactFloat64.toColumn).toRat - (a.Round 2).toRat
        rw [hr2, hbefore, Dec.toRat_Round_Sub_exact _ _ hb ha,
          Dec.toRat_Round_of_scale_le _ _ ha]

/-- The ledger row of the bet of `100.00` against the balance `1000.00`. -/
theorem PlaceBet_ledger_row_witness :
    (PlaceBet sampleEnv sampleBetting sampleBet).2.db.orders ≠ sampleBetting.db.orders ∧
    (PlaceBet sampleEnv sampleBetting sampleBet).2.db.ledger.map
      (fun l => (l.Amount, l.BeforeAmount, l.AfterAmount)) =
      [((⟨10000, 2⟩ : Dec), (⟨100000, 2⟩ : Dec), (⟨90000, 2⟩ : Dec))] ∧
    ∃ a user l o out,
      validateBetAmount sampleBet.BetAmount = .ok a ∧
      sampleBetting.db.customers.find? (fun u =>
        u.PlatformID = sampleBet.PlatformID ∧
        u.PlatformUserID = sampleBet.PlatformUserID) = some user ∧
      (PlaceBet sampleEnv sampleBetting sampleBet).1 = .ok out ∧
      (PlaceBet sampleEnv sampleBetting sampleBet).2.db.ledger =
        sampleBetting.db.ledger ++ [l] ∧
      (PlaceBet sampleEnv sampleBetting sampleBet).2.db.orders =
        sampleBetting.db.orders ++ [o] ∧
      l.BizType = 1 ∧ l.UserID = user.ID ∧ o.UserID = user.ID ∧
      l.BillNo = out.BillNo ∧ o.BillNo = out.BillNo ∧
      l.Amount = o.BetAmount ∧
      (∀ u ∈ (PlaceBet sampleEnv sampleBetting sampleBet).2.db.customers, u.ID = user.ID →
        u.Balance = l.AfterAmount) ∧
      (user.Balance.scale ≤ 2 → 0 ≤ user.Balance.toRat → user.Balance.toRat < 2 ^ 45 →
        l.AfterAmount = out.RemainAmount ∧
        l.BeforeAmount.toRat = user.Balance.toRat ∧
        (a.scale ≤ 2 →
          l.Amount.toRat = a.toRat ∧
          l.AfterAmount.toRat = l.BeforeAmount.toRat - l.Amount.toRat)) :=
  ⟨by decide, by decide, PlaceBet_ledger_row sampleEnv sampleBetting sampleBet (by decide)⟩

/-! ## The balance and the ledger rows of a user in a settlement -/

namespace Float64

theorem ofRatio_err (v : Int) (d : Nat) (hd : 0 < d) (k : Int)
    (h : |(v : ℚ) / d| < (2 : ℚ) ^ k) :
    |(ofRatio v d).toRat - (v : ℚ) / d| ≤ (2 : ℚ) ^ (k - 53) ∧
    (v ≠ 0 → (ofRatio v d).exp ≤ k - 52) := by
  obtain ⟨h1, h2, _⟩ := ofRatio_spec v d hd
  by_cases hv : v = 0
  · subst hv
    rw [ofRatio_zero, toRat_zero]
    refine ⟨?_, fun hne => absurd rfl hne⟩
    simp only [Int.cast_zero, zero_div, sub_self, abs_zero]
    positivity
  · have hlt : (2 : ℚ) ^ ((ofRatio v d).exp + 51) < (2 : ℚ) ^ k := lt_of_le_of_lt (h2 hv) h
    have hexp := (zpow_lt_zpow_iff_right₀ (by norm_num : (1 : ℚ) < 2)).mp hlt
    refine ⟨le_trans h1 (zpow_le_zpow_right₀ (by norm_num) (by omega)), fun _ => by omega⟩

theorem add_value (a b : Float64) :
    (((a.mant * 2 ^ (a.exp - min a.exp b.exp).toNat +
        b.mant * 2 ^ (b.exp - min a.exp b.exp).toNat) * 2 ^ (min a.exp b.exp).toNat : Int) : ℚ) /
      ((2 ^ (-(min a.exp b.exp)).toNat : Nat) : ℚ) = a.toRat + b.toRat := by
  unfold toRat
  have h2 : (2 : ℚ) ≠ 0 := by norm_num
  have ha : (2 : ℚ) ^ a.exp = (2 : ℚ) ^ (a.exp - min a.exp b.exp).toNat *
      (2 : ℚ) ^ (min a.exp b.exp) := by
    rw [← zpow_natCast, ← zpow_add₀ h2]
    congr 1
    have := min_le_left a.exp b.exp
    omega
  have hb : (2 : ℚ) ^ b.exp = (2 : ℚ) ^ (b.exp - min a.exp b.exp).toNat *
      (2 : ℚ) ^ (min a.exp b.exp) := by
    rw [← zpow_natCast, ← zpow_add₀ h2]
    congr 1
    have := min_le_right a.exp b.exp
    omega
  rw [ha, hb, two_zpow_split (min a.exp b.exp)]
  push_cast
  have hp : ((2 : ℚ) ^ (-(min a.exp b.exp)).toNat) ≠ 0 := by positivity
  field_simp
  ring

theorem add_err (a b : Float64) (k : Int) (h : |a.toRat + b.toRat| < (2 : ℚ) ^ k) :
    |(a.add b).toRat - (a.toRat + b.toRat)| ≤ (2 : ℚ) ^ (k - 53) ∧
    (0 ≤ a.mant → 0 ≤ b.mant → 0 ≤ (a.add b).mant) ∧
    ((a.add b) = ⟨0, 0⟩ ∨ (a.add b).exp ≤ k - 52) := by
  have hd : 0 < 2 ^ (-(min a.exp b.exp)).toNat := by positivity
  have hval := add_value a b
  rw [← hval] at h ⊢
  obtain ⟨h1, h2⟩ := ofRatio_err _ _ hd k h
  refine ⟨h1, ?_, ?_⟩
  · intro ha hb
    apply (ofRatio_spec _ _ hd).2.2
    positivity
  · by_cases hz : (a.mant * 2 ^ (a.exp - min a.exp b.exp).toNat +
        b.mant * 2 ^ (b.exp - min a.exp b.exp).toNat) * 2 ^ (min a.exp b.exp).toNat = 0
    · left
      show ofRatio _ _ = _
      rw [hz]
      exact ofRatio_zero _
    · right
      exact h2 hz

end Float64

theorem Dec.InexactFloat64_err (c : Dec) (k : Int) (h : |c.toRat| < (2 : ℚ) ^ k) :
    |c.InexactFloat64.toRat - c.toRat| ≤ (2 : ℚ) ^ (k - 53) := by
  rw [Dec.toRat_eq_ratio] at h ⊢
  exact (Float64.ofRatio_err c.value (10 ^ c.scale) (by positivity) k h).1

/-- Every decimal that `shortestFrom` gives reads back as the float64, or is
the float64 itself. -/
theorem shortestFrom_near (f : Float64) :
    ∀ (fuel : Nat) (p : Int),
      |(shortestFrom f fuel p).toRat - f.toRat| ≤ (2 : ℚ) ^ (f.exp - 1) := by
  have hread : ∀ g : Dec, g.InexactFloat64 = f →
      |g.toRat - f.toRat| ≤ (2 : ℚ) ^ (f.exp - 1) := by
    intro g hg
    have := Dec.InexactFloat64_near g
    rw [hg, abs_sub_comm] at this
    exact this
  intro fuel
  induction fuel with
  | zero =>
    intro p
    rw [shortestFrom]
    have hz : (0 : ℚ) ≤ (2 : ℚ) ^ (f.exp - 1) := by positivity
    split_ifs with h
    · have e : (⟨f.mant * 2 ^ f.exp.toNat, 0⟩ : Dec).toRat = f.toRat := by
        unfold Dec.toRat Float64.toRat
        rw [Float64.two_zpow_split f.exp]
        have h1 : (-f.exp).toNat = 0 := by omega
        rw [h1]
        push_cast
        simp
      rw [e, sub_self, abs_zero]
      exact hz
    · have e : (⟨f.mant * 5 ^ (-f.exp).toNat, (-f.exp).toNat⟩ : Dec).toRat = f.toRat := by
        unfold Dec.toRat Float64.toRat
        rw [Float64.two_zpow_split f.exp]
        have h1 : f.exp.toNat = 0 := by omega
        rw [h1]
        push_cast
        have e10 : (10 : ℚ) ^ (-f.exp).toNat = 2 ^ (-f.exp).toNat * 5 ^ (-f.exp).toNat := by
          rw [← mul_pow]
          norm_num
        rw [e10]
        have hp2 : ((2 : ℚ) ^ (-f.exp).toNat) ≠ 0 := by positivity
        have hp5 : ((5 : ℚ) ^ (-f.exp).toNat) ≠ 0 := by positivity
        field_simp
        ring
      rw [e, sub_self, abs_zero]
      exact hz
  | succ n ih =>
    intro p
    rw [shortestFrom]
    obtain ⟨down, hdown⟩ : ∃ down : Dec, down = Dec.onGrid ((if f.mant < 0 then -1 else 1) *
        ((f.mant.natAbs * 2 ^ f.exp.toNat * 10 ^ (-p).toNat /
          (2 ^ (-f.exp).toNat * 10 ^ p.toNat) : Nat) : Int)) p := ⟨_, rfl⟩
    obtain ⟨up, hup⟩ : ∃ up : Dec, up = Dec.onGrid ((if f.mant < 0 then -1 else 1) *
        ((if f.mant.natAbs * 2 ^ f.exp.toNat * 10 ^ (-p).toNat %
              (2 ^ (-f.exp).toNat * 10 ^ p.toNat) = 0 then
            f.mant.natAbs * 2 ^ f.exp.toNat * 10 ^ (-p).toNat /
              (2 ^ (-f.exp).toNat * 10 ^ p.toNat)
          else f.mant.natAbs * 2 ^ f.exp.toNat * 10 ^ (-p).toNat /
              (2 ^ (-f.exp).toNat * 10 ^ p.toNat) + 1 : Nat) : Int)) p := ⟨_, rfl⟩
    rw [← hdown, ← hup]
    split_ifs with h1 h2 h3 h4 h5 h6
    · exact hread _ h1.1
    · exact hread _ h1.2
    · exact hread _ h1.1
    · exact hread _ h1.2
    · exact hread _ h5
    · exact hread _ h6
    · exact ih _

theorem NewFromFloat_near (f : Float64) :
    |(NewFromFloat f).toRat - f.toRat| ≤ (2 : ℚ) ^ (f.exp - 1) := by
  unfold NewFromFloat
  split_ifs with h
  · have e1 : (⟨0, 0⟩ : Dec).toRat = 0 := by norm_num [Dec.toRat]
    have e2 : f.toRat = 0 := by
      unfold Float64.toRat
      rw [h]
      simp
    rw [e1, e2, sub_self, abs_zero]
    positivity
  · exact shortestFrom_near f _ _

theorem NewFromFloat_zero : NewFromFloat ⟨0, 0⟩ = ⟨0, 0⟩ := by
  unfold NewFromFloat
  rw [if_pos rfl]

/-- The float64 sum of amounts that are not negative, taken from a float64
`t` that lies within `j` steps of `2 ^ (k - 52)` of `s`: each amount adds one
such step, as long as the sums stay below `2 ^ k`. -/
theorem floatSum_near (k : Int) (ps : List Dec) :
    ∀ (t : Float64) (s : ℚ) (j : Nat),
      (∀ p ∈ ps, 0 ≤ p.toRat) →
      |t.toRat - s| ≤ (j : ℚ) * (2 : ℚ) ^ (k - 52) → 0 ≤ t.mant →
      (t = ⟨0, 0⟩ ∨ t.exp ≤ k - 52) → 0 ≤ s →
      s + (ps.map Dec.toRat).sum + ((j + ps.length : Nat) : ℚ) * (2 : ℚ) ^ (k - 52) <
        (2 : ℚ) ^ k →
      |(ps.foldl (fun t p => t.add p.InexactFloat64) t).toRat - (s + (ps.map Dec.toRat).sum)| ≤
        ((j + ps.length : Nat) : ℚ) * (2 : ℚ) ^ (k - 52) ∧
      0 ≤ (ps.foldl (fun t p => t.add p.InexactFloat64) t).mant ∧
      ((ps.foldl (fun t p => t.add p.InexactFloat64) t) = ⟨0, 0⟩ ∨
        (ps.foldl (fun t p => t.add p.InexactFloat64) t).exp ≤ k - 52) := by
  have heps : (2 : ℚ) ^ (k - 52) = 2 * (2 : ℚ) ^ (k - 53) := by
    have : k - 52 = (k - 53) + 1 := by omega
    rw [this, zpow_add₀ (by norm_num : (2 : ℚ) ≠ 0), zpow_one]
    ring
  have hpos : (0 : ℚ) < (2 : ℚ) ^ (k - 53) := by positivity
  induction ps with
  | nil =>
    intro t s j _ ht hm he _ _
    simp only [List.foldl_nil, List.map_nil, List.sum_nil, add_zero, List.length_nil]
    exact ⟨ht, hm, he⟩
  | cons p rest ih =>
    intro t s j hp ht hm he hs hlt
    simp only [List.foldl_cons, List.map_cons, List.sum_cons, List.length_cons] at hlt ⊢
    have hp0 : 0 ≤ p.toRat := hp p (List.mem_cons_self _ _)
    have hrest : 0 ≤ (rest.map Dec.toRat).sum := by
      apply List.sum_nonneg
      intro x hx
      obtain ⟨q, hq, rfl⟩ := List.mem_map.mp hx
      exact hp q (List.mem_cons_of_mem _ hq)
    have hcount : ((j + (rest.length + 1) : Nat) : ℚ) = (j : ℚ) + rest.length + 1 := by
      push_cast
      ring
    have hj0 : (0 : ℚ) ≤ (j : ℚ) := Nat.cast_nonneg _
    have hl0 : (0 : ℚ) ≤ (rest.length : ℚ) := Nat.cast_nonneg _
    rw [hcount] at hlt
    have hplt : |p.toRat| < (2 : ℚ) ^ k := by
      rw [abs_of_nonneg hp0]
      nlinarith
    have e1 := Dec.InexactFloat64_err p k hplt
    rw [abs_le] at ht e1
    have hsum : |t.toRat + p.InexactFloat64.toRat| < (2 : ℚ) ^ k := by
      rw [abs_lt]
      constructor <;> nlinarith [ht.1, ht.2, e1.1, e1.2]
    obtain ⟨a1, a2, a3⟩ := Float64.add_err t p.InexactFloat64 k hsum
    have hpm : 0 ≤ p.InexactFloat64.mant :=
      Dec.InexactFloat64_nonneg p ((Dec.toRat_nonneg_iff p).mp hp0)
    rw [abs_le] at a1
    have hnext : |(t.add p.InexactFloat64).toRat - (s + p.toRat)| ≤
        ((j + 1 : Nat) : ℚ) * (2 : ℚ) ^ (k - 52) := by
      rw [abs_le]
      push_cast
      constructor <;> nlinarith [ht.1, ht.2, e1.1, e1.2, a1.1, a1.2]
    have hlt1 : s + p.toRat + (rest.map Dec.toRat).sum +
        ((j + 1 + rest.length : Nat) : ℚ) * (2 : ℚ) ^ (k - 52) < (2 : ℚ) ^ k := by
      push_cast
      nlinarith
    obtain ⟨r1, r2, r3⟩ := ih (t.add p.InexactFloat64) (s + p.toRat) (j + 1)
      (fun q hq => hp q (List.mem_cons_of_mem _ hq)) hnext (a2 hm hpm) a3 (by linarith) hlt1
    refine ⟨?_, r2, r3⟩
    have e : s + (p.toRat + (rest.map Dec.toRat).sum) =
        s + p.toRat + (rest.map Dec.toRat).sum := by ring
    have e2 : j + (rest.length + 1) = j + 1 + rest.length := by omega
    rw [e, e2]
    exact r1

namespace Dec

theorem Round_eq_of_near (x y : Dec) (hy : y.scale ≤ 2) (hx : 0 ≤ x.value)
    (h : |x.toRat - y.toRat| < 1 / 200) : x.Round 2 = y.Round 2 := by
  apply eq_of_toRat
  · rw [Round_scale, Round_scale]
  · rw [toRat_Round_of_nonneg x 2 hx, toRat_Round_of_scale_le y 2 hy, toRat_eq_coef y 2 hy]
    rw [toRat_eq_coef y 2 hy, abs_lt] at h
    have hfl : ⌊x.toRat * 10 ^ 2 + 1 / 2⌋ = y.coef 2 := by
      rw [Int.floor_eq_iff]
      constructor
      · have : ((y.coef 2 : Int) : ℚ) = (y.coef 2 : ℚ) / 10 ^ 2 * 10 ^ 2 := by field_simp
        nlinarith [h.1, h.2]
      · have : ((y.coef 2 : Int) : ℚ) = (y.coef 2 : ℚ) / 10 ^ 2 * 10 ^ 2 := by field_simp
        nlinarith [h.1, h.2]
    rw [hfl]

end Dec

/-- An amount of at most two fractional digits from `0` to below `2 ^ 45`
reaches its column without a change. -/
theorem toColumn_cents (c : Dec) (hs : c.scale = 2) (h0 : 0 ≤ c.toRat)
    (hlt : c.toRat < 2 ^ 45) : c.InexactFloat64.toColumn = c := by
  have hz : c.toRat < (2 : ℚ) ^ (45 : Int) := by
    have e : (2 : ℚ) ^ (45 : Int) = (2 : ℚ) ^ (45 : Nat) := by norm_cast
    rw [e]
    exact hlt
  rw [toColumn_exact c (by omega) ((Dec.toRat_nonneg_iff c).mp h0) hz]
  unfold Dec.Round
  rw [if_pos hs]

theorem settleLedgerRows_trail (inp : DrawInput) (pairs : List (Order × Dec)) :
    ∀ cur : Dec, cur.scale ≤ 2 → 0 ≤ cur.toRat →
      (∀ q ∈ pairs, q.2.scale ≤ 2 ∧ 0 ≤ q.2.toRat) →
      cur.toRat + (pairs.map (fun q => q.2.toRat)).sum < 2 ^ 45 →
      (settleLedgerRows inp pairs cur).map
          (fun l => (l.Amount, l.BeforeAmount.toRat, l.AfterAmount.toRat)) =
        payoutTrail cur.toRat (pairs.map (fun q => q.2)) := by
  induction pairs with
  | nil =>
    intro cur _ _ _ _
    rfl
  | cons q rest ih =>
    intro cur hcur hc0 hq hlt
    obtain ⟨o, p⟩ := q
    simp only [List.map_cons, List.sum_cons] at hlt
    obtain ⟨hp1, hp2⟩ := hq (o, p) (List.mem_cons_self _ _)
    have hp : p.scale ≤ 2 := hp1
    have hp0 : 0 ≤ p.toRat := hp2
    have hrest : 0 ≤ (rest.map (fun q => q.2.toRat)).sum := by
      apply List.sum_nonneg
      intro x hx
      obtain ⟨q, hq1, rfl⟩ := List.mem_map.mp hx
      exact (hq q (List.mem_cons_of_mem _ hq1)).2
    have hadd : ((cur.Add p).Round 2).toRat = cur.toRat + p.toRat := by
      rw [Dec.toRat_Round_of_scale_le _ _ (by show max cur.scale p.scale ≤ 2; omega),
        Dec.toRat_Add]
    have hsub : ((((cur.Add p).Round 2).Sub p).Round 2).toRat = cur.toRat := by
      rw [Dec.toRat_Round_of_scale_le _ _
        (by show max ((cur.Add p).Round 2).scale p.scale ≤ 2
            rw [Dec.Round_scale]
            omega),
        Dec.toRat_Sub, hadd]
      ring
    have hafter : (((cur.Add p).Round 2).InexactFloat64.toColumn).toRat =
        cur.toRat + p.toRat := by
      rw [toColumn_cents _ (Dec.Round_scale _ _) (by rw [hadd]; linarith)
        (by rw [hadd]; linarith), hadd]
    have hbefore : (((((cur.Add p).Round 2).Sub p).Round 2).InexactFloat64.toColumn).toRat =
        cur.toRat := by
      rw [toColumn_cents _ (Dec.Round_scale _ _) (by rw [hsub]; exact hc0)
        (by rw [hsub]; linarith), hsub]
    simp only [settleLedgerRows, List.map_cons, payoutTrail]
    rw [ih _ (by rw [Dec.Round_scale]) (by rw [hadd]; linarith)
      (fun q1 h1 => hq q1 (List.mem_cons_of_mem _ h1)) (by rw [hadd]; linarith),
      hadd, hafter, hbefore]

theorem settleLedgerRows_bills (inp : DrawInput) (pairs : List (Order × Dec)) :
    ∀ cur : Dec, (settleLedgerRows inp pairs cur).map
        (fun l => (l.UserID, l.BizType, l.BillNo, l.GameRoundID)) =
      pairs.map (fun q => (q.1.UserID, 2, q.1.BillNo, inp.GameRoundID)) := by
  induction pairs with
  | nil =>
    intro cur
    rfl
  | cons q rest ih =>
    intro cur
    obtain ⟨o, p⟩ := q
    simp only [settleLedgerRows, List.map_cons, ih]

theorem settleLedgerRows_owner (inp : DrawInput) (pairs : List (Order × Dec)) (cur : Dec)
    (userID : Int) (h : ∀ q ∈ pairs, q.1.UserID = userID) :
    ∀ l ∈ settleLedgerRows inp pairs cur, l.UserID = userID := by
  intro l hl
  have hm := List.mem_map_of_mem (fun l => (l.UserID, l.BizType, l.BillNo, l.GameRoundID)) hl
  rw [settleLedgerRows_bills] at hm
  obtain ⟨q, hq, he⟩ := List.mem_map.mp hm
  simp only [Prod.mk.injEq] at he
  rw [← he.1]
  exact h q hq

theorem find_customer_map (customers : List Customers) (f : Customers → Customers)
    (hf : ∀ u, (f u).ID = u.ID) (userID : Int) :
    (customers.map f).find? (fun u => u.ID = userID) =
      (customers.find? (fun u => u.ID = userID)).map f := by
  induction customers with
  | nil => rfl
  | cons u rest ih =>
    simp only [List.map_cons, List.find?_cons, hf]
    by_cases h : u.ID = userID
    · simp [h]
    · simp [h, ih]

theorem creditUser_id (customers : List Customers) (us : userSettlement) (u : Customers) :
    (if u.ID = us.userID then { u with Balance := creditedBalance customers us }
    else u).ID = u.ID := by
  split_ifs <;> rfl

theorem balanceOf_creditUser_other (customers : List Customers) (us : userSettlement)
    (userID : Int) (h : userID ≠ us.userID) :
    balanceOf (creditUser customers us) userID = balanceOf customers userID := by
  unfold balanceOf creditUser
  rw [find_customer_map _ _ (creditUser_id customers us)]
  cases hf : customers.find? (fun u => u.ID = userID) with
  | none => rfl
  | some u =>
    have hid : u.ID = userID := by
      have := List.find?_some hf
      simpa using this
    simp only [Option.map_some']
    rw [if_neg (by rw [hid]; exact h)]

theorem balanceOf_map (customers : List Customers) (f : Customers → Customers)
    (hf : ∀ u, (f u).ID = u.ID) (userID : Int) :
    balanceOf (customers.map f) userID =
      ((customers.find? (fun u => u.ID = userID)).map (fun u => (f u).Balance)).getD ⟨0, 0⟩ := by
  unfold balanceOf
  rw [find_customer_map _ _ hf]
  cases customers.find? (fun u => u.ID = userID) <;> rfl

theorem balanceOf_creditUser_self (customers : List Customers) (us : userSettlement)
    (h : ∃ u ∈ customers, u.ID = us.userID) :
    balanceOf (creditUser customers us) us.userID = creditedBalance customers us := by
  unfold creditUser
  rw [balanceOf_map _ _ (creditUser_id customers us)]
  cases hf : customers.find? (fun u => u.ID = us.userID) with
  | none =>
    exfalso
    obtain ⟨u, hu, hid⟩ := h
    have := List.find?_eq_none.mp hf u hu
    simp [hid] at this
  | some u =>
    have hid : u.ID = us.userID := by
      have := List.find?_some hf
      simpa using this
    simp only [Option.map_some', Option.getD_some, if_pos hid]

theorem creditUser_has (customers : List Customers) (us : userSettlement) (userID : Int)
    (h : ∃ u ∈ customers, u.ID = userID) : ∃ u ∈ creditUser customers us, u.ID = userID := by
  obtain ⟨u, hu, hid⟩ := h
  refine ⟨_, List.mem_map_of_mem _ hu, ?_⟩
  rw [creditUser_id]
  exact hid

theorem balanceOf_settleUsers_other (users : List userSettlement) (userID : Int)
    (h : ∀ us ∈ users, us.userID ≠ userID) :
    ∀ customers, balanceOf (settleUsersCustomers users customers) userID =
      balanceOf customers userID := by
  induction users with
  | nil =>
    intro customers
    rfl
  | cons us rest ih =>
    intro customers
    simp only [settleUsersCustomers]
    rw [ih (fun us1 h1 => h us1 (List.mem_cons_of_mem _ h1)),
      balanceOf_creditUser_other _ _ _ (Ne.symm (h us (List.mem_cons_self _ _)))]

theorem creditedBalance_congr (c1 c2 : List Customers) (us : userSettlement)
    (h : balanceOf c1 us.userID = balanceOf c2 us.userID) :
    creditedBalance c1 us = creditedBalance c2 us := by
  unfold creditedBalance balanceRead
  rw [h]

/-- The balance of a user with a settlement record after the third loop: the
balance the settlement stores for the record of the user. -/
theorem balanceOf_settleUsers (users : List userSettlement)
    (hnd : (users.map (fun us => us.userID)).Nodup) :
    ∀ (customers : List Customers) (us : userSettlement), us ∈ users →
      (∃ u ∈ customers, u.ID = us.userID) →
      balanceOf (settleUsersCustomers users customers) us.userID =
        creditedBalance customers us := by
  induction users with
  | nil =>
    intro customers us hus
    cases hus
  | cons us0 rest ih =>
    intro customers us hus hex
    simp only [List.map_cons, List.nodup_cons, List.mem_map, not_exists, not_and] at hnd
    simp only [settleUsersCustomers]
    rcases List.mem_cons.mp hus with e | e
    · subst e
      rw [balanceOf_settleUsers_other rest us.userID
        (fun us1 h1 e1 => hnd.1 us1 h1 e1), balanceOf_creditUser_self _ _ hex]
    · have hne : us.userID ≠ us0.userID := fun e1 => hnd.1 us e e1
      rw [ih hnd.2 _ us e (creditUser_has _ _ _ hex)]
      exact creditedBalance_congr _ _ _ (balanceOf_creditUser_other _ _ _ hne)

theorem settleUsersRows_owner (inp : DrawInput) (users : List userSettlement)
    (howner : ∀ us ∈ users, ∀ o ∈ us.orders, o.UserID = us.userID) :
    ∀ customers, ∀ l ∈ settleUsersRows inp users customers,
      ∃ us ∈ users, l.UserID = us.userID := by
  induction users with
  | nil =>
    intro customers l hl
    cases hl
  | cons us0 rest ih =>
    intro customers l hl
    simp only [settleUsersRows] at hl
    rcases List.mem_append.mp hl with e | e
    · refine ⟨us0, List.mem_cons_self _ _, ?_⟩
      apply settleLedgerRows_owner inp _ _ us0.userID _ l e
      intro q hq
      exact howner us0 (List.mem_cons_self _ _) q.1 (List.of_mem_zip hq).1
    · obtain ⟨us, hus, hid⟩ :=
        ih (fun us1 h1 => howner us1 (List.mem_cons_of_mem _ h1)) _ l e
      exact ⟨us, List.mem_cons_of_mem _ hus, hid⟩

/-- The ledger rows of one user among the rows of the third loop: the rows of
the user's record, from the balance the settlement reads for the user on. -/
theorem settleUsersRows_filter (inp : DrawInput) (users : List userSettlement)
    (hnd : (users.map (fun us => us.userID)).Nodup)
    (howner : ∀ us ∈ users, ∀ o ∈ us.orders, o.UserID = us.userID) :
    ∀ (customers : List Customers) (us : userSettlement), us ∈ users →
      (settleUsersRows inp users customers).filter (fun l => l.UserID = us.userID) =
        settleLedgerRows inp (us.orders.zip us.payoutAmounts)
          (balanceRead customers us.userID) := by
  induction users with
  | nil =>
    intro customers us hus
    cases hus
  | cons us0 rest ih =>
    intro customers us hus
    simp only [List.map_cons, List.nodup_cons, List.mem_map, not_exists, not_and] at hnd
    have hown0 : ∀ l ∈ settleLedgerRows inp (us0.orders.zip us0.payoutAmounts)
        (balanceRead customers us0.userID), l.UserID = us0.userID := by
      apply settleLedgerRows_owner
      intro q hq
      exact howner us0 (List.mem_cons_self _ _) q.1 (List.of_mem_zip hq).1
    have hownr := settleUsersRows_owner inp rest
      (fun us1 h1 => howner us1 (List.mem_cons_of_mem _ h1)) (creditUser customers us0)
    simp only [settleUsersRows, List.filter_append]
    rcases List.mem_cons.mp hus with e | e
    · subst e
      have h1 : (settleLedgerRows inp (us.orders.zip us.payoutAmounts)
          (balanceRead customers us.userID)).filter (fun l => l.UserID = us.userID) =
          settleLedgerRows inp (us.orders.zip us.payoutAmounts)
            (balanceRead customers us.userID) := by
        rw [List.filter_eq_self]
        intro l hl
        simp only [decide_eq_true_eq]
        exact hown0 l hl
      have h2 : (settleUsersRows inp rest (creditUser customers us)).filter
          (fun l => l.UserID = us.userID) = [] := by
        rw [List.filter_eq_nil_iff]
        intro l hl hc
        simp only [decide_eq_true_eq] at hc
        obtain ⟨us1, hus1, hid1⟩ := hownr l hl
        exact hnd.1 us1 hus1 (hid1.symm.trans hc)
      rw [h1, h2, List.append_nil]
    · have hne : us.userID ≠ us0.userID := fun e1 => hnd.1 us e e1
      have h1 : (settleLedgerRows inp (us0.orders.zip us0.payoutAmounts)
          (balanceRead customers us0.userID)).filter (fun l => l.UserID = us.userID) = [] := by
        rw [List.filter_eq_nil_iff]
        intro l hl hc
        simp only [decide_eq_true_eq] at hc
        exact hne (hc.symm.trans (hown0 l hl))
      rw [h1, List.nil_append,
        ih hnd.2 (fun us1 h1 => howner us1 (List.mem_cons_of_mem _ h1)) _ us e]
      unfold balanceRead
      rw [balanceOf_creditUser_other _ _ _ hne]

theorem foldl_Add_toRat (ps : List Dec) :
    ∀ init : Dec, init.scale ≤ 2 → (∀ p ∈ ps, p.scale ≤ 2) →
      (ps.foldl Dec.Add init).toRat = init.toRat + (ps.map Dec.toRat).sum ∧
      (ps.foldl Dec.Add init).scale ≤ 2 := by
  induction ps with
  | nil =>
    intro init hi _
    simp only [List.foldl_nil, List.map_nil, List.sum_nil, add_zero]
    exact ⟨trivial, hi⟩
  | cons p rest ih =>
    intro init hi hp
    simp only [List.foldl_cons, List.map_cons, List.sum_cons]
    have hp0 := hp p (List.mem_cons_self _ _)
    obtain ⟨h1, h2⟩ := ih (init.Add p) (by show max init.scale p.scale ≤ 2; omega)
      (fun q hq => hp q (List.mem_cons_of_mem _ hq))
    rw [h1, Dec.toRat_Add]
    exact ⟨by ring, h2⟩

theorem payoutTrail_ends (ps : List Dec) (hne : ps ≠ []) :
    ∀ b : ℚ, ((payoutTrail b ps).head?.map (fun t => t.2.1) = some b) ∧
      ((payoutTrail b ps).getLast?.map (fun t => t.2.2) =
        some (b + (ps.map Dec.toRat).sum)) := by
  induction ps with
  | nil => exact absurd rfl hne
  | cons p rest ih =>
    intro b
    refine ⟨rfl, ?_⟩
    cases rest with
    | nil =>
      simp [payoutTrail]
    | cons p1 rest1 =>
      have h := (ih (by simp) (b + p.toRat)).2
      simp only [payoutTrail, List.getLast?_cons_cons, List.map_cons, List.sum_cons] at h ⊢
      rw [h]
      congr 1
      ring

/-- The balance the settlement stores for a settlement record, within the
range of float64: for a balance `b` of at most two fractional digits, at most
`10000` payouts of at most two fractional digits and a sum of at most
`1000000000`, with `b` plus the sum below `2 ^ 45`, it is `b` plus the sum of
the payouts. -/
theorem creditedBalance_exact (customers : List Customers) (us : userSettlement)
    (hs : (balanceOf customers us.userID).scale ≤ 2)
    (h0 : 0 ≤ (balanceOf customers us.userID).toRat)
    (hps : ∀ p ∈ us.payoutAmounts, p.scale ≤ 2 ∧ 0 ≤ p.toRat)
    (htotal : us.totalPayout =
      us.payoutAmounts.foldl (fun t p => t.add p.InexactFloat64) ⟨0, 0⟩)
    (hcount : us.payoutAmounts.length ≤ 10000)
    (hsum : (us.payoutAmounts.map Dec.toRat).sum ≤ 1000000000)
    (hsize : (balanceOf customers us.userID).toRat + (us.payoutAmounts.map Dec.toRat).sum <
      2 ^ 45) :
    (creditedBalance customers us).toRat =
      (balanceOf customers us.userID).toRat + (us.payoutAmounts.map Dec.toRat).sum ∧
    (creditedBalance customers us).scale = 2 ∧
    (balanceRead customers us.userID).toRat = (balanceOf customers us.userID).toRat ∧
    (balanceRead customers us.userID).scale ≤ 2 := by
  have hsum0 : 0 ≤ (us.payoutAmounts.map Dec.toRat).sum := by
    apply List.sum_nonneg
    intro x hx
    obtain ⟨q, hq, rfl⟩ := List.mem_map.mp hx
    exact (hps q hq).2
  have hv : 0 ≤ (balanceOf customers us.userID).value := (Dec.toRat_nonneg_iff _).mp h0
  have hz : (balanceOf customers us.userID).toRat < (2 : ℚ) ^ (45 : Int) := by
    have e : (2 : ℚ) ^ (45 : Int) = (2 : ℚ) ^ (45 : Nat) := by norm_cast
    rw [e]
    linarith
  obtain ⟨b1, b2⟩ := NewFromFloat_exact (balanceOf customers us.userID) hs hv hz
  have hread : (balanceRead customers us.userID).toRat =
      (balanceOf customers us.userID).toRat := b1
  have hreads : (balanceRead customers us.userID).scale ≤ 2 := b2
  -- the float64 sum of the payouts
  have heps : (2 : ℚ) ^ ((30 : Int) - 52) = 1 / 4194304 := by norm_num
  have hk : (2 : ℚ) ^ (30 : Int) = 1073741824 := by norm_num
  have hn : (us.payoutAmounts.length : ℚ) ≤ 10000 := by exact_mod_cast hcount
  have hn0 : (0 : ℚ) ≤ (us.payoutAmounts.length : ℚ) := Nat.cast_nonneg _
  obtain ⟨t1, t2, t3⟩ := floatSum_near 30 us.payoutAmounts ⟨0, 0⟩ 0 0
    (fun p hp => (hps p hp).2)
    (by rw [Float64.toRat_zero]; simp)
    le_rfl (Or.inl rfl) le_rfl
    (by
      rw [heps, hk]
      push_cast
      linarith)
  rw [← htotal, heps] at t1
  rw [← htotal] at t2 t3
  simp only [Nat.cast_add, Nat.cast_zero, zero_add] at t1
  have t4 : |(NewFromFloat us.totalPayout).toRat - us.totalPayout.toRat| ≤ 1 / 8388608 := by
    rcases t3 with e | e
    · rw [e, NewFromFloat_zero, Float64.toRat_zero]
      norm_num [Dec.toRat]
    · refine le_trans (NewFromFloat_near us.totalPayout) ?_
      have h3 : (2 : ℚ) ^ (us.totalPayout.exp - 1) ≤ (2 : ℚ) ^ (-23 : Int) :=
        zpow_le_zpow_right₀ (by norm_num) (by omega)
      have h4 : (2 : ℚ) ^ (-23 : Int) = 1 / 8388608 := by norm_num
      rw [h4] at h3
      exact h3
  have hpv : 0 ≤ (NewFromFloat us.totalPayout).value := NewFromFloat_nonneg _ t2
  -- the exact sum, as a decimal of two digits
  obtain ⟨f1, f2⟩ := foldl_Add_toRat us.payoutAmounts ⟨0, 0⟩ (by decide)
    (fun p hp => (hps p hp).1)
  have hzero : (⟨0, 0⟩ : Dec).toRat = 0 := by norm_num [Dec.toRat]
  rw [hzero, zero_add] at f1
  have hnear : |((balanceRead customers us.userID).Add (NewFromFloat us.totalPayout)).toRat -
      ((balanceOf customers us.userID).Add (us.payoutAmounts.foldl Dec.Add ⟨0, 0⟩)).toRat| <
      1 / 200 := by
    rw [Dec.toRat_Add, Dec.toRat_Add, hread, f1]
    rw [abs_le] at t1 t4
    rw [abs_lt]
    constructor <;> linarith [t1.1, t1.2, t4.1, t4.2]
  have hround := Dec.Round_eq_of_near
    ((balanceRead customers us.userID).Add (NewFromFloat us.totalPayout))
    ((balanceOf customers us.userID).Add (us.payoutAmounts.foldl Dec.Add ⟨0, 0⟩))
    (by show max (balanceOf customers us.userID).scale _ ≤ 2; omega)
    (by
      rw [← Dec.toRat_nonneg_iff, Dec.toRat_Add, hread]
      have := (Dec.toRat_nonneg_iff _).mpr hpv
      linarith)
    hnear
  have hval : (((balanceOf customers us.userID).Add
      (us.payoutAmounts.foldl Dec.Add ⟨0, 0⟩)).Round 2).toRat =
      (balanceOf customers us.userID).toRat + (us.payoutAmounts.map Dec.toRat).sum := by
    rw [Dec.toRat_Round_of_scale_le _ _
      (by show max (balanceOf customers us.userID).scale _ ≤ 2; omega), Dec.toRat_Add, f1]
  have hcol : creditedBalance customers us =
      ((balanceOf customers us.userID).Add (us.payoutAmounts.foldl Dec.Add ⟨0, 0⟩)).Round 2 := by
    unfold creditedBalance
    rw [hround]
    exact toColumn_cents _ (Dec.Round_scale _ _) (by rw [hval]; linarith)
      (by rw [hval]; exact hsize)
  refine ⟨by rw [hcol, hval], by rw [hcol, Dec.Round_scale], hread, hreads⟩

/-- The settlement of a user within the range of float64.  In a reachable
state, after a `SubmitDrawResult` that succeeds on a round not yet settled,
for every user with at least one positive payout whose stored balance `b` is
not negative and has at most two fractional digits, with at most `10000`
positive payouts `p1, ..., pn` (in the order of the listing) of a sum of at
most `1000000000` and `b + p1 + ... + pn < 2 ^ 45`: the stored balance after
the settlement is `b + p1 + ... + pn`; the ledger rows the settlement adds for
the user are `settle` rows of the round, one per paying order, with amount
`pi`, `before_amount = b + p1 + ... + p(i-1)` and
`after_amount = before_amount + pi`; so the first row has `before_amount = b`
and the last row has the new balance as `after_amount`. -/
theorem settle_user_trail (env : Env) (st st1 : State) (inp : DrawInput)
    (r0 : GameRoundInfo) (userID : Int) (hr : Reachable st)
    (hfind : st.db.rounds.find? (fun r => r.GameRoundID = inp.GameRoundID) = some r0)
    (hset : r0.IsSettled = 0)
    (hok : SubmitDrawResult env st inp = (none, st1))
    (hscale : (balanceOf st.db.customers userID).scale ≤ 2)
    (hnonneg : 0 ≤ (balanceOf st.db.customers userID).toRat)
    (hne : payingOrdersOf st inp (decideResult inp.CardList) userID ≠ [])
    (hcount : (payingOrdersOf st inp (decideResult inp.CardList) userID).length ≤ 10000)
    (hsum : ((payingOrdersOf st inp (decideResult inp.CardList) userID).map
      (fun o => (settlePayout o (decideResult inp.CardList)).toRat)).sum ≤ 1000000000)
    (hsize : (balanceOf st.db.customers userID).toRat +
      ((payingOrdersOf st inp (decideResult inp.CardList) userID).map
        (fun o => (settlePayout o (decideResult inp.CardList)).toRat)).sum < 2 ^ 45) :
    (∀ o ∈ payingOrdersOf st inp (decideResult inp.CardList) userID,
      0 < (settlePayout o (decideResult inp.CardList)).toRat) ∧
    (balanceOf st1.db.customers userID).toRat =
      (balanceOf st.db.customers userID).toRat +
        ((payingOrdersOf st inp (decideResult inp.CardList) userID).map
          (fun o => (settlePayout o (decideResult inp.CardList)).toRat)).sum ∧
    ((st1.db.ledger.drop st.db.ledger.length).filter (fun l => l.UserID = userID)).map
        (fun l => (l.Amount, l.BeforeAmount.toRat, l.AfterAmount.toRat)) =
      payoutTrail (balanceOf st.db.customers userID).toRat
        ((payingOrdersOf st inp (decideResult inp.CardList) userID).map
          (fun o => settlePayout o (decideResult inp.CardList))) ∧
    ((st1.db.ledger.drop st.db.ledger.length).filter (fun l => l.UserID = userID)).map
        (fun l => (l.BizType, l.BillNo, l.GameRoundID)) =
      (payingOrdersOf st inp (decideResult inp.CardList) userID).map
        (fun o => (2, o.BillNo, inp.GameRoundID)) ∧
    (((st1.db.ledger.drop st.db.ledger.length).filter (fun l => l.UserID = userID)).head?.map
        (fun l => l.BeforeAmount.toRat) = some (balanceOf st.db.customers userID).toRat) ∧
    (((st1.db.ledger.drop st.db.ledger.length).filter (fun l => l.UserID = userID)).getLast?.map
        (fun l => l.AfterAmount.toRat) = some (balanceOf st1.db.customers userID).toRat) := by
  have hinv := Reachable_SettleInv st hr
  have hpay := Reachable_PayInv st hr
  obtain ⟨db1, n, p, htx, hdb⟩ := SubmitDrawResult_commits env st st1 inp r0 hr hfind hset hok
  obtain ⟨hcust, hledger, _, hfound⟩ := submitDrawTx_effects _ _ _ _ _ _ _ htx
  have hlisted := listed_stake st inp.GameRoundID hpay
  have hg := groupByUser_Grouped (decideResult inp.CardList)
    ((st.db.orders.filter (isPending inp.GameRoundID)).map listedOrder)
  -- the record of the user
  obtain ⟨us, hus, hid⟩ : ∃ us ∈ groupByUser (decideResult inp.CardList)
      ((st.db.orders.filter (isPending inp.GameRoundID)).map listedOrder),
      us.userID = userID := by
    obtain ⟨o, ho⟩ := List.exists_mem_of_ne_nil _ hne
    unfold payingOrdersOf at ho
    obtain ⟨hom, hc⟩ := List.mem_filter.mp ho
    simp only [decide_eq_true_eq] at hc
    obtain ⟨us, hus, hid⟩ := hg.covered o hom hc.1
    exact ⟨us, hus, hid.trans hc.2⟩
  have hos : us.orders = payingOrdersOf st inp (decideResult inp.CardList) userID := by
    rw [hg.orders_eq us hus, hid]
    rfl
  have hps : us.payoutAmounts =
      (payingOrdersOf st inp (decideResult inp.CardList) userID).map
        (fun o => settlePayout o (decideResult inp.CardList)) := by
    rw [hg.payouts_eq us hus, hos]
  have howner : ∀ us1 ∈ groupByUser (decideResult inp.CardList)
      ((st.db.orders.filter (isPending inp.GameRoundID)).map listedOrder),
      ∀ o ∈ us1.orders, o.UserID = us1.userID := by
    intro us1 hus1 o ho
    rw [hg.orders_eq us1 hus1] at ho
    have := (List.mem_filter.mp ho).2
    simp only [decide_eq_true_eq] at this
    exact this.2
  have hmem : ∀ o ∈ payingOrdersOf st inp (decideResult inp.CardList) userID,
      o ∈ (st.db.orders.filter (isPending inp.GameRoundID)).map listedOrder ∧
      paying (decideResult inp.CardList) o = true := by
    intro o ho
    unfold payingOrdersOf at ho
    obtain ⟨hom, hc⟩ := List.mem_filter.mp ho
    simp only [decide_eq_true_eq] at hc
    exact ⟨hom, hc.1⟩
  have hpscale : ∀ q ∈ (payingOrdersOf st inp (decideResult inp.CardList) userID).map
      (fun o => settlePayout o (decideResult inp.CardList)), q.scale ≤ 2 := by
    intro q hq
    obtain ⟨o, ho, rfl⟩ := List.mem_map.mp hq
    exact settlePayout_scale o _ (hlisted o (hmem o ho).1).2.2
  have hz : (⟨0, 0⟩ : Dec).toRat = 0 := by norm_num [Dec.toRat]
  have hppos : ∀ o ∈ payingOrdersOf st inp (decideResult inp.CardList) userID,
      0 < (settlePayout o (decideResult inp.CardList)).toRat := by
    intro o ho
    have := (hmem o ho).2
    unfold paying at this
    simp only [decide_eq_true_eq, Dec.Cmp_pos_iff] at this
    rw [hz] at this
    exact this
  have hmm : us.payoutAmounts.map Dec.toRat =
      (payingOrdersOf st inp (decideResult inp.CardList) userID).map
        (fun o => (settlePayout o (decideResult inp.CardList)).toRat) := by
    rw [hps, List.map_map]
    rfl
  -- the new balance
  obtain ⟨hcred, _, hread, hreads⟩ := creditedBalance_exact st.db.customers us
    (by rw [hid]; exact hscale) (by rw [hid]; exact hnonneg)
    (by
      intro q hq
      rw [hps] at hq
      refine ⟨hpscale q hq, ?_⟩
      obtain ⟨o, ho, rfl⟩ := List.mem_map.mp hq
      exact (hppos o ho).le)
    (hg.total_eq us hus)
    (by rw [hps, List.length_map]; exact hcount)
    (by rw [hmm]; exact hsum)
    (by rw [hmm, hid]; exact hsize)
  rw [hid] at hread hreads
  have hbal : (balanceOf st1.db.customers userID).toRat =
      (balanceOf st.db.customers userID).toRat +
        ((payingOrdersOf st inp (decideResult inp.CardList) userID).map
          (fun o => (settlePayout o (decideResult inp.CardList)).toRat)).sum := by
    rw [hdb, hcust, ← hid, balanceOf_settleUsers _ hg.ids_nodup _ us hus (hfound us hus),
      hcred, hmm, hid]
  -- the rows of the user
  have hrows : (st1.db.ledger.drop st.db.ledger.length).filter (fun l => l.UserID = userID) =
      settleLedgerRows inp
        ((payingOrdersOf st inp (decideResult inp.CardList) userID).zip
          ((payingOrdersOf st inp (decideResult inp.CardList) userID).map
            (fun o => settlePayout o (decideResult inp.CardList))))
        (balanceRead st.db.customers userID) := by
    rw [hdb, hledger, List.drop_left, ← hid,
      settleUsersRows_filter inp _ hg.ids_nodup howner _ us hus, hid, hos, hps]
  have hsnd : ((payingOrdersOf st inp (decideResult inp.CardList) userID).zip
      ((payingOrdersOf st inp (decideResult inp.CardList) userID).map
        (fun o => settlePayout o (decideResult inp.CardList)))).map (fun q => q.2) =
      (payingOrdersOf st inp (decideResult inp.CardList) userID).map
        (fun o => settlePayout o (decideResult inp.CardList)) := by
    apply List.map_snd_zip
    rw [List.length_map]
  have htrail := settleLedgerRows_trail inp
    ((payingOrdersOf st inp (decideResult inp.CardList) userID).zip
      ((payingOrdersOf st inp (decideResult inp.CardList) userID).map
        (fun o => settlePayout o (decideResult inp.CardList))))
    (balanceRead st.db.customers userID) hreads (by rw [hread]; exact hnonneg)
    (by
      intro q hq
      refine ⟨hpscale q.2 (List.of_mem_zip hq).2, ?_⟩
      obtain ⟨o, ho, he⟩ := List.mem_map.mp (List.of_mem_zip hq).2
      rw [← he]
      exact (hppos o ho).le)
    (by
      rw [hread]
      have e : (((payingOrdersOf st inp (decideResult inp.CardList) userID).zip
          ((payingOrdersOf st inp (decideResult inp.CardList) userID).map
            (fun o => settlePayout o (decideResult inp.CardList)))).map
          (fun q => q.2.toRat)) =
          (payingOrdersOf st inp (decideResult inp.CardList) userID).map
            (fun o => (settlePayout o (decideResult inp.CardList)).toRat) := by
        have e1 := congrArg (List.map Dec.toRat) hsnd
        rw [List.map_map, List.map_map] at e1
        exact e1
      rw [e]
      exact hsize)
  rw [hsnd, hread] at htrail
  have hpsne : (payingOrdersOf st inp (decideResult inp.CardList) userID).map
      (fun o => settlePayout o (decideResult inp.CardList)) ≠ [] := by
    intro e
    exact hne (List.map_eq_nil_iff.mp e)
  obtain ⟨hhead, hlast⟩ := payoutTrail_ends _ hpsne (balanceOf st.db.customers userID).toRat
  refine ⟨hppos, hbal, ?_, ?_, ?_, ?_⟩
  · rw [hrows]
    exact htrail
  · rw [hrows]
    have h4 := settleLedgerRows_bills inp
      ((payingOrdersOf st inp (decideResult inp.CardList) userID).zip
        ((payingOrdersOf st inp (decideResult inp.CardList) userID).map
          (fun o => settlePayout o (decideResult inp.CardList))))
      (balanceRead st.db.customers userID)
    have h3 := congrArg (List.map (fun k : Int × Int × String × String => k.2)) h4
    rw [List.map_map, List.map_map] at h3
    have hfst : ((payingOrdersOf st inp (decideResult inp.CardList) userID).zip
        ((payingOrdersOf st inp (decideResult inp.CardList) userID).map
          (fun o => settlePayout o (decideResult inp.CardList)))).map (fun q => q.1) =
        payingOrdersOf st inp (decideResult inp.CardList) userID := by
      apply List.map_fst_zip
      rw [List.length_map]
    have h5 : (payingOrdersOf st inp (decideResult inp.CardList) userID).map
        (fun o => ((2 : Int), o.BillNo, inp.GameRoundID)) =
        (((payingOrdersOf st inp (decideResult inp.CardList) userID).zip
          ((payingOrdersOf st inp (decideResult inp.CardList) userID).map
            (fun o => settlePayout o (decideResult inp.CardList)))).map (fun q => q.1)).map
          (fun o => ((2 : Int), o.BillNo, inp.GameRoundID)) := by
      rw [hfst]
    rw [h5, List.map_map]
    exact h3
  · rw [hrows]
    have := congrArg (fun l : List (Dec × ℚ × ℚ) => l.head?.map (fun t => t.2.1)) htrail
    simp only [List.head?_map, Option.map_map] at this
    rw [hhead] at this
    simpa [Function.comp] using this
  · rw [hrows, hbal]
    have := congrArg (fun l : List (Dec × ℚ × ℚ) => l.getLast?.map (fun t => t.2.2)) htrail
    simp only [List.getLast?_map, Option.map_map] at this
    rw [hlast] at this
    simpa [Function.comp, List.map_map] using this

theorem sampleTwoDrawn_reachable : Reachable sampleTwoDrawn :=
  Reachable.step _ _
    (Reachable.step _ _
      (Reachable.step sampleTwoBets _
        (Reachable.step sampleAfterBet sampleTwoBets sampleAfterBet_reachable
          (Step.bet { sampleEnv with randomHex := "DEF" } sampleAfterBet sampleBetTie))
        (Step.event sampleEnv sampleTwoBets (sampleEvent 2)))
      (Step.event sampleEnv (Handle sampleEnv sampleTwoBets (sampleEvent 2)).2 (sampleEvent 3)))
    (Step.event sampleEnv
      (Handle sampleEnv (Handle sampleEnv sampleTwoBets (sampleEvent 2)).2 (sampleEvent 3)).2
      (sampleEvent 4))

theorem sampleTwoDrawn_payouts :
    (payingOrdersOf sampleTwoDrawn (sampleDraw "D8,T8,Rtie")
        (decideResult (sampleDraw "D8,T8,Rtie").CardList) 7).map
      (fun o => (settlePayout o (decideResult (sampleDraw "D8,T8,Rtie").CardList)).toRat) =
      [(⟨10000, 2⟩ : Dec).toRat, (⟨9000, 2⟩ : Dec).toRat] := by
  have h : (payingOrdersOf sampleTwoDrawn (sampleDraw "D8,T8,Rtie")
        (decideResult (sampleDraw "D8,T8,Rtie").CardList) 7).map
      (fun o => settlePayout o (decideResult (sampleDraw "D8,T8,Rtie").CardList)) =
      [⟨10000, 2⟩, ⟨9000, 2⟩] := by decide
  have h1 := congrArg (List.map Dec.toRat) h
  rw [List.map_map] at h1
  exact h1

/-- The user `alice` with the bets of `100.00` on dragon and `10.00` on tie and
the balance `890.00`, after the outcome tie: the payouts are `100.00` (the
stake back) and `90.00`, the new balance is `1080.00`, and the two `settle`
rows go from `890.00` to `990.00` and from `990.00` to `1080.00`. -/
theorem settle_user_trail_witness :
    balanceOf sampleTwoDrawn.db.customers 7 = ⟨89000, 2⟩ ∧
    (payingOrdersOf sampleTwoDrawn (sampleDraw "D8,T8,Rtie") "tie" 7).map
      (fun o => (o.BillNo, settlePayout o "tie")) =
      [("DT202501010000000007ABC", ⟨10000, 2⟩), ("DT202501010000000007DEF", ⟨9000, 2⟩)] ∧
    balanceOf sampleTwoSettled.db.customers 7 = ⟨108000, 2⟩ ∧
    ((sampleTwoSettled.db.ledger.drop sampleTwoDrawn.db.ledger.length).filter
      (fun l => l.UserID = 7)).map
        (fun l => (l.BizType, l.Amount, l.BeforeAmount, l.AfterAmount)) =
      [(2, ⟨10000, 2⟩, ⟨89000, 2⟩, ⟨99000, 2⟩), (2, ⟨9000, 2⟩, ⟨99000, 2⟩, ⟨108000, 2⟩)] ∧
    ((balanceOf sampleTwoSettled.db.customers 7).toRat =
      (balanceOf sampleTwoDrawn.db.customers 7).toRat +
        ((payingOrdersOf sampleTwoDrawn (sampleDraw "D8,T8,Rtie")
            (decideResult (sampleDraw "D8,T8,Rtie").CardList) 7).map
          (fun o =>
            (settlePayout o (decideResult (sampleDraw "D8,T8,Rtie").CardList)).toRat)).sum) ∧
    (((sampleTwoSettled.db.ledger.drop sampleTwoDrawn.db.ledger.length).filter
        (fun l => l.UserID = 7)).map
        (fun l => (l.Amount, l.BeforeAmount.toRat, l.AfterAmount.toRat)) =
      payoutTrail (balanceOf sampleTwoDrawn.db.customers 7).toRat
        ((payingOrdersOf sampleTwoDrawn (sampleDraw "D8,T8,Rtie")
            (decideResult (sampleDraw "D8,T8,Rtie").CardList) 7).map
          (fun o => settlePayout o (decideResult (sampleDraw "D8,T8,Rtie").CardList)))) := by
  have hb : balanceOf sampleTwoDrawn.db.customers 7 = ⟨89000, 2⟩ := by decide
  have h := settle_user_trail sampleEnv sampleTwoDrawn sampleTwoSettled
    (sampleDraw "D8,T8,Rtie") { sampleRound with BetStopTime := 2000, GameStatus := 5 } 7
    sampleTwoDrawn_reachable (by decide) (by decide) (by decide) (by decide)
    ((Dec.toRat_nonneg_iff _).mpr (by decide)) (by decide) (by decide)
    (by
      rw [sampleTwoDrawn_payouts]
      norm_num [Dec.toRat])
    (by
      rw [sampleTwoDrawn_payouts, hb]
      norm_num [Dec.toRat])
  exact ⟨hb, by decide, by decide, by decide, h.2.1, h.2.2.1⟩

set_option maxRecDepth 4096 in
/-- C23: the settlement does not keep a balance that is no float64.  The
user of `sampleRichDrawn` has the balance `100000000000000.01` and one bet of
`100.00` on dragon; the draw result `D9,T8,Rd` gives the payout `197.00` and
the settlement succeeds.  The `settle` ledger row has amount `197.00`,
before-amount `100000000000000.02`, which is not the balance before the
settlement, and after-amount `100000000000197.02`; the stored balance after
the settlement is `100000000000197.02`, which is not
`100000000000000.01 + 197.00`.  From the balance `900.00` the same settlement
writes the row `(197.00, 900.00, 1097.00)` and stores `1097.00`. -/
theorem settle_balance_through_float64 :
    sampleRichDrawn.db.customers.map (fun u => (u.ID, u.Balance)) =
      [(7, ⟨10000000000000001, 2⟩)] ∧
    payingOrdersOf sampleRichDrawn (sampleDraw "D9,T8,Rd") "dragon" 7 =
      [sampleOrder "DT202501010000000007ABC" ⟨10000, 2⟩ "dragon" ⟨97, 2⟩] ∧
    settlePayout (sampleOrder "DT202501010000000007ABC" ⟨10000, 2⟩ "dragon" ⟨97, 2⟩)
      (decideResult "D9,T8,Rd") = ⟨19700, 2⟩ ∧
    (SubmitDrawResult sampleEnv sampleRichDrawn (sampleDraw "D9,T8,Rd")).1 = none ∧
    ((SubmitDrawResult sampleEnv sampleRichDrawn (sampleDraw "D9,T8,Rd")).2.db.ledger.drop
        sampleRichDrawn.db.ledger.length).map
      (fun l => (l.UserID, l.BizType, l.Amount, l.BeforeAmount, l.AfterAmount)) =
      [(7, 2, ⟨19700, 2⟩, ⟨10000000000000002, 2⟩, ⟨10000000000019702, 2⟩)] ∧
    (SubmitDrawResult sampleEnv sampleRichDrawn (sampleDraw "D9,T8,Rd")).2.db.customers.map
      (fun u => (u.ID, u.Balance)) = [(7, ⟨10000000000019702, 2⟩)] ∧
    (⟨10000000000000002, 2⟩ : Dec).toRat ≠ (⟨10000000000000001, 2⟩ : Dec).toRat ∧
    (⟨10000000000019702, 2⟩ : Dec).toRat ≠
      (⟨10000000000000001, 2⟩ : Dec).toRat + (⟨19700, 2⟩ : Dec).toRat ∧
    sampleDrawn.db.customers.map (fun u => (u.ID, u.Balance)) = [(7, ⟨90000, 2⟩)] ∧
    ((SubmitDrawResult sampleEnv sampleDrawn (sampleDraw "D9,T8,Rd")).2.db.ledger.drop
        sampleDrawn.db.ledger.length).map
      (fun l => (l.UserID, l.BizType, l.Amount, l.BeforeAmount, l.AfterAmount)) =
      [(7, 2, ⟨19700, 2⟩, ⟨90000, 2⟩, ⟨109700, 2⟩)] ∧
    (SubmitDrawResult sampleEnv sampleDrawn (sampleDraw "D9,T8,Rd")).2.db.customers.map
      (fun u => (u.ID, u.Balance)) = [(7, ⟨109700, 2⟩)] := by
  refine ⟨by decide, by decide, by decide, by decide, by decide, by decide, ?_, ?_, by decide,
    by decide, by decide⟩
  · norm_num [Dec.toRat]
  · norm_num [Dec.toRat]

end DtGame
